import Mathlib

/-!
# Hot-region scheduler of PD: a shallow embedding

Source: `server/schedulers/hot_region.go`.

Conventions of the embedding.

* `float64` rates are exact rationals (`ℚ`): rounding, infinities and NaN are
  not modelled.  A float quotient whose divisor can be zero goes through
  `fdiv`, which answers `none` for a zero divisor.
* `time.Time` and `time.Duration` are integers (nanoseconds).  A function that
  reads the clock takes the reading as its argument `now`.
* A Go map that the code only looks up and updates by key is a function into
  `Option`.  A Go map that the code ranges over is an association list; the
  order of the list stands for the (unspecified) order of the iteration and a
  lookup finds the first entry of the key.
* A pointer that the code compares or dereferences is an `Option` (nil is
  `none`); code that can stop with a run-time panic or spin in a loop returns
  `Except Fault`.
* Metrics, counters and logging are left out.
-/

namespace HotRegion

/-- The ways a call can fail to return. -/
inductive Fault where
  | nilDereference
  | indexOutOfRange
  | invalidArguments
  | endlessLoop
  deriving DecidableEq, Repr

/-- The quotient of two floats; `none` when the divisor is zero (the float is
then an infinity or NaN, which the rationals do not have). -/
def fdiv (a b : ℚ) : Option ℚ :=
  if b = 0 then none else some (a / b)

/-! ## Type lexicon -/

/-- The source declares `type rwType int`: any integer is a value. -/
structure rwType where
  val : Int
  deriving DecidableEq, Repr

/-- Constant `write` (iota 0). -/
def rwType.write : rwType := ⟨0⟩

/-- Constant `read` (iota 1). -/
def rwType.read : rwType := ⟨1⟩

/-- The source declares `type opType int`: any integer is a value. -/
structure opType where
  val : Int
  deriving DecidableEq, Repr

/-- Constant `movePeer` (iota 0). -/
def opType.movePeer : opType := ⟨0⟩

/-- Constant `transferLeader` (iota 1). -/
def opType.transferLeader : opType := ⟨1⟩

/-- The three resource classes; `resourceTypeLen` is 3. -/
inductive resourceType where
  | writePeer
  | writeLeader
  | readLeader
  deriving DecidableEq, Repr

/-- Function `toResourceType`: the final `panic` is `Fault.invalidArguments`. -/
def toResourceType (rwTy : rwType) (opTy : opType) : Except Fault resourceType :=
  if rwTy = rwType.write then
    if opTy = opType.movePeer then .ok resourceType.writePeer
    else if opTy = opType.transferLeader then .ok resourceType.writeLeader
    else .error Fault.invalidArguments
  else if rwTy = rwType.read then .ok resourceType.readLeader
  else .error Fault.invalidArguments

/-! ## Operators (external collaborator) -/

/-- Modelled from the spec: the status of an operator.  The operator package is
not among the sources; the spec names the statuses "not yet in an end status",
"succeeded", "expired", "timed out" and "any other end status". -/
inductive OpStatus where
  | CREATED
  | STARTED
  | SUCCESS
  | CANCELED
  | REPLACED
  | EXPIRED
  | TIMEOUT
  deriving DecidableEq, Repr

/-- Modelled from the spec: `operator.IsEndStatus`, missing from the sources;
every status but created and started is an end status. -/
def IsEndStatus (s : OpStatus) : Bool :=
  match s with
  | .CREATED => false
  | .STARTED => false
  | _ => true

/-- What the scheduler observes of an `*operator.Operator`: `RegionID()`,
`Status()`, `CheckExpired()`, `CheckTimeout()`, `GetCreateTime()` and
`GetReachTimeOf(Status())`, plus the priority the scheduler sets. -/
structure Operator where
  regionID : Nat
  status : OpStatus
  expired : Bool
  timedOut : Bool
  createTime : Int
  reachTime : Int
  highPriority : Bool
  deriving DecidableEq, Repr

/-- Method `Operator.IsEnd`. -/
def Operator.IsEnd (op : Operator) : Bool := IsEndStatus op.status

/-! ## Loads -/

/-- Struct `storeLoad`. -/
structure storeLoad where
  ByteRate : ℚ
  KeyRate : ℚ
  Count : ℚ
  deriving DecidableEq, Repr

/-- Struct `Influence`: the same shape as `storeLoad`. -/
structure Influence where
  ByteRate : ℚ
  KeyRate : ℚ
  Count : ℚ
  deriving DecidableEq, Repr

/-- Modelled from the spec: `minLoad`, missing from the sources; the
coordinatewise minimum. -/
def minLoad (a b : storeLoad) : storeLoad :=
  { ByteRate := min a.ByteRate b.ByteRate
    KeyRate := min a.KeyRate b.KeyRate
    Count := min a.Count b.Count }

/-- Modelled from the spec: `maxLoad`, missing from the sources; the
coordinatewise maximum. -/
def maxLoad (a b : storeLoad) : storeLoad :=
  { ByteRate := max a.ByteRate b.ByteRate
    KeyRate := max a.KeyRate b.KeyRate
    Count := max a.Count b.Count }

/-- Struct `storeLoadPred`. -/
structure storeLoadPred where
  Current : storeLoad
  Future : storeLoad
  Expect : storeLoad
  deriving DecidableEq, Repr

/-- Modelled from the spec: `storeLoadPred.min`, missing from the sources;
`min(Current, Future)`. -/
def storeLoadPred.min (lp : storeLoadPred) : storeLoad := minLoad lp.Current lp.Future

/-- Modelled from the spec: `storeLoadPred.max`, missing from the sources;
`max(Current, Future)`. -/
def storeLoadPred.max (lp : storeLoadPred) : storeLoad := maxLoad lp.Current lp.Future

/-- Modelled from the spec: `storeLoadPred.diff`, missing from the sources;
`max() − min()` coordinatewise. -/
def storeLoadPred.diff (lp : storeLoadPred) : storeLoad :=
  { ByteRate := lp.max.ByteRate - lp.min.ByteRate
    KeyRate := lp.max.KeyRate - lp.min.KeyRate
    Count := lp.max.Count - lp.min.Count }

/-- What the scheduler reads of a `*statistics.HotPeerStat`.  `ptr` is the
identity of the object: the source compares peers by pointer. `RegionID` is
what `ID()` returns, `ByteRate` and `KeyRate` what `GetByteRate()` and
`GetKeyRate()` return. -/
structure HotPeerStat where
  ptr : Nat
  RegionID : Nat
  StoreID : Nat
  isLeader : Bool
  HotDegree : Int
  ByteRate : ℚ
  KeyRate : ℚ
  deriving DecidableEq, Repr

/-- Struct `storeLoadDetail`. -/
structure storeLoadDetail where
  LoadPred : storeLoadPred
  HotPeers : List HotPeerStat
  deriving DecidableEq, Repr

/-! ## Scheduler state -/

/-- The getters of `hotRegionSchedulerConfig` that the scheduler calls. The
configuration type is not among the sources, so every value is a parameter. -/
structure hotRegionSchedulerConfig where
  MaxZombieDuration : Int
  MaxPeerNumber : Int
  SrcToleranceRatio : ℚ
  DstToleranceRatio : ℚ
  GreatDecRatio : ℚ
  MinorGreatDecRatio : ℚ
  MinHotKeyRate : ℚ
  MinHotByteRate : ℚ
  ByteRankStepRatio : ℚ
  KeyRankStepRatio : ℚ
  CountRankStepRatio : ℚ
  deriving DecidableEq, Repr

/-- Modelled from the spec: struct `pendingInfluence`, missing from the
sources: `{op, srcStoreID, dstStoreID, influence}`. -/
structure pendingInfluence where
  op : Operator
  src : Nat
  dst : Nat
  origin : Influence
  deriving DecidableEq, Repr

/-- Modelled from the spec: `newPendingInfluence`, missing from the sources. -/
def newPendingInfluence (op : Operator) (src dst : Nat) (infl : Influence) : pendingInfluence :=
  { op := op, src := src, dst := dst, origin := infl }

/-- The array `[2]*operator.Operator` of one region: the slot of `movePeer`
(index 0) and the slot of `transferLeader` (index 1). -/
structure RegionSlots where
  movePeer : Option Operator
  transferLeader : Option Operator
  deriving DecidableEq, Repr

/-- Assignment `tmp[opTy] = op` on the two-slot array; an index other than 0
and 1 is out of range. -/
def RegionSlots.set (p : RegionSlots) (opTy : opType) (op : Option Operator) :
    Except Fault RegionSlots :=
  if opTy = opType.movePeer then .ok { p with movePeer := op }
  else if opTy = opType.transferLeader then .ok { p with transferLeader := op }
  else .error Fault.indexOutOfRange

/-- The fields of `hotScheduler` that carry state. `pendings[rt]` is a set of
fresh pointers, a list here. -/
structure hotScheduler where
  pendings : resourceType → List pendingInfluence
  regionPendings : Nat → Option RegionSlots
  stLoadInfos : resourceType → List (Nat × storeLoadDetail)
  pendingSums : resourceType → List (Nat × Influence)
  conf : hotRegionSchedulerConfig

/-- Function `newHotScheduler`: empty maps everywhere. -/
def newHotScheduler (conf : hotRegionSchedulerConfig) : hotScheduler :=
  { pendings := fun _ => []
    regionPendings := fun _ => none
    stLoadInfos := fun _ => []
    pendingSums := fun _ => []
    conf := conf }

/-- The body of the inner loop of `gcRegionPendings` for one slot: the slot
becomes nil when its operator is there, has ended, and `now` is after the
create time plus the zombie duration. -/
def gcSlot (maxZombieDuration now : Int) (slot : Option Operator) : Option Operator :=
  match slot with
  | none => none
  | some op =>
    if op.IsEnd && decide (now > op.createTime + maxZombieDuration) then none else some op

/-- The body of the outer loop of `gcRegionPendings` for one region: `none`
stands for `delete(h.regionPendings, regionID)`. -/
def gcRegion (maxZombieDuration now : Int) (pendings : RegionSlots) : Option RegionSlots :=
  let p0 := gcSlot maxZombieDuration now pendings.movePeer
  let p1 := gcSlot maxZombieDuration now pendings.transferLeader
  let empty := p0.isNone && p1.isNone
  if empty then none else some { movePeer := p0, transferLeader := p1 }

/-- Method `hotScheduler.gcRegionPendings`. The loop body touches only the
entry of its own key, so the loop is the pointwise map of `gcRegion`. The
clock is read once. -/
def hotScheduler.gcRegionPendings (h : hotScheduler) (now : Int) : hotScheduler :=
  { h with
    regionPendings := fun regionID =>
      (h.regionPendings regionID).bind (gcRegion h.conf.MaxZombieDuration now) }

/-- Method `hotScheduler.addPendingInfluence`. -/
def hotScheduler.addPendingInfluence (h : hotScheduler) (op : Operator)
    (srcStore dstStore : Nat) (infl : Influence) (rwTy : rwType) (opTy : opType) :
    Except Fault (Bool × hotScheduler) :=
  let regionID := op.regionID
  match h.regionPendings regionID with
  | some _ => .ok (false, h)
  | none =>
    let influence := newPendingInfluence op srcStore dstStore infl
    match toResourceType rwTy opTy with
    | .error e => .error e
    | .ok rcTy =>
      let pendings := Function.update h.pendings rcTy (influence :: h.pendings rcTy)
      match RegionSlots.set { movePeer := none, transferLeader := none } opTy (some op) with
      | .error e => .error e
      | .ok tmp =>
        .ok (true, { h with
          pendings := pendings
          regionPendings := Function.update h.regionPendings regionID (some tmp) })

/-- Method `hotScheduler.calcPendingWeight`; `now` is the clock reading of
`time.Since`. -/
def hotScheduler.calcPendingWeight (h : hotScheduler) (now : Int) (op : Operator) : Option ℚ :=
  if op.expired || op.timedOut then some 0
  else
    let status := op.status
    if !IsEndStatus status then some 1
    else
      match status with
      | .SUCCESS =>
        let zombieDur := now - op.reachTime
        let maxZombieDur := h.conf.MaxZombieDuration
        if zombieDur ≥ maxZombieDur then some 0
        else fdiv ((maxZombieDur - zombieDur : Int) : ℚ) (maxZombieDur : ℚ)
      | _ => some 0

/-- Method `hotScheduler.clearPendingInfluence`. -/
def hotScheduler.clearPendingInfluence (h : hotScheduler) : hotScheduler :=
  { h with
    pendings := fun _ => []
    pendingSums := fun _ => []
    regionPendings := fun _ => none }

/-! ## The cluster (external collaborator) -/

/-- What the solver reads of a `*metapb.Peer`. -/
structure Peer where
  StoreId : Nat
  Role : Nat
  deriving DecidableEq, Repr

/-- What the solver reads of a `*core.StoreInfo`: `GetID()`. -/
structure StoreInfo where
  ID : Nat
  deriving DecidableEq, Repr

/-- What the solver reads of a `*core.RegionInfo`: `GetID()`,
`GetStorePeer(id)`, `GetLeader().GetStoreId()` and `GetStoreVoter(id)`. -/
structure RegionInfo where
  ID : Nat
  GetStorePeer : Nat → Option Peer
  LeaderStoreId : Nat
  GetStoreVoter : Nat → Option Peer

/-- The collaborators of the solver, none of them among the sources, taken as
parameters: the `opt.Cluster` view, the health checks of package `opt`, the
target filters of package `filter` (`movePeerTarget region src s` is
`filter.Target` of store `s` under the filters that `filterDstStores` builds for
`movePeer`, `transferLeaderTarget` the same for `transferLeader`), the operator
factories (`none` is a returned error), and the operator counts and limits
that `allowBalanceLeader` and `allowBalanceRegion` compare. -/
structure Cluster where
  GetStore : Nat → Option StoreInfo
  GetRegion : Nat → Option RegionInfo
  GetStores : List StoreInfo
  GetFollowerStores : RegionInfo → List StoreInfo
  IsHealthyAllowPending : RegionInfo → Bool
  IsRegionReplicated : RegionInfo → Bool
  movePeerTarget : RegionInfo → StoreInfo → StoreInfo → Bool
  transferLeaderTarget : RegionInfo → StoreInfo → StoreInfo → Bool
  CreateMovePeerOperator : RegionInfo → Nat → Peer → Option Operator
  CreateTransferLeaderOperator : RegionInfo → Nat → Nat → Option Operator
  OperatorCountHotRegion : Nat
  OperatorCountLeader : Nat
  HotRegionScheduleLimit : Nat
  LeaderScheduleLimit : Nat

/-! ## Comparators -/

/-- Constant `math.MinInt64`: the least value of `int64`, -2^63. -/
def MinInt64 : Int := -9223372036854775808

/-- Constant `math.MaxInt64`: the greatest value of `int64`, 2^63 - 1. -/
def MaxInt64 : Int := 9223372036854775807

/-- A number with its fraction dropped (rounding towards zero). -/
def roundToZero (q : ℚ) : Int :=
  if 0 ≤ q then ⌊q⌋ else ⌈q⌉

/-- Conversion `int64(x)` of a float: the fraction is dropped (rounding
towards zero) when the result is a value of `int64`. When it is not, the
language leaves the result to the platform; on amd64 the conversion then
gives the least `int64`, which is the value taken here. -/
def truncToInt (q : ℚ) : Int :=
  if MinInt64 ≤ roundToZero q ∧ roundToZero q ≤ MaxInt64 then roundToZero q else MinInt64

/-- Function `stepRank`: `int64((rate - rk0) / step)`. For `step = 0` the
quotient of the source is an infinity or NaN, which is no value of `int64`:
its conversion gives the least `int64` on amd64, for every rate. -/
def stepRank (rk0 step : ℚ) (rate : ℚ) : Int :=
  if step = 0 then MinInt64 else truncToInt ((rate - rk0) / step)

/-- Modelled from the spec: `rankCmp`, missing from the sources; compares the
integer ranks and answers -1, 0 or 1. -/
def rankCmp (a b : ℚ) (rank : ℚ → Int) : Int :=
  let aRk := rank a
  let bRk := rank b
  if aRk = bRk then 0 else if aRk < bRk then -1 else 1

/-- Modelled from the spec: `stLdRankCmp`, missing from the sources; the
comparator of one field of a load by rank. -/
def stLdRankCmp (dim : storeLoad → ℚ) (rank : ℚ → Int) (ld1 ld2 : storeLoad) : Int :=
  rankCmp (dim ld1) (dim ld2) rank

/-- Modelled from the spec: `sliceLoadCmp`, missing from the sources; the first
non-zero answer among the comparators. -/
def sliceLoadCmp (cmps : List (storeLoad → storeLoad → Int)) (ld1 ld2 : storeLoad) : Int :=
  match cmps with
  | [] => 0
  | c :: rest => if c ld1 ld2 ≠ 0 then c ld1 ld2 else sliceLoadCmp rest ld1 ld2

/-- Modelled from the spec: `negLoadCmp`, missing from the sources; the sign
flipped. -/
def negLoadCmp (c : storeLoad → storeLoad → Int) (ld1 ld2 : storeLoad) : Int :=
  - c ld1 ld2

/-- Modelled from the spec: `sliceLPCmp`, missing from the sources; the first
non-zero answer among the comparators of load predictions. -/
def sliceLPCmp (cmps : List (storeLoadPred → storeLoadPred → Int))
    (lp1 lp2 : storeLoadPred) : Int :=
  match cmps with
  | [] => 0
  | c :: rest => if c lp1 lp2 ≠ 0 then c lp1 lp2 else sliceLPCmp rest lp1 lp2

/-- Modelled from the spec: `minLPCmp`, missing from the sources; compares
`a.min()` to `b.min()`. -/
def minLPCmp (c : storeLoad → storeLoad → Int) (lp1 lp2 : storeLoadPred) : Int :=
  c lp1.min lp2.min

/-- Modelled from the spec: `maxLPCmp`, missing from the sources; compares
`a.max()` to `b.max()`. -/
def maxLPCmp (c : storeLoad → storeLoad → Int) (lp1 lp2 : storeLoadPred) : Int :=
  c lp1.max lp2.max

/-- Modelled from the spec: `diffCmp`, missing from the sources; compares
`a.max() − a.min()` to `b.max() − b.min()`. -/
def diffCmp (c : storeLoad → storeLoad → Int) (lp1 lp2 : storeLoadPred) : Int :=
  c lp1.diff lp2.diff

/-- Field selector `stLdByteRate`. -/
def stLdByteRate (ld : storeLoad) : ℚ := ld.ByteRate

/-- Field selector `stLdKeyRate`. -/
def stLdKeyRate (ld : storeLoad) : ℚ := ld.KeyRate

/-- Field selector `stLdCount`. -/
def stLdCount (ld : storeLoad) : ℚ := ld.Count

/-! ## Balance solver -/

/-- Struct `solution`. -/
structure solution where
  srcStoreID : Nat
  srcPeerStat : Option HotPeerStat
  region : Option RegionInfo
  dstStoreID : Nat
  progressiveRank : Int

/-- The zero value `&solution{}`. -/
def solution.zero : solution :=
  { srcStoreID := 0, srcPeerStat := none, region := none, dstStoreID := 0, progressiveRank := 0 }

/-- Struct `balanceSolver`. The scheduler and the cluster are never nil here;
`stLoadDetail` is the association list of the map (a nil map is the empty
list). -/
structure balanceSolver where
  sche : hotScheduler
  cluster : Cluster
  stLoadDetail : List (Nat × storeLoadDetail)
  rwTy : rwType
  opTy : opType
  cur : solution
  maxSrc : storeLoad
  minDst : storeLoad
  rankStep : storeLoad

/-- Dereference of a pointer that may be nil. -/
def deref {α : Type} (p : Option α) : Except Fault α :=
  match p with
  | none => .error Fault.nilDereference
  | some a => .ok a

/-- Assignment `m[k] = v` on a map kept as an association list: the entry of
the key is replaced where it stands, a new key goes to the end. -/
def mapInsert {β : Type} (m : List (Nat × β)) (k : Nat) (v : β) : List (Nat × β) :=
  match m with
  | [] => [(k, v)]
  | (k0, v0) :: rest => if k0 = k then (k, v) :: rest else (k0, v0) :: mapInsert rest k v

/-- Constant `math.MaxFloat64`. -/
def MaxFloat64 : ℚ := 2 ^ 1024 - 2 ^ 971

/-- Method `balanceSolver.init`. -/
def balanceSolver.init (bs : balanceSolver) : Except Fault balanceSolver :=
  match toResourceType bs.rwTy bs.opTy with
  | .error e => .error e
  | .ok rt =>
    let stLoadDetail := bs.sche.stLoadInfos rt
    let maxSrc : storeLoad := { ByteRate := 0, KeyRate := 0, Count := 0 }
    let minDst : storeLoad :=
      { ByteRate := MaxFloat64, KeyRate := MaxFloat64, Count := MaxFloat64 }
    let maxCur : storeLoad := { ByteRate := 0, KeyRate := 0, Count := 0 }
    let acc := stLoadDetail.foldl
      (fun (acc : storeLoad × storeLoad × storeLoad) (kv : Nat × storeLoadDetail) =>
        (maxLoad acc.1 kv.2.LoadPred.min, minLoad acc.2.1 kv.2.LoadPred.max,
          maxLoad acc.2.2 kv.2.LoadPred.Current))
      (maxSrc, minDst, maxCur)
    .ok { bs with
      stLoadDetail := stLoadDetail
      maxSrc := acc.1
      minDst := acc.2.1
      rankStep :=
        { ByteRate := acc.2.2.ByteRate * bs.sche.conf.ByteRankStepRatio
          KeyRate := acc.2.2.KeyRate * bs.sche.conf.KeyRankStepRatio
          Count := acc.2.2.Count * bs.sche.conf.CountRankStepRatio } }

/-- Function `newBalanceSolver`. -/
def newBalanceSolver (sche : hotScheduler) (cluster : Cluster) (rwTy : rwType) (opTy : opType) :
    Except Fault balanceSolver :=
  balanceSolver.init
    { sche := sche, cluster := cluster, stLoadDetail := [], rwTy := rwTy, opTy := opTy
      cur := solution.zero
      maxSrc := { ByteRate := 0, KeyRate := 0, Count := 0 }
      minDst := { ByteRate := 0, KeyRate := 0, Count := 0 }
      rankStep := { ByteRate := 0, KeyRate := 0, Count := 0 } }

/-- Method `balanceSolver.isValid`; the nil checks of the scheduler, the
cluster and the map have nothing to test in this embedding. -/
def balanceSolver.isValid (bs : balanceSolver) : Bool :=
  (decide (bs.rwTy = rwType.write) || decide (bs.rwTy = rwType.read)) &&
  (decide (bs.opTy = opType.movePeer) || decide (bs.opTy = opType.transferLeader))

/-- Method `hotScheduler.allowBalanceLeader`. -/
def allowBalanceLeader (cluster : Cluster) : Bool :=
  decide (cluster.OperatorCountHotRegion < cluster.HotRegionScheduleLimit) &&
  decide (cluster.OperatorCountLeader < cluster.LeaderScheduleLimit)

/-- Method `hotScheduler.allowBalanceRegion`. -/
def allowBalanceRegion (cluster : Cluster) : Bool :=
  decide (cluster.OperatorCountHotRegion < cluster.HotRegionScheduleLimit)

/-- Method `balanceSolver.allowBalance`. -/
def balanceSolver.allowBalance (bs : balanceSolver) : Bool :=
  if bs.opTy = opType.movePeer then allowBalanceRegion bs.cluster
  else if bs.opTy = opType.transferLeader then allowBalanceLeader bs.cluster
  else false

/-- Method `balanceSolver.filterSrcStores`. -/
def balanceSolver.filterSrcStores (bs : balanceSolver) : List (Nat × storeLoadDetail) :=
  bs.stLoadDetail.foldl
    (fun (ret : List (Nat × storeLoadDetail)) (kv : Nat × storeLoadDetail) =>
      let id := kv.1
      let detail := kv.2
      if (bs.cluster.GetStore id).isNone then ret
      else if detail.HotPeers.length = 0 then ret
      else if detail.LoadPred.min.ByteRate >
            bs.sche.conf.SrcToleranceRatio * detail.LoadPred.Expect.ByteRate ∧
          detail.LoadPred.min.KeyRate >
            bs.sche.conf.SrcToleranceRatio * detail.LoadPred.Expect.KeyRate then
        mapInsert ret id detail
      else ret)
    []

/-- The closure `appendItem` of `filterHotPeers`: the peer is appended unless
its region has an entry in `regionPendings`. -/
def appendItem (sche : hotScheduler) (items : List HotPeerStat) (item : HotPeerStat) :
    List HotPeerStat :=
  if (sche.regionPendings item.RegionID).isNone then items ++ [item] else items

/-- Membership of a peer in the map `union`, which is keyed by pointer. -/
def inUnion (union : List HotPeerStat) (peer : HotPeerStat) : Bool :=
  union.any (fun q => decide (q.ptr = peer.ptr))

/-- One inner loop of `filterHotPeers`: peers are taken off the front of the
sorted slice until one is not in `union`; that one is added. The answer is
the new `union` and what is left of the slice. -/
def popNew (union : List HotPeerStat) : List HotPeerStat → List HotPeerStat × List HotPeerStat
  | [] => (union, [])
  | peer :: rest => if inUnion union peer then popNew union rest else (union ++ [peer], rest)

/-- The loop `for len(union) < maxPeerNum` of `filterHotPeers`. When both
slices are used up and `union` is still too small, no pass changes anything
and the loop of the source never ends: `Fault.endlessLoop`. -/
def unionLoop (maxPeerNum : Int) (union byteSort keySort : List HotPeerStat) :
    Except Fault (List HotPeerStat) :=
  if (union.length : Int) < maxPeerNum then
    if h : byteSort = [] ∧ keySort = [] then .error Fault.endlessLoop
    else
      let r1 := popNew union byteSort
      let r2 := popNew r1.1 keySort
      unionLoop maxPeerNum r2.1 r1.2 r2.2
  else .ok union
termination_by byteSort.length + keySort.length
decreasing_by
  have hle : ∀ (u l : List HotPeerStat), (popNew u l).2.length ≤ l.length := by
    intro u l
    induction l with
    | nil => simp [popNew]
    | cons p rest ih =>
      unfold popNew
      split
      · exact Nat.le_succ_of_le ih
      · simp
  have hlt : ∀ (u l : List HotPeerStat), l ≠ [] → (popNew u l).2.length < l.length := by
    intro u l hl
    cases l with
    | nil => exact absurd rfl hl
    | cons p rest =>
      unfold popNew
      split
      · exact Nat.lt_succ_of_le (hle u rest)
      · simp
  simp only [not_and_or] at h
  have h1 := hle union byteSort
  have h2 := hle (popNew union byteSort).1 keySort
  rcases h with h | h
  · have := hlt union byteSort h
    omega
  · have := hlt (popNew union byteSort).1 keySort h
    omega

/-- Method `balanceSolver.filterHotPeers`. `sort.Slice` is the insertion sort
by decreasing rate (the order the source leaves open among equal rates is the
order of the input here); the final range over `union` follows the order of
insertion. -/
def balanceSolver.filterHotPeers (bs : balanceSolver) : Except Fault (List HotPeerStat) :=
  match deref (bs.stLoadDetail.lookup bs.cur.srcStoreID) with
  | .error e => .error e
  | .ok detail =>
    let ret := detail.HotPeers
    let maxPeerNum := bs.sche.conf.MaxPeerNumber
    if (ret.length : Int) ≤ maxPeerNum then
      .ok (ret.foldl (appendItem bs.sche) [])
    else
      let byteSort := ret.insertionSort (fun a b => a.ByteRate ≥ b.ByteRate)
      let keySort := ret.insertionSort (fun a b => a.KeyRate ≥ b.KeyRate)
      match unionLoop maxPeerNum [] byteSort keySort with
      | .error e => .error e
      | .ok union => .ok (union.foldl (appendItem bs.sche) [])

/-- Method `balanceSolver.isRegionAvailable`. -/
def balanceSolver.isRegionAvailable (bs : balanceSolver) (region : Option RegionInfo) : Bool :=
  match region with
  | none => false
  | some region =>
    let pendingOK : Bool :=
      match bs.sche.regionPendings region.ID with
      | some pendings =>
        if bs.opTy = opType.transferLeader then false
        else if pendings.movePeer.isSome ||
            (match pendings.transferLeader with
              | some op => !op.IsEnd
              | none => false) then false
        else true
      | none => true
    if !pendingOK then false
    else if !bs.cluster.IsHealthyAllowPending region then false
    else if !bs.cluster.IsRegionReplicated region then false
    else true

/-- Method `balanceSolver.getRegion`. -/
def balanceSolver.getRegion (bs : balanceSolver) : Except Fault (Option RegionInfo) :=
  match deref bs.cur.srcPeerStat with
  | .error e => .error e
  | .ok srcPeerStat =>
    let region := bs.cluster.GetRegion srcPeerStat.RegionID
    if !bs.isRegionAvailable region then .ok none
    else
      match region with
      | none => .ok none
      | some r =>
        if bs.opTy = opType.movePeer then
          if (r.GetStorePeer bs.cur.srcStoreID).isNone then .ok none else .ok (some r)
        else if bs.opTy = opType.transferLeader then
          if r.LeaderStoreId ≠ bs.cur.srcStoreID then .ok none else .ok (some r)
        else .ok none

/-- Method `balanceSolver.pickDstStores`; `filters s` is `filter.Target` of
store `s`. The detail of a store without an entry in `stLoadDetail` is a nil
pointer, and reading its `LoadPred` stops the program. -/
def balanceSolver.pickDstStores (bs : balanceSolver) (filters : StoreInfo → Bool)
    (candidates : List StoreInfo) (ret : List (Nat × storeLoadDetail)) :
    Except Fault (List (Nat × storeLoadDetail)) :=
  match candidates with
  | [] => .ok ret
  | store :: rest =>
    if filters store then
      match deref (bs.stLoadDetail.lookup store.ID) with
      | .error e => .error e
      | .ok detail =>
        if detail.LoadPred.max.ByteRate * bs.sche.conf.DstToleranceRatio <
              detail.LoadPred.Expect.ByteRate ∧
            detail.LoadPred.max.KeyRate * bs.sche.conf.DstToleranceRatio <
              detail.LoadPred.Expect.KeyRate then
          bs.pickDstStores filters rest (mapInsert ret store.ID detail)
        else bs.pickDstStores filters rest ret
    else bs.pickDstStores filters rest ret

/-- Method `balanceSolver.filterDstStores`. -/
def balanceSolver.filterDstStores (bs : balanceSolver) :
    Except Fault (List (Nat × storeLoadDetail)) :=
  match bs.cluster.GetStore bs.cur.srcStoreID with
  | none => .ok []
  | some srcStore =>
    if bs.opTy = opType.movePeer then
      match deref bs.cur.region with
      | .error e => .error e
      | .ok region =>
        bs.pickDstStores (bs.cluster.movePeerTarget region srcStore) bs.cluster.GetStores []
    else if bs.opTy = opType.transferLeader then
      match deref bs.cur.region with
      | .error e => .error e
      | .ok region =>
        bs.pickDstStores (bs.cluster.transferLeaderTarget region srcStore)
          (bs.cluster.GetFollowerStores region) []
    else .ok []

/-- The closure `getSrcDecRate` of `calcProgressiveRank`. -/
def getSrcDecRate (a b : ℚ) : ℚ :=
  if a - b ≤ 0 then 1 else a - b

/-- Method `balanceSolver.calcProgressiveRank`: the answer is the solver with
`cur.progressiveRank` set. -/
def balanceSolver.calcProgressiveRank (bs : balanceSolver) : Except Fault balanceSolver :=
  match deref (bs.stLoadDetail.lookup bs.cur.srcStoreID) with
  | .error e => .error e
  | .ok srcDetail =>
  match deref (bs.stLoadDetail.lookup bs.cur.dstStoreID) with
  | .error e => .error e
  | .ok dstDetail =>
  match deref bs.cur.srcPeerStat with
  | .error e => .error e
  | .ok peer =>
    let srcLd := srcDetail.LoadPred.min
    let dstLd := dstDetail.LoadPred.max
    let rank : Int :=
      if bs.rwTy = rwType.write ∧ bs.opTy = opType.transferLeader then
        if srcLd.KeyRate ≥ dstLd.KeyRate + peer.KeyRate then -1 else 0
      else
        let keyDecRatio := (dstLd.KeyRate + peer.KeyRate) / getSrcDecRate srcLd.KeyRate peer.KeyRate
        let keyHot : Bool := decide (peer.KeyRate ≥ bs.sche.conf.MinHotKeyRate)
        let byteDecRatio :=
          (dstLd.ByteRate + peer.ByteRate) / getSrcDecRate srcLd.ByteRate peer.ByteRate
        let byteHot : Bool := decide (peer.ByteRate > bs.sche.conf.MinHotByteRate)
        let greatDecRatio := bs.sche.conf.GreatDecRatio
        let minorDecRatio := bs.sche.conf.MinorGreatDecRatio
        if byteHot ∧ byteDecRatio ≤ greatDecRatio ∧ keyHot ∧ keyDecRatio ≤ greatDecRatio then -3
        else if byteDecRatio ≤ minorDecRatio ∧ keyHot ∧ keyDecRatio ≤ greatDecRatio then -2
        else if byteHot ∧ byteDecRatio ≤ greatDecRatio then -1
        else 0
    .ok { bs with cur := { bs.cur with progressiveRank := rank } }

/-- Method `balanceSolver.compareSrcStore` (smaller is better). -/
def balanceSolver.compareSrcStore (bs : balanceSolver) (st1 st2 : Nat) : Except Fault Int :=
  if st1 ≠ st2 then
    let lpCmp : storeLoadPred → storeLoadPred → Int :=
      if bs.rwTy = rwType.write ∧ bs.opTy = opType.transferLeader then
        sliceLPCmp
          [ minLPCmp (negLoadCmp (sliceLoadCmp
              [ stLdRankCmp stLdKeyRate (stepRank bs.maxSrc.KeyRate bs.rankStep.KeyRate),
                stLdRankCmp stLdByteRate (stepRank bs.maxSrc.ByteRate bs.rankStep.ByteRate) ])),
            diffCmp (sliceLoadCmp
              [ stLdRankCmp stLdCount (stepRank 0 bs.rankStep.Count),
                stLdRankCmp stLdKeyRate (stepRank 0 bs.rankStep.KeyRate),
                stLdRankCmp stLdByteRate (stepRank 0 bs.rankStep.ByteRate) ]) ]
      else
        sliceLPCmp
          [ minLPCmp (negLoadCmp (sliceLoadCmp
              [ stLdRankCmp stLdByteRate (stepRank bs.maxSrc.ByteRate bs.rankStep.ByteRate),
                stLdRankCmp stLdKeyRate (stepRank bs.maxSrc.KeyRate bs.rankStep.KeyRate) ])),
            diffCmp (stLdRankCmp stLdByteRate (stepRank 0 bs.rankStep.ByteRate)) ]
    match deref (bs.stLoadDetail.lookup st1) with
    | .error e => .error e
    | .ok d1 =>
      match deref (bs.stLoadDetail.lookup st2) with
      | .error e => .error e
      | .ok d2 => .ok (lpCmp d1.LoadPred d2.LoadPred)
  else .ok 0

/-- Method `balanceSolver.compareDstStore` (smaller is better). -/
def balanceSolver.compareDstStore (bs : balanceSolver) (st1 st2 : Nat) : Except Fault Int :=
  if st1 ≠ st2 then
    let lpCmp : storeLoadPred → storeLoadPred → Int :=
      if bs.rwTy = rwType.write ∧ bs.opTy = opType.transferLeader then
        sliceLPCmp
          [ maxLPCmp (sliceLoadCmp
              [ stLdRankCmp stLdKeyRate (stepRank bs.minDst.KeyRate bs.rankStep.KeyRate),
                stLdRankCmp stLdByteRate (stepRank bs.minDst.ByteRate bs.rankStep.ByteRate) ]),
            diffCmp (sliceLoadCmp
              [ stLdRankCmp stLdCount (stepRank 0 bs.rankStep.Count),
                stLdRankCmp stLdKeyRate (stepRank 0 bs.rankStep.KeyRate),
                stLdRankCmp stLdByteRate (stepRank 0 bs.rankStep.ByteRate) ]) ]
      else
        sliceLPCmp
          [ maxLPCmp (sliceLoadCmp
              [ stLdRankCmp stLdByteRate (stepRank bs.minDst.ByteRate bs.rankStep.ByteRate),
                stLdRankCmp stLdKeyRate (stepRank bs.minDst.KeyRate bs.rankStep.KeyRate) ]),
            diffCmp (stLdRankCmp stLdByteRate (stepRank 0 bs.rankStep.ByteRate)) ]
    match deref (bs.stLoadDetail.lookup st1) with
    | .error e => .error e
    | .ok d1 =>
      match deref (bs.stLoadDetail.lookup st2) with
      | .error e => .error e
      | .ok d2 => .ok (lpCmp d1.LoadPred d2.LoadPred)
  else .ok 0

/-- The comparison `bs.cur.srcPeerStat != old.srcPeerStat` of two pointers. -/
def peerPtrNe (a b : Option HotPeerStat) : Bool :=
  match a, b with
  | none, none => false
  | some p, some q => decide (p.ptr ≠ q.ptr)
  | _, _ => true

/-- The part of `betterThan` that compares the two peers, entered when the
pointers differ. -/
def balanceSolver.betterPeer (bs : balanceSolver) (curPeer oldPeer : HotPeerStat) : Bool :=
  if bs.rwTy = rwType.write ∧ bs.opTy = opType.transferLeader then
    if curPeer.KeyRate > oldPeer.KeyRate then true
    else false
  else
    let byteRkCmp := rankCmp curPeer.ByteRate oldPeer.ByteRate (stepRank 0 100)
    let keyRkCmp := rankCmp curPeer.KeyRate oldPeer.KeyRate (stepRank 0 10)
    if bs.cur.progressiveRank = -2 then
      if keyRkCmp ≠ 0 then decide (keyRkCmp > 0)
      else if byteRkCmp ≠ 0 then decide (byteRkCmp < 0)
      else false
    else if bs.cur.progressiveRank = -3 then
      if keyRkCmp ≠ 0 then decide (keyRkCmp > 0)
      else if byteRkCmp ≠ 0 then decide (byteRkCmp > 0)
      else false
    else if bs.cur.progressiveRank = -1 then
      if byteRkCmp ≠ 0 then decide (byteRkCmp > 0)
      else false
    else false

/-- Method `balanceSolver.betterThan`. -/
def balanceSolver.betterThan (bs : balanceSolver) (old : Option solution) : Except Fault Bool :=
  match old with
  | none => .ok true
  | some old =>
    if bs.cur.progressiveRank < old.progressiveRank then .ok true
    else if bs.cur.progressiveRank > old.progressiveRank then .ok false
    else
      match bs.compareSrcStore bs.cur.srcStoreID old.srcStoreID with
      | .error e => .error e
      | .ok r =>
        if r < 0 then .ok true
        else if r > 0 then .ok false
        else
          match bs.compareDstStore bs.cur.dstStoreID old.dstStoreID with
          | .error e => .error e
          | .ok r =>
            if r < 0 then .ok true
            else if r > 0 then .ok false
            else if peerPtrNe bs.cur.srcPeerStat old.srcPeerStat then
              match deref bs.cur.srcPeerStat with
              | .error e => .error e
              | .ok curPeer =>
                match deref old.srcPeerStat with
                | .error e => .error e
                | .ok oldPeer => .ok (bs.betterPeer curPeer oldPeer)
            else .ok false

/-- Method `balanceSolver.isReadyToBuild`. -/
def balanceSolver.isReadyToBuild (bs : balanceSolver) : Bool :=
  if bs.cur.srcStoreID = 0 ∨ bs.cur.dstStoreID = 0 then false
  else
    match bs.cur.srcPeerStat, bs.cur.region with
    | some srcPeerStat, some region =>
      if bs.cur.srcStoreID ≠ srcPeerStat.StoreID ∨ region.ID ≠ srcPeerStat.RegionID then false
      else true
    | _, _ => false

/-- The tail of `buildOperators` once the factory has answered: an error gives
nothing, an operator gets high priority and comes with its influence. -/
def finishOperator (made : Option Operator) (srcPeerStat : HotPeerStat) :
    List Operator × List Influence :=
  match made with
  | none => ([], [])
  | some op =>
    ([{ op with highPriority := true }],
      [{ ByteRate := srcPeerStat.ByteRate, KeyRate := srcPeerStat.KeyRate, Count := 1 }])

/-- Method `balanceSolver.buildOperators`. With an `opTy` that is neither
constant the switch builds nothing and the source then calls a method on the
nil operator. -/
def balanceSolver.buildOperators (bs : balanceSolver) :
    Except Fault (List Operator × List Influence) :=
  if !bs.isReadyToBuild then .ok ([], [])
  else
    match deref bs.cur.region with
    | .error e => .error e
    | .ok region =>
      match deref bs.cur.srcPeerStat with
      | .error e => .error e
      | .ok srcPeerStat =>
        if bs.opTy = opType.movePeer then
          match deref (region.GetStorePeer bs.cur.srcStoreID) with
          | .error e => .error e
          | .ok srcPeer =>
            let dstPeer : Peer := { StoreId := bs.cur.dstStoreID, Role := srcPeer.Role }
            .ok (finishOperator
              (bs.cluster.CreateMovePeerOperator region bs.cur.srcStoreID dstPeer) srcPeerStat)
        else if bs.opTy = opType.transferLeader then
          if (region.GetStoreVoter bs.cur.dstStoreID).isNone then .ok ([], [])
          else
            .ok (finishOperator
              (bs.cluster.CreateTransferLeaderOperator region bs.cur.srcStoreID
                bs.cur.dstStoreID) srcPeerStat)
        else .error Fault.nilDereference

/-- The variables that the loops of `solve` carry: the solver (with `cur`),
`best`, `ops` and `infls`. -/
structure solveState where
  bs : balanceSolver
  best : Option solution
  ops : List Operator
  infls : List Influence

/-- The loop of `solve` over the destination stores. -/
def solveDstLoop (st : solveState) : List Nat → Except Fault solveState
  | [] => .ok st
  | dstStoreID :: rest =>
    let bs1 := { st.bs with cur := { st.bs.cur with dstStoreID := dstStoreID } }
    match bs1.calcProgressiveRank with
    | .error e => .error e
    | .ok bs2 =>
      if bs2.cur.progressiveRank < 0 then
        match bs2.betterThan st.best with
        | .error e => .error e
        | .ok false => solveDstLoop { st with bs := bs2 } rest
        | .ok true =>
          match bs2.buildOperators with
          | .error e => .error e
          | .ok (newOps, newInfls) =>
            if newOps.length > 0 then
              solveDstLoop { bs := bs2, best := some bs2.cur, ops := newOps, infls := newInfls } rest
            else solveDstLoop { st with bs := bs2 } rest
      else solveDstLoop { st with bs := bs2 } rest

/-- The loop of `solve` over the hot peers of the source store. -/
def solvePeerLoop (st : solveState) : List HotPeerStat → Except Fault solveState
  | [] => .ok st
  | srcPeerStat :: rest =>
    let bs1 := { st.bs with cur := { st.bs.cur with srcPeerStat := some srcPeerStat } }
    match bs1.getRegion with
    | .error e => .error e
    | .ok region =>
      let bs2 := { bs1 with cur := { bs1.cur with region := region } }
      match region with
      | none => solvePeerLoop { st with bs := bs2 } rest
      | some _ =>
        match bs2.filterDstStores with
        | .error e => .error e
        | .ok dsts =>
          match solveDstLoop { st with bs := bs2 } (dsts.map Prod.fst) with
          | .error e => .error e
          | .ok st2 => solvePeerLoop st2 rest

/-- The loop of `solve` over the source stores. -/
def solveSrcLoop (st : solveState) : List Nat → Except Fault solveState
  | [] => .ok st
  | srcStoreID :: rest =>
    let bs1 := { st.bs with cur := { st.bs.cur with srcStoreID := srcStoreID } }
    match bs1.filterHotPeers with
    | .error e => .error e
    | .ok peers =>
      match solvePeerLoop { st with bs := bs1 } peers with
      | .error e => .error e
      | .ok st2 => solveSrcLoop st2 rest

/-- The loop of `solve` that registers the pending influence of every
operator; `false` is the early `return nil`. -/
def solveAddLoop (sche : hotScheduler) (best : Option solution) (rwTy : rwType) (opTy : opType) :
    List Operator → List Influence → Except Fault (Bool × hotScheduler)
  | [], _ => .ok (true, sche)
  | op :: ops, infls =>
    match deref best with
    | .error e => .error e
    | .ok b =>
      match infls with
      | [] => .error Fault.indexOutOfRange
      | infl :: infls2 =>
        match sche.addPendingInfluence op b.srcStoreID b.dstStoreID infl rwTy opTy with
        | .error e => .error e
        | .ok (false, sche2) => .ok (false, sche2)
        | .ok (true, sche2) => solveAddLoop sche2 best rwTy opTy ops infls2

/-- What a call of `solve` leaves: the returned operators, the scheduler (the
call updates its pending tables), and the last value of the local variable
`best`. -/
structure solveResult where
  ops : List Operator
  sche : hotScheduler
  best : Option solution

/-- Method `balanceSolver.solve`. -/
def balanceSolver.solve (bs : balanceSolver) : Except Fault solveResult :=
  if !bs.isValid || !bs.allowBalance then .ok { ops := [], sche := bs.sche, best := none }
  else
    let bs0 := { bs with cur := solution.zero }
    match solveSrcLoop { bs := bs0, best := none, ops := [], infls := [] }
        (bs0.filterSrcStores.map Prod.fst) with
    | .error e => .error e
    | .ok st =>
      match solveAddLoop bs.sche st.best bs.rwTy bs.opTy st.ops st.infls with
      | .error e => .error e
      | .ok (false, sche2) => .ok { ops := [], sche := sche2, best := st.best }
      | .ok (true, sche2) =>
        if st.ops.length > 0 then
          match deref st.best with
          | .error e => .error e
          | .ok best =>
            match deref (bs.stLoadDetail.lookup best.srcStoreID) with
            | .error e => .error e
            | .ok _ =>
              match deref (bs.stLoadDetail.lookup best.dstStoreID) with
              | .error e => .error e
              | .ok _ => .ok { ops := st.ops, sche := sche2, best := st.best }
        else .ok { ops := st.ops, sche := sche2, best := st.best }

/-! ## Transitions of the pending tables -/

/-- A call that changes the pending tables of the scheduler. `advance`
stands for what happens between two calls: the tracked operators are shared
with the operator controller, which moves their status on. -/
inductive Action where
  | addPendingInfluence (op : Operator) (srcStore dstStore : Nat) (infl : Influence)
      (rwTy : rwType) (opTy : opType)
  | gcRegionPendings (now : Int)
  | clearPendingInfluence
  | advance (status : Operator → OpStatus) (expired timedOut : Operator → Bool)
      (reachTime : Operator → Int)

/-- The operator as the scheduler sees it after the controller moved it on:
the region and the create time stay. -/
def advanceOperator (status : Operator → OpStatus) (expired timedOut : Operator → Bool)
    (reachTime : Operator → Int) (op : Operator) : Operator :=
  { op with
    status := status op, expired := expired op, timedOut := timedOut op
    reachTime := reachTime op }

/-- One action on the scheduler; a fault ends the run. -/
def hotScheduler.step (h : hotScheduler) (a : Action) : Except Fault hotScheduler :=
  match a with
  | .addPendingInfluence op srcStore dstStore infl rwTy opTy =>
    match h.addPendingInfluence op srcStore dstStore infl rwTy opTy with
    | .error e => .error e
    | .ok (_, h2) => .ok h2
  | .gcRegionPendings now => .ok (h.gcRegionPendings now)
  | .clearPendingInfluence => .ok h.clearPendingInfluence
  | .advance status expired timedOut reachTime =>
    let f := advanceOperator status expired timedOut reachTime
    .ok { h with
      pendings := fun rt => (h.pendings rt).map (fun p => { p with op := f p.op })
      regionPendings := fun id =>
        (h.regionPendings id).map
          (fun s => { movePeer := s.movePeer.map f, transferLeader := s.transferLeader.map f }) }

/-- A sequence of actions, from left to right. -/
def hotScheduler.run (h : hotScheduler) : List Action → Except Fault hotScheduler
  | [] => .ok h
  | a :: rest =>
    match h.step a with
    | .error e => .error e
    | .ok h2 => h2.run rest

/-! ## Load summarizer -/

/-- The two values of `core.ResourceKind` that the scheduler passes; the type
is not among the sources. -/
inductive ResourceKind where
  | LeaderKind
  | RegionKind
  deriving DecidableEq, Repr

/-- Modelled from the spec: `storeLoad.ToLoadPred`, missing from the sources;
`Future = Current + pending`, and `Expect` is still zero. -/
def storeLoad.ToLoadPred (load : storeLoad) (infl : Influence) : storeLoadPred :=
  { Current := load
    Future :=
      { ByteRate := load.ByteRate + infl.ByteRate
        KeyRate := load.KeyRate + infl.KeyRate
        Count := load.Count + infl.Count }
    Expect := { ByteRate := 0, KeyRate := 0, Count := 0 } }

/-- Method `HotPeerStat.Clone` of the statistics package, not among the
sources: a copy with the same fields. The copy keeps the `ptr` of its
original as its identity, so distinct originals have distinct copies. -/
def HotPeerStat.Clone (peer : HotPeerStat) : HotPeerStat := peer

/-- Function `filterHotPeers` (the one of the summarizer): the peers that are
hot enough, and leaders when the kind is leader, in their order. -/
def filterHotPeers (kind : ResourceKind) (minHotDegree : Int) (peers : List HotPeerStat) :
    List HotPeerStat :=
  peers.foldl
    (fun (ret : List HotPeerStat) (peer : HotPeerStat) =>
      if (kind = ResourceKind.LeaderKind ∧ peer.isLeader = false) ∨
          peer.HotDegree < minHotDegree then ret
      else ret ++ [peer])
    []

/-- The variables of the inner loop of `summaryStoresLoad`: `byteSum`,
`keySum` and `hotPeers`. -/
structure hotPeerSums where
  byteSum : ℚ
  keySum : ℚ
  hotPeers : List HotPeerStat

/-- The variables of the outer loop of `summaryStoresLoad`: `loadDetail`,
`allByteSum`, `allKeySum` and `allCount`. -/
structure loadSums where
  loadDetail : List (Nat × storeLoadDetail)
  allByteSum : ℚ
  allKeySum : ℚ
  allCount : ℚ

/-- The body of the first loop of `summaryStoresLoad` for the store `id` with
byte rate `byteRate`. A key missing from `storeKeyRate`, `storePendings` or
`storeHotPeers` reads as the zero value. -/
def summaryStoreStep (storeKeyRate : Nat → Option ℚ) (storePendings : Nat → Option Influence)
    (storeHotPeers : Nat → Option (List HotPeerStat)) (minHotDegree : Int) (rwTy : rwType)
    (kind : ResourceKind) (acc : loadSums) (id : Nat) (byteRate : ℚ) : loadSums :=
  let keyRate := (storeKeyRate id).getD 0
  let sums := (filterHotPeers kind minHotDegree ((storeHotPeers id).getD [])).foldl
    (fun (s : hotPeerSums) (peer : HotPeerStat) =>
      { byteSum := s.byteSum + peer.ByteRate
        keySum := s.keySum + peer.KeyRate
        hotPeers := s.hotPeers ++ [peer.Clone] })
    { byteSum := 0, keySum := 0, hotPeers := [] }
  let byteRate := if kind = ResourceKind.LeaderKind ∧ rwTy = rwType.write then sums.byteSum
    else byteRate
  let keyRate := if kind = ResourceKind.LeaderKind ∧ rwTy = rwType.write then sums.keySum
    else keyRate
  let stLoadPred := storeLoad.ToLoadPred
    { ByteRate := byteRate, KeyRate := keyRate, Count := (sums.hotPeers.length : ℚ) }
    ((storePendings id).getD { ByteRate := 0, KeyRate := 0, Count := 0 })
  { loadDetail := mapInsert acc.loadDetail id { LoadPred := stLoadPred, HotPeers := sums.hotPeers }
    allByteSum := acc.allByteSum + byteRate
    allKeySum := acc.allKeySum + keyRate
    allCount := acc.allCount + (sums.hotPeers.length : ℚ) }

/-- Function `summaryStoresLoad`. `storeByteRate` is the map the code ranges
over; the second loop writes the expectation into every detail. -/
def summaryStoresLoad (storeByteRate : List (Nat × ℚ)) (storeKeyRate : Nat → Option ℚ)
    (storePendings : Nat → Option Influence) (storeHotPeers : Nat → Option (List HotPeerStat))
    (minHotDegree : Int) (rwTy : rwType) (kind : ResourceKind) :
    List (Nat × storeLoadDetail) :=
  let acc := storeByteRate.foldl
    (fun (acc : loadSums) (kv : Nat × ℚ) =>
      summaryStoreStep storeKeyRate storePendings storeHotPeers minHotDegree rwTy kind acc
        kv.1 kv.2)
    { loadDetail := [], allByteSum := 0, allKeySum := 0, allCount := 0 }
  let storeLen : ℚ := (storeByteRate.length : ℚ)
  acc.loadDetail.map (fun (kv : Nat × storeLoadDetail) =>
    (kv.1,
      { kv.2 with
        LoadPred :=
          { kv.2.LoadPred with
            Expect :=
              { ByteRate := acc.allByteSum / storeLen
                KeyRate := acc.allKeySum / storeLen
                Count := acc.allCount / storeLen } } }))

/-! ## Schedule interval -/

/-- Constant `minHotScheduleInterval`: one second, in nanoseconds. -/
def minHotScheduleInterval : Int := 1000000000

/-- Constant `maxHotScheduleInterval`: twenty seconds, in nanoseconds. -/
def maxHotScheduleInterval : Int := 20 * 1000000000

/-- Modelled from the spec: `intervalGrow` for `exponentialGrowth`, missing from
the sources; the interval grows by a factor and is capped at the maximum. The
factor is a constant of a file that is not among the sources, a parameter
here; the product becomes a duration again with its fraction dropped. -/
def intervalGrow (factor : ℚ) (x maxInterval : Int) : Int :=
  min (roundToZero ((x : ℚ) * factor)) maxInterval

/-- Method `hotScheduler.GetMinInterval`. -/
def hotScheduler.GetMinInterval (_h : hotScheduler) : Int := minHotScheduleInterval

/-- Method `hotScheduler.GetNextInterval`: what grows is `GetMinInterval()`;
the argument `interval` is not read. -/
def hotScheduler.GetNextInterval (h : hotScheduler) (factor : ℚ) (_interval : Int) : Int :=
  intervalGrow factor h.GetMinInterval maxHotScheduleInterval

/-! ## Store candidates (package `selector`) -/

/-- Struct `StoreCandidates`. -/
structure StoreCandidates where
  Stores : List StoreInfo
  deriving DecidableEq, Repr

/-- Indexing `s[i]` of a slice: out of range is a panic. -/
def sliceIndex {α : Type} (s : List α) (i : Nat) : Except Fault α :=
  match s[i]? with
  | some a => .ok a
  | none => .error Fault.indexOutOfRange

/-- The loop of `Top`: `i` goes up while it is in range and the store at `i`
compares equal to the store at 0; the answer is the last `i`. -/
def topLoop (less : StoreInfo → StoreInfo → Int) (stores : List StoreInfo) (i : Nat) :
    Except Fault Nat :=
  if i < stores.length then
    match sliceIndex stores 0 with
    | .error e => .error e
    | .ok first =>
      match sliceIndex stores i with
      | .error e => .error e
      | .ok s => if less first s = 0 then topLoop less stores (i + 1) else .ok i
  else .ok i
termination_by stores.length - i

/-- Method `StoreCandidates.Top`; `c.Stores[:i]` with `i` over the length is
out of range. -/
def StoreCandidates.Top (c : StoreCandidates) (less : StoreInfo → StoreInfo → Int) :
    Except Fault StoreCandidates :=
  match topLoop less c.Stores 0 with
  | .error e => .error e
  | .ok i =>
    if i ≤ c.Stores.length then .ok { Stores := c.Stores.take i }
    else .error Fault.indexOutOfRange

/-! ## The tick of the scheduler -/

/-- What `prepareForBalance` reads of the cluster: the byte and key rates of
the stores (`GetStoresStats`), the hot peers of the stores (`RegionReadStats`
and `RegionWriteStats`) and the threshold of the hot degree. None of the
getters is among the sources; the values are parameters. -/
structure StoresStats where
  StoresBytesReadStat : List (Nat × ℚ)
  StoresKeysReadStat : Nat → Option ℚ
  StoresBytesWriteStat : List (Nat × ℚ)
  StoresKeysWriteStat : Nat → Option ℚ
  RegionReadStats : Nat → Option (List HotPeerStat)
  RegionWriteStats : Nat → Option (List HotPeerStat)
  HotRegionCacheHitsThreshold : Int

/-- Method `hotScheduler.summaryPendingInfluence`. The function
`summaryPendingInfluence` of the package that it calls for each resource type
is not among the sources and is a parameter, `summary`: from the set
`pendings[ty]` and the weight function it gives the sums, and, the set being a
map that it may change, the set as it leaves it. The clock is read once. -/
def hotScheduler.summaryPendingInfluence (h : hotScheduler)
    (summary : List pendingInfluence → (Operator → Option ℚ) →
      List pendingInfluence × List (Nat × Influence))
    (now : Int) : hotScheduler :=
  hotScheduler.gcRegionPendings
    { h with
      pendings := fun ty => (summary (h.pendings ty) (h.calcPendingWeight now)).1
      pendingSums := fun ty => (summary (h.pendings ty) (h.calcPendingWeight now)).2 }
    now

/-- Method `hotScheduler.prepareForBalance`. -/
def hotScheduler.prepareForBalance (h : hotScheduler)
    (summary : List pendingInfluence → (Operator → Option ℚ) →
      List pendingInfluence × List (Nat × Influence))
    (stats : StoresStats) (now : Int) : hotScheduler :=
  let h1 := h.summaryPendingInfluence summary now
  let minHotDegree := stats.HotRegionCacheHitsThreshold
  let readLeader := summaryStoresLoad stats.StoresBytesReadStat stats.StoresKeysReadStat
    (fun id => (h1.pendingSums resourceType.readLeader).lookup id) stats.RegionReadStats
    minHotDegree rwType.read ResourceKind.LeaderKind
  let writeLeader := summaryStoresLoad stats.StoresBytesWriteStat stats.StoresKeysWriteStat
    (fun id => (h1.pendingSums resourceType.writeLeader).lookup id) stats.RegionWriteStats
    minHotDegree rwType.write ResourceKind.LeaderKind
  let writePeer := summaryStoresLoad stats.StoresBytesWriteStat stats.StoresKeysWriteStat
    (fun id => (h1.pendingSums resourceType.writePeer).lookup id) stats.RegionWriteStats
    minHotDegree rwType.write ResourceKind.RegionKind
  { h1 with
    stLoadInfos := fun rt =>
      match rt with
      | .readLeader => readLeader
      | .writeLeader => writeLeader
      | .writePeer => writePeer }

/-- Method `hotScheduler.balanceHotReadRegions`: the operators and the
scheduler as the solvers leave it. -/
def hotScheduler.balanceHotReadRegions (h : hotScheduler) (cluster : Cluster) :
    Except Fault (List Operator × hotScheduler) :=
  match newBalanceSolver h cluster rwType.read opType.transferLeader with
  | .error e => .error e
  | .ok leaderSolver =>
    match leaderSolver.solve with
    | .error e => .error e
    | .ok r =>
      if r.ops.length > 0 then .ok (r.ops, r.sche)
      else
        match newBalanceSolver r.sche cluster rwType.read opType.movePeer with
        | .error e => .error e
        | .ok peerSolver =>
          match peerSolver.solve with
          | .error e => .error e
          | .ok r2 =>
            if r2.ops.length > 0 then .ok (r2.ops, r2.sche)
            else .ok ([], r2.sche)

/-- Variable `schedulePeerPr`. -/
def schedulePeerPr : ℚ := 66 / 100

/-- Method `hotScheduler.balanceHotWriteRegions`; `s` is the draw
`h.r.Intn(100)`. -/
def hotScheduler.balanceHotWriteRegions (h : hotScheduler) (cluster : Cluster) (s : Int) :
    Except Fault (List Operator × hotScheduler) :=
  let leader (h1 : hotScheduler) : Except Fault (List Operator × hotScheduler) :=
    match newBalanceSolver h1 cluster rwType.write opType.transferLeader with
    | .error e => .error e
    | .ok leaderSolver =>
      match leaderSolver.solve with
      | .error e => .error e
      | .ok r =>
        if r.ops.length > 0 then .ok (r.ops, r.sche)
        else .ok ([], r.sche)
  if s < truncToInt (schedulePeerPr * 100) then
    match newBalanceSolver h cluster rwType.write opType.movePeer with
    | .error e => .error e
    | .ok peerSolver =>
      match peerSolver.solve with
      | .error e => .error e
      | .ok r =>
        if r.ops.length > 0 then .ok (r.ops, r.sche)
        else leader r.sche
  else leader h

/-- Method `hotScheduler.dispatch`: the returned operators and the scheduler
after the tick. -/
def hotScheduler.dispatch (h : hotScheduler)
    (summary : List pendingInfluence → (Operator → Option ℚ) →
      List pendingInfluence × List (Nat × Influence))
    (stats : StoresStats) (now : Int) (s : Int) (typ : rwType) (cluster : Cluster) :
    Except Fault (List Operator × hotScheduler) :=
  let h1 := h.prepareForBalance summary stats now
  if typ = rwType.read then h1.balanceHotReadRegions cluster
  else if typ = rwType.write then h1.balanceHotWriteRegions cluster s
  else .ok ([], h1)

/-! ## Permission to schedule -/

/-- Method `hotScheduler.IsScheduleAllowed`. -/
def IsScheduleAllowed (cluster : Cluster) : Bool :=
  allowBalanceLeader cluster || allowBalanceRegion cluster

/-! ## Predicates of the statements -/

/-- Every region with an entry in `regionPendings` has an operator in at least
one of its two slots. -/
def slotsInhabited (h : hotScheduler) : Prop :=
  ∀ id slots, h.regionPendings id = some slots →
    slots.movePeer.isSome = true ∨ slots.transferLeader.isSome = true

/-- What `isReadyToBuild` asks of a solution: both stores are set, the peer
and the region are there, the peer is on the source store and belongs to the
region. -/
def solution.ready (s : solution) : Prop :=
  s.srcStoreID ≠ 0 ∧ s.dstStoreID ≠ 0 ∧
  ∃ peer region, s.srcPeerStat = some peer ∧ s.region = some region ∧
    peer.StoreID = s.srcStoreID ∧ region.ID = peer.RegionID

/-- The region of the peer of a solution has no entry in `regionPendings`. -/
def solution.unpending (sche : hotScheduler) (s : solution) : Prop :=
  ∀ peer, s.srcPeerStat = some peer → sche.regionPendings peer.RegionID = none

/-- The invariant of the loops of `solve` on the solver `base`: the loops
change nothing of the solver but `cur`; there is at most one operator, with
its influence; and when there is one, `best` is a solution of negative rank
that is ready to build, whose region is not pending, and the operator is what
`buildOperators` made of it. -/
def solveInv (base : balanceSolver) (st : solveState) : Prop :=
  st.bs = { base with cur := st.bs.cur } ∧
  st.ops.length ≤ 1 ∧ st.infls.length = st.ops.length ∧
  (st.ops ≠ [] → ∃ b, st.best = some b ∧ b.progressiveRank < 0 ∧ b.ready ∧
    b.unpending base.sche ∧
    balanceSolver.buildOperators { base with cur := b } = .ok (st.ops, st.infls))

/-- The inputs on which `solve` neither stops with a panic nor spins: the hot
peers of every store are distinct objects (`summaryStoresLoad` clones each
one), and every store that passes the target filters has a load detail. -/
def balanceSolver.wellFormed (bs : balanceSolver) : Prop :=
  (∀ id detail, bs.stLoadDetail.lookup id = some detail →
    (detail.HotPeers.map HotPeerStat.ptr).Nodup) ∧
  (bs.opTy = opType.movePeer → ∀ region srcStore, ∀ s ∈ bs.cluster.GetStores,
    bs.cluster.movePeerTarget region srcStore s = true →
    (bs.stLoadDetail.lookup s.ID).isSome = true) ∧
  (bs.opTy = opType.transferLeader → ∀ region srcStore,
    ∀ s ∈ bs.cluster.GetFollowerStores region,
    bs.cluster.transferLeaderTarget region srcStore s = true →
    (bs.stLoadDetail.lookup s.ID).isSome = true)

/-- The stores of a solution have a load detail and its peer is there. -/
def solution.located (bs : balanceSolver) (s : solution) : Prop :=
  (bs.stLoadDetail.lookup s.srcStoreID).isSome = true ∧
  (bs.stLoadDetail.lookup s.dstStoreID).isSome = true ∧
  s.srcPeerStat.isSome = true

/-- The loops of `solve` on `base` change nothing of the solver but `cur`, and
`best`, when set, is located. -/
def solveGood (base : balanceSolver) (st : solveState) : Prop :=
  st.bs = { base with cur := st.bs.cur } ∧
  ∀ b, st.best = some b → b.located base

/-- The decline ratio as the specification writes it:
`(dst + p) / max(src − p, 1)`. It follows the words of the specification, to
be compared with the ratio that `calcProgressiveRank` computes through
`getSrcDecRate`. -/
def specDeclineRatio (dst p src : ℚ) : ℚ :=
  (dst + p) / max (src - p) 1

/-- The rank table of the specification over given decline ratios, first
match: -3, -2, -1, else 0. -/
def rankTable (conf : hotRegionSchedulerConfig) (peer : HotPeerStat) (keyDec byteDec : ℚ) :
    Int :=
  if peer.ByteRate > conf.MinHotByteRate ∧ byteDec ≤ conf.GreatDecRatio ∧
      peer.KeyRate ≥ conf.MinHotKeyRate ∧ keyDec ≤ conf.GreatDecRatio then -3
  else if byteDec ≤ conf.MinorGreatDecRatio ∧ peer.KeyRate ≥ conf.MinHotKeyRate ∧
      keyDec ≤ conf.GreatDecRatio then -2
  else if peer.ByteRate > conf.MinHotByteRate ∧ byteDec ≤ conf.GreatDecRatio then -1
  else 0

/-- The fault of a call that did not return, `none` for a call that
returned. -/
def faultOf {α : Type} (r : Except Fault α) : Option Fault :=
  match r with
  | .error e => some e
  | .ok _ => none

/-- A comparator that answers the opposite sign when its arguments are
swapped. -/
def cmpAntisymm {α : Type} (c : α → α → Int) : Prop :=
  ∀ x y, c y x = - c x y

/-- The hot peers of a store as the specification words them: the peers with
HotDegree ≥ minHotDegree that are leaders when the kind is leader, in their
order. -/
def specHotPeers (kind : ResourceKind) (minHotDegree : Int) (peers : List HotPeerStat) :
    List HotPeerStat :=
  peers.filter (fun p =>
    decide (p.HotDegree ≥ minHotDegree) &&
      (decide (kind ≠ ResourceKind.LeaderKind) || p.isLeader))

/-- The current load of a store as the specification words it: the count of
its hot peers, and as rates the sums over its hot peers for write and leader,
the raw rates of the store otherwise. -/
def specCurrent (rwTy : rwType) (kind : ResourceKind) (hot : List HotPeerStat)
    (byteRate keyRate : ℚ) : storeLoad :=
  { ByteRate :=
      if rwTy = rwType.write ∧ kind = ResourceKind.LeaderKind
        then (hot.map HotPeerStat.ByteRate).sum else byteRate
    KeyRate :=
      if rwTy = rwType.write ∧ kind = ResourceKind.LeaderKind
        then (hot.map HotPeerStat.KeyRate).sum else keyRate
    Count := (hot.length : ℚ) }

/-- The current load that the specification gives the store of an entry
`(id, byteRate)` of `storeByteRate`. -/
def specStoreCurrent (storeKeyRate : Nat → Option ℚ)
    (storeHotPeers : Nat → Option (List HotPeerStat)) (minHotDegree : Int) (rwTy : rwType)
    (kind : ResourceKind) (kv : Nat × ℚ) : storeLoad :=
  specCurrent rwTy kind (specHotPeers kind minHotDegree ((storeHotPeers kv.1).getD []))
    kv.2 ((storeKeyRate kv.1).getD 0)

/-- The detail that the specification gives the store of an entry
`(id, byteRate)` of `storeByteRate`, once the expectation `expect` is copied
into it. -/
def specStoreDetail (storeKeyRate : Nat → Option ℚ) (storePendings : Nat → Option Influence)
    (storeHotPeers : Nat → Option (List HotPeerStat)) (minHotDegree : Int) (rwTy : rwType)
    (kind : ResourceKind) (expect : storeLoad) (kv : Nat × ℚ) : storeLoadDetail :=
  { LoadPred :=
      { storeLoad.ToLoadPred
          (specStoreCurrent storeKeyRate storeHotPeers minHotDegree rwTy kind kv)
          ((storePendings kv.1).getD { ByteRate := 0, KeyRate := 0, Count := 0 }) with
        Expect := expect }
    HotPeers := specHotPeers kind minHotDegree ((storeHotPeers kv.1).getD []) }

/-- A comparer that is a total preorder: swapping the arguments swaps the
sign, and "not after" is transitive. -/
def comparerPreorder {α : Type} (less : α → α → Int) : Prop :=
  (∀ a b, less a b < 0 ↔ less b a > 0) ∧
  (∀ a b c, less a b ≤ 0 → less b c ≤ 0 → less a c ≤ 0)

/-- A list that is sorted in ascending order by a comparer, as `Sort` leaves
it: no store is strictly less than a store before it. -/
def sortedBy {α : Type} (less : α → α → Int) (l : List α) : Prop :=
  l.Pairwise (fun a b => ¬ less b a < 0)

/-- The hot statistics of the cluster are empty: no store has a hot peer, for
read or for write. -/
def StoresStats.noHotPeers (stats : StoresStats) : Prop :=
  ∀ id, stats.RegionReadStats id = none ∧ stats.RegionWriteStats id = none

/-- The rates of the stores are maps: a store ID occurs once. -/
def StoresStats.wellFormed (stats : StoresStats) : Prop :=
  (stats.StoresBytesReadStat.map Prod.fst).Nodup ∧
  (stats.StoresBytesWriteStat.map Prod.fst).Nodup

/-- No tracked operator is due for collection at `now`: none has ended with
its create time more than the zombie duration ago. -/
def hotScheduler.nothingToCollect (h : hotScheduler) (now : Int) : Prop :=
  ∀ id slots op, h.regionPendings id = some slots →
    (slots.movePeer = some op ∨ slots.transferLeader = some op) →
    ¬ (op.IsEnd = true ∧ now > op.createTime + h.conf.MaxZombieDuration)

/-- A comparator whose "not after" is transitive. -/
def cmpTrans {α : Type} (c : α → α → Int) : Prop :=
  ∀ x y z, c x y ≤ 0 → c y z ≤ 0 → c x z ≤ 0

/-- The first non-zero answer of two comparators. -/
def lexCmp {α : Type} (c d : α → α → Int) (x y : α) : Int :=
  if c x y ≠ 0 then c x y else d x y

/-- The load prediction of a store, the zero prediction for a store without
load detail. -/
def balanceSolver.loadPredOf (bs : balanceSolver) (id : Nat) : storeLoadPred :=
  match bs.stLoadDetail.lookup id with
  | some d => d.LoadPred
  | none =>
    { Current := { ByteRate := 0, KeyRate := 0, Count := 0 }
      Future := { ByteRate := 0, KeyRate := 0, Count := 0 }
      Expect := { ByteRate := 0, KeyRate := 0, Count := 0 } }

/-- The comparator of load predictions that `compareSrcStore` builds. -/
def balanceSolver.srcLpCmp (bs : balanceSolver) : storeLoadPred → storeLoadPred → Int :=
  if bs.rwTy = rwType.write ∧ bs.opTy = opType.transferLeader then
    sliceLPCmp
      [ minLPCmp (negLoadCmp (sliceLoadCmp
          [ stLdRankCmp stLdKeyRate (stepRank bs.maxSrc.KeyRate bs.rankStep.KeyRate),
            stLdRankCmp stLdByteRate (stepRank bs.maxSrc.ByteRate bs.rankStep.ByteRate) ])),
        diffCmp (sliceLoadCmp
          [ stLdRankCmp stLdCount (stepRank 0 bs.rankStep.Count),
            stLdRankCmp stLdKeyRate (stepRank 0 bs.rankStep.KeyRate),
            stLdRankCmp stLdByteRate (stepRank 0 bs.rankStep.ByteRate) ]) ]
  else
    sliceLPCmp
      [ minLPCmp (negLoadCmp (sliceLoadCmp
          [ stLdRankCmp stLdByteRate (stepRank bs.maxSrc.ByteRate bs.rankStep.ByteRate),
            stLdRankCmp stLdKeyRate (stepRank bs.maxSrc.KeyRate bs.rankStep.KeyRate) ])),
        diffCmp (stLdRankCmp stLdByteRate (stepRank 0 bs.rankStep.ByteRate)) ]

/-- The comparator of load predictions that `compareDstStore` builds. -/
def balanceSolver.dstLpCmp (bs : balanceSolver) : storeLoadPred → storeLoadPred → Int :=
  if bs.rwTy = rwType.write ∧ bs.opTy = opType.transferLeader then
    sliceLPCmp
      [ maxLPCmp (sliceLoadCmp
          [ stLdRankCmp stLdKeyRate (stepRank bs.minDst.KeyRate bs.rankStep.KeyRate),
            stLdRankCmp stLdByteRate (stepRank bs.minDst.ByteRate bs.rankStep.ByteRate) ]),
        diffCmp (sliceLoadCmp
          [ stLdRankCmp stLdCount (stepRank 0 bs.rankStep.Count),
            stLdRankCmp stLdKeyRate (stepRank 0 bs.rankStep.KeyRate),
            stLdRankCmp stLdByteRate (stepRank 0 bs.rankStep.ByteRate) ]) ]
  else
    sliceLPCmp
      [ maxLPCmp (sliceLoadCmp
          [ stLdRankCmp stLdByteRate (stepRank bs.minDst.ByteRate bs.rankStep.ByteRate),
            stLdRankCmp stLdKeyRate (stepRank bs.minDst.KeyRate bs.rankStep.KeyRate) ]),
        diffCmp (stLdRankCmp stLdByteRate (stepRank 0 bs.rankStep.ByteRate)) ]

/-- The last comparison of `betterThan`, of the two peers, as a comparator
(negative: the first peer is the better one) for solutions of the progressive
rank `rank`. -/
def balanceSolver.peerCmp (bs : balanceSolver) (rank : Int) (p q : HotPeerStat) : Int :=
  if bs.rwTy = rwType.write ∧ bs.opTy = opType.transferLeader then
    if p.KeyRate > q.KeyRate then -1 else if p.KeyRate < q.KeyRate then 1 else 0
  else
    let byteRkCmp := rankCmp p.ByteRate q.ByteRate (stepRank 0 100)
    let keyRkCmp := rankCmp p.KeyRate q.KeyRate (stepRank 0 10)
    if rank = -2 then (if keyRkCmp ≠ 0 then - keyRkCmp else byteRkCmp)
    else if rank = -3 then (if keyRkCmp ≠ 0 then - keyRkCmp else - byteRkCmp)
    else if rank = -1 then - byteRkCmp
    else 0

/-- The peer of a solution, a peer without rates for a solution without
peer. -/
def solution.peerOf (s : solution) : HotPeerStat :=
  match s.srcPeerStat with
  | some p => p
  | none =>
    { ptr := 0, RegionID := 0, StoreID := 0, isLeader := false, HotDegree := 0
      ByteRate := 0, KeyRate := 0 }

/-- The order of `betterThan` among solutions of the progressive rank `rank`:
the source stores, then the destination stores, then the peers. -/
def balanceSolver.tailCmp (bs : balanceSolver) (rank : Int) : solution → solution → Int :=
  lexCmp (fun a b => bs.srcLpCmp (bs.loadPredOf a.srcStoreID) (bs.loadPredOf b.srcStoreID))
    (lexCmp (fun a b => bs.dstLpCmp (bs.loadPredOf a.dstStoreID) (bs.loadPredOf b.dstStoreID))
      (fun a b => bs.peerCmp rank a.peerOf b.peerOf))

/-- The order that `betterThan` decides by, as a comparator: negative when the
first solution is the better one. -/
def balanceSolver.solutionCmp (bs : balanceSolver) (a b : solution) : Int :=
  if a.progressiveRank < b.progressiveRank then -1
  else if a.progressiveRank > b.progressiveRank then 1
  else bs.tailCmp a.progressiveRank a b

/-- A pointer names one object: two peers with the same `ptr` are the same
peer. -/
def samePeerObject (p q : HotPeerStat) : Prop := p.ptr = q.ptr → p = q

/-- The peer is a hot peer of some store of the load details. -/
def balanceSolver.peerKnown (bs : balanceSolver) (p : HotPeerStat) : Prop :=
  ∃ kv ∈ bs.stLoadDetail, p ∈ kv.2.HotPeers

/-- A pointer names one hot peer of the load details. -/
def balanceSolver.ptrIdentity (bs : balanceSolver) : Prop :=
  ∀ p q, bs.peerKnown p → bs.peerKnown q → samePeerObject p q

/-- The solution carries the progressive rank that `calcProgressiveRank` gives
to its source store, peer and destination store. -/
def balanceSolver.ranked (bs : balanceSolver) (s : solution) : Prop :=
  ∃ bs2, balanceSolver.calcProgressiveRank { bs with cur := s } = .ok bs2 ∧ bs2.cur = s

/-- The solution is one for which `buildOperators` produces an operator. -/
def balanceSolver.buildable (bs : balanceSolver) (s : solution) : Prop :=
  ∃ ops infls, balanceSolver.buildOperators { bs with cur := s } = .ok (ops, infls) ∧ ops ≠ []

/-- The solutions that a call of `solve` enumerates: the solver is valid and
allowed to balance, the source store is one of `filterSrcStores`, the peer one
of `filterHotPeers` for that store, the region the one that `getRegion` finds
for the peer, the destination store one of `filterDstStores` for them, and the
rank the one of `calcProgressiveRank`. -/
def balanceSolver.enumerated (bs : balanceSolver) (s : solution) : Prop :=
  bs.isValid = true ∧ bs.allowBalance = true ∧
  s.srcStoreID ∈ (balanceSolver.filterSrcStores { bs with cur := solution.zero }).map Prod.fst ∧
  ∃ peers p region dsts,
    balanceSolver.filterHotPeers
      { bs with cur := { solution.zero with srcStoreID := s.srcStoreID } } = .ok peers ∧
    p ∈ peers ∧ s.srcPeerStat = some p ∧
    balanceSolver.getRegion
      { bs with cur := { solution.zero with
          srcStoreID := s.srcStoreID, srcPeerStat := some p } } = .ok (some region) ∧
    s.region = some region ∧
    balanceSolver.filterDstStores
      { bs with cur := { solution.zero with
          srcStoreID := s.srcStoreID, srcPeerStat := some p, region := some region } } =
        .ok dsts ∧
    s.dstStoreID ∈ dsts.map Prod.fst ∧
    bs.ranked s

/-- The solution `s` is not better than `best`, which is set. -/
def balanceSolver.dominated (bs : balanceSolver) (best : Option solution) (s : solution) :
    Prop :=
  ∃ b, best = some b ∧ ¬ bs.solutionCmp s b < 0

/-- The value `b2` of `best` is at least as good as an earlier value `b1`. -/
def balanceSolver.bestLe (bs : balanceSolver) (b1 b2 : Option solution) : Prop :=
  ∀ x, b1 = some x → ∃ y, b2 = some y ∧ bs.solutionCmp y x ≤ 0

/-- What the loops of `solve` keep of `best`: its stores have a load detail
and its peer is a hot peer of the load details. -/
def balanceSolver.bestKnown (bs : balanceSolver) (best : Option solution) : Prop :=
  ∀ b, best = some b → b.located bs ∧ bs.peerKnown b.peerOf

/-- No region with an entry in `regionPendings` has an operator in both of its
slots. -/
def slotsExclusive (h : hotScheduler) : Prop :=
  ∀ id slots, h.regionPendings id = some slots →
    slots.movePeer = none ∨ slots.transferLeader = none

/-- The state of the loop of `filterHotPeers` accounts for the byte-sorted
slice `byteSort0` it started from: each of its peers is still in the tail
`byteSort` or already in `union`. -/
def unionCovers (byteSort0 union byteSort : List HotPeerStat) : Prop :=
  ∀ p ∈ byteSort0, p ∈ byteSort ∨ inUnion union p = true

/-! ## Scenarios of the specification -/

/-- The configuration of the concrete scenarios: tolerance ratios 1, great
decline ratio 0.95, minor decline ratio 0.99, rank steps 0, a zombie duration
of 60 seconds. -/
def scenarioConf : hotRegionSchedulerConfig :=
  { MaxZombieDuration := 60000000000
    MaxPeerNumber := 1000
    SrcToleranceRatio := 1
    DstToleranceRatio := 1
    GreatDecRatio := 19 / 20
    MinorGreatDecRatio := 99 / 100
    MinHotKeyRate := 1
    MinHotByteRate := 1
    ByteRankStepRatio := 0
    KeyRankStepRatio := 0
    CountRankStepRatio := 0 }

/-- A store of the scenarios: the same current and future load `(byte, key,
count)`, the cluster mean `(40, 40, 7/3)` as expectation. -/
def scenarioDetail (byte key count : ℚ) (peers : List HotPeerStat) : storeLoadDetail :=
  { LoadPred :=
      { Current := { ByteRate := byte, KeyRate := key, Count := count }
        Future := { ByteRate := byte, KeyRate := key, Count := count }
        Expect := { ByteRate := 40, KeyRate := 40, Count := 7 / 3 } }
    HotPeers := peers }

/-- The hot peer of the scenarios: region 7 on store 1, with the given byte
and key rate. -/
def scenarioPeer (byte key : ℚ) : HotPeerStat :=
  { ptr := 1, RegionID := 7, StoreID := 1, isLeader := true, HotDegree := 3
    ByteRate := byte, KeyRate := key }

/-- A second hot peer on store 1, of region 8. -/
def scenarioPeerEight : HotPeerStat :=
  { ptr := 2, RegionID := 8, StoreID := 1, isLeader := true, HotDegree := 3
    ByteRate := 30, KeyRate := 30 }

/-- A region of the scenarios: its leader and only peer is on store 1. -/
def scenarioRegion (id : Nat) : RegionInfo :=
  { ID := id
    GetStorePeer := fun id => if id = 1 then some { StoreId := 1, Role := 0 } else none
    LeaderStoreId := 1
    GetStoreVoter := fun id => if id = 1 then some { StoreId := 1, Role := 0 } else none }

/-- The cluster of the scenarios: stores 1, 2 and 3, regions 7 and 8, no
operator running, every store but the ones of the region a valid target. -/
def scenarioCluster : Cluster :=
  { GetStore := fun id => if id = 1 ∨ id = 2 ∨ id = 3 then some { ID := id } else none
    GetRegion := fun id => if id = 7 ∨ id = 8 then some (scenarioRegion id) else none
    GetStores := [{ ID := 1 }, { ID := 2 }, { ID := 3 }]
    GetFollowerStores := fun _ => []
    IsHealthyAllowPending := fun _ => true
    IsRegionReplicated := fun _ => true
    movePeerTarget := fun region _ s => (region.GetStorePeer s.ID).isNone
    transferLeaderTarget := fun _ _ _ => true
    CreateMovePeerOperator := fun region _ _ =>
      some { regionID := region.ID, status := OpStatus.CREATED, expired := false
             timedOut := false, createTime := 0, reachTime := 0, highPriority := false }
    CreateTransferLeaderOperator := fun region _ _ =>
      some { regionID := region.ID, status := OpStatus.CREATED, expired := false
             timedOut := false, createTime := 0, reachTime := 0, highPriority := false }
    OperatorCountHotRegion := 0
    OperatorCountLeader := 0
    HotRegionScheduleLimit := 4
    LeaderScheduleLimit := 4 }

/-- The loads of scenarios 1 and 2: store 1 at `(100, 100, 5)` with the hot
peer, stores 2 and 3 at `(10, 10, 1)`. -/
def scenarioLoads (peer : HotPeerStat) : List (Nat × storeLoadDetail) :=
  [ (1, scenarioDetail 100 100 5 [peer]),
    (2, scenarioDetail 10 10 1 []),
    (3, scenarioDetail 10 10 1 []) ]

/-- The loads of scenario 6: key rate 100 on store 1 and 50 on store 2. -/
def scenarioKeyLoads (peer : HotPeerStat) : List (Nat × storeLoadDetail) :=
  [ (1, scenarioDetail 100 100 5 [peer]),
    (2, scenarioDetail 50 50 1 []) ]

/-- The solver of a scenario on a new scheduler: the given types and loads,
`maxSrc`, `minDst` and `rankStep` as `init` computes them for stores at
(100, 100, 5) and (10, 10, 1) under rank step ratios 0. -/
def scenarioSolver (rwTy : rwType) (opTy : opType) (loads : List (Nat × storeLoadDetail)) :
    balanceSolver :=
  { sche := newHotScheduler scenarioConf
    cluster := scenarioCluster
    stLoadDetail := loads
    rwTy := rwTy
    opTy := opTy
    cur := solution.zero
    maxSrc := { ByteRate := 100, KeyRate := 100, Count := 5 }
    minDst := { ByteRate := 10, KeyRate := 10, Count := 1 }
    rankStep := { ByteRate := 0, KeyRate := 0, Count := 0 } }

/-- The solver of a scenario, looking at the triple (store 1, the hot peer,
store 2). -/
def scenarioAt (rwTy : rwType) (opTy : opType) (peer : HotPeerStat)
    (loads : List (Nat × storeLoadDetail)) : balanceSolver :=
  { scenarioSolver rwTy opTy loads with
    cur :=
      { srcStoreID := 1, srcPeerStat := some peer, region := some (scenarioRegion 7)
        dstStoreID := 2, progressiveRank := 0 } }

/-- The operator of the scenarios: a new operator on region 7. -/
def scenarioOperator : Operator :=
  { regionID := 7, status := OpStatus.CREATED, expired := false, timedOut := false
    createTime := 0, reachTime := 0, highPriority := true }

/-- The operator of the scenarios once it has succeeded, at time 0. -/
def scenarioSucceeded : Operator :=
  { scenarioOperator with status := OpStatus.SUCCESS }

/-- A run of the pending tables: the operator of region 7 is registered (write,
move peer), a second proposal for the region is made, the operator succeeds,
and the tables are collected 30 seconds after its creation. -/
def scenarioActions : List Action :=
  [ Action.addPendingInfluence scenarioOperator 1 2
      { ByteRate := 20, KeyRate := 20, Count := 1 } rwType.write opType.movePeer,
    Action.addPendingInfluence scenarioOperator 1 3
      { ByteRate := 20, KeyRate := 20, Count := 1 } rwType.write opType.transferLeader,
    Action.advance (fun _ => OpStatus.SUCCESS) (fun _ => false) (fun _ => false) (fun _ => 0),
    Action.gcRegionPendings 30000000000 ]

/-- Scenario 4: the solver of scenario 2 on a scheduler that tracks a move of
region 8; store 1 has the hot peers of regions 8 and 7. -/
def scenarioPendingSolver : balanceSolver :=
  { scenarioSolver rwType.write opType.movePeer
      [ (1, scenarioDetail 100 100 5 [scenarioPeerEight, scenarioPeer 20 20]),
        (2, scenarioDetail 10 10 1 []),
        (3, scenarioDetail 10 10 1 []) ] with
    sche :=
      { newHotScheduler scenarioConf with
        regionPendings := fun id =>
          if id = 8 then
            some { movePeer := some { scenarioOperator with regionID := 8 }
                   transferLeader := none }
          else none } }

/-- A solver with small rates: store 1 at (3/5, 3/5), store 2 at (1/2, 1/2),
a peer of rate (1/10, 1/10) and hot thresholds 0, looking at the triple
(store 1, the peer, store 2). -/
def scenarioSmallRates : balanceSolver :=
  { scenarioAt rwType.write opType.movePeer (scenarioPeer (1 / 10) (1 / 10))
      [ (1, scenarioDetail (3 / 5) (3 / 5) 1 [scenarioPeer (1 / 10) (1 / 10)]),
        (2, scenarioDetail (1 / 2) (1 / 2) 1 []) ] with
    sche := newHotScheduler { scenarioConf with MinHotKeyRate := 0, MinHotByteRate := 0 } }

/-- An operator on region 7 that was created at time 0 and succeeded 50
seconds later. -/
def scenarioLateSuccess : Operator :=
  { scenarioOperator with status := OpStatus.SUCCESS, reachTime := 50000000000 }

/-- A scheduler that tracks the given operator in the `movePeer` slot of
region 7, under the configuration of the scenarios. -/
def scenarioTracking (op : Operator) : hotScheduler :=
  { newHotScheduler scenarioConf with
    regionPendings := fun id =>
      if id = 7 then some { movePeer := some op, transferLeader := none } else none }

/-- The solver of scenario 2 in a cluster that has a fourth store, known to
the cluster and a valid target, without statistics and so without load
detail. -/
def scenarioNewStoreSolver : balanceSolver :=
  { scenarioSolver rwType.write opType.movePeer (scenarioLoads (scenarioPeer 20 20)) with
    cluster :=
      { scenarioCluster with
        GetStore := fun id =>
          if id = 1 ∨ id = 2 ∨ id = 3 ∨ id = 4 then some { ID := id } else none
        GetStores := [{ ID := 1 }, { ID := 2 }, { ID := 3 }, { ID := 4 }] } }

/-- Two stores, both at the expectation (40, 40), each with a hot peer: the
boundary case of the source filter. -/
def scenarioBalancedSolver : balanceSolver :=
  scenarioSolver rwType.write opType.movePeer
    [ (1, scenarioDetail 40 40 2 [scenarioPeer 20 20]),
      (2, scenarioDetail 40 40 2 [scenarioPeerEight]) ]

/-- A peer of store 1 that is extreme in its byte rate (region 7). -/
def scenarioBytePeer : HotPeerStat :=
  { ptr := 1, RegionID := 7, StoreID := 1, isLeader := true, HotDegree := 3
    ByteRate := 10, KeyRate := 1 }

/-- A peer of store 1 that is extreme in its key rate (region 8). -/
def scenarioKeyPeer : HotPeerStat :=
  { ptr := 2, RegionID := 8, StoreID := 1, isLeader := true, HotDegree := 3
    ByteRate := 1, KeyRate := 10 }

/-- A solver with `max-peer-number` 1 that looks at store 1, which has the
two distinct hot peers `scenarioBytePeer` and `scenarioKeyPeer`. -/
def scenarioCapSolver : balanceSolver :=
  { scenarioSolver rwType.write opType.movePeer
      [ (1, scenarioDetail 100 100 5 [scenarioBytePeer, scenarioKeyPeer]),
        (2, scenarioDetail 10 10 1 []) ] with
    sche := newHotScheduler { scenarioConf with MaxPeerNumber := 1 }
    cur := { solution.zero with srcStoreID := 1 } }

/-- The byte rates of the three stores of the scenarios (also their key
rates). -/
def scenarioStoreRates : List (Nat × ℚ) := [(1, 100), (2, 10), (3, 10)]

/-- The statistics of the scenarios as `summaryStoresLoad` takes them: the key
rate of a store is its byte rate, nothing is pending, and store 1 has the hot
peer of rate (20, 20) and a peer of hot degree 1; store 9 has a hot peer but
no byte rate. -/
def scenarioSummary (rwTy : rwType) (kind : ResourceKind) : List (Nat × storeLoadDetail) :=
  summaryStoresLoad scenarioStoreRates
    (fun id => scenarioStoreRates.lookup id)
    (fun _ => none)
    (fun id =>
      if id = 1 then some [scenarioPeer 20 20, { scenarioPeerEight with HotDegree := 1 }]
      else if id = 9 then some [scenarioPeerEight]
      else none)
    3 rwTy kind

/-- A scheduler whose load details for write and movePeer hold one store, of
current load (10, 10, 1), that is predicted to fall to the byte rate -5 (more
is pending out of it than it has). -/
def scenarioDrained : balanceSolver :=
  { scenarioSolver rwType.write opType.movePeer [] with
    sche :=
      { newHotScheduler scenarioConf with
        stLoadInfos := fun rt =>
          if rt = resourceType.writePeer then
            [ (1, { LoadPred :=
                      { Current := { ByteRate := 10, KeyRate := 10, Count := 1 }
                        Future := { ByteRate := -5, KeyRate := 10, Count := 1 }
                        Expect := { ByteRate := 10, KeyRate := 10, Count := 1 } }
                    HotPeers := [] }) ]
          else [] } }

/-- Small rates under a configuration without a least hot rate: the source is
at 1/5, the peer at 1/2 and the destination idle, in both rates, so that the
source has less than the peer (its prediction counts what is pending out). -/
def scenarioTinySource : balanceSolver :=
  { scenarioAt rwType.write opType.movePeer (scenarioPeer (1 / 2) (1 / 2))
      [ (1, scenarioDetail (1 / 5) (1 / 5) 1 [scenarioPeer (1 / 2) (1 / 2)]),
        (2, scenarioDetail 0 0 0 []) ] with
    sche := newHotScheduler { scenarioConf with MinHotByteRate := 0, MinHotKeyRate := 0 } }

/-- A comparer of the scenarios: stores compare by half their ID, so that
stores 2 and 3 have one priority and stores 4 and 5 the next. -/
def scenarioLess (a b : StoreInfo) : Int := (a.ID / 2 : Nat) - (b.ID / 2 : Nat)

/-- A cluster of one store: store 1 at the rates (100, 100) with the hot peer
of rate (20, 20), and a pending influence of (5, 5, 1) on it; the load detail
is what `summaryStoresLoad` makes of these statistics. -/
def scenarioSingleStore : balanceSolver :=
  scenarioSolver rwType.write opType.movePeer
    (summaryStoresLoad [(1, 100)] (fun _ => some 100)
      (fun _ => some { ByteRate := 5, KeyRate := 5, Count := 1 })
      (fun id => if id = 1 then some [scenarioPeer 20 20] else none)
      3 rwType.write ResourceKind.RegionKind)

/-- A cluster view with the rates of scenario 2 for its three stores and no
hot peer at all. -/
def scenarioColdStats : StoresStats :=
  { StoresBytesReadStat := scenarioStoreRates
    StoresKeysReadStat := fun id => scenarioStoreRates.lookup id
    StoresBytesWriteStat := scenarioStoreRates
    StoresKeysWriteStat := fun id => scenarioStoreRates.lookup id
    RegionReadStats := fun _ => none
    RegionWriteStats := fun _ => none
    HotRegionCacheHitsThreshold := 3 }

/-- A `summaryPendingInfluence` for the scenarios: it leaves the set as it is
and sums nothing. -/
def scenarioSummaryPending (pendings : List pendingInfluence) (_weight : Operator → Option ℚ) :
    List pendingInfluence × List (Nat × Influence) :=
  (pendings, [])

/-- A solution of the scenarios: the hot peer of rate (20, 20) from store 1 to
the store `dst`, with the progressive rank `rank`. -/
def scenarioSolution (dst : Nat) (rank : Int) : solution :=
  { srcStoreID := 1, srcPeerStat := some (scenarioPeer 20 20)
    region := some (scenarioRegion 7), dstStoreID := dst, progressiveRank := rank }

/-! # Theorems -/

/-! ## Progressive rank -/

/-- C1: for every rwType and opType other than write with transferLeader,
when the source store, the destination store and the peer are there,
`calcProgressiveRank` returns and sets `progressiveRank` by first match over
the decline ratios it computed: -3 if byteHot, byteDec ≤ greatDec, keyHot and
keyDec ≤ greatDec; else -2 if byteDec ≤ minorDec, keyHot and keyDec ≤ greatDec;
else -1 if byteHot and byteDec ≤ greatDec; else 0. The rank is one of -3, -2,
-1, 0. -/
theorem calcProgressiveRank_first_match (bs : balanceSolver)
    (srcDetail dstDetail : storeLoadDetail) (peer : HotPeerStat)
    (hty : ¬ (bs.rwTy = rwType.write ∧ bs.opTy = opType.transferLeader))
    (hsrc : bs.stLoadDetail.lookup bs.cur.srcStoreID = some srcDetail)
    (hdst : bs.stLoadDetail.lookup bs.cur.dstStoreID = some dstDetail)
    (hpeer : bs.cur.srcPeerStat = some peer) :
    ∃ rank : Int,
      bs.calcProgressiveRank = .ok { bs with cur := { bs.cur with progressiveRank := rank } } ∧
      (rank = -3 ∨ rank = -2 ∨ rank = -1 ∨ rank = 0) ∧
      rank =
        (let srcLd := srcDetail.LoadPred.min
         let dstLd := dstDetail.LoadPred.max
         let keyDec := (dstLd.KeyRate + peer.KeyRate) / getSrcDecRate srcLd.KeyRate peer.KeyRate
         let byteDec := (dstLd.ByteRate + peer.ByteRate) / getSrcDecRate srcLd.ByteRate peer.ByteRate
         let keyHot := peer.KeyRate ≥ bs.sche.conf.MinHotKeyRate
         let byteHot := peer.ByteRate > bs.sche.conf.MinHotByteRate
         let greatDec := bs.sche.conf.GreatDecRatio
         let minorDec := bs.sche.conf.MinorGreatDecRatio
         if byteHot ∧ byteDec ≤ greatDec ∧ keyHot ∧ keyDec ≤ greatDec then -3
         else if byteDec ≤ minorDec ∧ keyHot ∧ keyDec ≤ greatDec then -2
         else if byteHot ∧ byteDec ≤ greatDec then -1
         else 0) := by
  refine ⟨_, ?_, ?_, rfl⟩
  · simp only [balanceSolver.calcProgressiveRank, hsrc, hdst, hpeer, deref, if_neg hty]
    simp only [decide_eq_true_eq]
  · simp only
    split_ifs <;> simp

/-- The rank that `calcProgressiveRank` leaves in `cur`, when it returns. -/
theorem rank_of_ok (bs : balanceSolver) (rank : Int) :
    Except.map (fun b => b.cur.progressiveRank)
      (Except.ok { bs with cur := { bs.cur with progressiveRank := rank } } :
        Except Fault balanceSolver) = .ok rank := rfl

/-- Witness of C1 (scenarios 2 and 1 of the specification): store 1 at
(100, 100), store 2 at (10, 10). A peer of rate (20, 20) has both decline
ratios at 0.375 and rank -3; a peer of rate (50, 50) has a byte decline ratio
of 1.2 and rank 0. -/
theorem calcProgressiveRank_first_match_witness :
    Except.map (fun b => b.cur.progressiveRank)
      (scenarioAt rwType.write opType.movePeer (scenarioPeer 20 20)
        (scenarioLoads (scenarioPeer 20 20))).calcProgressiveRank = .ok (-3) ∧
    Except.map (fun b => b.cur.progressiveRank)
      (scenarioAt rwType.write opType.movePeer (scenarioPeer 50 50)
        (scenarioLoads (scenarioPeer 50 50))).calcProgressiveRank = .ok 0 := by
  constructor
  · obtain ⟨rank, h1, _, h3⟩ := calcProgressiveRank_first_match
      (scenarioAt rwType.write opType.movePeer (scenarioPeer 20 20)
          (scenarioLoads (scenarioPeer 20 20)))
      (scenarioDetail 100 100 5 [scenarioPeer 20 20]) (scenarioDetail 10 10 1 [])
      (scenarioPeer 20 20) (by decide) (by rfl) (by rfl) (by rfl)
    rw [h1, rank_of_ok, h3]
    simp [scenarioDetail, scenarioPeer, scenarioAt, scenarioSolver, newHotScheduler,
      scenarioConf, storeLoadPred.min, storeLoadPred.max, minLoad, maxLoad, getSrcDecRate]
    norm_num
  · obtain ⟨rank, h1, _, h3⟩ := calcProgressiveRank_first_match
      (scenarioAt rwType.write opType.movePeer (scenarioPeer 50 50)
          (scenarioLoads (scenarioPeer 50 50)))
      (scenarioDetail 100 100 5 [scenarioPeer 50 50]) (scenarioDetail 10 10 1 [])
      (scenarioPeer 50 50) (by decide) (by rfl) (by rfl) (by rfl)
    rw [h1, rank_of_ok, h3]
    simp [scenarioDetail, scenarioPeer, scenarioAt, scenarioSolver, newHotScheduler,
      scenarioConf, storeLoadPred.min, storeLoadPred.max, minLoad, maxLoad, getSrcDecRate]
    norm_num

/-- C2: for write with transferLeader, when the source store, the destination
store and the peer are there, `calcProgressiveRank` returns and sets
`progressiveRank` to -1 if and only if srcLd.KeyRate ≥ dstLd.KeyRate +
peer.KeyRate, and to 0 otherwise, whatever the byte rates and the thresholds
of the configuration. -/
theorem calcProgressiveRank_write_leader (bs : balanceSolver)
    (srcDetail dstDetail : storeLoadDetail) (peer : HotPeerStat)
    (hrw : bs.rwTy = rwType.write) (hop : bs.opTy = opType.transferLeader)
    (hsrc : bs.stLoadDetail.lookup bs.cur.srcStoreID = some srcDetail)
    (hdst : bs.stLoadDetail.lookup bs.cur.dstStoreID = some dstDetail)
    (hpeer : bs.cur.srcPeerStat = some peer) :
    ∃ rank : Int,
      bs.calcProgressiveRank = .ok { bs with cur := { bs.cur with progressiveRank := rank } } ∧
      (rank = -1 ↔
        srcDetail.LoadPred.min.KeyRate ≥ dstDetail.LoadPred.max.KeyRate + peer.KeyRate) ∧
      (rank = 0 ↔
        ¬ srcDetail.LoadPred.min.KeyRate ≥ dstDetail.LoadPred.max.KeyRate + peer.KeyRate) := by
  refine ⟨if srcDetail.LoadPred.min.KeyRate ≥ dstDetail.LoadPred.max.KeyRate + peer.KeyRate
    then -1 else 0, ?_, ?_, ?_⟩
  · simp only [balanceSolver.calcProgressiveRank, hsrc, hdst, hpeer, deref, hrw, hop,
      and_self, if_true]
  · split_ifs with h <;> simp [h]
  · split_ifs with h <;> simp [h]

/-- Witness of C2 (scenario 6 of the specification): key rate 100 on the
source and 50 on the destination give rank -1 for a peer of key rate 20 and
of key rate 40, and rank 0 for a peer of key rate 60. -/
theorem calcProgressiveRank_write_leader_witness :
    Except.map (fun b => b.cur.progressiveRank)
      (scenarioAt rwType.write opType.transferLeader (scenarioPeer 20 20)
        (scenarioKeyLoads (scenarioPeer 20 20))).calcProgressiveRank = .ok (-1) ∧
    Except.map (fun b => b.cur.progressiveRank)
      (scenarioAt rwType.write opType.transferLeader (scenarioPeer 40 40)
        (scenarioKeyLoads (scenarioPeer 40 40))).calcProgressiveRank = .ok (-1) ∧
    Except.map (fun b => b.cur.progressiveRank)
      (scenarioAt rwType.write opType.transferLeader (scenarioPeer 60 60)
        (scenarioKeyLoads (scenarioPeer 60 60))).calcProgressiveRank = .ok 0 := by
  refine ⟨?_, ?_, ?_⟩
  · obtain ⟨rank, h1, h2, _⟩ := calcProgressiveRank_write_leader
      (scenarioAt rwType.write opType.transferLeader (scenarioPeer 20 20)
        (scenarioKeyLoads (scenarioPeer 20 20)))
      (scenarioDetail 100 100 5 [scenarioPeer 20 20]) (scenarioDetail 50 50 1 [])
      (scenarioPeer 20 20) rfl rfl (by rfl) (by rfl) (by rfl)
    rw [h1, rank_of_ok, h2.mpr]
    simp [scenarioDetail, scenarioPeer, storeLoadPred.min, storeLoadPred.max, minLoad, maxLoad]
    norm_num
  · obtain ⟨rank, h1, h2, _⟩ := calcProgressiveRank_write_leader
      (scenarioAt rwType.write opType.transferLeader (scenarioPeer 40 40)
        (scenarioKeyLoads (scenarioPeer 40 40)))
      (scenarioDetail 100 100 5 [scenarioPeer 40 40]) (scenarioDetail 50 50 1 [])
      (scenarioPeer 40 40) rfl rfl (by rfl) (by rfl) (by rfl)
    rw [h1, rank_of_ok, h2.mpr]
    simp [scenarioDetail, scenarioPeer, storeLoadPred.min, storeLoadPred.max, minLoad, maxLoad]
    norm_num
  · obtain ⟨rank, h1, _, h3⟩ := calcProgressiveRank_write_leader
      (scenarioAt rwType.write opType.transferLeader (scenarioPeer 60 60)
        (scenarioKeyLoads (scenarioPeer 60 60)))
      (scenarioDetail 100 100 5 [scenarioPeer 60 60]) (scenarioDetail 50 50 1 [])
      (scenarioPeer 60 60) rfl rfl (by rfl) (by rfl) (by rfl)
    rw [h1, rank_of_ok, h3.mpr]
    simp [scenarioDetail, scenarioPeer, storeLoadPred.min, storeLoadPred.max, minLoad, maxLoad]
    norm_num

/-! ## Pending tables -/

theorem transferLeader_ne_movePeer : opType.transferLeader ≠ opType.movePeer := by decide

theorem movePeer_ne_transferLeader : opType.movePeer ≠ opType.transferLeader := by decide

theorem read_ne_write : rwType.read ≠ rwType.write := by decide

theorem write_ne_read : rwType.write ≠ rwType.read := by decide

/-- C5: `addPendingInfluence` returns false when the region of the operator
has an entry in `regionPendings`, whatever the types, and then leaves the
scheduler (pendings of every resource type and `regionPendings`) as it was;
it returns false in no other case; and when the region has no entry it
returns true, for each of the four combinations of rwType and opType. -/
theorem addPendingInfluence_rejects_iff (h : hotScheduler) (op : Operator)
    (srcStore dstStore : Nat) (infl : Influence) (rwTy : rwType) (opTy : opType) :
    ((h.regionPendings op.regionID).isSome = true →
      h.addPendingInfluence op srcStore dstStore infl rwTy opTy = .ok (false, h)) ∧
    (∀ h2, h.addPendingInfluence op srcStore dstStore infl rwTy opTy = .ok (false, h2) →
      (h.regionPendings op.regionID).isSome = true ∧ h2 = h) ∧
    (h.regionPendings op.regionID = none →
      (rwTy = rwType.write ∨ rwTy = rwType.read) →
      (opTy = opType.movePeer ∨ opTy = opType.transferLeader) →
      ∃ h2, h.addPendingInfluence op srcStore dstStore infl rwTy opTy = .ok (true, h2)) := by
  refine ⟨?_, ?_, ?_⟩
  · intro hs
    obtain ⟨s, hs⟩ := Option.isSome_iff_exists.mp hs
    simp [hotScheduler.addPendingInfluence, hs]
  · intro h2 heq
    cases hs : h.regionPendings op.regionID with
    | some s =>
      simp [hotScheduler.addPendingInfluence, hs] at heq
      exact ⟨rfl, heq.symm⟩
    | none =>
      simp only [hotScheduler.addPendingInfluence, hs] at heq
      split at heq
      · cases heq
      · split at heq
        · cases heq
        · simp at heq
  · intro hs hrw hop
    rcases hrw with hrw | hrw <;> rcases hop with hop | hop <;>
      subst hrw <;> subst hop <;>
      simp [hotScheduler.addPendingInfluence, hs, toResourceType, RegionSlots.set,
        transferLeader_ne_movePeer, read_ne_write]

theorem slotsInhabited_new (conf : hotRegionSchedulerConfig) :
    slotsInhabited (newHotScheduler conf) := by
  intro id slots hs
  simp [newHotScheduler] at hs

theorem slotsInhabited_gc (h : hotScheduler) (now : Int) :
    slotsInhabited (h.gcRegionPendings now) := by
  intro id slots hs
  simp only [hotScheduler.gcRegionPendings] at hs
  cases hr : h.regionPendings id with
  | none => simp [hr] at hs
  | some s =>
    simp only [hr, Option.bind, gcRegion] at hs
    split_ifs at hs with he
    cases hs
    simp only [Bool.and_eq_true, not_and, Option.isNone_iff_eq_none] at he
    simp only
    by_cases h0 : gcSlot h.conf.MaxZombieDuration now s.movePeer = none
    · right
      have := he h0
      exact Option.ne_none_iff_isSome.mp this
    · left
      exact Option.ne_none_iff_isSome.mp h0

theorem slotsInhabited_add (h : hotScheduler) (hinv : slotsInhabited h) (op : Operator)
    (srcStore dstStore : Nat) (infl : Influence) (rwTy : rwType) (opTy : opType)
    (b : Bool) (h2 : hotScheduler)
    (hadd : h.addPendingInfluence op srcStore dstStore infl rwTy opTy = .ok (b, h2)) :
    slotsInhabited h2 := by
  simp only [hotScheduler.addPendingInfluence] at hadd
  cases hr : h.regionPendings op.regionID with
  | some s =>
    simp only [hr, Except.ok.injEq, Prod.mk.injEq] at hadd
    rw [← hadd.2]
    exact hinv
  | none =>
    simp only [hr] at hadd
    cases hrt : toResourceType rwTy opTy with
    | error e => simp [hrt] at hadd
    | ok rt =>
      simp only [hrt] at hadd
      cases hset : RegionSlots.set { movePeer := none, transferLeader := none } opTy (some op) with
      | error e => simp [hset] at hadd
      | ok tmp =>
        simp only [hset, Except.ok.injEq, Prod.mk.injEq] at hadd
        rw [← hadd.2]
        intro id slots hs
        simp only [Function.update_apply] at hs
        split_ifs at hs with hid
        · cases hs
          simp only [RegionSlots.set] at hset
          split_ifs at hset <;> cases hset <;> simp
        · exact hinv id slots hs

theorem slotsInhabited_step (h : hotScheduler) (hinv : slotsInhabited h) (a : Action)
    (h2 : hotScheduler) (hstep : h.step a = .ok h2) : slotsInhabited h2 := by
  cases a with
  | addPendingInfluence op srcStore dstStore infl rwTy opTy =>
    simp only [hotScheduler.step] at hstep
    cases hadd : h.addPendingInfluence op srcStore dstStore infl rwTy opTy with
    | error e => simp [hadd] at hstep
    | ok r =>
      obtain ⟨b, h3⟩ := r
      simp only [hadd, Except.ok.injEq] at hstep
      subst hstep
      exact slotsInhabited_add h hinv op srcStore dstStore infl rwTy opTy b h3 hadd
  | gcRegionPendings now =>
    simp only [hotScheduler.step, Except.ok.injEq] at hstep
    subst hstep
    exact slotsInhabited_gc h now
  | clearPendingInfluence =>
    simp only [hotScheduler.step, Except.ok.injEq] at hstep
    subst hstep
    intro id slots hs
    simp [hotScheduler.clearPendingInfluence] at hs
  | advance status expired timedOut reachTime =>
    simp only [hotScheduler.step, Except.ok.injEq] at hstep
    subst hstep
    intro id slots hs
    simp only [Option.map_eq_some'] at hs
    obtain ⟨s, hs1, hs2⟩ := hs
    subst hs2
    have := hinv id s hs1
    simpa using this

theorem slotsInhabited_run (acts : List Action) (h : hotScheduler) (hinv : slotsInhabited h)
    (h2 : hotScheduler) (hrun : h.run acts = .ok h2) : slotsInhabited h2 := by
  induction acts generalizing h with
  | nil =>
    simp only [hotScheduler.run, Except.ok.injEq] at hrun
    subst hrun
    exact hinv
  | cons a rest ih =>
    simp only [hotScheduler.run] at hrun
    cases hstep : h.step a with
    | error e => simp [hstep] at hrun
    | ok h3 =>
      simp only [hstep] at hrun
      exact ih h3 (slotsInhabited_step h hinv a h3 hstep) hrun

/-- C6: in every state that a new scheduler reaches by a sequence of
`addPendingInfluence`, `gcRegionPendings` and `clearPendingInfluence` (and of
status changes of the tracked operators in between), every region with an
entry in `regionPendings` has an operator in at least one of its slots. -/
theorem regionPendings_slot_inhabited (conf : hotRegionSchedulerConfig) (acts : List Action)
    (h : hotScheduler) (hrun : (newHotScheduler conf).run acts = .ok h)
    (id : Nat) (slots : RegionSlots) (hs : h.regionPendings id = some slots) :
    slots.movePeer.isSome = true ∨ slots.transferLeader.isSome = true :=
  slotsInhabited_run acts (newHotScheduler conf) (slotsInhabited_new conf) h hrun id slots hs

/-- Witness of C6: after the run `scenarioActions` region 7 has an entry, and
its slot of `movePeer` holds the operator. -/
theorem regionPendings_slot_inhabited_witness :
    ∃ h slots, (newHotScheduler scenarioConf).run scenarioActions = .ok h ∧
      h.regionPendings 7 = some slots ∧
      (slots.movePeer.isSome = true ∨ slots.transferLeader.isSome = true) :=
  ⟨_, _, rfl, rfl,
    regionPendings_slot_inhabited scenarioConf scenarioActions _ rfl 7 _ rfl⟩

/-! ## Weight of a pending operator -/

/-- C7: `calcPendingWeight` follows the weight table in this order: 0 if the
operator is expired or timed out, whatever its status; else 1 if its status is
not an end status; else, for status SUCCESS with zombie age d = now - reach
time, 0 when d ≥ maxZombieDuration and (maxZombieDuration - d) /
maxZombieDuration when d < maxZombieDuration (a quotient that is no number
when maxZombieDuration is 0, which takes a negative d); and 0 for any other
end status. -/
theorem calcPendingWeight_table (h : hotScheduler) (now : Int) (op : Operator) :
    ((op.expired = true ∨ op.timedOut = true) → h.calcPendingWeight now op = some 0) ∧
    (op.expired = false → op.timedOut = false → IsEndStatus op.status = false →
      h.calcPendingWeight now op = some 1) ∧
    (op.expired = false → op.timedOut = false → op.status = OpStatus.SUCCESS →
      now - op.reachTime ≥ h.conf.MaxZombieDuration → h.calcPendingWeight now op = some 0) ∧
    (op.expired = false → op.timedOut = false → op.status = OpStatus.SUCCESS →
      now - op.reachTime < h.conf.MaxZombieDuration → h.conf.MaxZombieDuration ≠ 0 →
      h.calcPendingWeight now op =
        some (((h.conf.MaxZombieDuration - (now - op.reachTime) : Int) : ℚ) /
          (h.conf.MaxZombieDuration : ℚ))) ∧
    (op.expired = false → op.timedOut = false → op.status = OpStatus.SUCCESS →
      now - op.reachTime < h.conf.MaxZombieDuration → h.conf.MaxZombieDuration = 0 →
      h.calcPendingWeight now op = none) ∧
    (op.expired = false → op.timedOut = false → IsEndStatus op.status = true →
      op.status ≠ OpStatus.SUCCESS → h.calcPendingWeight now op = some 0) := by
  refine ⟨?_, ?_, ?_, ?_, ?_, ?_⟩
  · intro hx
    rcases hx with hx | hx <;> simp [hotScheduler.calcPendingWeight, hx]
  · intro he ht hs
    simp [hotScheduler.calcPendingWeight, he, ht, hs]
  · intro he ht hs hd
    simp [hotScheduler.calcPendingWeight, he, ht, hs, IsEndStatus, hd]
  · intro he ht hs hd hz
    have hd2 : ¬ (h.conf.MaxZombieDuration ≤ now - op.reachTime) := not_le.mpr hd
    have hz2 : ((h.conf.MaxZombieDuration : Int) : ℚ) ≠ 0 := by exact_mod_cast hz
    simp [hotScheduler.calcPendingWeight, he, ht, hs, IsEndStatus, hd2, fdiv, hz2]
  · intro he ht hs hd hz
    have hd2 : ¬ (h.conf.MaxZombieDuration ≤ now - op.reachTime) := not_le.mpr hd
    simp [hotScheduler.calcPendingWeight, he, ht, hs, IsEndStatus, hd2, fdiv, hz]
    omega
  · intro he ht hs hn
    cases hst : op.status <;> simp_all [hotScheduler.calcPendingWeight, IsEndStatus]

/-- Range of `calcPendingWeight` on the clock readings that are not before the
time the operator reached its status: for every operator and every configured
maxZombieDuration (zero and negative values too) it returns a number (no zero
divisor) and the number lies in the closed interval [0, 1]. -/
theorem calcPendingWeight_range (h : hotScheduler) (now : Int) (op : Operator)
    (hclock : op.reachTime ≤ now) :
    ∃ w : ℚ, h.calcPendingWeight now op = some w ∧ 0 ≤ w ∧ w ≤ 1 := by
  by_cases hx : (op.expired || op.timedOut) = true
  · exact ⟨0, by simp only [hotScheduler.calcPendingWeight, hx, if_true], le_refl _, zero_le_one⟩
  by_cases hs : IsEndStatus op.status = true
  swap
  · refine ⟨1, ?_, zero_le_one, le_refl _⟩
    simp only [hotScheduler.calcPendingWeight, hx]
    simp [hs]
  by_cases hst : op.status = OpStatus.SUCCESS
  swap
  · refine ⟨0, ?_, le_refl _, zero_le_one⟩
    simp only [hotScheduler.calcPendingWeight, hx]
    cases hst2 : op.status <;> simp_all [IsEndStatus]
  by_cases hd : now - op.reachTime ≥ h.conf.MaxZombieDuration
  · refine ⟨0, ?_, le_refl _, zero_le_one⟩
    simp only [hotScheduler.calcPendingWeight, hx]
    simp [hst, IsEndStatus, hd]
  · have hd2 : now - op.reachTime < h.conf.MaxZombieDuration := not_le.mp hd
    have hpos : (0 : Int) < h.conf.MaxZombieDuration := by omega
    have hposq : (0 : ℚ) < (h.conf.MaxZombieDuration : ℚ) := by exact_mod_cast hpos
    have hnum0 : (0 : ℚ) ≤ ((h.conf.MaxZombieDuration - (now - op.reachTime) : Int) : ℚ) := by
      have : (0 : Int) ≤ h.conf.MaxZombieDuration - (now - op.reachTime) := by omega
      exact_mod_cast this
    have hnum1 : ((h.conf.MaxZombieDuration - (now - op.reachTime) : Int) : ℚ) ≤
        (h.conf.MaxZombieDuration : ℚ) := by
      have : h.conf.MaxZombieDuration - (now - op.reachTime) ≤ h.conf.MaxZombieDuration := by
        omega
      exact_mod_cast this
    refine ⟨_, ?_, div_nonneg hnum0 hposq.le, (div_le_one hposq).mpr hnum1⟩
    simp only [hotScheduler.calcPendingWeight, hx]
    have hd3 : ¬ (h.conf.MaxZombieDuration ≤ now - op.reachTime) := hd
    simp [hst, IsEndStatus, hd3, fdiv, hposq.ne']

/-- The range at a concrete reading: 30 seconds after the operator succeeded,
with a zombie duration of 60 seconds, the weight is a number of [0, 1]. -/
theorem calcPendingWeight_range_scenario :
    scenarioSucceeded.reachTime ≤ 30000000000 ∧
    ∃ w : ℚ, (newHotScheduler scenarioConf).calcPendingWeight 30000000000 scenarioSucceeded =
      some w ∧ 0 ≤ w ∧ w ≤ 1 :=
  ⟨by decide,
    calcPendingWeight_range (newHotScheduler scenarioConf) 30000000000 scenarioSucceeded
      (by decide)⟩

/-- C9 as stated fails: with maxZombieDuration = 0 a succeeded operator (not
expired, not timed out) has weight 0 at zombie age 0, not 1. -/
theorem calcPendingWeight_zero_duration_counterexample :
    scenarioSucceeded.status = OpStatus.SUCCESS ∧ scenarioSucceeded.expired = false ∧
    scenarioSucceeded.timedOut = false ∧
    (0 : Int) - scenarioSucceeded.reachTime = 0 ∧
    (newHotScheduler { scenarioConf with MaxZombieDuration := 0 }).calcPendingWeight 0
      scenarioSucceeded = some 0 ∧
    (newHotScheduler { scenarioConf with MaxZombieDuration := 0 }).calcPendingWeight 0
      scenarioSucceeded ≠ some 1 := by
  refine ⟨rfl, rfl, rfl, by decide, ?_, ?_⟩ <;>
    simp [hotScheduler.calcPendingWeight, scenarioSucceeded, scenarioOperator, IsEndStatus,
      newHotScheduler, scenarioConf]

/-- C9, amended: for an operator with status SUCCESS (not expired, not timed
out), `calcPendingWeight` is 1 at zombie age 0 when maxZombieDuration > 0; is
0 at every zombie age ≥ maxZombieDuration, for every maxZombieDuration; is
strictly decreasing in the zombie age between 0 and maxZombieDuration; and is
(maxZombieDuration - d) / maxZombieDuration at a zombie age d of that range. -/
theorem calcPendingWeight_decay (h : hotScheduler) (op : Operator)
    (hs : op.status = OpStatus.SUCCESS) (he : op.expired = false) (ht : op.timedOut = false) :
    (0 < h.conf.MaxZombieDuration → h.calcPendingWeight op.reachTime op = some 1) ∧
    (∀ now, now - op.reachTime ≥ h.conf.MaxZombieDuration →
      h.calcPendingWeight now op = some 0) ∧
    (∀ now1 now2, 0 ≤ now1 - op.reachTime → now1 - op.reachTime < now2 - op.reachTime →
      now2 - op.reachTime < h.conf.MaxZombieDuration →
      ∃ w1 w2 : ℚ, h.calcPendingWeight now1 op = some w1 ∧
        h.calcPendingWeight now2 op = some w2 ∧ w2 < w1) ∧
    (∀ now, 0 ≤ now - op.reachTime → now - op.reachTime < h.conf.MaxZombieDuration →
      h.calcPendingWeight now op =
        some (((h.conf.MaxZombieDuration - (now - op.reachTime) : Int) : ℚ) /
          (h.conf.MaxZombieDuration : ℚ))) := by
  have formula : ∀ now, now - op.reachTime < h.conf.MaxZombieDuration →
      h.conf.MaxZombieDuration ≠ 0 →
      h.calcPendingWeight now op =
        some (((h.conf.MaxZombieDuration - (now - op.reachTime) : Int) : ℚ) /
          (h.conf.MaxZombieDuration : ℚ)) := by
    intro now hd hz
    have hd2 : ¬ (h.conf.MaxZombieDuration ≤ now - op.reachTime) := not_le.mpr hd
    have hz2 : ((h.conf.MaxZombieDuration : Int) : ℚ) ≠ 0 := by exact_mod_cast hz
    simp [hotScheduler.calcPendingWeight, he, ht, hs, IsEndStatus, hd2, fdiv, hz2]
  refine ⟨?_, ?_, ?_, ?_⟩
  · intro hpos
    rw [formula op.reachTime (by omega) (by omega)]
    have hz2 : ((h.conf.MaxZombieDuration : Int) : ℚ) ≠ 0 := by
      have : h.conf.MaxZombieDuration ≠ 0 := by omega
      exact_mod_cast this
    simp [hz2]
  · intro now hd
    simp [hotScheduler.calcPendingWeight, he, ht, hs, IsEndStatus, hd]
  · intro now1 now2 h0 h12 h2
    have hpos : (0 : Int) < h.conf.MaxZombieDuration := by omega
    have hposq : (0 : ℚ) < (h.conf.MaxZombieDuration : ℚ) := by exact_mod_cast hpos
    refine ⟨_, _, formula now1 (by omega) (by omega), formula now2 h2 (by omega), ?_⟩
    apply div_lt_div_of_pos_right _ hposq
    have : h.conf.MaxZombieDuration - (now2 - op.reachTime) <
        h.conf.MaxZombieDuration - (now1 - op.reachTime) := by omega
    exact_mod_cast this
  · intro now h0 hd
    exact formula now hd (by omega)

/-- Witness of C9 (scenario 5 of the specification): with a zombie duration
of 60 seconds the weight of a succeeded operator is 1 at age 0, 1/2 at 30
seconds and 0 at 60 seconds. -/
theorem calcPendingWeight_decay_witness :
    (newHotScheduler scenarioConf).calcPendingWeight 0 scenarioSucceeded = some 1 ∧
    (newHotScheduler scenarioConf).calcPendingWeight 30000000000 scenarioSucceeded =
      some (1 / 2) ∧
    (newHotScheduler scenarioConf).calcPendingWeight 60000000000 scenarioSucceeded = some 0 := by
  have key := calcPendingWeight_decay (newHotScheduler scenarioConf) scenarioSucceeded rfl rfl rfl
  refine ⟨key.1 (by decide), ?_, key.2.1 60000000000 (by decide)⟩
  rw [key.2.2.2 30000000000 (by decide) (by decide)]
  simp [scenarioSucceeded, scenarioOperator, newHotScheduler, scenarioConf]
  norm_num

/-! ## Collection of the region table -/

theorem gcSlot_none_iff (maxZombieDuration now : Int) (op : Operator) :
    gcSlot maxZombieDuration now (some op) = none ↔
      (op.IsEnd = true ∧ now > op.createTime + maxZombieDuration) := by
  simp only [gcSlot]
  split_ifs with hc
  · simpa using hc
  · simp only [Bool.and_eq_true, decide_eq_true_eq] at hc
    simpa using hc

theorem gcSlot_keeps (maxZombieDuration now : Int) (slot : Option Operator)
    (hk : gcSlot maxZombieDuration now slot ≠ none) :
    gcSlot maxZombieDuration now slot = slot := by
  cases slot with
  | none => rfl
  | some op =>
    simp only [gcSlot] at hk ⊢
    split_ifs at hk ⊢ with hc
    · exact absurd rfl hk
    · rfl

/-- C10: `gcRegionPendings` adds no entry; and for a region with an entry
there are slots `m` (movePeer) and `t` (transferLeader) after the call such
that a slot with an operator is nil afterwards exactly when the operator has
ended and the clock is strictly after its create time plus
maxZombieDuration, a nil slot stays nil, every slot that is not nil
afterwards still holds its operator, and the entry is removed exactly when
both slots are nil afterwards and otherwise holds `m` and `t`. -/
theorem gcRegionPendings_spec (h : hotScheduler) (now : Int) (id : Nat) :
    (h.regionPendings id = none → (h.gcRegionPendings now).regionPendings id = none) ∧
    (∀ slots, h.regionPendings id = some slots →
      ∃ m t : Option Operator,
        (∀ op, slots.movePeer = some op →
          (m = none ↔ (op.IsEnd = true ∧ now > op.createTime + h.conf.MaxZombieDuration))) ∧
        (∀ op, slots.transferLeader = some op →
          (t = none ↔ (op.IsEnd = true ∧ now > op.createTime + h.conf.MaxZombieDuration))) ∧
        (slots.movePeer = none → m = none) ∧
        (slots.transferLeader = none → t = none) ∧
        (m ≠ none → m = slots.movePeer) ∧
        (t ≠ none → t = slots.transferLeader) ∧
        ((h.gcRegionPendings now).regionPendings id = none ↔ (m = none ∧ t = none)) ∧
        (¬ (m = none ∧ t = none) →
          (h.gcRegionPendings now).regionPendings id =
            some { movePeer := m, transferLeader := t })) := by
  constructor
  · intro hn
    simp [hotScheduler.gcRegionPendings, hn]
  · intro slots hs
    refine ⟨gcSlot h.conf.MaxZombieDuration now slots.movePeer,
      gcSlot h.conf.MaxZombieDuration now slots.transferLeader, ?_, ?_, ?_, ?_, ?_, ?_, ?_, ?_⟩
    · intro op hop
      rw [hop]
      exact gcSlot_none_iff _ _ _
    · intro op hop
      rw [hop]
      exact gcSlot_none_iff _ _ _
    · intro hn
      rw [hn]
      rfl
    · intro hn
      rw [hn]
      rfl
    · exact gcSlot_keeps _ _ _
    · exact gcSlot_keeps _ _ _
    · simp only [hotScheduler.gcRegionPendings, hs, Option.bind, gcRegion]
      split_ifs with he
      · simpa using he
      · simp only [Bool.and_eq_true, Option.isNone_iff_eq_none] at he
        simp [he]
    · intro hne
      simp only [hotScheduler.gcRegionPendings, hs, Option.bind, gcRegion]
      split_ifs with he
      · simp only [Bool.and_eq_true, Option.isNone_iff_eq_none] at he
        exact absurd he hne
      · rfl

/-! ## The solver -/

theorem calcProgressiveRank_cur (bs bs2 : balanceSolver) (hc : bs.calcProgressiveRank = .ok bs2) :
    ∃ rank : Int, bs2 = { bs with cur := { bs.cur with progressiveRank := rank } } := by
  simp only [balanceSolver.calcProgressiveRank] at hc
  cases h1 : deref (bs.stLoadDetail.lookup bs.cur.srcStoreID) with
  | error e => simp [h1] at hc
  | ok d1 =>
    cases h2 : deref (bs.stLoadDetail.lookup bs.cur.dstStoreID) with
    | error e => simp [h1, h2] at hc
    | ok d2 =>
      cases h3 : deref bs.cur.srcPeerStat with
      | error e => simp [h1, h2, h3] at hc
      | ok p =>
        simp only [h1, h2, h3, Except.ok.injEq] at hc
        exact ⟨_, hc.symm⟩

theorem finishOperator_shape (made : Option Operator) (p : HotPeerStat) :
    (finishOperator made p).1.length ≤ 1 ∧
    (finishOperator made p).2.length = (finishOperator made p).1.length := by
  cases made <;> simp [finishOperator]

theorem isReadyToBuild_ready (bs : balanceSolver) (hr : bs.isReadyToBuild = true) :
    bs.cur.ready := by
  simp only [balanceSolver.isReadyToBuild] at hr
  split_ifs at hr with h0
  simp only [not_or] at h0
  cases hp : bs.cur.srcPeerStat with
  | none => simp [hp] at hr
  | some peer =>
    cases hg : bs.cur.region with
    | none => simp [hp, hg] at hr
    | some region =>
      simp only [hp, hg] at hr
      split_ifs at hr with h1
      simp only [not_or, not_not] at h1
      exact ⟨h0.1, h0.2, peer, region, hp, hg, h1.1.symm, h1.2⟩

theorem buildOperators_shape (bs : balanceSolver) (ops : List Operator) (infls : List Influence)
    (hb : bs.buildOperators = .ok (ops, infls)) :
    ops.length ≤ 1 ∧ infls.length = ops.length ∧ (ops ≠ [] → bs.isReadyToBuild = true) := by
  have hnil : (Except.ok ([], []) : Except Fault (List Operator × List Influence)) =
      .ok (ops, infls) →
      ops.length ≤ 1 ∧ infls.length = ops.length ∧ (ops ≠ [] → bs.isReadyToBuild = true) := by
    intro h
    simp only [Except.ok.injEq, Prod.mk.injEq] at h
    obtain ⟨h1, h2⟩ := h
    subst h1
    subst h2
    simp
  unfold balanceSolver.buildOperators at hb
  by_cases hr : bs.isReadyToBuild = true
  swap
  · simp only [hr, Bool.not_false, if_true] at hb
    exact hnil hb
  · simp only [hr, Bool.not_true, Bool.false_eq_true, if_false] at hb
    cases hg : deref bs.cur.region with
    | error e => simp [hg] at hb
    | ok region =>
      cases hp : deref bs.cur.srcPeerStat with
      | error e => simp [hg, hp] at hb
      | ok peer =>
        simp only [hg, hp] at hb
        by_cases hm : bs.opTy = opType.movePeer
        · simp only [hm, if_true] at hb
          cases hsp : deref (region.GetStorePeer bs.cur.srcStoreID) with
          | error e => simp [hsp] at hb
          | ok srcPeer =>
            simp only [hsp, Except.ok.injEq] at hb
            have := finishOperator_shape
              (bs.cluster.CreateMovePeerOperator region bs.cur.srcStoreID
                { StoreId := bs.cur.dstStoreID, Role := srcPeer.Role }) peer
            rw [hb] at this
            exact ⟨this.1, this.2, fun _ => hr⟩
        · simp only [hm, if_false] at hb
          by_cases ht : bs.opTy = opType.transferLeader
          · simp only [ht, if_true] at hb
            by_cases hv : (region.GetStoreVoter bs.cur.dstStoreID).isNone = true
            · simp only [hv, if_true] at hb
              exact hnil hb
            · simp only [hv, Bool.false_eq_true, if_false, Except.ok.injEq] at hb
              have := finishOperator_shape
                (bs.cluster.CreateTransferLeaderOperator region bs.cur.srcStoreID
                  bs.cur.dstStoreID) peer
              rw [hb] at this
              exact ⟨this.1, this.2, fun _ => hr⟩
          · simp [ht] at hb

theorem solveDstLoop_inv (base : balanceSolver) (dsts : List Nat) :
    ∀ st st2 : solveState, solveDstLoop st dsts = .ok st2 → solveInv base st →
      st.bs.cur.unpending base.sche →
      solveInv base st2 := by
  induction dsts with
  | nil =>
    intro st st2 hl hinv _
    simp only [solveDstLoop, Except.ok.injEq] at hl
    subst hl
    exact hinv
  | cons d rest ih =>
    intro st st2 hl hinv hun
    simp only [solveDstLoop] at hl
    cases hc : balanceSolver.calcProgressiveRank
        { st.bs with cur := { st.bs.cur with dstStoreID := d } } with
    | error e => simp [hc] at hl
    | ok bs2 =>
      obtain ⟨rank, hbs2⟩ := calcProgressiveRank_cur _ _ hc
      simp only [hc] at hl
      have hbase : bs2 = { base with cur := bs2.cur } := by
        rw [hbs2, hinv.1]
      have hun2 : bs2.cur.unpending base.sche := by
        rw [hbs2]
        exact hun
      have keep : solveInv base { st with bs := bs2 } :=
        ⟨hbase, hinv.2.1, hinv.2.2.1, hinv.2.2.2⟩
      split_ifs at hl with hneg
      · cases hbt : bs2.betterThan st.best with
        | error e => simp [hbt] at hl
        | ok better =>
          cases better with
          | false =>
            simp only [hbt] at hl
            exact ih _ _ hl keep hun2
          | true =>
            simp only [hbt] at hl
            cases hbo : bs2.buildOperators with
            | error e => simp [hbo] at hl
            | ok r =>
              obtain ⟨newOps, newInfls⟩ := r
              simp only [hbo] at hl
              obtain ⟨hlen, hinfl, hready⟩ := buildOperators_shape bs2 newOps newInfls hbo
              split_ifs at hl with hpos
              · refine ih _ _ hl ⟨hbase, hlen, hinfl, fun _ => ?_⟩ hun2
                have hne : newOps ≠ [] := by
                  intro h0
                  simp [h0] at hpos
                refine ⟨bs2.cur, rfl, hneg, isReadyToBuild_ready bs2 (hready hne), hun2, ?_⟩
                rw [← hbase]
                exact hbo
              · exact ih _ _ hl keep hun2
      · exact ih _ _ hl keep hun2

theorem appendItem_fold_unpending (sche : hotScheduler) (l : List HotPeerStat) :
    ∀ acc : List HotPeerStat, (∀ p ∈ acc, sche.regionPendings p.RegionID = none) →
      ∀ p ∈ l.foldl (appendItem sche) acc, sche.regionPendings p.RegionID = none := by
  induction l with
  | nil =>
    intro acc hacc p hp
    exact hacc p hp
  | cons x rest ih =>
    intro acc hacc p hp
    simp only [List.foldl_cons] at hp
    refine ih (appendItem sche acc x) ?_ p hp
    intro q hq
    simp only [appendItem] at hq
    split_ifs at hq with hx
    · rcases List.mem_append.mp hq with hq | hq
      · exact hacc q hq
      · simp only [List.mem_singleton] at hq
        subst hq
        exact Option.isNone_iff_eq_none.mp hx
    · exact hacc q hq

theorem filterHotPeers_unpending (bs : balanceSolver) (peers : List HotPeerStat)
    (hf : bs.filterHotPeers = .ok peers) :
    ∀ p ∈ peers, bs.sche.regionPendings p.RegionID = none := by
  simp only [balanceSolver.filterHotPeers] at hf
  cases hd : deref (bs.stLoadDetail.lookup bs.cur.srcStoreID) with
  | error e => simp [hd] at hf
  | ok detail =>
    simp only [hd] at hf
    split_ifs at hf with hle
    · simp only [Except.ok.injEq] at hf
      subst hf
      exact appendItem_fold_unpending bs.sche _ [] (by simp)
    · cases hu : unionLoop bs.sche.conf.MaxPeerNumber []
          (detail.HotPeers.insertionSort (fun a b => a.ByteRate ≥ b.ByteRate))
          (detail.HotPeers.insertionSort (fun a b => a.KeyRate ≥ b.KeyRate)) with
      | error e => simp [hu] at hf
      | ok union =>
        simp only [hu, Except.ok.injEq] at hf
        subst hf
        exact appendItem_fold_unpending bs.sche _ [] (by simp)

theorem solvePeerLoop_inv (base : balanceSolver) (peers : List HotPeerStat) :
    ∀ st st2 : solveState, solvePeerLoop st peers = .ok st2 → solveInv base st →
      (∀ p ∈ peers, base.sche.regionPendings p.RegionID = none) →
      solveInv base st2 := by
  induction peers with
  | nil =>
    intro st st2 hl hinv _
    simp only [solvePeerLoop, Except.ok.injEq] at hl
    subst hl
    exact hinv
  | cons p rest ih =>
    intro st st2 hl hinv hun
    have hrest : ∀ q ∈ rest, base.sche.regionPendings q.RegionID = none :=
      fun q hq => hun q (List.mem_cons_of_mem _ hq)
    simp only [solvePeerLoop] at hl
    cases hg : balanceSolver.getRegion
        { st.bs with cur := { st.bs.cur with srcPeerStat := some p } } with
    | error e => simp [hg] at hl
    | ok region =>
      simp only [hg] at hl
      have hinv2 : solveInv base
          { st with bs :=
            { st.bs with cur := { st.bs.cur with srcPeerStat := some p, region := region } } } := by
        refine ⟨?_, hinv.2.1, hinv.2.2.1, hinv.2.2.2⟩
        simp only
        rw [hinv.1]
      cases region with
      | none =>
        simp only at hl
        exact ih _ _ hl hinv2 hrest
      | some r =>
        simp only at hl
        cases hd : balanceSolver.filterDstStores
            { st.bs with cur := { st.bs.cur with srcPeerStat := some p, region := some r } } with
        | error e => simp [hd] at hl
        | ok dsts =>
          simp only [hd] at hl
          cases hdl : solveDstLoop
              { st with bs :=
                { st.bs with cur := { st.bs.cur with srcPeerStat := some p, region := some r } } }
              (dsts.map Prod.fst) with
          | error e => simp [hdl] at hl
          | ok st3 =>
            simp only [hdl] at hl
            refine ih _ _ hl (solveDstLoop_inv base _ _ _ hdl hinv2 ?_) hrest
            intro q hq
            simp only [Option.some.injEq] at hq
            subst hq
            exact hun _ (List.mem_cons_self _ _)

theorem solveSrcLoop_inv (base : balanceSolver) (srcs : List Nat) :
    ∀ st st2 : solveState, solveSrcLoop st srcs = .ok st2 → solveInv base st →
      solveInv base st2 := by
  induction srcs with
  | nil =>
    intro st st2 hl hinv
    simp only [solveSrcLoop, Except.ok.injEq] at hl
    subst hl
    exact hinv
  | cons s rest ih =>
    intro st st2 hl hinv
    simp only [solveSrcLoop] at hl
    cases hf : balanceSolver.filterHotPeers
        { st.bs with cur := { st.bs.cur with srcStoreID := s } } with
    | error e => simp [hf] at hl
    | ok peers =>
      simp only [hf] at hl
      cases hp : solvePeerLoop { st with bs := { st.bs with cur := { st.bs.cur with srcStoreID := s } } }
          peers with
      | error e => simp [hp] at hl
      | ok st3 =>
        simp only [hp] at hl
        have hinv2 : solveInv base
            { st with bs := { st.bs with cur := { st.bs.cur with srcStoreID := s } } } := by
          refine ⟨?_, hinv.2.1, hinv.2.2.1, hinv.2.2.2⟩
          simp only
          rw [hinv.1]
        refine ih _ _ hl (solvePeerLoop_inv base peers _ _ hp hinv2 ?_)
        have hun := filterHotPeers_unpending _ _ hf
        have hs : st.bs.sche = base.sche := by rw [hinv.1]
        intro q hq
        rw [← hs]
        exact hun q hq

/-- What the loops of `solve` leave when `solve` returns: the returned
operators are the ones of the loops or none, `best` is the one of the loops,
and the invariant of the loops holds. -/
theorem solve_loops (bs : balanceSolver) (r : solveResult) (hs : bs.solve = .ok r) :
    (r.ops = [] ∧ r.best = none) ∨
    ∃ st : solveState, solveInv { bs with cur := solution.zero } st ∧ r.best = st.best ∧
      (r.ops = [] ∨
        (r.ops = st.ops ∧
          ∃ sche2, solveAddLoop bs.sche st.best bs.rwTy bs.opTy st.ops st.infls =
            .ok (true, sche2))) := by
  simp only [balanceSolver.solve] at hs
  split_ifs at hs with hv
  · simp only [Except.ok.injEq] at hs
    subst hs
    exact Or.inl ⟨rfl, rfl⟩
  · right
    cases hl : solveSrcLoop
        { bs := { bs with cur := solution.zero }, best := none, ops := [], infls := [] }
        ((balanceSolver.filterSrcStores { bs with cur := solution.zero }).map Prod.fst) with
    | error e => simp [hl] at hs
    | ok st =>
      simp only [hl] at hs
      have hinv : solveInv { bs with cur := solution.zero } st := by
        refine solveSrcLoop_inv _ _ _ _ hl ⟨rfl, ?_, rfl, ?_⟩
        · simp
        · intro hne
          exact absurd rfl hne
      refine ⟨st, hinv, ?_⟩
      cases ha : solveAddLoop bs.sche st.best bs.rwTy bs.opTy st.ops st.infls with
      | error e => simp [ha] at hs
      | ok res =>
        obtain ⟨ok, sche2⟩ := res
        cases ok with
        | false =>
          simp only [ha, Except.ok.injEq] at hs
          subst hs
          exact ⟨rfl, Or.inl rfl⟩
        | true =>
          simp only [ha] at hs
          split_ifs at hs with hpos
          · cases hb : deref st.best with
            | error e => simp [hb] at hs
            | ok best =>
              simp only [hb] at hs
              cases h1 : deref (bs.stLoadDetail.lookup best.srcStoreID) with
              | error e => simp [h1] at hs
              | ok d1 =>
                simp only [h1] at hs
                cases h2 : deref (bs.stLoadDetail.lookup best.dstStoreID) with
                | error e => simp [h2] at hs
                | ok d2 =>
                  simp only [h2, Except.ok.injEq] at hs
                  subst hs
                  exact ⟨rfl, Or.inr ⟨rfl, sche2, rfl⟩⟩
          · simp only [Except.ok.injEq] at hs
            subst hs
            exact ⟨rfl, Or.inr ⟨rfl, sche2, rfl⟩⟩

theorem addPendingInfluence_true_absent (h h2 : hotScheduler) (op : Operator)
    (srcStore dstStore : Nat) (infl : Influence) (rwTy : rwType) (opTy : opType)
    (ha : h.addPendingInfluence op srcStore dstStore infl rwTy opTy = .ok (true, h2)) :
    h.regionPendings op.regionID = none := by
  cases hr : h.regionPendings op.regionID with
  | none => rfl
  | some s => simp [hotScheduler.addPendingInfluence, hr] at ha

theorem solveAddLoop_head_absent (sche sche2 : hotScheduler) (best : Option solution)
    (rwTy : rwType) (opTy : opType) (op : Operator) (ops : List Operator)
    (infls : List Influence)
    (ha : solveAddLoop sche best rwTy opTy (op :: ops) infls = .ok (true, sche2)) :
    sche.regionPendings op.regionID = none := by
  simp only [solveAddLoop] at ha
  cases hb : deref best with
  | error e => simp [hb] at ha
  | ok b =>
    simp only [hb] at ha
    cases infls with
    | nil => simp at ha
    | cons infl infls2 =>
      simp only at ha
      cases hadd : sche.addPendingInfluence op b.srcStoreID b.dstStoreID infl rwTy opTy with
      | error e => simp [hadd] at ha
      | ok res =>
        obtain ⟨ok, s3⟩ := res
        cases ok with
        | false => simp [hadd] at ha
        | true => exact addPendingInfluence_true_absent _ _ _ _ _ _ _ _ hadd

/-- C4: when `solve` returns, for any rwType and opType, no returned operator
is for a region R that has an entry in `regionPendings` at the start of the
call; and when an operator is returned, the region and the hot peer of the
solution it was built from are not those of R (the hot peers of R are left
out by `filterHotPeers`). -/
theorem solve_skips_pending_region (bs : balanceSolver) (r : solveResult) (R : Nat)
    (hs : bs.solve = .ok r) (hR : (bs.sche.regionPendings R).isSome = true) :
    (∀ op ∈ r.ops, op.regionID ≠ R) ∧
    (r.ops ≠ [] → ∃ b peer region, r.best = some b ∧ b.srcPeerStat = some peer ∧
      b.region = some region ∧ peer.RegionID ≠ R ∧ region.ID ≠ R) := by
  have hRne : bs.sche.regionPendings R ≠ none := Option.ne_none_iff_isSome.mpr hR
  rcases solve_loops bs r hs with ⟨hnil, _⟩ | ⟨st, hinv, hbest, hops⟩
  · constructor
    · intro op hop
      simp [hnil] at hop
    · intro hne
      exact absurd hnil hne
  · rcases hops with hnil | ⟨hops, sche2, hadd⟩
    · constructor
      · intro op hop
        simp [hnil] at hop
      · intro hne
        exact absurd hnil hne
    · constructor
      · intro op hop
        rw [hops] at hop
        have hlen := hinv.2.1
        cases hst : st.ops with
        | nil => simp [hst] at hop
        | cons o rest =>
          have hrest : rest = [] := by
            cases rest with
            | nil => rfl
            | cons o2 rest2 => simp [hst] at hlen
          subst hrest
          simp only [hst, List.mem_singleton] at hop
          subst hop
          rw [hst] at hadd
          have := solveAddLoop_head_absent _ _ _ _ _ _ _ _ hadd
          intro heq
          rw [heq] at this
          exact hRne this
      · intro hne
        rw [hops] at hne
        obtain ⟨b, hb, _, hready, hun, _⟩ := hinv.2.2.2 hne
        obtain ⟨_, _, peer, region, hp, hg, _, hid⟩ := hready
        refine ⟨b, peer, region, hbest.trans hb, hp, hg, ?_, ?_⟩
        · intro heq
          have := hun peer hp
          rw [heq] at this
          exact hRne this
        · intro heq
          have := hun peer hp
          rw [← hid, heq] at this
          exact hRne this

theorem inUnion_iff (union : List HotPeerStat) (p : HotPeerStat) :
    inUnion union p = true ↔ p.ptr ∈ union.map HotPeerStat.ptr := by
  simp only [inUnion, List.any_eq_true, decide_eq_true_eq, List.mem_map]

theorem popNew_mono (union : List HotPeerStat) (l : List HotPeerStat) (q : HotPeerStat)
    (hq : inUnion union q = true) : inUnion (popNew union l).1 q = true := by
  induction l with
  | nil => simpa [popNew] using hq
  | cons p rest ih =>
    unfold popNew
    split_ifs with hp
    · exact ih
    · rw [inUnion_iff] at hq ⊢
      simp only [List.map_append, List.mem_append]
      exact Or.inl hq

theorem popNew_consumed (union : List HotPeerStat) (l : List HotPeerStat) :
    ∀ p ∈ l, p ∈ (popNew union l).2 ∨ inUnion (popNew union l).1 p = true := by
  induction l with
  | nil =>
    intro p hp
    simp at hp
  | cons x rest ih =>
    intro p hp
    unfold popNew
    split_ifs with hx
    · rcases List.mem_cons.mp hp with hpx | hpr
      · right
        subst hpx
        exact popNew_mono union rest p hx
      · exact ih p hpr
    · rcases List.mem_cons.mp hp with hpx | hpr
      · right
        subst hpx
        rw [inUnion_iff]
        simp
      · left
        exact hpr

theorem popNew_rest_length (union l : List HotPeerStat) :
    (popNew union l).2.length ≤ l.length ∧ (l ≠ [] → (popNew union l).2.length < l.length) := by
  induction l with
  | nil => simp [popNew]
  | cons p rest ih =>
    unfold popNew
    split_ifs
    · exact ⟨Nat.le_succ_of_le ih.1, fun _ => Nat.lt_succ_of_le ih.1⟩
    · simp

/-- The loop of `filterHotPeers` ends when the byte-sorted slice holds more
distinct peers than `maxPeerNum`: as long as `union` is too small, a peer of
the slice is not yet in it, so the slice is not used up. -/
theorem unionLoop_returns (maxPeerNum : Int) (byteSort0 : List HotPeerStat)
    (hnd : (byteSort0.map HotPeerStat.ptr).Nodup) (hlen : maxPeerNum < (byteSort0.length : Int)) :
    ∀ (n : Nat) (union byteSort keySort : List HotPeerStat),
      byteSort.length + keySort.length ≤ n →
      (∀ p ∈ byteSort0, p ∈ byteSort ∨ inUnion union p = true) →
      ∃ u, unionLoop maxPeerNum union byteSort keySort = .ok u := by
  intro n
  induction n with
  | zero =>
    intro union byteSort keySort hn hj
    have hb : byteSort = [] := List.length_eq_zero.mp (by omega)
    rw [unionLoop]
    split_ifs with hlt hboth
    · exfalso
      have hsub : byteSort0.map HotPeerStat.ptr ⊆ union.map HotPeerStat.ptr := by
        intro x hx
        obtain ⟨p, hp, rfl⟩ := List.mem_map.mp hx
        rcases hj p hp with h1 | h1
        · simp [hb] at h1
        · exact (inUnion_iff union p).mp h1
      have := (List.subperm_of_subset hnd hsub).length_le
      simp only [List.length_map] at this
      omega
    · exfalso
      exact hboth ⟨hb, List.length_eq_zero.mp (by omega)⟩
    · exact ⟨_, rfl⟩
  | succ n ih =>
    intro union byteSort keySort hn hj
    rw [unionLoop]
    split_ifs with hlt hboth
    · exfalso
      have hsub : byteSort0.map HotPeerStat.ptr ⊆ union.map HotPeerStat.ptr := by
        intro x hx
        obtain ⟨p, hp, rfl⟩ := List.mem_map.mp hx
        rcases hj p hp with h1 | h1
        · simp [hboth.1] at h1
        · exact (inUnion_iff union p).mp h1
      have := (List.subperm_of_subset hnd hsub).length_le
      simp only [List.length_map] at this
      omega
    · have hbne : byteSort ≠ [] := by
        intro hb
        have hsub : byteSort0.map HotPeerStat.ptr ⊆ union.map HotPeerStat.ptr := by
          intro x hx
          obtain ⟨p, hp, rfl⟩ := List.mem_map.mp hx
          rcases hj p hp with h1 | h1
          · simp [hb] at h1
          · exact (inUnion_iff union p).mp h1
        have := (List.subperm_of_subset hnd hsub).length_le
        simp only [List.length_map] at this
        omega
      apply ih
      · have h1 := (popNew_rest_length union byteSort).2 hbne
        have h2 := (popNew_rest_length (popNew union byteSort).1 keySort).1
        omega
      · intro p hp
        rcases hj p hp with h1 | h1
        · rcases popNew_consumed union byteSort p h1 with h2 | h2
          · exact Or.inl h2
          · exact Or.inr (popNew_mono _ keySort p h2)
        · exact Or.inr (popNew_mono _ keySort p (popNew_mono union byteSort p h1))
    · exact ⟨_, rfl⟩

theorem calcProgressiveRank_returns (bs : balanceSolver) (hl : bs.cur.located bs) :
    ∃ bs2, bs.calcProgressiveRank = .ok bs2 := by
  obtain ⟨h1, h2, h3⟩ := hl
  obtain ⟨d1, h1⟩ := Option.isSome_iff_exists.mp h1
  obtain ⟨d2, h2⟩ := Option.isSome_iff_exists.mp h2
  obtain ⟨p, h3⟩ := Option.isSome_iff_exists.mp h3
  simp only [balanceSolver.calcProgressiveRank, h1, h2, h3, deref]
  exact ⟨_, rfl⟩

theorem compareSrcStore_returns (bs : balanceSolver) (st1 st2 : Nat)
    (h1 : (bs.stLoadDetail.lookup st1).isSome = true)
    (h2 : (bs.stLoadDetail.lookup st2).isSome = true) :
    ∃ r, bs.compareSrcStore st1 st2 = .ok r := by
  obtain ⟨d1, h1⟩ := Option.isSome_iff_exists.mp h1
  obtain ⟨d2, h2⟩ := Option.isSome_iff_exists.mp h2
  simp only [balanceSolver.compareSrcStore, h1, h2, deref]
  split_ifs <;> exact ⟨_, rfl⟩

theorem compareDstStore_returns (bs : balanceSolver) (st1 st2 : Nat)
    (h1 : (bs.stLoadDetail.lookup st1).isSome = true)
    (h2 : (bs.stLoadDetail.lookup st2).isSome = true) :
    ∃ r, bs.compareDstStore st1 st2 = .ok r := by
  obtain ⟨d1, h1⟩ := Option.isSome_iff_exists.mp h1
  obtain ⟨d2, h2⟩ := Option.isSome_iff_exists.mp h2
  simp only [balanceSolver.compareDstStore, h1, h2, deref]
  split_ifs <;> exact ⟨_, rfl⟩

theorem betterThan_returns (bs : balanceSolver) (old : Option solution)
    (hcur : bs.cur.located bs) (hold : ∀ b, old = some b → b.located bs) :
    ∃ r, bs.betterThan old = .ok r := by
  cases old with
  | none => exact ⟨true, rfl⟩
  | some b =>
    obtain ⟨hb1, hb2, hb3⟩ := hold b rfl
    obtain ⟨hc1, hc2, hc3⟩ := hcur
    obtain ⟨r1, hr1⟩ := compareSrcStore_returns bs bs.cur.srcStoreID b.srcStoreID hc1 hb1
    obtain ⟨r2, hr2⟩ := compareDstStore_returns bs bs.cur.dstStoreID b.dstStoreID hc2 hb2
    obtain ⟨p, hp⟩ := Option.isSome_iff_exists.mp hc3
    obtain ⟨q, hq⟩ := Option.isSome_iff_exists.mp hb3
    simp only [balanceSolver.betterThan, hr1, hr2, hp, hq, deref]
    split_ifs <;> exact ⟨_, rfl⟩

theorem buildOperators_returns (bs : balanceSolver)
    (hv : bs.opTy = opType.movePeer ∨ bs.opTy = opType.transferLeader)
    (hreg : ∀ r, bs.cur.region = some r → bs.opTy = opType.movePeer →
      (r.GetStorePeer bs.cur.srcStoreID).isSome = true) :
    ∃ res, bs.buildOperators = .ok res := by
  unfold balanceSolver.buildOperators
  by_cases hr : bs.isReadyToBuild = true
  swap
  · simp only [hr, Bool.not_false, if_true]
    exact ⟨_, rfl⟩
  · obtain ⟨_, _, peer, region, hp, hg, _, _⟩ := isReadyToBuild_ready bs hr
    simp only [hr, Bool.not_true, Bool.false_eq_true, if_false, hp, hg, deref]
    rcases hv with hm | ht
    · obtain ⟨sp, hsp⟩ := Option.isSome_iff_exists.mp (hreg region hg hm)
      simp only [hm, if_true, hsp]
      exact ⟨_, rfl⟩
    · simp only [ht, transferLeader_ne_movePeer, if_false, if_true]
      split_ifs <;> exact ⟨_, rfl⟩

theorem solveDstLoop_returns (base : balanceSolver)
    (hv : base.opTy = opType.movePeer ∨ base.opTy = opType.transferLeader)
    (dsts : List Nat) (hd : ∀ d ∈ dsts, (base.stLoadDetail.lookup d).isSome = true) :
    ∀ st : solveState, solveGood base st →
      (base.stLoadDetail.lookup st.bs.cur.srcStoreID).isSome = true →
      st.bs.cur.srcPeerStat.isSome = true →
      (∀ r, st.bs.cur.region = some r → base.opTy = opType.movePeer →
        (r.GetStorePeer st.bs.cur.srcStoreID).isSome = true) →
      ∃ st2, solveDstLoop st dsts = .ok st2 ∧ solveGood base st2 ∧
        st2.bs.cur.srcStoreID = st.bs.cur.srcStoreID := by
  induction dsts with
  | nil =>
    intro st hg _ _ _
    exact ⟨st, rfl, hg, rfl⟩
  | cons d rest ih =>
    intro st hg hsrc hpeer hreg
    have hrest : ∀ x ∈ rest, (base.stLoadDetail.lookup x).isSome = true :=
      fun x hx => hd x (List.mem_cons_of_mem _ hx)
    have hdd := hd d (List.mem_cons_self _ _)
    have hst : st.bs.stLoadDetail = base.stLoadDetail := by rw [hg.1]
    have hloc1 : solution.located
        { st.bs with cur := { st.bs.cur with dstStoreID := d } }
        { st.bs.cur with dstStoreID := d } := by
      refine ⟨?_, ?_, hpeer⟩
      · simpa only [hst] using hsrc
      · simpa only [hst] using hdd
    obtain ⟨bs2, hc⟩ := calcProgressiveRank_returns _ hloc1
    obtain ⟨rank, hbs2⟩ := calcProgressiveRank_cur _ _ hc
    have hbase : bs2 = { base with cur := bs2.cur } := by
      rw [hbs2, hg.1]
    have hbs2cur : bs2.cur = { st.bs.cur with dstStoreID := d, progressiveRank := rank } := by
      rw [hbs2]
    have hst2 : bs2.stLoadDetail = base.stLoadDetail := by rw [hbase]
    have hop2 : bs2.opTy = base.opTy := by rw [hbase]
    have hloc2 : bs2.cur.located bs2 := by
      rw [hbs2cur]
      refine ⟨?_, ?_, hpeer⟩
      · simpa only [hst2] using hsrc
      · simpa only [hst2] using hdd
    have hloc2b : bs2.cur.located base := by
      rw [hbs2cur]
      exact ⟨hsrc, hdd, hpeer⟩
    have keep : solveGood base { st with bs := bs2 } := ⟨hbase, hg.2⟩
    have hsrc2 : bs2.cur.srcStoreID = st.bs.cur.srcStoreID := by rw [hbs2cur]
    have next : ∀ st3 : solveState, st3.bs = bs2 → solveGood base st3 →
        ∃ st2, solveDstLoop st3 rest = .ok st2 ∧ solveGood base st2 ∧
          st2.bs.cur.srcStoreID = st.bs.cur.srcStoreID := by
      intro st3 h3 hg3
      have := ih hrest st3 hg3 (by rw [h3, hsrc2]; exact hsrc) (by rw [h3, hbs2cur]; exact hpeer)
        (by rw [h3, hbs2cur]; exact hreg)
      obtain ⟨st2, h1, h2, h4⟩ := this
      exact ⟨st2, h1, h2, by rw [h4, h3, hsrc2]⟩
    simp only [solveDstLoop, hc]
    split_ifs with hneg
    · obtain ⟨better, hbt⟩ := betterThan_returns bs2 st.best hloc2 (by
        intro b hb
        have := hg.2 b hb
        unfold solution.located at this ⊢
        rw [hst2]
        exact this)
      simp only [hbt]
      cases better with
      | false => exact next _ rfl keep
      | true =>
        obtain ⟨res, hbo⟩ := buildOperators_returns bs2 (by rw [hop2]; exact hv) (by
          intro r hr hm
          rw [hbs2cur] at hr ⊢
          exact hreg r hr (by rw [← hop2]; exact hm))
        obtain ⟨newOps, newInfls⟩ := res
        simp only [hbo]
        split_ifs with hpos
        · refine next _ rfl ⟨hbase, ?_⟩
          intro b hb
          simp only [Option.some.injEq] at hb
          subst hb
          exact hloc2b
        · exact next _ rfl keep
    · exact next _ rfl keep

theorem lookup_isSome_of_mem {β : Type} (l : List (Nat × β)) (k : Nat) (v : β)
    (hm : (k, v) ∈ l) : (l.lookup k).isSome = true := by
  induction l with
  | nil => simp at hm
  | cons x rest ih =>
    obtain ⟨k0, v0⟩ := x
    simp only [List.lookup]
    by_cases hk : k = k0
    · subst hk
      simp
    · have hne : (k == k0) = false := by simpa using hk
      simp only [hne]
      rcases List.mem_cons.mp hm with h1 | h1
      · simp only [Prod.mk.injEq] at h1
        exact absurd h1.1 hk
      · exact ih h1

theorem mapInsert_mem {β : Type} (m : List (Nat × β)) (k : Nat) (v : β) :
    ∀ kv ∈ mapInsert m k v, kv.1 = k ∨ kv ∈ m := by
  induction m with
  | nil =>
    intro kv hkv
    simp only [mapInsert, List.mem_singleton] at hkv
    left
    rw [hkv]
  | cons x rest ih =>
    obtain ⟨k0, v0⟩ := x
    intro kv hkv
    simp only [mapInsert] at hkv
    split_ifs at hkv with hk
    · rcases List.mem_cons.mp hkv with h1 | h1
      · left
        rw [h1]
      · right
        exact List.mem_cons_of_mem _ h1
    · rcases List.mem_cons.mp hkv with h1 | h1
      · right
        rw [h1]
        exact List.mem_cons_self _ _
      · rcases ih kv h1 with h2 | h2
        · exact Or.inl h2
        · exact Or.inr (List.mem_cons_of_mem _ h2)

theorem getRegion_returns (bs : balanceSolver) (hp : bs.cur.srcPeerStat.isSome = true) :
    ∃ region, bs.getRegion = .ok region ∧
      ∀ r, region = some r → bs.opTy = opType.movePeer →
        (r.GetStorePeer bs.cur.srcStoreID).isSome = true := by
  obtain ⟨p, hp⟩ := Option.isSome_iff_exists.mp hp
  by_cases ha : (!bs.isRegionAvailable (bs.cluster.GetRegion p.RegionID)) = true
  · refine ⟨none, ?_, fun r hr => by cases hr⟩
    simp only [balanceSolver.getRegion, hp, deref, ha, if_true]
  cases hg : bs.cluster.GetRegion p.RegionID with
  | none =>
    refine ⟨none, ?_, fun r hr => by cases hr⟩
    simp only [balanceSolver.getRegion, hp, deref, hg]
    split_ifs <;> rfl
  | some r0 =>
    rw [hg] at ha
    by_cases hm : bs.opTy = opType.movePeer
    · by_cases hsp : (r0.GetStorePeer bs.cur.srcStoreID).isNone = true
      · refine ⟨none, ?_, fun r hr => by cases hr⟩
        simp only [balanceSolver.getRegion, hp, deref, hg, ha, hm, hsp, if_true,
          Bool.false_eq_true, if_false]
      · refine ⟨some r0, ?_, ?_⟩
        · simp only [balanceSolver.getRegion, hp, deref, hg, ha, hm, hsp, if_true,
            Bool.false_eq_true, if_false]
        · intro r hr _
          simp only [Option.some.injEq] at hr
          subst hr
          cases hx : r0.GetStorePeer bs.cur.srcStoreID with
          | none => simp [hx] at hsp
          | some x => rfl
    · by_cases ht : bs.opTy = opType.transferLeader
      · by_cases hl : r0.LeaderStoreId ≠ bs.cur.srcStoreID
        · refine ⟨none, ?_, fun r hr => by cases hr⟩
          simp only [balanceSolver.getRegion, hp, deref, hg, ha, ht, transferLeader_ne_movePeer,
            hl, if_true, Bool.false_eq_true, if_false, not_false_eq_true, ne_eq]
        · refine ⟨some r0, ?_, fun r _ hm2 => absurd hm2 hm⟩
          simp only [balanceSolver.getRegion, hp, deref, hg, ha, ht, transferLeader_ne_movePeer,
            hl, if_true, Bool.false_eq_true, if_false]
      · refine ⟨none, ?_, fun r hr => by cases hr⟩
        simp only [balanceSolver.getRegion, hp, deref, hg, ha, hm, ht, if_true,
          Bool.false_eq_true, if_false]

theorem pickDstStores_returns (bs : balanceSolver) (filters : StoreInfo → Bool)
    (candidates : List StoreInfo)
    (hc : ∀ s ∈ candidates, filters s = true → (bs.stLoadDetail.lookup s.ID).isSome = true) :
    ∀ ret : List (Nat × storeLoadDetail),
      (∀ kv ∈ ret, (bs.stLoadDetail.lookup kv.1).isSome = true) →
      ∃ dsts, bs.pickDstStores filters candidates ret = .ok dsts ∧
        ∀ kv ∈ dsts, (bs.stLoadDetail.lookup kv.1).isSome = true := by
  induction candidates with
  | nil =>
    intro ret hret
    exact ⟨ret, rfl, hret⟩
  | cons s rest ih =>
    intro ret hret
    have hrest : ∀ x ∈ rest, filters x = true → (bs.stLoadDetail.lookup x.ID).isSome = true :=
      fun x hx => hc x (List.mem_cons_of_mem _ hx)
    simp only [balanceSolver.pickDstStores]
    split_ifs with hf
    · have hs := hc s (List.mem_cons_self _ _) hf
      obtain ⟨detail, hdet⟩ := Option.isSome_iff_exists.mp hs
      simp only [hdet, deref]
      split_ifs with hcond
      · apply ih hrest
        intro kv hkv
        rcases mapInsert_mem ret s.ID detail kv hkv with h1 | h1
        · rw [h1]
          exact hs
        · exact hret kv h1
      · exact ih hrest ret hret
    · exact ih hrest ret hret

theorem filterDstStores_returns (bs : balanceSolver) (hw : bs.wellFormed)
    (hreg : bs.cur.region.isSome = true) :
    ∃ dsts, bs.filterDstStores = .ok dsts ∧
      ∀ kv ∈ dsts, (bs.stLoadDetail.lookup kv.1).isSome = true := by
  obtain ⟨region, hreg⟩ := Option.isSome_iff_exists.mp hreg
  simp only [balanceSolver.filterDstStores, hreg, deref]
  cases hs : bs.cluster.GetStore bs.cur.srcStoreID with
  | none => exact ⟨[], rfl, by simp⟩
  | some srcStore =>
    simp only
    split_ifs with hm ht
    · exact pickDstStores_returns bs _ _ (hw.2.1 hm region srcStore) [] (by simp)
    · exact pickDstStores_returns bs _ _ (hw.2.2 ht region srcStore) [] (by simp)
    · exact ⟨[], rfl, by simp⟩

theorem filterHotPeers_returns (bs : balanceSolver) (hw : bs.wellFormed)
    (hsrc : (bs.stLoadDetail.lookup bs.cur.srcStoreID).isSome = true) :
    ∃ peers, bs.filterHotPeers = .ok peers := by
  obtain ⟨detail, hdet⟩ := Option.isSome_iff_exists.mp hsrc
  simp only [balanceSolver.filterHotPeers, hdet, deref]
  split_ifs with hle
  · exact ⟨_, rfl⟩
  · have hperm := List.perm_insertionSort (fun a b : HotPeerStat => a.ByteRate ≥ b.ByteRate)
      detail.HotPeers
    have hnd : ((detail.HotPeers.insertionSort
        (fun a b => a.ByteRate ≥ b.ByteRate)).map HotPeerStat.ptr).Nodup :=
      ((hperm.map HotPeerStat.ptr).nodup_iff).mpr (hw.1 _ _ hdet)
    have hlen : bs.sche.conf.MaxPeerNumber <
        ((detail.HotPeers.insertionSort (fun a b => a.ByteRate ≥ b.ByteRate)).length : Int) := by
      rw [hperm.length_eq]
      exact not_le.mp hle
    obtain ⟨u, hu⟩ := unionLoop_returns bs.sche.conf.MaxPeerNumber _ hnd hlen _ []
      (detail.HotPeers.insertionSort (fun a b => a.ByteRate ≥ b.ByteRate))
      (detail.HotPeers.insertionSort (fun a b => a.KeyRate ≥ b.KeyRate)) (le_refl _)
      (fun p hp => Or.inl hp)
    simp only [hu]
    exact ⟨_, rfl⟩

theorem solvePeerLoop_returns (base : balanceSolver) (hw : base.wellFormed)
    (hv : base.opTy = opType.movePeer ∨ base.opTy = opType.transferLeader)
    (peers : List HotPeerStat) :
    ∀ st : solveState, solveGood base st →
      (base.stLoadDetail.lookup st.bs.cur.srcStoreID).isSome = true →
      ∃ st2, solvePeerLoop st peers = .ok st2 ∧ solveGood base st2 ∧
        st2.bs.cur.srcStoreID = st.bs.cur.srcStoreID := by
  induction peers with
  | nil =>
    intro st hg _
    exact ⟨st, rfl, hg, rfl⟩
  | cons p rest ih =>
    intro st hg hsrc
    have hop : st.bs.opTy = base.opTy := by rw [hg.1]
    obtain ⟨region, hgr, hreg⟩ := getRegion_returns
      { st.bs with cur := { st.bs.cur with srcPeerStat := some p } } rfl
    simp only [solvePeerLoop, hgr]
    have hg2 : solveGood base
        { st with bs :=
          { st.bs with cur := { st.bs.cur with srcPeerStat := some p, region := region } } } := by
      refine ⟨?_, hg.2⟩
      simp only
      rw [hg.1]
    cases region with
    | none =>
      simp only
      exact ih _ hg2 hsrc
    | some r =>
      simp only
      have hw2 : balanceSolver.wellFormed
          { st.bs with cur := { st.bs.cur with srcPeerStat := some p, region := some r } } := by
        rw [hg.1]
        exact hw
      obtain ⟨dsts, hfd, hdsts⟩ := filterDstStores_returns _ hw2 rfl
      simp only [hfd]
      have hdsts2 : ∀ d ∈ dsts.map Prod.fst, (base.stLoadDetail.lookup d).isSome = true := by
        intro d hd
        obtain ⟨kv, hkv, rfl⟩ := List.mem_map.mp hd
        have := hdsts kv hkv
        rw [hg.1] at this
        exact this
      obtain ⟨st3, hdl, hg3, hsrc3⟩ := solveDstLoop_returns base hv _ hdsts2 _ hg2 hsrc rfl (by
        intro r2 hr2 hm
        simp only [Option.some.injEq] at hr2
        exact hreg r2 (by rw [hr2]) (by rw [← hm]; exact hop))
      simp only [hdl]
      obtain ⟨st2, h1, h2, h3⟩ := ih st3 hg3 (by rw [hsrc3]; exact hsrc)
      exact ⟨st2, h1, h2, by rw [h3, hsrc3]⟩

theorem solveSrcLoop_returns (base : balanceSolver) (hw : base.wellFormed)
    (hv : base.opTy = opType.movePeer ∨ base.opTy = opType.transferLeader)
    (srcs : List Nat) (hs : ∀ s ∈ srcs, (base.stLoadDetail.lookup s).isSome = true) :
    ∀ st : solveState, solveGood base st →
      ∃ st2, solveSrcLoop st srcs = .ok st2 ∧ solveGood base st2 := by
  induction srcs with
  | nil =>
    intro st hg
    exact ⟨st, rfl, hg⟩
  | cons s rest ih =>
    intro st hg
    have hrest : ∀ x ∈ rest, (base.stLoadDetail.lookup x).isSome = true :=
      fun x hx => hs x (List.mem_cons_of_mem _ hx)
    have hss := hs s (List.mem_cons_self _ _)
    have hw2 : balanceSolver.wellFormed
        { st.bs with cur := { st.bs.cur with srcStoreID := s } } := by
      rw [hg.1]
      exact hw
    obtain ⟨peers, hf⟩ := filterHotPeers_returns _ hw2 (by
      simp only
      rw [hg.1]
      exact hss)
    simp only [solveSrcLoop, hf]
    have hg2 : solveGood base
        { st with bs := { st.bs with cur := { st.bs.cur with srcStoreID := s } } } := by
      refine ⟨?_, hg.2⟩
      simp only
      rw [hg.1]
    obtain ⟨st3, hpl, hg3, _⟩ := solvePeerLoop_returns base hw hv peers _ hg2 hss
    simp only [hpl]
    exact ih hrest st3 hg3

theorem filterSrcStores_keys (bs : balanceSolver) :
    ∀ kv ∈ bs.filterSrcStores, (bs.stLoadDetail.lookup kv.1).isSome = true := by
  have gen : ∀ (l : List (Nat × storeLoadDetail)) (acc : List (Nat × storeLoadDetail)),
      (∀ kv ∈ l, kv ∈ bs.stLoadDetail) →
      (∀ kv ∈ acc, (bs.stLoadDetail.lookup kv.1).isSome = true) →
      ∀ kv ∈ l.foldl
        (fun (ret : List (Nat × storeLoadDetail)) (kv : Nat × storeLoadDetail) =>
          if (bs.cluster.GetStore kv.1).isNone then ret
          else if kv.2.HotPeers.length = 0 then ret
          else if kv.2.LoadPred.min.ByteRate >
                bs.sche.conf.SrcToleranceRatio * kv.2.LoadPred.Expect.ByteRate ∧
              kv.2.LoadPred.min.KeyRate >
                bs.sche.conf.SrcToleranceRatio * kv.2.LoadPred.Expect.KeyRate then
            mapInsert ret kv.1 kv.2
          else ret) acc, (bs.stLoadDetail.lookup kv.1).isSome = true := by
    intro l
    induction l with
    | nil =>
      intro acc _ hacc kv hkv
      exact hacc kv hkv
    | cons x rest ih =>
      intro acc hl hacc kv hkv
      simp only [List.foldl_cons] at hkv
      refine ih _ (fun y hy => hl y (List.mem_cons_of_mem _ hy)) ?_ kv hkv
      intro y hy
      split_ifs at hy with h1 h2 h3
      · exact hacc y hy
      · exact hacc y hy
      · rcases mapInsert_mem acc x.1 x.2 y hy with h4 | h4
        · rw [h4]
          exact lookup_isSome_of_mem _ x.1 x.2 (hl x (List.mem_cons_self _ _))
        · exact hacc y h4
      · exact hacc y hy
  exact gen bs.stLoadDetail [] (fun kv h => h) (by simp)

theorem addPendingInfluence_returns (h : hotScheduler) (op : Operator)
    (srcStore dstStore : Nat) (infl : Influence) (rwTy : rwType) (opTy : opType)
    (hrw : rwTy = rwType.write ∨ rwTy = rwType.read)
    (hop : opTy = opType.movePeer ∨ opTy = opType.transferLeader) :
    ∃ res, h.addPendingInfluence op srcStore dstStore infl rwTy opTy = .ok res := by
  cases hs : h.regionPendings op.regionID with
  | some s => exact ⟨(false, h), by simp [hotScheduler.addPendingInfluence, hs]⟩
  | none =>
    rcases hrw with hrw | hrw <;> rcases hop with hop | hop <;>
      subst hrw <;> subst hop <;>
      simp [hotScheduler.addPendingInfluence, hs, toResourceType, RegionSlots.set,
        transferLeader_ne_movePeer, read_ne_write]

theorem solveAddLoop_returns (sche : hotScheduler) (best : Option solution)
    (rwTy : rwType) (opTy : opType) (ops : List Operator) (infls : List Influence)
    (hrw : rwTy = rwType.write ∨ rwTy = rwType.read)
    (hop : opTy = opType.movePeer ∨ opTy = opType.transferLeader)
    (hlen : ops.length ≤ 1) (hinfl : infls.length = ops.length)
    (hbest : ops ≠ [] → best.isSome = true) :
    ∃ res, solveAddLoop sche best rwTy opTy ops infls = .ok res := by
  cases ops with
  | nil => exact ⟨_, rfl⟩
  | cons op rest =>
    have hrest : rest = [] := by
      cases rest with
      | nil => rfl
      | cons o2 rest2 => simp at hlen
    subst hrest
    obtain ⟨b, hb⟩ := Option.isSome_iff_exists.mp (hbest (by simp))
    cases infls with
    | nil => simp at hinfl
    | cons infl infls2 =>
      obtain ⟨res, hres⟩ := addPendingInfluence_returns sche op b.srcStoreID b.dstStoreID infl
        rwTy opTy hrw hop
      obtain ⟨ok, s2⟩ := res
      simp only [solveAddLoop, hb, deref, hres]
      cases ok with
      | false => exact ⟨_, rfl⟩
      | true => exact ⟨_, rfl⟩

theorem solve_returns (bs : balanceSolver) (hw : bs.wellFormed) :
    ∃ r, bs.solve = .ok r := by
  simp only [balanceSolver.solve]
  split_ifs with hv
  · exact ⟨_, rfl⟩
  · simp only [Bool.or_eq_true, Bool.not_eq_true', not_or, Bool.not_eq_false] at hv
    obtain ⟨hvalid, _⟩ := hv
    simp only [balanceSolver.isValid, Bool.and_eq_true, Bool.or_eq_true,
      decide_eq_true_eq] at hvalid
    obtain ⟨hrw, hop⟩ := hvalid
    have hkeys : ∀ s ∈ (balanceSolver.filterSrcStores { bs with cur := solution.zero }).map
        Prod.fst, (bs.stLoadDetail.lookup s).isSome = true := by
      intro s hs
      obtain ⟨kv, hkv, rfl⟩ := List.mem_map.mp hs
      exact filterSrcStores_keys { bs with cur := solution.zero } kv hkv
    obtain ⟨st, hl, hg⟩ := solveSrcLoop_returns { bs with cur := solution.zero } hw hop _ hkeys
      { bs := { bs with cur := solution.zero }, best := none, ops := [], infls := [] }
      ⟨rfl, fun b hb => by cases hb⟩
    have hinv : solveInv { bs with cur := solution.zero } st := by
      refine solveSrcLoop_inv _ _ _ _ hl ⟨rfl, ?_, rfl, ?_⟩
      · simp
      · intro hne
        exact absurd rfl hne
    have hbest : st.ops ≠ [] → st.best.isSome = true := by
      intro hne
      obtain ⟨b, hb, _⟩ := hinv.2.2.2 hne
      rw [hb]
      rfl
    obtain ⟨res, ha⟩ := solveAddLoop_returns bs.sche st.best bs.rwTy bs.opTy st.ops st.infls
      hrw hop hinv.2.1 hinv.2.2.1 hbest
    obtain ⟨ok, sche2⟩ := res
    simp only [hl, ha]
    cases ok with
    | false => exact ⟨_, rfl⟩
    | true =>
      simp only
      split_ifs with hpos
      · have hne : st.ops ≠ [] := by
          intro h0
          simp [h0] at hpos
        obtain ⟨b, hb⟩ := Option.isSome_iff_exists.mp (hbest hne)
        obtain ⟨h1, h2, _⟩ := hg.2 b hb
        obtain ⟨d1, h1⟩ := Option.isSome_iff_exists.mp h1
        obtain ⟨d2, h2⟩ := Option.isSome_iff_exists.mp h2
        simp only at h1 h2
        simp only [hb, deref, h1, h2]
        exact ⟨_, rfl⟩
      · exact ⟨_, rfl⟩

theorem lookup_mem {β : Type} (l : List (Nat × β)) (k : Nat) (v : β)
    (hl : l.lookup k = some v) : (k, v) ∈ l := by
  induction l with
  | nil => simp [List.lookup] at hl
  | cons x rest ih =>
    obtain ⟨k0, v0⟩ := x
    simp only [List.lookup] at hl
    by_cases hk : k = k0
    · subst hk
      simp only [beq_self_eq_true, Option.some.injEq] at hl
      subst hl
      exact List.mem_cons_self _ _
    · have hne : (k == k0) = false := by simpa using hk
      simp only [hne] at hl
      exact List.mem_cons_of_mem _ (ih hl)

/-- C3: a call of `solve` that returns gives zero or one operator, and when it
gives one, `best` is a solution of negative progressive rank with non-zero
source and destination stores, a peer and a region, the peer on the source
store (srcPeerStat.StoreID = srcStoreID) and of that region (region.ID =
srcPeerStat.ID), from which `buildOperators` made the operator. And the call
does return on every solver whose stores hold distinct hot peers and whose
filtered target stores all have a load detail. -/
theorem solve_at_most_one_operator (bs : balanceSolver) :
    (∀ r, bs.solve = .ok r →
      r.ops.length ≤ 1 ∧
      (r.ops ≠ [] → ∃ b, r.best = some b ∧ b.progressiveRank < 0 ∧
        b.srcStoreID ≠ 0 ∧ b.dstStoreID ≠ 0 ∧
        (∃ peer region, b.srcPeerStat = some peer ∧ b.region = some region ∧
          peer.StoreID = b.srcStoreID ∧ region.ID = peer.RegionID) ∧
        ∃ infls, balanceSolver.buildOperators { bs with cur := b } = .ok (r.ops, infls))) ∧
    (bs.wellFormed → ∃ r, bs.solve = .ok r) := by
  refine ⟨?_, solve_returns bs⟩
  intro r hs
  rcases solve_loops bs r hs with ⟨hnil, _⟩ | ⟨st, hinv, hbest, hops⟩
  · rw [hnil]
    exact ⟨by simp, fun hne => absurd rfl hne⟩
  · rcases hops with hnil | ⟨hops, _⟩
    · rw [hnil]
      exact ⟨by simp, fun hne => absurd rfl hne⟩
    · rw [hops]
      refine ⟨hinv.2.1, fun hne => ?_⟩
      obtain ⟨b, hb, hneg, hready, _, hbuilt⟩ := hinv.2.2.2 hne
      exact ⟨b, hbest.trans hb, hneg, hready.1, hready.2.1, hready.2.2, st.infls, hbuilt⟩

theorem scenarioSolver_wellFormed (peer : HotPeerStat) :
    (scenarioSolver rwType.write opType.movePeer (scenarioLoads peer)).wellFormed := by
  refine ⟨?_, ?_, ?_⟩
  · intro id detail hl
    have hm := lookup_mem _ _ _ hl
    simp only [scenarioSolver, scenarioLoads, List.mem_cons, Prod.mk.injEq,
      List.mem_singleton, List.not_mem_nil, or_false] at hm
    rcases hm with h | h | h <;> rw [h.2] <;> simp [scenarioDetail]
  · intro _ region srcStore s hs _
    simp only [scenarioSolver, scenarioCluster, List.mem_cons, List.mem_singleton,
      List.not_mem_nil, or_false] at hs
    rcases hs with h | h | h <;> subst h <;> rfl
  · intro h
    exact absurd h movePeer_ne_transferLeader

/-- Witness of C3 (scenario 2 of the specification): the solver for write and
move peer on the three stores, with the hot peer of rate (20, 20) on store 1,
returns, and returns exactly one operator, for region 7, built from the
solution (store 1, store 2) of rank -3. -/
theorem solve_at_most_one_operator_witness :
    ∃ r, (scenarioSolver rwType.write opType.movePeer
        (scenarioLoads (scenarioPeer 20 20))).solve = .ok r ∧
      r.ops = [{ scenarioOperator with highPriority := true }] ∧
      ∃ b, r.best = some b ∧ b.progressiveRank = -3 ∧ b.srcStoreID = 1 ∧ b.dstStoreID = 2 ∧
        b.srcPeerStat.map HotPeerStat.RegionID = some 7 := by
  have key := solve_at_most_one_operator (scenarioSolver rwType.write opType.movePeer
        (scenarioLoads (scenarioPeer 20 20)))
  obtain ⟨r, hr⟩ := key.2 (scenarioSolver_wellFormed _)
  have hops : (Except.toOption ((scenarioSolver rwType.write opType.movePeer
      (scenarioLoads (scenarioPeer 20 20))).solve)).map (fun r => r.ops) =
      some [{ scenarioOperator with highPriority := true }] := by
    decide!
  have hbest : (Except.toOption ((scenarioSolver rwType.write opType.movePeer
      (scenarioLoads (scenarioPeer 20 20))).solve)).map
        (fun r => r.best.map (fun b => (b.progressiveRank, b.srcStoreID, b.dstStoreID))) =
      some (some (-3, 1, 2)) := by
    decide!
  have hpeer : (Except.toOption ((scenarioSolver rwType.write opType.movePeer
      (scenarioLoads (scenarioPeer 20 20))).solve)).map
        (fun r => r.best.map (fun b => b.srcPeerStat.map HotPeerStat.RegionID)) =
      some (some (some 7)) := by
    decide!
  rw [hr] at hops hbest hpeer
  simp only [Except.toOption, Option.map_some', Option.some.injEq] at hops hbest hpeer
  obtain ⟨b, hb1, hb2⟩ := Option.map_eq_some'.mp hbest
  rw [hb1] at hpeer
  simp only [Option.map_some', Option.some.injEq] at hpeer
  simp only [Prod.mk.injEq] at hb2
  exact ⟨r, hr, hops, b, hb1, hb2.1, hb2.2.1, hb2.2.2, hpeer⟩

/-- Witness of C4 (scenario 4 of the specification): region 8 has a pending
operator and its hot peer is the hottest of store 1; `solve` returns one
operator, for region 7, from the peer of region 7. -/
theorem solve_skips_pending_region_witness :
    (scenarioPendingSolver.sche.regionPendings 8).isSome = true ∧
    ∃ r, scenarioPendingSolver.solve = .ok r ∧
      r.ops = [{ scenarioOperator with highPriority := true }] ∧
      (∀ op ∈ r.ops, op.regionID ≠ 8) ∧
      (r.ops ≠ [] → ∃ b peer region, r.best = some b ∧ b.srcPeerStat = some peer ∧
        b.region = some region ∧ peer.RegionID ≠ 8 ∧ region.ID ≠ 8) := by
  have hproj : (Except.toOption scenarioPendingSolver.solve).map (fun r => r.ops) =
      some [{ scenarioOperator with highPriority := true }] := by
    decide!
  refine ⟨rfl, ?_⟩
  cases hs : scenarioPendingSolver.solve with
  | error e => simp [hs, Except.toOption] at hproj
  | ok r =>
    simp only [hs, Except.toOption, Option.map_some', Option.some.injEq] at hproj
    have key := solve_skips_pending_region scenarioPendingSolver r 8 hs rfl
    exact ⟨r, rfl, hproj, key.1, key.2⟩

/-! ## Rank steps and decline ratios -/

theorem roundToZero_of_nonneg (q : ℚ) (h : 0 ≤ q) : roundToZero q = ⌊q⌋ := by
  simp only [roundToZero, h, if_true]

theorem roundToZero_of_neg (q : ℚ) (h : q < 0) : roundToZero q = ⌈q⌉ := by
  simp only [roundToZero, not_le.mpr h, if_false]

theorem truncToInt_of_range (q : ℚ) (h1 : MinInt64 ≤ roundToZero q)
    (h2 : roundToZero q ≤ MaxInt64) : truncToInt q = roundToZero q := by
  simp only [truncToInt, h1, h2, and_self, if_true]

theorem truncToInt_of_above (q : ℚ) (h : MaxInt64 < roundToZero q) :
    truncToInt q = MinInt64 := by
  have h2 : ¬ (roundToZero q ≤ MaxInt64) := not_le.mpr h
  simp only [truncToInt, h2, and_false, if_false]

theorem truncToInt_of_below (q : ℚ) (h : roundToZero q < MinInt64) :
    truncToInt q = MinInt64 := by
  have h2 : ¬ (MinInt64 ≤ roundToZero q) := not_le.mpr h
  simp only [truncToInt, h2, false_and, if_false]

theorem truncToInt_range (q : ℚ) : MinInt64 ≤ truncToInt q ∧ truncToInt q ≤ MaxInt64 := by
  unfold truncToInt
  split_ifs with h
  · exact h
  · exact ⟨le_refl _, by decide⟩

theorem stepRank_of_step (rk0 step rate : ℚ) (hstep : step ≠ 0) :
    stepRank rk0 step rate = truncToInt ((rate - rk0) / step) := by
  simp only [stepRank, hstep, if_false]

/-- C17 as stated fails: with zero 1 and step 2 the rate 0 has quotient -1/2,
whose floor is -1, and `stepRank` gives 0. It fails above the range of `int64`
too: with zero 0 and step 1 the rate 10^19 has the quotient 10^19, which is
its own floor, and `stepRank` gives the least `int64`. -/
theorem stepRank_floor_counterexample :
    (0 : ℚ) < 2 ∧ stepRank 1 2 0 = 0 ∧ ⌊((0 : ℚ) - 1) / 2⌋ = -1 ∧
    stepRank 1 2 0 ≠ ⌊((0 : ℚ) - 1) / 2⌋ ∧
    (0 : ℚ) < 1 ∧ stepRank 0 1 10000000000000000000 = -9223372036854775808 ∧
    ⌊((10000000000000000000 : ℚ) - 0) / 1⌋ = 10000000000000000000 ∧
    stepRank 0 1 10000000000000000000 ≠ ⌊((10000000000000000000 : ℚ) - 0) / 1⌋ := by
  have h2 : ⌊((0 : ℚ) - 1) / 2⌋ = -1 := by
    rw [Int.floor_eq_iff]
    norm_num
  have hc : ⌈((0 : ℚ) - 1) / 2⌉ = 0 := by
    rw [Int.ceil_eq_iff]
    norm_num
  have h1 : stepRank 1 2 0 = 0 := by
    rw [stepRank_of_step _ _ _ (by norm_num),
      truncToInt_of_range _ (by rw [roundToZero_of_neg _ (by norm_num), hc]; decide)
        (by rw [roundToZero_of_neg _ (by norm_num), hc]; decide),
      roundToZero_of_neg _ (by norm_num), hc]
  have h4 : ⌊((10000000000000000000 : ℚ) - 0) / 1⌋ = 10000000000000000000 := by
    rw [Int.floor_eq_iff]
    norm_num
  have h3 : stepRank 0 1 10000000000000000000 = -9223372036854775808 := by
    rw [stepRank_of_step _ _ _ (by norm_num),
      truncToInt_of_above _ (by rw [roundToZero_of_nonneg _ (by norm_num), h4]; decide)]
    rfl
  refine ⟨by norm_num, h1, h2, ?_, by norm_num, h3, h4, ?_⟩
  · rw [h1, h2]
    decide
  · rw [h3, h4]
    decide

/-- C17, amended: for every rate, every zero and every step > 0,
`stepRank(zero, step)(rate)` is the quotient (rate - zero) / step with its
fraction dropped, whenever that is a value of `int64`: the floor of the
quotient when rate ≥ zero and it is at most the greatest `int64`, and the
ceiling of the quotient when rate < zero (as for source stores, ranked against
`maxSrc`) and it is at least the least `int64`. Past either end of the range
the rank is the least `int64`, so the rank is a value of `int64` in every
case. It is the floor of the quotient exactly when rate ≥ zero and the floor
is at most the greatest `int64`, or the ceiling and the floor agree on a value
of `int64`. -/
theorem stepRank_truncates (rk0 step rate : ℚ) (hstep : 0 < step) :
    (rk0 ≤ rate → ⌊(rate - rk0) / step⌋ ≤ MaxInt64 →
      stepRank rk0 step rate = ⌊(rate - rk0) / step⌋) ∧
    (rate < rk0 → MinInt64 ≤ ⌈(rate - rk0) / step⌉ →
      stepRank rk0 step rate = ⌈(rate - rk0) / step⌉) ∧
    (rk0 ≤ rate → MaxInt64 < ⌊(rate - rk0) / step⌋ → stepRank rk0 step rate = MinInt64) ∧
    (rate < rk0 → ⌈(rate - rk0) / step⌉ < MinInt64 → stepRank rk0 step rate = MinInt64) ∧
    (MinInt64 ≤ stepRank rk0 step rate ∧ stepRank rk0 step rate ≤ MaxInt64) ∧
    (stepRank rk0 step rate = ⌊(rate - rk0) / step⌋ ↔
      ((rk0 ≤ rate ∧ ⌊(rate - rk0) / step⌋ ≤ MaxInt64) ∨
        (⌈(rate - rk0) / step⌉ = ⌊(rate - rk0) / step⌋ ∧
          MinInt64 ≤ ⌊(rate - rk0) / step⌋ ∧ ⌊(rate - rk0) / step⌋ ≤ MaxInt64))) := by
  have hs : stepRank rk0 step rate = truncToInt ((rate - rk0) / step) :=
    stepRank_of_step rk0 step rate hstep.ne'
  have hpos : rk0 ≤ rate → 0 ≤ (rate - rk0) / step := fun h =>
    div_nonneg (sub_nonneg.mpr h) hstep.le
  have hneg : rate < rk0 → (rate - rk0) / step < 0 := fun h =>
    div_neg_of_neg_of_pos (sub_neg.mpr h) hstep
  have hfloor : rk0 ≤ rate → 0 ≤ ⌊(rate - rk0) / step⌋ := fun h =>
    Int.floor_nonneg.mpr (hpos h)
  have hceil : rate < rk0 → ⌈(rate - rk0) / step⌉ ≤ 0 := fun h =>
    Int.ceil_le.mpr (by exact_mod_cast (hneg h).le)
  have hfc : ⌊(rate - rk0) / step⌋ ≤ ⌈(rate - rk0) / step⌉ := Int.floor_le_ceil _
  have hmin : MinInt64 = -9223372036854775808 := rfl
  have hmax : MaxInt64 = 9223372036854775807 := rfl
  have c1 : rk0 ≤ rate → ⌊(rate - rk0) / step⌋ ≤ MaxInt64 →
      stepRank rk0 step rate = ⌊(rate - rk0) / step⌋ := by
    intro h hle
    have h0 := hfloor h
    rw [hs, truncToInt_of_range _ (by rw [roundToZero_of_nonneg _ (hpos h)]; omega)
      (by rw [roundToZero_of_nonneg _ (hpos h)]; exact hle), roundToZero_of_nonneg _ (hpos h)]
  have c2 : rate < rk0 → MinInt64 ≤ ⌈(rate - rk0) / step⌉ →
      stepRank rk0 step rate = ⌈(rate - rk0) / step⌉ := by
    intro h hle
    have h0 := hceil h
    rw [hs, truncToInt_of_range _ (by rw [roundToZero_of_neg _ (hneg h)]; exact hle)
      (by rw [roundToZero_of_neg _ (hneg h)]; omega), roundToZero_of_neg _ (hneg h)]
  have c3 : rk0 ≤ rate → MaxInt64 < ⌊(rate - rk0) / step⌋ →
      stepRank rk0 step rate = MinInt64 := by
    intro h hlt
    rw [hs, truncToInt_of_above _ (by rw [roundToZero_of_nonneg _ (hpos h)]; exact hlt)]
  have c4 : rate < rk0 → ⌈(rate - rk0) / step⌉ < MinInt64 →
      stepRank rk0 step rate = MinInt64 := by
    intro h hlt
    rw [hs, truncToInt_of_below _ (by rw [roundToZero_of_neg _ (hneg h)]; exact hlt)]
  refine ⟨c1, c2, c3, c4, by rw [hs]; exact truncToInt_range _, ?_⟩
  by_cases h : rk0 ≤ rate
  · have h0 := hfloor h
    by_cases hle : ⌊(rate - rk0) / step⌋ ≤ MaxInt64
    · rw [c1 h hle]
      exact ⟨fun _ => Or.inl ⟨h, hle⟩, fun _ => rfl⟩
    · rw [c3 h (not_le.mp hle)]
      constructor
      · intro he
        omega
      · rintro (⟨_, h2⟩ | ⟨_, _, h2⟩) <;> exact absurd h2 hle
  · have h2 : rate < rk0 := not_le.mp h
    have h0 := hceil h2
    by_cases hle : MinInt64 ≤ ⌈(rate - rk0) / step⌉
    · rw [c2 h2 hle]
      constructor
      · intro he
        exact Or.inr ⟨he, by omega, by omega⟩
      · rintro (⟨h3, _⟩ | ⟨h3, _, _⟩)
        · exact absurd h3 h
        · exact h3
    · rw [c4 h2 (not_le.mp hle)]
      constructor
      · intro he
        omega
      · rintro (⟨h3, _⟩ | ⟨h3, h4, _⟩)
        · exact absurd h3 h
        · omega

/-- Witness of C17: with zero 1 and step 2, the rate 5 has rank 2, the floor
of 2; the rate 0 has rank 0, the ceiling of -1/2. -/
theorem stepRank_truncates_witness :
    (0 : ℚ) < 2 ∧ stepRank 1 2 5 = ⌊((5 : ℚ) - 1) / 2⌋ ∧
    stepRank 1 2 0 = ⌈((0 : ℚ) - 1) / 2⌉ := by
  have hf : ⌊((5 : ℚ) - 1) / 2⌋ = 2 := by
    rw [Int.floor_eq_iff]
    norm_num
  have hc : ⌈((0 : ℚ) - 1) / 2⌉ = 0 := by
    rw [Int.ceil_eq_iff]
    norm_num
  exact ⟨by norm_num,
    (stepRank_truncates 1 2 5 (by norm_num)).1 (by norm_num) (by rw [hf]; decide),
    (stepRank_truncates 1 2 0 (by norm_num)).2.1 (by norm_num) (by rw [hc]; decide)⟩

theorem calcProgressiveRank_rankTable (bs : balanceSolver)
    (srcDetail dstDetail : storeLoadDetail) (peer : HotPeerStat)
    (hty : ¬ (bs.rwTy = rwType.write ∧ bs.opTy = opType.transferLeader))
    (hsrc : bs.stLoadDetail.lookup bs.cur.srcStoreID = some srcDetail)
    (hdst : bs.stLoadDetail.lookup bs.cur.dstStoreID = some dstDetail)
    (hpeer : bs.cur.srcPeerStat = some peer) :
    bs.calcProgressiveRank = .ok { bs with cur := { bs.cur with progressiveRank := (
      rankTable bs.sche.conf peer
        ((dstDetail.LoadPred.max.KeyRate + peer.KeyRate) /
          getSrcDecRate srcDetail.LoadPred.min.KeyRate peer.KeyRate)
        ((dstDetail.LoadPred.max.ByteRate + peer.ByteRate) /
          getSrcDecRate srcDetail.LoadPred.min.ByteRate peer.ByteRate)) } } := by
  simp only [balanceSolver.calcProgressiveRank, hsrc, hdst, hpeer, deref, if_neg hty, rankTable]
  simp only [decide_eq_true_eq]

theorem getSrcDecRate_eq_max (a b : ℚ) (h : a - b ≤ 0 ∨ 1 ≤ a - b) :
    getSrcDecRate a b = max (a - b) 1 := by
  simp only [getSrcDecRate]
  rcases h with h | h
  · rw [if_pos h, max_eq_right (le_trans h zero_le_one)]
  · rw [if_neg (not_le.mpr (lt_of_lt_of_le zero_lt_one h)), max_eq_left h]

/-- C18 as stated fails: for a source at 3/5, a peer of 1/10 and a
destination at 1/2 the difference src - p is 1/2; `calcProgressiveRank`
divides by 1/2, both its decline ratios are 6/5 and the rank is 0, while the
ratios of the claim are 3/5, under the great decline ratio, which by the rank
table make rank -3. -/
theorem declineRatio_max_counterexample :
    Except.map (fun b => b.cur.progressiveRank) scenarioSmallRates.calcProgressiveRank =
      .ok 0 ∧
    getSrcDecRate (3 / 5) (1 / 10) = 1 / 2 ∧
    max ((3 / 5 : ℚ) - 1 / 10) 1 = 1 ∧
    specDeclineRatio (1 / 2) (1 / 10) (3 / 5) = 3 / 5 ∧
    rankTable scenarioSmallRates.sche.conf (scenarioPeer (1 / 10) (1 / 10))
      (specDeclineRatio (1 / 2) (1 / 10) (3 / 5)) (specDeclineRatio (1 / 2) (1 / 10) (3 / 5)) =
      -3 := by
  refine ⟨?_, ?_, ?_, ?_, ?_⟩
  · rw [calcProgressiveRank_rankTable scenarioSmallRates
      (scenarioDetail (3 / 5) (3 / 5) 1 [scenarioPeer (1 / 10) (1 / 10)])
      (scenarioDetail (1 / 2) (1 / 2) 1 []) (scenarioPeer (1 / 10) (1 / 10))
      (by decide) (by rfl) (by rfl) (by rfl), rank_of_ok]
    simp [rankTable, scenarioSmallRates, scenarioDetail, scenarioPeer, scenarioAt,
      scenarioSolver, newHotScheduler, scenarioConf, storeLoadPred.min, storeLoadPred.max,
      minLoad, maxLoad, getSrcDecRate]
    norm_num
  · simp only [getSrcDecRate]
    norm_num
  · norm_num
  · simp only [specDeclineRatio]
    norm_num
  · simp [rankTable, specDeclineRatio, scenarioSmallRates, scenarioPeer, scenarioAt,
      scenarioSolver, newHotScheduler, scenarioConf]
    norm_num

/-- C18, amended: in the case other than write with transferLeader, the
decline ratios of `calcProgressiveRank` are (dstLd + p) / d for the key rate
and the byte rate, where the divisor d is srcLd - p when srcLd - p > 0 and 1
otherwise; d is max(srcLd - p, 1), and the ratios are those of the
specification, whenever srcLd - p ≤ 0 or srcLd - p ≥ 1 in both rates. -/
theorem declineRatio_divisor (bs : balanceSolver)
    (srcDetail dstDetail : storeLoadDetail) (peer : HotPeerStat)
    (hty : ¬ (bs.rwTy = rwType.write ∧ bs.opTy = opType.transferLeader))
    (hsrc : bs.stLoadDetail.lookup bs.cur.srcStoreID = some srcDetail)
    (hdst : bs.stLoadDetail.lookup bs.cur.dstStoreID = some dstDetail)
    (hpeer : bs.cur.srcPeerStat = some peer) :
    bs.calcProgressiveRank = .ok { bs with cur := { bs.cur with progressiveRank := (
      rankTable bs.sche.conf peer
        ((dstDetail.LoadPred.max.KeyRate + peer.KeyRate) /
          (if srcDetail.LoadPred.min.KeyRate - peer.KeyRate > 0
            then srcDetail.LoadPred.min.KeyRate - peer.KeyRate else 1))
        ((dstDetail.LoadPred.max.ByteRate + peer.ByteRate) /
          (if srcDetail.LoadPred.min.ByteRate - peer.ByteRate > 0
            then srcDetail.LoadPred.min.ByteRate - peer.ByteRate else 1))) } } ∧
    ((srcDetail.LoadPred.min.KeyRate - peer.KeyRate ≤ 0 ∨
        1 ≤ srcDetail.LoadPred.min.KeyRate - peer.KeyRate) →
      (srcDetail.LoadPred.min.ByteRate - peer.ByteRate ≤ 0 ∨
        1 ≤ srcDetail.LoadPred.min.ByteRate - peer.ByteRate) →
      bs.calcProgressiveRank = .ok { bs with cur := { bs.cur with progressiveRank := (
        rankTable bs.sche.conf peer
          (specDeclineRatio dstDetail.LoadPred.max.KeyRate peer.KeyRate
            srcDetail.LoadPred.min.KeyRate)
          (specDeclineRatio dstDetail.LoadPred.max.ByteRate peer.ByteRate
            srcDetail.LoadPred.min.ByteRate)) } }) := by
  have key := calcProgressiveRank_rankTable bs srcDetail dstDetail peer hty hsrc hdst hpeer
  have hdiv : ∀ a b : ℚ, getSrcDecRate a b = if a - b > 0 then a - b else 1 := by
    intro a b
    simp only [getSrcDecRate]
    by_cases h : a - b ≤ 0
    · rw [if_pos h, if_neg (not_lt.mpr h)]
    · rw [if_neg h, if_pos (not_le.mp h)]
  constructor
  · rw [key, hdiv, hdiv]
  · intro hk hb
    rw [key, getSrcDecRate_eq_max _ _ hk, getSrcDecRate_eq_max _ _ hb]
    rfl

/-- Witness of C18 (scenario 2 of the specification): destination 10, peer
20, source 100 give the ratio 30/80 = 0.375 in both rates, the ratio of the
specification, and rank -3. -/
theorem declineRatio_divisor_witness :
    specDeclineRatio 10 20 100 = 3 / 8 ∧
    Except.map (fun b => b.cur.progressiveRank)
      (scenarioAt rwType.write opType.movePeer (scenarioPeer 20 20)
        (scenarioLoads (scenarioPeer 20 20))).calcProgressiveRank = .ok (-3) := by
  have key := (declineRatio_divisor
    (scenarioAt rwType.write opType.movePeer (scenarioPeer 20 20)
      (scenarioLoads (scenarioPeer 20 20)))
    (scenarioDetail 100 100 5 [scenarioPeer 20 20]) (scenarioDetail 10 10 1 [])
    (scenarioPeer 20 20) (by decide) (by rfl) (by rfl) (by rfl)).2
  have h38 : specDeclineRatio 10 20 100 = 3 / 8 := by
    simp only [specDeclineRatio]
    norm_num
  refine ⟨h38, ?_⟩
  rw [key, rank_of_ok]
  · simp only [scenarioDetail, scenarioPeer, storeLoadPred.min, storeLoadPred.max, minLoad,
      maxLoad, min_self, max_self, h38]
    simp [rankTable, scenarioAt, scenarioSolver, newHotScheduler, scenarioConf]
    norm_num
  · right
    simp [scenarioDetail, scenarioPeer, storeLoadPred.min, minLoad]
    norm_num
  · right
    simp [scenarioDetail, scenarioPeer, storeLoadPred.min, minLoad]
    norm_num

/-! ## Release of a region and the weight of its operator -/

/-- C11 as stated fails: an operator created at time 0 that succeeded at 50
seconds is released by `gcRegionPendings` at 61 seconds under a zombie
duration of 60 seconds (its region has no entry any more), although only 11
seconds have passed since it reached SUCCESS and its weight is still 49/60. -/
theorem gcRegionPendings_zombie_counterexample :
    (scenarioTracking scenarioLateSuccess).regionPendings 7 =
      some { movePeer := some scenarioLateSuccess, transferLeader := none } ∧
    ((scenarioTracking scenarioLateSuccess).gcRegionPendings 61000000000).regionPendings 7 =
      none ∧
    (61000000000 : Int) - scenarioLateSuccess.reachTime <
      (scenarioTracking scenarioLateSuccess).conf.MaxZombieDuration ∧
    (scenarioTracking scenarioLateSuccess).calcPendingWeight 61000000000 scenarioLateSuccess =
      some (49 / 60) := by
  refine ⟨rfl, rfl, by decide, ?_⟩
  simp [hotScheduler.calcPendingWeight, scenarioLateSuccess, scenarioOperator, IsEndStatus,
    scenarioTracking, newHotScheduler, scenarioConf, fdiv]
  norm_num

theorem gcRegion_slot_cleared (maxZombieDuration now : Int) (slots : RegionSlots) :
    ((∀ s2, gcRegion maxZombieDuration now slots = some s2 → s2.movePeer = none) →
      gcSlot maxZombieDuration now slots.movePeer = none) ∧
    ((∀ s2, gcRegion maxZombieDuration now slots = some s2 → s2.transferLeader = none) →
      gcSlot maxZombieDuration now slots.transferLeader = none) := by
  constructor
  · intro hc
    by_contra hne
    have : gcRegion maxZombieDuration now slots =
        some { movePeer := gcSlot maxZombieDuration now slots.movePeer
               transferLeader := gcSlot maxZombieDuration now slots.transferLeader } := by
      simp only [gcRegion]
      rw [if_neg]
      simp only [Bool.and_eq_true, Option.isNone_iff_eq_none, not_and]
      intro h0
      exact absurd h0 hne
    exact hne (hc _ this)
  · intro hc
    by_contra hne
    have : gcRegion maxZombieDuration now slots =
        some { movePeer := gcSlot maxZombieDuration now slots.movePeer
               transferLeader := gcSlot maxZombieDuration now slots.transferLeader } := by
      simp only [gcRegion]
      rw [if_neg]
      simp only [Bool.and_eq_true, Option.isNone_iff_eq_none, not_and]
      intro _ h1
      exact absurd h1 hne
    exact hne (hc _ this)

theorem calcPendingWeight_ended (h : hotScheduler) (now : Int) (op : Operator)
    (hend : op.IsEnd = true) :
    (op.status ≠ OpStatus.SUCCESS → h.calcPendingWeight now op = some 0) ∧
    (op.status = OpStatus.SUCCESS → now - op.reachTime ≥ h.conf.MaxZombieDuration →
      h.calcPendingWeight now op = some 0) := by
  simp only [Operator.IsEnd] at hend
  constructor
  · intro hn
    by_cases hx : (op.expired || op.timedOut) = true
    · simp only [hotScheduler.calcPendingWeight, hx, if_true]
    · simp only [hotScheduler.calcPendingWeight, hx]
      cases hst : op.status <;> simp_all [IsEndStatus]
  · intro hs hd
    by_cases hx : (op.expired || op.timedOut) = true
    · simp only [hotScheduler.calcPendingWeight, hx, if_true]
    · simp only [hotScheduler.calcPendingWeight, hx]
      simp [hs, IsEndStatus, hd]

/-- C11, amended: `gcRegionPendings` releases a slot of a region only when its
operator has ended and more than maxZombieDuration has passed since the
create time of the operator (not since it reached its end status). At that
moment `calcPendingWeight` of the operator is 0 when its end status is not
SUCCESS, and for a succeeded operator when maxZombieDuration has also passed
since it succeeded. -/
theorem gcRegionPendings_releases_by_create_time (h : hotScheduler) (now : Int) (id : Nat)
    (slots : RegionSlots) (op : Operator)
    (hs : h.regionPendings id = some slots)
    (hslot :
      (slots.movePeer = some op ∧
        ∀ s2, (h.gcRegionPendings now).regionPendings id = some s2 → s2.movePeer = none) ∨
      (slots.transferLeader = some op ∧
        ∀ s2, (h.gcRegionPendings now).regionPendings id = some s2 →
          s2.transferLeader = none)) :
    op.IsEnd = true ∧ now > op.createTime + h.conf.MaxZombieDuration ∧
    (op.status ≠ OpStatus.SUCCESS → h.calcPendingWeight now op = some 0) ∧
    (op.status = OpStatus.SUCCESS → now - op.reachTime ≥ h.conf.MaxZombieDuration →
      h.calcPendingWeight now op = some 0) := by
  have hafter : (h.gcRegionPendings now).regionPendings id =
      gcRegion h.conf.MaxZombieDuration now slots := by
    simp [hotScheduler.gcRegionPendings, hs]
  rw [hafter] at hslot
  have hcl := gcRegion_slot_cleared h.conf.MaxZombieDuration now slots
  have hgc : gcSlot h.conf.MaxZombieDuration now (some op) = none := by
    rcases hslot with ⟨hop, hc⟩ | ⟨hop, hc⟩
    · rw [← hop]
      exact hcl.1 hc
    · rw [← hop]
      exact hcl.2 hc
  obtain ⟨hend, hold⟩ := (gcSlot_none_iff _ _ _).mp hgc
  exact ⟨hend, hold, (calcPendingWeight_ended h now op hend).1,
    (calcPendingWeight_ended h now op hend).2⟩

/-- Witness of C11: the operator that succeeded at its create time 0 is
released at 61 seconds under a zombie duration of 60 seconds, and its weight
is 0 then. -/
theorem gcRegionPendings_releases_by_create_time_witness :
    ((scenarioTracking scenarioSucceeded).gcRegionPendings 61000000000).regionPendings 7 =
      none ∧
    scenarioSucceeded.IsEnd = true ∧
    (61000000000 : Int) > scenarioSucceeded.createTime +
      (scenarioTracking scenarioSucceeded).conf.MaxZombieDuration ∧
    (scenarioTracking scenarioSucceeded).calcPendingWeight 61000000000 scenarioSucceeded =
      some 0 := by
  have key := gcRegionPendings_releases_by_create_time (scenarioTracking scenarioSucceeded)
    61000000000 7 { movePeer := some scenarioSucceeded, transferLeader := none }
    scenarioSucceeded rfl (Or.inl ⟨rfl, fun s2 hs2 => by cases hs2⟩)
  exact ⟨rfl, key.1, key.2.1, key.2.2.2 rfl (by decide)⟩

/-! ## Destination stores -/

theorem pickDstStores_nil_detail (bs : balanceSolver) (filters : StoreInfo → Bool)
    (candidates : List StoreInfo)
    (hc : ∃ s ∈ candidates, filters s = true ∧ bs.stLoadDetail.lookup s.ID = none) :
    ∀ ret, bs.pickDstStores filters candidates ret = .error Fault.nilDereference := by
  induction candidates with
  | nil =>
    obtain ⟨s, hs, _⟩ := hc
    simp at hs
  | cons x rest ih =>
    intro ret
    obtain ⟨s, hs, hf, hl⟩ := hc
    simp only [balanceSolver.pickDstStores]
    by_cases hfx : filters x = true
    · simp only [hfx, if_true]
      cases hlx : bs.stLoadDetail.lookup x.ID with
      | none => simp [deref]
      | some d =>
        have hrest : ∃ s ∈ rest, filters s = true ∧ bs.stLoadDetail.lookup s.ID = none := by
          rcases List.mem_cons.mp hs with h1 | h1
          · subst h1
            rw [hl] at hlx
            cases hlx
          · exact ⟨s, h1, hf, hl⟩
        simp only [deref]
        split_ifs
        · exact ih hrest _
        · exact ih hrest _
    · have hrest : ∃ s ∈ rest, filters s = true ∧ bs.stLoadDetail.lookup s.ID = none := by
        rcases List.mem_cons.mp hs with h1 | h1
        · subst h1
          exact absurd hf hfx
        · exact ⟨s, h1, hf, hl⟩
      simp only [hfx, Bool.false_eq_true, if_false]
      exact ih hrest _

/-- C14, the code at the failing input: store 4 is a candidate that passes the
target filters and has no load detail; `pickDstStores` does not return, it
stops on the nil load detail, and so does `solve`. -/
theorem pickDstStores_missing_detail_fault :
    scenarioNewStoreSolver.stLoadDetail.lookup 4 = none ∧
    scenarioNewStoreSolver.cluster.movePeerTarget (scenarioRegion 7) { ID := 1 } { ID := 4 } =
      true ∧
    scenarioNewStoreSolver.pickDstStores
      (scenarioNewStoreSolver.cluster.movePeerTarget (scenarioRegion 7) { ID := 1 })
      scenarioNewStoreSolver.cluster.GetStores [] = .error Fault.nilDereference ∧
    faultOf scenarioNewStoreSolver.solve = some Fault.nilDereference := by
  refine ⟨rfl, rfl, ?_, ?_⟩
  · exact pickDstStores_nil_detail scenarioNewStoreSolver
      (scenarioNewStoreSolver.cluster.movePeerTarget (scenarioRegion 7) { ID := 1 })
      scenarioNewStoreSolver.cluster.GetStores
      ⟨{ ID := 4 }, by simp [scenarioNewStoreSolver], rfl, rfl⟩ []
  · decide!

theorem mapInsert_mem_iff {β : Type} (m : List (Nat × β)) (k : Nat) (v : β)
    (hagree : ∀ kv ∈ m, kv.1 = k → kv.2 = v) :
    ∀ a, a ∈ mapInsert m k v ↔ (a ∈ m ∨ a = (k, v)) := by
  induction m with
  | nil =>
    intro a
    simp [mapInsert]
  | cons x rest ih =>
    obtain ⟨k0, v0⟩ := x
    intro a
    have hrest : ∀ kv ∈ rest, kv.1 = k → kv.2 = v :=
      fun kv hkv => hagree kv (List.mem_cons_of_mem _ hkv)
    simp only [mapInsert]
    split_ifs with hk
    · have hv : v0 = v := hagree (k0, v0) (List.mem_cons_self _ _) hk
      subst hk
      subst hv
      simp only [List.mem_cons]
      tauto
    · simp only [List.mem_cons, ih hrest a]
      tauto

theorem mapInsert_keys_nodup {β : Type} (m : List (Nat × β)) (k : Nat) (v : β)
    (hnd : (m.map Prod.fst).Nodup) : ((mapInsert m k v).map Prod.fst).Nodup := by
  induction m with
  | nil => simp [mapInsert]
  | cons x rest ih =>
    obtain ⟨k0, v0⟩ := x
    simp only [List.map_cons, List.nodup_cons] at hnd
    simp only [mapInsert]
    split_ifs with hk
    · subst hk
      simp only [List.map_cons, List.nodup_cons]
      exact hnd
    · simp only [List.map_cons, List.nodup_cons]
      refine ⟨?_, ih hnd.2⟩
      intro hmem
      obtain ⟨kv, hkv, hfst⟩ := List.mem_map.mp hmem
      rcases mapInsert_mem rest k v kv hkv with h1 | h1
      · rw [h1] at hfst
        exact hk hfst.symm
      · exact hnd.1 (List.mem_map.mpr ⟨kv, h1, hfst⟩)

theorem pickDstStores_members (bs : balanceSolver) (filters : StoreInfo → Bool)
    (candidates : List StoreInfo) :
    ∀ ret dsts : List (Nat × storeLoadDetail),
      bs.pickDstStores filters candidates ret = .ok dsts →
      (∀ kv ∈ ret, bs.stLoadDetail.lookup kv.1 = some kv.2) →
      (ret.map Prod.fst).Nodup →
      (∀ id d, (id, d) ∈ dsts ↔
        ((id, d) ∈ ret ∨
          ∃ s ∈ candidates, s.ID = id ∧ filters s = true ∧
            bs.stLoadDetail.lookup id = some d ∧
            d.LoadPred.max.ByteRate * bs.sche.conf.DstToleranceRatio <
              d.LoadPred.Expect.ByteRate ∧
            d.LoadPred.max.KeyRate * bs.sche.conf.DstToleranceRatio <
              d.LoadPred.Expect.KeyRate)) ∧
      (dsts.map Prod.fst).Nodup := by
  induction candidates with
  | nil =>
    intro ret dsts hp _ hnd
    simp only [balanceSolver.pickDstStores, Except.ok.injEq] at hp
    subst hp
    exact ⟨fun id d => by simp, hnd⟩
  | cons x rest ih =>
    intro ret dsts hp hret hnd
    simp only [balanceSolver.pickDstStores] at hp
    by_cases hfx : filters x = true
    · simp only [hfx, if_true] at hp
      cases hlx : bs.stLoadDetail.lookup x.ID with
      | none => simp [hlx, deref] at hp
      | some dx =>
        simp only [hlx, deref] at hp
        by_cases hcond : dx.LoadPred.max.ByteRate * bs.sche.conf.DstToleranceRatio <
              dx.LoadPred.Expect.ByteRate ∧
            dx.LoadPred.max.KeyRate * bs.sche.conf.DstToleranceRatio <
              dx.LoadPred.Expect.KeyRate
        · rw [if_pos hcond] at hp
          have hagree : ∀ kv ∈ ret, kv.1 = x.ID → kv.2 = dx := by
            intro kv hkv hk
            have := hret kv hkv
            rw [hk, hlx] at this
            exact (Option.some.inj this).symm
          have hmem := mapInsert_mem_iff ret x.ID dx hagree
          have hret2 : ∀ kv ∈ mapInsert ret x.ID dx,
              bs.stLoadDetail.lookup kv.1 = some kv.2 := by
            intro kv hkv
            rcases (hmem kv).mp hkv with h1 | h1
            · exact hret kv h1
            · rw [h1]
              exact hlx
          obtain ⟨h1, h2⟩ := ih _ _ hp hret2 (mapInsert_keys_nodup ret x.ID dx hnd)
          refine ⟨fun id d => ?_, h2⟩
          rw [h1 id d, hmem (id, d)]
          constructor
          · rintro ((h3 | h3) | ⟨s, hs, h4⟩)
            · exact Or.inl h3
            · simp only [Prod.mk.injEq] at h3
              obtain ⟨h5, h6⟩ := h3
              subst h5
              subst h6
              exact Or.inr ⟨x, List.mem_cons_self _ _, rfl, hfx, hlx, hcond.1, hcond.2⟩
            · exact Or.inr ⟨s, List.mem_cons_of_mem _ hs, h4⟩
          · rintro (h3 | ⟨s, hs, h4, h5, h6, h7⟩)
            · exact Or.inl (Or.inl h3)
            · rcases List.mem_cons.mp hs with h8 | h8
              · subst h8
                left
                right
                subst h4
                rw [hlx] at h6
                rw [Option.some.inj h6]
              · exact Or.inr ⟨s, h8, h4, h5, h6, h7⟩
        · rw [if_neg hcond] at hp
          obtain ⟨h1, h2⟩ := ih _ _ hp hret hnd
          refine ⟨fun id d => ?_, h2⟩
          rw [h1 id d]
          constructor
          · rintro (h3 | ⟨s, hs, h4⟩)
            · exact Or.inl h3
            · exact Or.inr ⟨s, List.mem_cons_of_mem _ hs, h4⟩
          · rintro (h3 | ⟨s, hs, h4, h5, h6, h7⟩)
            · exact Or.inl h3
            · rcases List.mem_cons.mp hs with h8 | h8
              · subst h8
                subst h4
                rw [hlx] at h6
                rw [← Option.some.inj h6] at h7
                exact absurd h7 hcond
              · exact Or.inr ⟨s, h8, h4, h5, h6, h7⟩
    · simp only [hfx, Bool.false_eq_true, if_false] at hp
      obtain ⟨h1, h2⟩ := ih _ _ hp hret hnd
      refine ⟨fun id d => ?_, h2⟩
      rw [h1 id d]
      constructor
      · rintro (h3 | ⟨s, hs, h4⟩)
        · exact Or.inl h3
        · exact Or.inr ⟨s, List.mem_cons_of_mem _ hs, h4⟩
      · rintro (h3 | ⟨s, hs, h4, h5, h6, h7⟩)
        · exact Or.inl h3
        · rcases List.mem_cons.mp hs with h8 | h8
          · subst h8
            exact absurd h5 hfx
          · exact Or.inr ⟨s, h8, h4, h5, h6, h7⟩

/-- C13: when `pickDstStores` returns (as it does whenever every candidate
that passes the filters has a load detail), its map holds exactly the IDs of
the candidate stores that pass the target filters and whose load detail has
LoadPred.max().ByteRate * dstToleranceRatio < Expect.ByteRate and
LoadPred.max().KeyRate * dstToleranceRatio < Expect.KeyRate, both strict, each
ID once and with the load detail of that store. -/
theorem pickDstStores_spec (bs : balanceSolver) (filters : StoreInfo → Bool)
    (candidates : List StoreInfo) :
    (∀ dsts, bs.pickDstStores filters candidates [] = .ok dsts →
      (∀ id d, (id, d) ∈ dsts ↔
        ∃ s ∈ candidates, s.ID = id ∧ filters s = true ∧
          bs.stLoadDetail.lookup id = some d ∧
          d.LoadPred.max.ByteRate * bs.sche.conf.DstToleranceRatio <
            d.LoadPred.Expect.ByteRate ∧
          d.LoadPred.max.KeyRate * bs.sche.conf.DstToleranceRatio <
            d.LoadPred.Expect.KeyRate) ∧
      (dsts.map Prod.fst).Nodup) ∧
    ((∀ s ∈ candidates, filters s = true → (bs.stLoadDetail.lookup s.ID).isSome = true) →
      ∃ dsts, bs.pickDstStores filters candidates [] = .ok dsts) := by
  constructor
  · intro dsts hp
    obtain ⟨h1, h2⟩ := pickDstStores_members bs filters candidates [] dsts hp (by simp)
      (by simp)
    refine ⟨fun id d => ?_, h2⟩
    rw [h1 id d]
    simp
  · intro hc
    obtain ⟨dsts, hd, _⟩ := pickDstStores_returns bs filters candidates hc [] (by simp)
    exact ⟨dsts, hd⟩

/-- Witness of C13: in scenario 2, for region 7 on store 1, `pickDstStores`
returns; store 2, at (10, 10) under the expectation (40, 40), is in its map
with its own load detail, and store 1, which holds the region, is not. -/
theorem pickDstStores_spec_witness :
    ∃ dsts, (scenarioSolver rwType.write opType.movePeer
        (scenarioLoads (scenarioPeer 20 20))).pickDstStores
        (scenarioCluster.movePeerTarget (scenarioRegion 7) { ID := 1 })
        scenarioCluster.GetStores [] = .ok dsts ∧
      (2, scenarioDetail 10 10 1 []) ∈ dsts ∧ ∀ d, (1, d) ∉ dsts := by
  have key := pickDstStores_spec (scenarioSolver rwType.write opType.movePeer
      (scenarioLoads (scenarioPeer 20 20)))
    (scenarioCluster.movePeerTarget (scenarioRegion 7) { ID := 1 }) scenarioCluster.GetStores
  obtain ⟨dsts, hd⟩ := key.2 (by
    intro s hs _
    simp only [scenarioCluster, List.mem_cons, List.mem_singleton, List.not_mem_nil,
      or_false] at hs
    rcases hs with h | h | h <;> subst h <;> rfl)
  refine ⟨dsts, hd, ?_, ?_⟩
  · rw [(key.1 dsts hd).1]
    refine ⟨{ ID := 2 }, by simp [scenarioCluster], rfl, rfl, rfl, ?_, ?_⟩ <;>
    · simp [scenarioDetail, storeLoadPred.max, maxLoad, scenarioSolver, newHotScheduler,
        scenarioConf]
      norm_num
  · intro d hmem
    rw [(key.1 dsts hd).1] at hmem
    obtain ⟨s, hs, hid, hf, _⟩ := hmem
    simp only [scenarioCluster, List.mem_cons, List.mem_singleton, List.not_mem_nil,
      or_false] at hs
    rcases hs with h | h | h <;> subst h <;> simp [scenarioCluster, scenarioRegion] at hid hf

/-! ## Source stores -/

theorem mapInsert_of_not_mem {β : Type} (m : List (Nat × β)) (k : Nat) (v : β)
    (hk : k ∉ m.map Prod.fst) : mapInsert m k v = m ++ [(k, v)] := by
  induction m with
  | nil => rfl
  | cons x rest ih =>
    obtain ⟨k0, v0⟩ := x
    simp only [List.map_cons, List.mem_cons, not_or] at hk
    simp only [mapInsert]
    rw [if_neg (fun h => hk.1 h.symm), ih hk.2]
    rfl

/-- On a map (distinct keys) `filterSrcStores` is the filter of
`stLoadDetail` by its three tests, in the order of `stLoadDetail`. -/
theorem filterSrcStores_eq_filter (bs : balanceSolver)
    (hnd : (bs.stLoadDetail.map Prod.fst).Nodup) :
    bs.filterSrcStores = bs.stLoadDetail.filter (fun kv =>
      (bs.cluster.GetStore kv.1).isSome && !(kv.2.HotPeers.length == 0) &&
      decide (kv.2.LoadPred.min.ByteRate >
          bs.sche.conf.SrcToleranceRatio * kv.2.LoadPred.Expect.ByteRate ∧
        kv.2.LoadPred.min.KeyRate >
          bs.sche.conf.SrcToleranceRatio * kv.2.LoadPred.Expect.KeyRate)) := by
  have gen : ∀ (l acc : List (Nat × storeLoadDetail)),
      ((acc ++ l).map Prod.fst).Nodup →
      l.foldl
        (fun (ret : List (Nat × storeLoadDetail)) (kv : Nat × storeLoadDetail) =>
          if (bs.cluster.GetStore kv.1).isNone then ret
          else if kv.2.HotPeers.length = 0 then ret
          else if kv.2.LoadPred.min.ByteRate >
                bs.sche.conf.SrcToleranceRatio * kv.2.LoadPred.Expect.ByteRate ∧
              kv.2.LoadPred.min.KeyRate >
                bs.sche.conf.SrcToleranceRatio * kv.2.LoadPred.Expect.KeyRate then
            mapInsert ret kv.1 kv.2
          else ret) acc =
      acc ++ l.filter (fun kv =>
        (bs.cluster.GetStore kv.1).isSome && !(kv.2.HotPeers.length == 0) &&
        decide (kv.2.LoadPred.min.ByteRate >
            bs.sche.conf.SrcToleranceRatio * kv.2.LoadPred.Expect.ByteRate ∧
          kv.2.LoadPred.min.KeyRate >
            bs.sche.conf.SrcToleranceRatio * kv.2.LoadPred.Expect.KeyRate)) := by
    intro l
    induction l with
    | nil =>
      intro acc _
      simp
    | cons x rest ih =>
      intro acc hnd2
      simp only [List.foldl_cons]
      have hx : x.1 ∉ acc.map Prod.fst := by
        simp only [List.map_append, List.map_cons] at hnd2
        have := List.nodup_append.mp hnd2
        intro hmem
        exact this.2.2 hmem (List.mem_cons_self _ _)
      have hnd3 : ∀ acc2 : List (Nat × storeLoadDetail), acc2.map Prod.fst = acc.map Prod.fst →
          ((acc2 ++ rest).map Prod.fst).Nodup := by
        intro acc2 h2
        simp only [List.map_append, List.map_cons] at hnd2 ⊢
        rw [h2]
        have := List.nodup_append.mp hnd2
        refine List.nodup_append.mpr ⟨this.1, (List.nodup_cons.mp this.2.1).2, ?_⟩
        intro a ha hb
        exact this.2.2 ha (List.mem_cons_of_mem _ hb)
      by_cases h1 : (bs.cluster.GetStore x.1).isNone = true
      · have h1b : (bs.cluster.GetStore x.1).isSome = false := by
          cases hg : bs.cluster.GetStore x.1 <;> simp_all
        simp only [h1, if_true, List.filter_cons, h1b, Bool.false_and]
        exact ih acc (hnd3 acc rfl)
      · have h1b : (bs.cluster.GetStore x.1).isSome = true := by
          cases hg : bs.cluster.GetStore x.1 <;> simp_all
        simp only [h1, Bool.false_eq_true, if_false, List.filter_cons, h1b, Bool.true_and]
        by_cases h2 : x.2.HotPeers.length = 0
        · simp only [h2, if_true, beq_self_eq_true, Bool.not_true, Bool.false_and]
          exact ih acc (hnd3 acc rfl)
        · have h2b : (x.2.HotPeers.length == 0) = false := by simpa using h2
          simp only [h2, if_false, h2b, Bool.not_false, Bool.true_and]
          by_cases h3 : x.2.LoadPred.min.ByteRate >
                bs.sche.conf.SrcToleranceRatio * x.2.LoadPred.Expect.ByteRate ∧
              x.2.LoadPred.min.KeyRate >
                bs.sche.conf.SrcToleranceRatio * x.2.LoadPred.Expect.KeyRate
          · simp only [h3, and_self, if_true, decide_True]
            rw [mapInsert_of_not_mem acc x.1 x.2 hx]
            rw [ih (acc ++ [(x.1, x.2)])]
            · simp
            · have : ((acc ++ [(x.1, x.2)]) ++ rest) = acc ++ x :: rest := by simp
              rw [this]
              exact hnd2
          · simp only [h3, if_false, decide_False]
            exact ih acc (hnd3 acc rfl)
  have := gen bs.stLoadDetail [] (by simpa using hnd)
  simpa [balanceSolver.filterSrcStores] using this

theorem lookup_of_mem_nodup {β : Type} (l : List (Nat × β)) (k : Nat) (v : β)
    (hnd : (l.map Prod.fst).Nodup) (hm : (k, v) ∈ l) : l.lookup k = some v := by
  induction l with
  | nil => simp at hm
  | cons x rest ih =>
    obtain ⟨k0, v0⟩ := x
    simp only [List.map_cons, List.nodup_cons] at hnd
    simp only [List.lookup]
    rcases List.mem_cons.mp hm with h1 | h1
    · simp only [Prod.mk.injEq] at h1
      obtain ⟨h2, h3⟩ := h1
      subst h2
      subst h3
      simp
    · have hne : k ≠ k0 := by
        intro h
        subst h
        exact hnd.1 (List.mem_map.mpr ⟨(k, v), h1, rfl⟩)
      have hb : (k == k0) = false := by simpa using hne
      simp only [hb]
      exact ih hnd.2 h1

theorem solve_no_source (bs : balanceSolver)
    (hnone : balanceSolver.filterSrcStores { bs with cur := solution.zero } = []) :
    ∃ r, bs.solve = .ok r ∧ r.ops = [] := by
  simp only [balanceSolver.solve, hnone, List.map_nil, solveSrcLoop, solveAddLoop]
  split_ifs with hv
  · exact ⟨_, rfl, rfl⟩
  · simp at *
  · exact ⟨_, rfl, rfl⟩

/-- C12: on a map `stLoadDetail` (distinct store IDs), `filterSrcStores`
returns exactly the stores of `stLoadDetail` that the cluster knows, whose
HotPeers list is not empty, and for which LoadPred.min().ByteRate >
srcToleranceRatio * Expect.ByteRate and LoadPred.min().KeyRate >
srcToleranceRatio * Expect.KeyRate, both strict; each returned store maps to
its own load detail. And when every store is at or below srcToleranceRatio *
Expect in its byte rate or in its key rate, `solve` returns no operator. -/
theorem filterSrcStores_spec (bs : balanceSolver)
    (hnd : (bs.stLoadDetail.map Prod.fst).Nodup) :
    (∀ id d, (id, d) ∈ bs.filterSrcStores ↔
      ((id, d) ∈ bs.stLoadDetail ∧ (bs.cluster.GetStore id).isSome = true ∧
        d.HotPeers ≠ [] ∧
        d.LoadPred.min.ByteRate > bs.sche.conf.SrcToleranceRatio * d.LoadPred.Expect.ByteRate ∧
        d.LoadPred.min.KeyRate > bs.sche.conf.SrcToleranceRatio * d.LoadPred.Expect.KeyRate)) ∧
    (∀ id d, (id, d) ∈ bs.filterSrcStores → bs.stLoadDetail.lookup id = some d) ∧
    ((∀ kv ∈ bs.stLoadDetail,
        kv.2.LoadPred.min.ByteRate ≤
            bs.sche.conf.SrcToleranceRatio * kv.2.LoadPred.Expect.ByteRate ∨
          kv.2.LoadPred.min.KeyRate ≤
            bs.sche.conf.SrcToleranceRatio * kv.2.LoadPred.Expect.KeyRate) →
      ∃ r, bs.solve = .ok r ∧ r.ops = []) := by
  have hiff : ∀ id d, (id, d) ∈ bs.filterSrcStores ↔
      ((id, d) ∈ bs.stLoadDetail ∧ (bs.cluster.GetStore id).isSome = true ∧
        d.HotPeers ≠ [] ∧
        d.LoadPred.min.ByteRate > bs.sche.conf.SrcToleranceRatio * d.LoadPred.Expect.ByteRate ∧
        d.LoadPred.min.KeyRate >
          bs.sche.conf.SrcToleranceRatio * d.LoadPred.Expect.KeyRate) := by
    intro id d
    rw [filterSrcStores_eq_filter bs hnd]
    simp only [List.mem_filter, Bool.and_eq_true, decide_eq_true_eq, Bool.not_eq_true',
      beq_eq_false_iff_ne, ne_eq, List.length_eq_zero]
    tauto
  refine ⟨hiff, ?_, ?_⟩
  · intro id d hm
    exact lookup_of_mem_nodup _ _ _ hnd ((hiff id d).mp hm).1
  · intro hall
    apply solve_no_source
    have hnd0 : ((balanceSolver.stLoadDetail { bs with cur := solution.zero }).map
        Prod.fst).Nodup := hnd
    rw [filterSrcStores_eq_filter _ hnd0]
    apply List.filter_eq_nil_iff.mpr
    intro kv hkv
    simp only [Bool.and_eq_true, decide_eq_true_eq, not_and]
    intro _ hb hk
    rcases hall kv hkv with h | h
    · exact absurd hb (not_lt.mpr h)
    · exact absurd hk (not_lt.mpr h)

/-- Witness of C12: in scenario 2 store 1, at (100, 100) over the expectation
(40, 40), is a source store with its own load detail and store 2 is not; and
with two stores both at the expectation `solve` returns no operator. -/
theorem filterSrcStores_spec_witness :
    (1, scenarioDetail 100 100 5 [scenarioPeer 20 20]) ∈
      (scenarioSolver rwType.write opType.movePeer
        (scenarioLoads (scenarioPeer 20 20))).filterSrcStores ∧
    (∀ d, (2, d) ∉ (scenarioSolver rwType.write opType.movePeer
        (scenarioLoads (scenarioPeer 20 20))).filterSrcStores) ∧
    ∃ r, scenarioBalancedSolver.solve = .ok r ∧ r.ops = [] := by
  have key := filterSrcStores_spec (scenarioSolver rwType.write opType.movePeer
      (scenarioLoads (scenarioPeer 20 20))) (by decide)
  have key2 := filterSrcStores_spec scenarioBalancedSolver (by decide)
  refine ⟨?_, ?_, ?_⟩
  · rw [key.1]
    refine ⟨by simp [scenarioSolver, scenarioLoads], rfl, by simp [scenarioDetail], ?_, ?_⟩ <;>
    · simp [scenarioDetail, storeLoadPred.min, minLoad, scenarioSolver, newHotScheduler,
        scenarioConf]
      norm_num
  · intro d hm
    obtain ⟨hmem, _, hp, _⟩ := (key.1 2 d).mp hm
    simp only [scenarioSolver, scenarioLoads, List.mem_cons, Prod.mk.injEq,
      List.mem_singleton, List.not_mem_nil, or_false] at hmem
    rcases hmem with h | h | h
    · exact absurd h.1 (by decide)
    · rw [h.2] at hp
      exact hp rfl
    · exact absurd h.1 (by decide)
  · apply key2.2.2
    intro kv hkv
    simp only [scenarioBalancedSolver, scenarioSolver, List.mem_cons, List.mem_singleton,
      List.not_mem_nil, or_false] at hkv
    left
    rcases hkv with h | h <;> subst h <;>
    · simp [scenarioDetail, storeLoadPred.min, minLoad, scenarioBalancedSolver, scenarioSolver,
        newHotScheduler, scenarioConf]

/-! ## Cap on the hot peers -/

/-- C15, the code at the failing input: with `max-peer-number` 1 and the two
distinct hot peers of store 1, one extreme in its byte rate and one in its key
rate, one pass of the loop of `filterHotPeers` takes a peer from each sorted
slice, and `filterHotPeers` returns both peers, more than `max-peer-number`. -/
theorem filterHotPeers_exceeds_cap :
    scenarioCapSolver.sche.conf.MaxPeerNumber = 1 ∧
    scenarioCapSolver.stLoadDetail.lookup scenarioCapSolver.cur.srcStoreID =
      some (scenarioDetail 100 100 5 [scenarioBytePeer, scenarioKeyPeer]) ∧
    scenarioBytePeer.ptr ≠ scenarioKeyPeer.ptr ∧
    Except.toOption scenarioCapSolver.filterHotPeers =
      some [scenarioBytePeer, scenarioKeyPeer] ∧
    ∃ peers, scenarioCapSolver.filterHotPeers = .ok peers ∧
      (peers.length : Int) > scenarioCapSolver.sche.conf.MaxPeerNumber := by
  have hproj : Except.toOption scenarioCapSolver.filterHotPeers =
      some [scenarioBytePeer, scenarioKeyPeer] := by
    decide!
  refine ⟨rfl, rfl, by decide, hproj, ?_⟩
  cases hf : scenarioCapSolver.filterHotPeers with
  | error e => simp [hf, Except.toOption] at hproj
  | ok peers =>
    simp only [hf, Except.toOption, Option.some.injEq] at hproj
    subst hproj
    exact ⟨_, rfl, by decide⟩

/-! ## The order of solutions -/

theorem rankCmp_antisymm (a b : ℚ) (rank : ℚ → Int) :
    rankCmp b a rank = - rankCmp a b rank := by
  simp only [rankCmp]
  rcases lt_trichotomy (rank a) (rank b) with h | h | h
  · rw [if_neg (ne_of_gt h), if_neg (not_lt.mpr h.le), if_neg (ne_of_lt h), if_pos h]
    rfl
  · rw [if_pos h.symm, if_pos h]
    rfl
  · rw [if_neg (ne_of_lt h), if_pos h, if_neg (ne_of_gt h), if_neg (not_lt.mpr h.le)]

theorem stLdRankCmp_antisymm (dim : storeLoad → ℚ) (rank : ℚ → Int) :
    cmpAntisymm (stLdRankCmp dim rank) :=
  fun x y => rankCmp_antisymm (dim x) (dim y) rank

theorem sliceLoadCmp_antisymm (cmps : List (storeLoad → storeLoad → Int))
    (h : ∀ c ∈ cmps, cmpAntisymm c) : cmpAntisymm (sliceLoadCmp cmps) := by
  induction cmps with
  | nil =>
    intro x y
    simp [sliceLoadCmp]
  | cons c rest ih =>
    intro x y
    have hc := h c (List.mem_cons_self _ _) x y
    have hr := ih (fun c2 hc2 => h c2 (List.mem_cons_of_mem _ hc2)) x y
    simp only [sliceLoadCmp]
    by_cases h0 : c x y = 0
    · have h1 : c y x = 0 := by rw [hc, h0]; rfl
      simp only [h0, h1, ne_eq, not_true_eq_false, if_false]
      exact hr
    · have h1 : c y x ≠ 0 := by
        rw [hc]
        exact neg_ne_zero.mpr h0
      simp only [ne_eq, h0, h1, not_false_eq_true, if_true]
      exact hc

theorem sliceLPCmp_antisymm (cmps : List (storeLoadPred → storeLoadPred → Int))
    (h : ∀ c ∈ cmps, cmpAntisymm c) : cmpAntisymm (sliceLPCmp cmps) := by
  induction cmps with
  | nil =>
    intro x y
    simp [sliceLPCmp]
  | cons c rest ih =>
    intro x y
    have hc := h c (List.mem_cons_self _ _) x y
    have hr := ih (fun c2 hc2 => h c2 (List.mem_cons_of_mem _ hc2)) x y
    simp only [sliceLPCmp]
    by_cases h0 : c x y = 0
    · have h1 : c y x = 0 := by rw [hc, h0]; rfl
      simp only [h0, h1, ne_eq, not_true_eq_false, if_false]
      exact hr
    · have h1 : c y x ≠ 0 := by
        rw [hc]
        exact neg_ne_zero.mpr h0
      simp only [ne_eq, h0, h1, not_false_eq_true, if_true]
      exact hc

theorem negLoadCmp_antisymm (c : storeLoad → storeLoad → Int) (h : cmpAntisymm c) :
    cmpAntisymm (negLoadCmp c) := by
  intro x y
  simp only [negLoadCmp, h x y]

theorem minLPCmp_antisymm (c : storeLoad → storeLoad → Int) (h : cmpAntisymm c) :
    cmpAntisymm (minLPCmp c) :=
  fun x y => h x.min y.min

theorem maxLPCmp_antisymm (c : storeLoad → storeLoad → Int) (h : cmpAntisymm c) :
    cmpAntisymm (maxLPCmp c) :=
  fun x y => h x.max y.max

theorem diffCmp_antisymm (c : storeLoad → storeLoad → Int) (h : cmpAntisymm c) :
    cmpAntisymm (diffCmp c) :=
  fun x y => h x.diff y.diff

theorem list_forall_two {α : Type} {P : α → Prop} {a b : α} (ha : P a) (hb : P b) :
    ∀ c ∈ [a, b], P c := by
  intro c hc
  simp only [List.mem_cons, List.mem_singleton, List.not_mem_nil, or_false] at hc
  rcases hc with h | h <;> subst h <;> assumption

theorem list_forall_three {α : Type} {P : α → Prop} {a b c : α} (ha : P a) (hb : P b)
    (hc : P c) : ∀ d ∈ [a, b, c], P d := by
  intro d hd
  simp only [List.mem_cons, List.mem_singleton, List.not_mem_nil, or_false] at hd
  rcases hd with h | h | h <;> subst h <;> assumption

theorem compareSrcStore_antisymm (bs : balanceSolver) (st1 st2 : Nat) (r : Int)
    (h : bs.compareSrcStore st1 st2 = .ok r) : bs.compareSrcStore st2 st1 = .ok (-r) := by
  by_cases heq : st1 = st2
  · subst heq
    simp only [balanceSolver.compareSrcStore, ne_eq, not_true_eq_false, if_false,
      Except.ok.injEq] at h ⊢
    rw [← h]
    rfl
  · have hne : st2 ≠ st1 := fun h2 => heq h2.symm
    simp only [balanceSolver.compareSrcStore, ne_eq, heq, hne, not_false_eq_true, if_true]
      at h ⊢
    cases h1 : deref (bs.stLoadDetail.lookup st1) with
    | error e => simp [h1] at h
    | ok d1 =>
      cases h2 : deref (bs.stLoadDetail.lookup st2) with
      | error e => simp [h1, h2] at h
      | ok d2 =>
        simp only [h1, h2, Except.ok.injEq] at h ⊢
        rw [← h]
        split_ifs
        · exact sliceLPCmp_antisymm _ (list_forall_two
            (minLPCmp_antisymm _ (negLoadCmp_antisymm _ (sliceLoadCmp_antisymm _
              (list_forall_two (stLdRankCmp_antisymm _ _) (stLdRankCmp_antisymm _ _)))))
            (diffCmp_antisymm _ (sliceLoadCmp_antisymm _
              (list_forall_three (stLdRankCmp_antisymm _ _) (stLdRankCmp_antisymm _ _)
                (stLdRankCmp_antisymm _ _))))) _ _
        · exact sliceLPCmp_antisymm _ (list_forall_two
            (minLPCmp_antisymm _ (negLoadCmp_antisymm _ (sliceLoadCmp_antisymm _
              (list_forall_two (stLdRankCmp_antisymm _ _) (stLdRankCmp_antisymm _ _)))))
            (diffCmp_antisymm _ (stLdRankCmp_antisymm _ _))) _ _

theorem compareDstStore_antisymm (bs : balanceSolver) (st1 st2 : Nat) (r : Int)
    (h : bs.compareDstStore st1 st2 = .ok r) : bs.compareDstStore st2 st1 = .ok (-r) := by
  by_cases heq : st1 = st2
  · subst heq
    simp only [balanceSolver.compareDstStore, ne_eq, not_true_eq_false, if_false,
      Except.ok.injEq] at h ⊢
    rw [← h]
    rfl
  · have hne : st2 ≠ st1 := fun h2 => heq h2.symm
    simp only [balanceSolver.compareDstStore, ne_eq, heq, hne, not_false_eq_true, if_true]
      at h ⊢
    cases h1 : deref (bs.stLoadDetail.lookup st1) with
    | error e => simp [h1] at h
    | ok d1 =>
      cases h2 : deref (bs.stLoadDetail.lookup st2) with
      | error e => simp [h1, h2] at h
      | ok d2 =>
        simp only [h1, h2, Except.ok.injEq] at h ⊢
        rw [← h]
        split_ifs
        · exact sliceLPCmp_antisymm _ (list_forall_two
            (maxLPCmp_antisymm _ (sliceLoadCmp_antisymm _
              (list_forall_two (stLdRankCmp_antisymm _ _) (stLdRankCmp_antisymm _ _))))
            (diffCmp_antisymm _ (sliceLoadCmp_antisymm _
              (list_forall_three (stLdRankCmp_antisymm _ _) (stLdRankCmp_antisymm _ _)
                (stLdRankCmp_antisymm _ _))))) _ _
        · exact sliceLPCmp_antisymm _ (list_forall_two
            (maxLPCmp_antisymm _ (sliceLoadCmp_antisymm _
              (list_forall_two (stLdRankCmp_antisymm _ _) (stLdRankCmp_antisymm _ _))))
            (diffCmp_antisymm _ (stLdRankCmp_antisymm _ _))) _ _

theorem peerPtrNe_self (a : Option HotPeerStat) : peerPtrNe a a = false := by
  cases a <;> simp [peerPtrNe]

/-- The ways `betterThan` answers true against a solution. -/
theorem betterThan_true_cases (bs : balanceSolver) (old : solution)
    (h : bs.betterThan (some old) = .ok true) :
    bs.cur.progressiveRank < old.progressiveRank ∨
    (bs.cur.progressiveRank = old.progressiveRank ∧
      ∃ r1, bs.compareSrcStore bs.cur.srcStoreID old.srcStoreID = .ok r1 ∧
        (r1 < 0 ∨ (r1 = 0 ∧
          ∃ r2, bs.compareDstStore bs.cur.dstStoreID old.dstStoreID = .ok r2 ∧
            (r2 < 0 ∨ (r2 = 0 ∧
              ∃ p q, bs.cur.srcPeerStat = some p ∧ old.srcPeerStat = some q ∧
                bs.betterPeer p q = true))))) := by
  simp only [balanceSolver.betterThan] at h
  by_cases hlt : bs.cur.progressiveRank < old.progressiveRank
  · exact Or.inl hlt
  · right
    simp only [hlt, if_false] at h
    by_cases hgt : bs.cur.progressiveRank > old.progressiveRank
    · simp [hgt] at h
    · simp only [hgt, if_false] at h
      refine ⟨le_antisymm (not_lt.mp hgt) (not_lt.mp hlt), ?_⟩
      cases hs : bs.compareSrcStore bs.cur.srcStoreID old.srcStoreID with
      | error e => simp [hs] at h
      | ok r1 =>
        simp only [hs] at h
        refine ⟨r1, rfl, ?_⟩
        by_cases h1 : r1 < 0
        · exact Or.inl h1
        · right
          simp only [h1, if_false] at h
          by_cases h2 : r1 > 0
          · simp [h2] at h
          · simp only [h2, if_false] at h
            refine ⟨le_antisymm (not_lt.mp h2) (not_lt.mp h1), ?_⟩
            cases hd : bs.compareDstStore bs.cur.dstStoreID old.dstStoreID with
            | error e => simp [hd] at h
            | ok r2 =>
              simp only [hd] at h
              refine ⟨r2, rfl, ?_⟩
              by_cases h3 : r2 < 0
              · exact Or.inl h3
              · right
                simp only [h3, if_false] at h
                by_cases h4 : r2 > 0
                · simp [h4] at h
                · simp only [h4, if_false] at h
                  refine ⟨le_antisymm (not_lt.mp h4) (not_lt.mp h3), ?_⟩
                  by_cases hp : peerPtrNe bs.cur.srcPeerStat old.srcPeerStat = true
                  · simp only [hp, if_true] at h
                    cases hc : bs.cur.srcPeerStat with
                    | none => simp [hc, deref] at h
                    | some p =>
                      cases ho : old.srcPeerStat with
                      | none => simp [hc, ho, deref] at h
                      | some q =>
                        simp only [hc, ho, deref, Except.ok.injEq] at h
                        exact ⟨p, q, rfl, rfl, h⟩
                  · simp [hp] at h

theorem betterPeer_asymm (bs : balanceSolver) (a b : solution) (p q : HotPeerStat)
    (hrank : a.progressiveRank = b.progressiveRank)
    (h1 : balanceSolver.betterPeer { bs with cur := a } p q = true)
    (h2 : balanceSolver.betterPeer { bs with cur := b } q p = true) : False := by
  simp only [balanceSolver.betterPeer] at h1 h2
  have hk := rankCmp_antisymm p.KeyRate q.KeyRate (stepRank 0 10)
  have hb := rankCmp_antisymm p.ByteRate q.ByteRate (stepRank 0 100)
  rw [← hrank] at h2
  rw [hk, hb] at h2
  by_cases hty : bs.rwTy = rwType.write ∧ bs.opTy = opType.transferLeader
  · simp only [hty, and_self, if_true] at h1 h2
    have e1 : p.KeyRate > q.KeyRate := by
      by_contra hc
      simp [hc] at h1
    have e2 : q.KeyRate > p.KeyRate := by
      by_contra hc
      simp [hc] at h2
    exact absurd e1 (not_lt.mpr e2.le)
  · simp only [hty, if_false] at h1 h2
    generalize rankCmp p.KeyRate q.KeyRate (stepRank 0 10) = k at h1 h2
    generalize rankCmp p.ByteRate q.ByteRate (stepRank 0 100) = c at h1 h2
    split_ifs at h1 h2 <;> simp only [decide_eq_true_eq] at h1 h2 <;> omega

/-- C16: for a fixed solver state `betterThan` is irreflexive and asymmetric:
`betterThan` of a solution against itself answers false, and for no two
solutions a and b does it answer true both for a against b and for b against
a. -/
theorem betterThan_strict (bs : balanceSolver) (a b : solution) :
    balanceSolver.betterThan { bs with cur := a } (some a) = .ok false ∧
    ¬ (balanceSolver.betterThan { bs with cur := a } (some b) = .ok true ∧
      balanceSolver.betterThan { bs with cur := b } (some a) = .ok true) := by
  constructor
  · simp [balanceSolver.betterThan, balanceSolver.compareSrcStore,
      balanceSolver.compareDstStore, peerPtrNe_self]
  · rintro ⟨hab, hba⟩
    rcases betterThan_true_cases _ _ hab with h1 | ⟨hr, r1, hs, h1⟩
    · rcases betterThan_true_cases _ _ hba with h2 | ⟨hr2, _⟩
      · simp only at h1 h2
        omega
      · simp only at h1 hr2
        omega
    · rcases betterThan_true_cases _ _ hba with h2 | ⟨_, s1, hs2, h2⟩
      · simp only at hr h2
        omega
      · simp only at hr hs hs2
        have hanti := compareSrcStore_antisymm _ _ _ _ hs
        have hs3 : balanceSolver.compareSrcStore { bs with cur := a } b.srcStoreID
            a.srcStoreID = balanceSolver.compareSrcStore { bs with cur := b } b.srcStoreID
            a.srcStoreID := rfl
        rw [hs3, hs2, Except.ok.injEq] at hanti
        rcases h1 with h1 | ⟨h10, r2, hd, h1⟩
        · rcases h2 with h2 | ⟨h20, _⟩ <;> omega
        · rcases h2 with h2 | ⟨h20, s2, hd2, h2⟩
          · omega
          · simp only at hd hd2
            have hanti2 := compareDstStore_antisymm _ _ _ _ hd
            have hd3 : balanceSolver.compareDstStore { bs with cur := a } b.dstStoreID
                a.dstStoreID = balanceSolver.compareDstStore { bs with cur := b } b.dstStoreID
                a.dstStoreID := rfl
            rw [hd3, hd2, Except.ok.injEq] at hanti2
            rcases h1 with h1 | ⟨h11, p, q, hp, hq, hbp⟩
            · rcases h2 with h2 | ⟨h21, _⟩ <;> omega
            · rcases h2 with h2 | ⟨h21, q2, p2, hq2, hp2, hbp2⟩
              · omega
              · simp only at hp hq hq2 hp2
                rw [hp] at hp2
                rw [hq] at hq2
                cases hp2
                cases hq2
                exact betterPeer_asymm bs a b p q hr hbp hbp2

/-! ## Load summarizer -/

theorem filterHotPeers_eq_filter (kind : ResourceKind) (minHotDegree : Int)
    (peers : List HotPeerStat) :
    filterHotPeers kind minHotDegree peers = specHotPeers kind minHotDegree peers := by
  have gen : ∀ (l acc : List HotPeerStat),
      l.foldl
        (fun (ret : List HotPeerStat) (peer : HotPeerStat) =>
          if (kind = ResourceKind.LeaderKind ∧ peer.isLeader = false) ∨
              peer.HotDegree < minHotDegree then ret
          else ret ++ [peer]) acc =
      acc ++ specHotPeers kind minHotDegree l := by
    intro l
    induction l with
    | nil =>
      intro acc
      simp [specHotPeers]
    | cons p rest ih =>
      intro acc
      simp only [List.foldl_cons]
      by_cases hc : (kind = ResourceKind.LeaderKind ∧ p.isLeader = false) ∨
          p.HotDegree < minHotDegree
      · rw [if_pos hc, ih]
        have : (decide (p.HotDegree ≥ minHotDegree) &&
            (decide (kind ≠ ResourceKind.LeaderKind) || p.isLeader)) = false := by
          rcases hc with ⟨h1, h2⟩ | h1
          · simp [h1, h2]
          · simp [not_le.mpr h1]
        simp only [specHotPeers, List.filter_cons, this]
        rfl
      · rw [if_neg hc, ih]
        simp only [not_or, not_and, not_lt] at hc
        have : (decide (p.HotDegree ≥ minHotDegree) &&
            (decide (kind ≠ ResourceKind.LeaderKind) || p.isLeader)) = true := by
          simp only [ge_iff_le, hc.2, decide_True, Bool.true_and, Bool.or_eq_true,
            decide_eq_true_eq]
          by_cases hk : kind = ResourceKind.LeaderKind
          · right
            have := hc.1 hk
            simpa using this
          · exact Or.inl hk
        simp only [specHotPeers, List.filter_cons, this, if_true, List.append_assoc,
          List.singleton_append]
  have := gen peers []
  simpa [filterHotPeers] using this

theorem hotPeerSums_fold (l : List HotPeerStat) :
    ∀ s : hotPeerSums,
      l.foldl
        (fun (s : hotPeerSums) (peer : HotPeerStat) =>
          { byteSum := s.byteSum + peer.ByteRate
            keySum := s.keySum + peer.KeyRate
            hotPeers := s.hotPeers ++ [peer.Clone] }) s =
      { byteSum := s.byteSum + (l.map HotPeerStat.ByteRate).sum
        keySum := s.keySum + (l.map HotPeerStat.KeyRate).sum
        hotPeers := s.hotPeers ++ l } := by
  induction l with
  | nil =>
    intro s
    simp
  | cons p rest ih =>
    intro s
    rw [List.foldl_cons, ih]
    simp only [List.map_cons, List.sum_cons, HotPeerStat.Clone, List.append_assoc,
      List.singleton_append, add_assoc]

/-- The detail that `summaryStoresLoad` builds for one store, before the
expectation is written. -/
theorem summaryStoreStep_eq (storeKeyRate : Nat → Option ℚ)
    (storePendings : Nat → Option Influence) (storeHotPeers : Nat → Option (List HotPeerStat))
    (minHotDegree : Int) (rwTy : rwType) (kind : ResourceKind) (acc : loadSums) (id : Nat)
    (byteRate : ℚ) :
    summaryStoreStep storeKeyRate storePendings storeHotPeers minHotDegree rwTy kind acc id
        byteRate =
      { loadDetail := mapInsert acc.loadDetail id
          { LoadPred := storeLoad.ToLoadPred
              (specCurrent rwTy kind
                (specHotPeers kind minHotDegree ((storeHotPeers id).getD []))
                byteRate ((storeKeyRate id).getD 0))
              ((storePendings id).getD { ByteRate := 0, KeyRate := 0, Count := 0 })
            HotPeers := specHotPeers kind minHotDegree ((storeHotPeers id).getD []) }
        allByteSum := acc.allByteSum +
          (specCurrent rwTy kind (specHotPeers kind minHotDegree ((storeHotPeers id).getD []))
            byteRate ((storeKeyRate id).getD 0)).ByteRate
        allKeySum := acc.allKeySum +
          (specCurrent rwTy kind (specHotPeers kind minHotDegree ((storeHotPeers id).getD []))
            byteRate ((storeKeyRate id).getD 0)).KeyRate
        allCount := acc.allCount +
          (specCurrent rwTy kind (specHotPeers kind minHotDegree ((storeHotPeers id).getD []))
            byteRate ((storeKeyRate id).getD 0)).Count } := by
  simp only [summaryStoreStep, filterHotPeers_eq_filter, hotPeerSums_fold, zero_add,
    List.nil_append, specCurrent]
  by_cases h : kind = ResourceKind.LeaderKind ∧ rwTy = rwType.write
  · have h2 : rwTy = rwType.write ∧ kind = ResourceKind.LeaderKind := ⟨h.2, h.1⟩
    simp only [h, h2, and_self, if_true]
  · have h2 : ¬ (rwTy = rwType.write ∧ kind = ResourceKind.LeaderKind) := fun h3 => h ⟨h3.2, h3.1⟩
    simp only [h, h2, if_false]

theorem summary_fold (storeKeyRate : Nat → Option ℚ) (storePendings : Nat → Option Influence)
    (storeHotPeers : Nat → Option (List HotPeerStat)) (minHotDegree : Int) (rwTy : rwType)
    (kind : ResourceKind) (l : List (Nat × ℚ)) :
    ∀ acc : loadSums, ((acc.loadDetail.map Prod.fst) ++ l.map Prod.fst).Nodup →
      l.foldl
        (fun (acc : loadSums) (kv : Nat × ℚ) =>
          summaryStoreStep storeKeyRate storePendings storeHotPeers minHotDegree rwTy kind acc
            kv.1 kv.2) acc =
      { loadDetail := acc.loadDetail ++ l.map (fun kv =>
          (kv.1, specStoreDetail storeKeyRate storePendings storeHotPeers minHotDegree rwTy
            kind { ByteRate := 0, KeyRate := 0, Count := 0 } kv))
        allByteSum := acc.allByteSum + (l.map (fun kv =>
          (specStoreCurrent storeKeyRate storeHotPeers minHotDegree rwTy kind kv).ByteRate)).sum
        allKeySum := acc.allKeySum + (l.map (fun kv =>
          (specStoreCurrent storeKeyRate storeHotPeers minHotDegree rwTy kind kv).KeyRate)).sum
        allCount := acc.allCount + (l.map (fun kv =>
          (specStoreCurrent storeKeyRate storeHotPeers minHotDegree rwTy kind kv).Count)).sum } := by
  induction l with
  | nil =>
    intro acc _
    simp
  | cons x rest ih =>
    intro acc hnd
    have hx : x.1 ∉ acc.loadDetail.map Prod.fst := by
      have := List.nodup_append.mp hnd
      intro hmem
      exact this.2.2 hmem (by simp)
    rw [List.foldl_cons, summaryStoreStep_eq, mapInsert_of_not_mem _ _ _ hx, ih]
    · simp only [List.map_cons, List.sum_cons, List.append_assoc, List.singleton_append,
        add_assoc, specStoreDetail, specStoreCurrent, storeLoad.ToLoadPred]
    · simp only [List.map_append, List.map_cons, List.map_nil, List.append_assoc,
        List.singleton_append]
      simpa using hnd

/-- On a map `storeByteRate` (distinct store IDs) `summaryStoresLoad` gives
every store, in the order of the map, the detail of the specification with
the mean of the current loads as expectation. -/
theorem summaryStoresLoad_eq (storeByteRate : List (Nat × ℚ)) (storeKeyRate : Nat → Option ℚ)
    (storePendings : Nat → Option Influence) (storeHotPeers : Nat → Option (List HotPeerStat))
    (minHotDegree : Int) (rwTy : rwType) (kind : ResourceKind)
    (hnd : (storeByteRate.map Prod.fst).Nodup) :
    summaryStoresLoad storeByteRate storeKeyRate storePendings storeHotPeers minHotDegree rwTy
        kind =
      storeByteRate.map (fun kv =>
        (kv.1, specStoreDetail storeKeyRate storePendings storeHotPeers minHotDegree rwTy kind
          { ByteRate := (storeByteRate.map (fun kv =>
              (specStoreCurrent storeKeyRate storeHotPeers minHotDegree rwTy kind
                kv).ByteRate)).sum / (storeByteRate.length : ℚ)
            KeyRate := (storeByteRate.map (fun kv =>
              (specStoreCurrent storeKeyRate storeHotPeers minHotDegree rwTy kind
                kv).KeyRate)).sum / (storeByteRate.length : ℚ)
            Count := (storeByteRate.map (fun kv =>
              (specStoreCurrent storeKeyRate storeHotPeers minHotDegree rwTy kind
                kv).Count)).sum / (storeByteRate.length : ℚ) } kv)) := by
  simp only [summaryStoresLoad]
  rw [summary_fold storeKeyRate storePendings storeHotPeers minHotDegree rwTy kind
    storeByteRate _ (by simpa using hnd)]
  simp only [List.nil_append, zero_add, List.map_map]
  rfl

/-- C19: on a map `storeByteRate` (distinct store IDs), for every rwType and
kind, `summaryStoresLoad` returns one detail per store of `storeByteRate` and
gives every returned detail the same Expect, the arithmetic mean of the
Current loads of the returned details: the sum of Current.ByteRate, of
Current.KeyRate and of Current.Count, each divided by the number N of stores
in `storeByteRate`. -/
theorem summaryStoresLoad_expect_mean (storeByteRate : List (Nat × ℚ))
    (storeKeyRate : Nat → Option ℚ) (storePendings : Nat → Option Influence)
    (storeHotPeers : Nat → Option (List HotPeerStat)) (minHotDegree : Int) (rwTy : rwType)
    (kind : ResourceKind) (hnd : (storeByteRate.map Prod.fst).Nodup) :
    (summaryStoresLoad storeByteRate storeKeyRate storePendings storeHotPeers minHotDegree
      rwTy kind).length = storeByteRate.length ∧
    ∀ kv ∈ summaryStoresLoad storeByteRate storeKeyRate storePendings storeHotPeers
        minHotDegree rwTy kind,
      kv.2.LoadPred.Expect =
        { ByteRate :=
            ((summaryStoresLoad storeByteRate storeKeyRate storePendings storeHotPeers
              minHotDegree rwTy kind).map (fun d => d.2.LoadPred.Current.ByteRate)).sum /
              (storeByteRate.length : ℚ)
          KeyRate :=
            ((summaryStoresLoad storeByteRate storeKeyRate storePendings storeHotPeers
              minHotDegree rwTy kind).map (fun d => d.2.LoadPred.Current.KeyRate)).sum /
              (storeByteRate.length : ℚ)
          Count :=
            ((summaryStoresLoad storeByteRate storeKeyRate storePendings storeHotPeers
              minHotDegree rwTy kind).map (fun d => d.2.LoadPred.Current.Count)).sum /
              (storeByteRate.length : ℚ) } := by
  rw [summaryStoresLoad_eq _ _ _ _ _ _ _ hnd]
  refine ⟨by simp, ?_⟩
  intro kv hkv
  obtain ⟨x, _, rfl⟩ := List.mem_map.mp hkv
  simp only [List.map_map]
  rfl

/-- Witness of C19: for write and leader, where the rates of a store are the
sums over its hot peers, the three stores have the current loads (20, 20, 1),
(0, 0, 0) and (0, 0, 0), and every detail has the expectation
(20/3, 20/3, 1/3). -/
theorem summaryStoresLoad_expect_mean_witness :
    (scenarioStoreRates.map Prod.fst).Nodup ∧
    (scenarioSummary rwType.write ResourceKind.LeaderKind).map
        (fun d => d.2.LoadPred.Current) =
      [ { ByteRate := 20, KeyRate := 20, Count := 1 },
        { ByteRate := 0, KeyRate := 0, Count := 0 },
        { ByteRate := 0, KeyRate := 0, Count := 0 } ] ∧
    ∀ kv ∈ scenarioSummary rwType.write ResourceKind.LeaderKind,
      kv.2.LoadPred.Expect = { ByteRate := 20 / 3, KeyRate := 20 / 3, Count := 1 / 3 } := by
  have hcur : (scenarioSummary rwType.write ResourceKind.LeaderKind).map
        (fun d => d.2.LoadPred.Current) =
      [ { ByteRate := 20, KeyRate := 20, Count := 1 },
        { ByteRate := 0, KeyRate := 0, Count := 0 },
        { ByteRate := 0, KeyRate := 0, Count := 0 } ] := by
    decide!
  have key := (summaryStoresLoad_expect_mean scenarioStoreRates
    (fun id => scenarioStoreRates.lookup id) (fun _ => none)
    (fun id =>
      if id = 1 then some [scenarioPeer 20 20, { scenarioPeerEight with HotDegree := 1 }]
      else if id = 9 then some [scenarioPeerEight]
      else none) 3 rwType.write ResourceKind.LeaderKind (by decide)).2
  refine ⟨by decide, hcur, ?_⟩
  intro kv hkv
  have h1 := congrArg (List.map storeLoad.ByteRate) hcur
  have h2 := congrArg (List.map storeLoad.KeyRate) hcur
  have h3 := congrArg (List.map storeLoad.Count) hcur
  simp only [List.map_map] at h1 h2 h3
  have := key kv hkv
  rw [this]
  have e1 : (fun d : Nat × storeLoadDetail => d.2.LoadPred.Current.ByteRate) =
      storeLoad.ByteRate ∘ fun d => d.2.LoadPred.Current := rfl
  have e2 : (fun d : Nat × storeLoadDetail => d.2.LoadPred.Current.KeyRate) =
      storeLoad.KeyRate ∘ fun d => d.2.LoadPred.Current := rfl
  have e3 : (fun d : Nat × storeLoadDetail => d.2.LoadPred.Current.Count) =
      storeLoad.Count ∘ fun d => d.2.LoadPred.Current := rfl
  rw [e1, e2, e3]
  simp only [scenarioSummary] at h1 h2 h3
  rw [h1, h2, h3]
  simp [scenarioStoreRates]

/-- C20: on a map `storeByteRate` (distinct store IDs), `summaryStoresLoad`
returns a detail for exactly the store IDs of `storeByteRate`, in their order
(a store that appears only in `storeHotPeers` or `storeKeyRate` has none), and
for each such store HotPeers is the order-preserving sub-list of its peers
with HotDegree ≥ minHotDegree (and, for the leader kind, isLeader),
Current.Count is the length of that list, and Current.ByteRate and
Current.KeyRate are the sums of the rates of those peers for write and leader,
and the raw byte rate and key rate of the store (zero when the store has no
key rate) otherwise. -/
theorem summaryStoresLoad_details (storeByteRate : List (Nat × ℚ))
    (storeKeyRate : Nat → Option ℚ) (storePendings : Nat → Option Influence)
    (storeHotPeers : Nat → Option (List HotPeerStat)) (minHotDegree : Int) (rwTy : rwType)
    (kind : ResourceKind) (hnd : (storeByteRate.map Prod.fst).Nodup) :
    (summaryStoresLoad storeByteRate storeKeyRate storePendings storeHotPeers minHotDegree
      rwTy kind).map Prod.fst = storeByteRate.map Prod.fst ∧
    (∀ id, id ∉ storeByteRate.map Prod.fst →
      (summaryStoresLoad storeByteRate storeKeyRate storePendings storeHotPeers minHotDegree
        rwTy kind).lookup id = none) ∧
    ∀ kv ∈ storeByteRate, ∃ d,
      (summaryStoresLoad storeByteRate storeKeyRate storePendings storeHotPeers minHotDegree
        rwTy kind).lookup kv.1 = some d ∧
      d.HotPeers = specHotPeers kind minHotDegree ((storeHotPeers kv.1).getD []) ∧
      d.LoadPred.Current.Count = (d.HotPeers.length : ℚ) ∧
      d.LoadPred.Current.ByteRate =
        (if rwTy = rwType.write ∧ kind = ResourceKind.LeaderKind
          then (d.HotPeers.map HotPeerStat.ByteRate).sum else kv.2) ∧
      d.LoadPred.Current.KeyRate =
        (if rwTy = rwType.write ∧ kind = ResourceKind.LeaderKind
          then (d.HotPeers.map HotPeerStat.KeyRate).sum
          else (storeKeyRate kv.1).getD 0) := by
  have hkeys : (summaryStoresLoad storeByteRate storeKeyRate storePendings storeHotPeers
      minHotDegree rwTy kind).map Prod.fst = storeByteRate.map Prod.fst := by
    rw [summaryStoresLoad_eq _ _ _ _ _ _ _ hnd, List.map_map]
    rfl
  refine ⟨hkeys, ?_, ?_⟩
  · intro id hid
    rw [List.lookup_eq_none_iff]
    intro p hp
    simp only [bne_iff_ne, ne_eq]
    intro hpid
    apply hid
    rw [← hkeys, hpid]
    exact List.mem_map_of_mem _ hp
  · intro kv hkv
    have hmem : (kv.1, specStoreDetail storeKeyRate storePendings storeHotPeers minHotDegree
        rwTy kind
        { ByteRate := (storeByteRate.map (fun kv =>
            (specStoreCurrent storeKeyRate storeHotPeers minHotDegree rwTy kind
              kv).ByteRate)).sum / (storeByteRate.length : ℚ)
          KeyRate := (storeByteRate.map (fun kv =>
            (specStoreCurrent storeKeyRate storeHotPeers minHotDegree rwTy kind
              kv).KeyRate)).sum / (storeByteRate.length : ℚ)
          Count := (storeByteRate.map (fun kv =>
            (specStoreCurrent storeKeyRate storeHotPeers minHotDegree rwTy kind
              kv).Count)).sum / (storeByteRate.length : ℚ) } kv) ∈
        summaryStoresLoad storeByteRate storeKeyRate storePendings storeHotPeers minHotDegree
          rwTy kind := by
      rw [summaryStoresLoad_eq _ _ _ _ _ _ _ hnd]
      exact List.mem_map.mpr ⟨kv, hkv, rfl⟩
    refine ⟨_, lookup_of_mem_nodup _ _ _ (by rw [hkeys]; exact hnd) hmem, rfl, rfl, rfl, rfl⟩
/-- Witness of C20: for read and region, the three stores of the scenario get
a detail and store 9, which has a hot peer but no byte rate, gets none; the
detail of store 1 keeps the peer of hot degree 3, drops the one of hot
degree 1, and has the raw rates (100, 100) and the count 1. -/
theorem summaryStoresLoad_details_witness :
    (scenarioStoreRates.map Prod.fst).Nodup ∧
    (scenarioSummary rwType.read ResourceKind.RegionKind).map Prod.fst = [1, 2, 3] ∧
    (scenarioSummary rwType.read ResourceKind.RegionKind).lookup 9 = none ∧
    ∃ d, (scenarioSummary rwType.read ResourceKind.RegionKind).lookup 1 = some d ∧
      d.HotPeers = [scenarioPeer 20 20] ∧
      d.LoadPred.Current.Count = 1 ∧
      d.LoadPred.Current.ByteRate = 100 ∧
      d.LoadPred.Current.KeyRate = 100 := by
  obtain ⟨hk, hn, hs⟩ := summaryStoresLoad_details scenarioStoreRates
    (fun id => scenarioStoreRates.lookup id) (fun _ => none)
    (fun id =>
      if id = 1 then some [scenarioPeer 20 20, { scenarioPeerEight with HotDegree := 1 }]
      else if id = 9 then some [scenarioPeerEight]
      else none) 3 rwType.read ResourceKind.RegionKind (by decide)
  refine ⟨by decide, hk, hn 9 (by decide), ?_⟩
  obtain ⟨d, hd, hp, hc, hb, hkr⟩ := hs (1, 100) (by simp [scenarioStoreRates])
  have hp2 : d.HotPeers = [scenarioPeer 20 20] := by
    rw [hp]
    decide!
  refine ⟨d, hd, hp2, ?_, ?_, ?_⟩
  · rw [hc, hp2]
    simp
  · rw [hb]
    simp [rwType.read, rwType.write]
  · rw [hkr]
    simp [rwType.read, rwType.write, scenarioStoreRates]

/-! ## The three resource classes -/

/-- C24 as stated fails: read with the opType 2, which is neither movePeer nor
transferLeader, is not one of the four valid combinations, and
`toResourceType` returns readLeader for it. -/
theorem toResourceType_read_counterexample :
    (⟨2⟩ : opType) ≠ opType.movePeer ∧ (⟨2⟩ : opType) ≠ opType.transferLeader ∧
    toResourceType rwType.read ⟨2⟩ = .ok resourceType.readLeader :=
  ⟨by decide, by decide, rfl⟩

/-- C24, amended: `toResourceType` stops if and only if the rwType is write
with an opType that is neither movePeer nor transferLeader, or the rwType is
neither write nor read (for read the opType is not looked at); it returns
writePeer for write with movePeer, writeLeader for write with transferLeader,
and readLeader for read with every opType, the two valid ones among them. -/
theorem toResourceType_spec (rwTy : rwType) (opTy : opType) :
    (toResourceType rwTy opTy = .error Fault.invalidArguments ↔
      ((rwTy = rwType.write ∧ opTy ≠ opType.movePeer ∧ opTy ≠ opType.transferLeader) ∨
        (rwTy ≠ rwType.write ∧ rwTy ≠ rwType.read))) ∧
    ((∃ rt, toResourceType rwTy opTy = .ok rt) ∨
      toResourceType rwTy opTy = .error Fault.invalidArguments) ∧
    toResourceType rwType.write opType.movePeer = .ok resourceType.writePeer ∧
    toResourceType rwType.write opType.transferLeader = .ok resourceType.writeLeader ∧
    toResourceType rwType.read opTy = .ok resourceType.readLeader := by
  refine ⟨?_, ?_, rfl, rfl, ?_⟩
  · by_cases hw : rwTy = rwType.write
    · by_cases hm : opTy = opType.movePeer
      · simp [toResourceType, hw, hm]
      · by_cases ht : opTy = opType.transferLeader
        · simp [toResourceType, hw, hm, ht, transferLeader_ne_movePeer]
        · simp [toResourceType, hw, hm, ht]
    · by_cases hr : rwTy = rwType.read
      · simp [toResourceType, hw, hr, read_ne_write]
      · simp [toResourceType, hw, hr]
  · unfold toResourceType
    split_ifs <;> simp
  · simp [toResourceType, read_ne_write]

/-! ## The bounds that `init` computes -/

theorem foldl_max_isGreatest (l : List ℚ) (a0 : ℚ) :
    IsGreatest {x | x = a0 ∨ x ∈ l} (l.foldl max a0) := by
  induction l generalizing a0 with
  | nil => exact ⟨Or.inl rfl, fun x hx => by rcases hx with h | h <;> simp_all⟩
  | cons y rest ih =>
    obtain ⟨hm, hub⟩ := ih (max a0 y)
    refine ⟨?_, ?_⟩
    · rcases hm with h | h
      · rw [List.foldl_cons, h]
        rcases max_choice a0 y with h2 | h2
        · exact Or.inl h2
        · exact Or.inr (by rw [h2]; exact List.mem_cons_self _ _)
      · exact Or.inr (List.mem_cons_of_mem _ h)
    · intro x hx
      rw [List.foldl_cons]
      rcases hx with h | h
      · exact le_trans (by rw [h]; exact le_max_left _ _) (hub (Or.inl rfl))
      · rcases List.mem_cons.mp h with h2 | h2
        · exact le_trans (by rw [h2]; exact le_max_right _ _) (hub (Or.inl rfl))
        · exact hub (Or.inr h2)

theorem foldl_min_isLeast (l : List ℚ) (a0 : ℚ) :
    IsLeast {x | x = a0 ∨ x ∈ l} (l.foldl min a0) := by
  induction l generalizing a0 with
  | nil => exact ⟨Or.inl rfl, fun x hx => by rcases hx with h | h <;> simp_all⟩
  | cons y rest ih =>
    obtain ⟨hm, hlb⟩ := ih (min a0 y)
    refine ⟨?_, ?_⟩
    · rcases hm with h | h
      · rw [List.foldl_cons, h]
        rcases min_choice a0 y with h2 | h2
        · exact Or.inl h2
        · exact Or.inr (by rw [h2]; exact List.mem_cons_self _ _)
      · exact Or.inr (List.mem_cons_of_mem _ h)
    · intro x hx
      rw [List.foldl_cons]
      rcases hx with h | h
      · exact le_trans (hlb (Or.inl rfl)) (by rw [h]; exact min_le_left _ _)
      · rcases List.mem_cons.mp h with h2 | h2
        · exact le_trans (hlb (Or.inl rfl)) (by rw [h2]; exact min_le_right _ _)
        · exact hlb (Or.inr h2)

theorem init_fold (l : List (Nat × storeLoadDetail)) (acc : storeLoad × storeLoad × storeLoad) :
    l.foldl
        (fun (acc : storeLoad × storeLoad × storeLoad) (kv : Nat × storeLoadDetail) =>
          (maxLoad acc.1 kv.2.LoadPred.min, minLoad acc.2.1 kv.2.LoadPred.max,
            maxLoad acc.2.2 kv.2.LoadPred.Current))
        acc =
      ({ ByteRate := (l.map (fun kv => kv.2.LoadPred.min.ByteRate)).foldl max acc.1.ByteRate
         KeyRate := (l.map (fun kv => kv.2.LoadPred.min.KeyRate)).foldl max acc.1.KeyRate
         Count := (l.map (fun kv => kv.2.LoadPred.min.Count)).foldl max acc.1.Count },
       { ByteRate := (l.map (fun kv => kv.2.LoadPred.max.ByteRate)).foldl min acc.2.1.ByteRate
         KeyRate := (l.map (fun kv => kv.2.LoadPred.max.KeyRate)).foldl min acc.2.1.KeyRate
         Count := (l.map (fun kv => kv.2.LoadPred.max.Count)).foldl min acc.2.1.Count },
       { ByteRate := (l.map (fun kv => kv.2.LoadPred.Current.ByteRate)).foldl max acc.2.2.ByteRate
         KeyRate := (l.map (fun kv => kv.2.LoadPred.Current.KeyRate)).foldl max acc.2.2.KeyRate
         Count := (l.map (fun kv => kv.2.LoadPred.Current.Count)).foldl max acc.2.2.Count }) := by
  induction l generalizing acc with
  | nil => rfl
  | cons kv rest ih =>
    rw [List.foldl_cons, ih]
    simp only [List.map_cons, List.foldl_cons, maxLoad, minLoad]

theorem init_eq (bs : balanceSolver) (rt : resourceType)
    (hrt : toResourceType bs.rwTy bs.opTy = .ok rt) :
    bs.init = .ok { bs with
      stLoadDetail := bs.sche.stLoadInfos rt
      maxSrc :=
        { ByteRate :=
            ((bs.sche.stLoadInfos rt).map (fun kv => kv.2.LoadPred.min.ByteRate)).foldl max 0
          KeyRate :=
            ((bs.sche.stLoadInfos rt).map (fun kv => kv.2.LoadPred.min.KeyRate)).foldl max 0
          Count :=
            ((bs.sche.stLoadInfos rt).map (fun kv => kv.2.LoadPred.min.Count)).foldl max 0 }
      minDst :=
        { ByteRate :=
            ((bs.sche.stLoadInfos rt).map (fun kv => kv.2.LoadPred.max.ByteRate)).foldl min
              MaxFloat64
          KeyRate :=
            ((bs.sche.stLoadInfos rt).map (fun kv => kv.2.LoadPred.max.KeyRate)).foldl min
              MaxFloat64
          Count :=
            ((bs.sche.stLoadInfos rt).map (fun kv => kv.2.LoadPred.max.Count)).foldl min
              MaxFloat64 }
      rankStep :=
        { ByteRate :=
            ((bs.sche.stLoadInfos rt).map (fun kv => kv.2.LoadPred.Current.ByteRate)).foldl max
              0 * bs.sche.conf.ByteRankStepRatio
          KeyRate :=
            ((bs.sche.stLoadInfos rt).map (fun kv => kv.2.LoadPred.Current.KeyRate)).foldl max
              0 * bs.sche.conf.KeyRankStepRatio
          Count :=
            ((bs.sche.stLoadInfos rt).map (fun kv => kv.2.LoadPred.Current.Count)).foldl max
              0 * bs.sche.conf.CountRankStepRatio } } := by
  simp only [balanceSolver.init, hrt, init_fold]

theorem isLeast_drop_start (l : List ℚ) (a0 m : ℚ) (hne : l ≠ [])
    (hle : ∀ x ∈ l, x ≤ a0) (h : IsLeast {x | x = a0 ∨ x ∈ l} m) :
    IsLeast {x | x ∈ l} m := by
  obtain ⟨hm, hlb⟩ := h
  refine ⟨?_, fun x hx => hlb (Or.inr hx)⟩
  rcases hm with h1 | h1
  · obtain ⟨y, hy⟩ := List.exists_mem_of_ne_nil l hne
    have h2 : m ≤ y := hlb (Or.inr hy)
    have h3 : y ≤ a0 := hle y hy
    have h4 : y = m := le_antisymm (by rw [h1]; exact h3) h2
    rw [← h4]
    exact hy
  · exact h1

theorem isGreatest_drop_start (l : List ℚ) (a0 m : ℚ) (hex : ∃ y ∈ l, a0 ≤ y)
    (h : IsGreatest {x | x = a0 ∨ x ∈ l} m) :
    IsGreatest {x | x ∈ l} m := by
  obtain ⟨hm, hub⟩ := h
  refine ⟨?_, fun x hx => hub (Or.inr hx)⟩
  rcases hm with h1 | h1
  · obtain ⟨y, hy, hay⟩ := hex
    have h2 : y ≤ m := hub (Or.inr hy)
    have h4 : y = m := le_antisymm h2 (by rw [h1]; exact hay)
    rw [← h4]
    exact hy
  · exact h1

/-- C21 as stated fails: the one store of the scenario has the byte rate -5 in
`LoadPred.min()`, which is so the maximum over all stores, and `init` leaves
`maxSrc.ByteRate` at 0, the value it starts from. -/
theorem init_maxSrc_counterexample :
    scenarioDrained.sche.stLoadInfos resourceType.writePeer ≠ [] ∧
    IsGreatest
      {x | x ∈ (scenarioDrained.sche.stLoadInfos resourceType.writePeer).map
        (fun kv => kv.2.LoadPred.min.ByteRate)} (-5) ∧
    Except.map (fun b => b.maxSrc.ByteRate) scenarioDrained.init = .ok 0 := by
  refine ⟨by simp [scenarioDrained, newHotScheduler], ?_, ?_⟩
  · simp [scenarioDrained, newHotScheduler, storeLoadPred.min, minLoad, IsGreatest, upperBounds]
    norm_num
  · rw [init_eq scenarioDrained resourceType.writePeer rfl]
    simp [Except.map, scenarioDrained, newHotScheduler, storeLoadPred.min, minLoad]

/-- C21, amended: `init` returns for every valid pair of rwType and opType,
with the load details of the resource class of the pair; `maxSrc` is the
coordinatewise maximum of zero and of `LoadPred.min()` over all stores, which
is the maximum over the stores in a coordinate in which some store has a
non-negative `min()`; and on non-empty load details whose loads are at most
`math.MaxFloat64`, `minDst` is the coordinatewise minimum over all stores of
`LoadPred.max()`. -/
theorem init_bounds (bs : balanceSolver) (rt : resourceType)
    (hrt : toResourceType bs.rwTy bs.opTy = .ok rt) :
    ∃ bs2, bs.init = .ok bs2 ∧ bs2.stLoadDetail = bs.sche.stLoadInfos rt ∧
      (IsGreatest {x | x = 0 ∨ x ∈ bs2.stLoadDetail.map (fun kv => kv.2.LoadPred.min.ByteRate)}
          bs2.maxSrc.ByteRate ∧
        IsGreatest {x | x = 0 ∨ x ∈ bs2.stLoadDetail.map (fun kv => kv.2.LoadPred.min.KeyRate)}
          bs2.maxSrc.KeyRate ∧
        IsGreatest {x | x = 0 ∨ x ∈ bs2.stLoadDetail.map (fun kv => kv.2.LoadPred.min.Count)}
          bs2.maxSrc.Count) ∧
      (((∃ kv ∈ bs2.stLoadDetail, 0 ≤ kv.2.LoadPred.min.ByteRate) →
          IsGreatest {x | x ∈ bs2.stLoadDetail.map (fun kv => kv.2.LoadPred.min.ByteRate)}
            bs2.maxSrc.ByteRate) ∧
        ((∃ kv ∈ bs2.stLoadDetail, 0 ≤ kv.2.LoadPred.min.KeyRate) →
          IsGreatest {x | x ∈ bs2.stLoadDetail.map (fun kv => kv.2.LoadPred.min.KeyRate)}
            bs2.maxSrc.KeyRate) ∧
        ((∃ kv ∈ bs2.stLoadDetail, 0 ≤ kv.2.LoadPred.min.Count) →
          IsGreatest {x | x ∈ bs2.stLoadDetail.map (fun kv => kv.2.LoadPred.min.Count)}
            bs2.maxSrc.Count)) ∧
      (bs2.stLoadDetail ≠ [] →
        (∀ kv ∈ bs2.stLoadDetail, kv.2.LoadPred.max.ByteRate ≤ MaxFloat64 ∧
          kv.2.LoadPred.max.KeyRate ≤ MaxFloat64 ∧ kv.2.LoadPred.max.Count ≤ MaxFloat64) →
        IsLeast {x | x ∈ bs2.stLoadDetail.map (fun kv => kv.2.LoadPred.max.ByteRate)}
          bs2.minDst.ByteRate ∧
        IsLeast {x | x ∈ bs2.stLoadDetail.map (fun kv => kv.2.LoadPred.max.KeyRate)}
          bs2.minDst.KeyRate ∧
        IsLeast {x | x ∈ bs2.stLoadDetail.map (fun kv => kv.2.LoadPred.max.Count)}
          bs2.minDst.Count) := by
  refine ⟨_, init_eq bs rt hrt, rfl, ?_, ?_, ?_⟩
  · exact ⟨foldl_max_isGreatest _ _, foldl_max_isGreatest _ _, foldl_max_isGreatest _ _⟩
  · refine ⟨?_, ?_, ?_⟩
    · rintro ⟨kv, hkv, h0⟩
      exact isGreatest_drop_start _ _ _ ⟨_, List.mem_map_of_mem _ hkv, h0⟩
        (foldl_max_isGreatest _ _)
    · rintro ⟨kv, hkv, h0⟩
      exact isGreatest_drop_start _ _ _ ⟨_, List.mem_map_of_mem _ hkv, h0⟩
        (foldl_max_isGreatest _ _)
    · rintro ⟨kv, hkv, h0⟩
      exact isGreatest_drop_start _ _ _ ⟨_, List.mem_map_of_mem _ hkv, h0⟩
        (foldl_max_isGreatest _ _)
  · intro hne hle
    have hne2 : ∀ f : Nat × storeLoadDetail → ℚ, (bs.sche.stLoadInfos rt).map f ≠ [] := by
      intro f h
      exact hne (List.map_eq_nil_iff.mp h)
    refine ⟨?_, ?_, ?_⟩
    · refine isLeast_drop_start _ _ _ (hne2 _) ?_ (foldl_min_isLeast _ _)
      intro x hx
      obtain ⟨kv, hkv, rfl⟩ := List.mem_map.mp hx
      exact (hle kv hkv).1
    · refine isLeast_drop_start _ _ _ (hne2 _) ?_ (foldl_min_isLeast _ _)
      intro x hx
      obtain ⟨kv, hkv, rfl⟩ := List.mem_map.mp hx
      exact (hle kv hkv).2.1
    · refine isLeast_drop_start _ _ _ (hne2 _) ?_ (foldl_min_isLeast _ _)
      intro x hx
      obtain ⟨kv, hkv, rfl⟩ := List.mem_map.mp hx
      exact (hle kv hkv).2.2

/-- Witness of C21 (scenario 2 of the specification, three stores at
(100, 100, 5), (10, 10, 1) and (10, 10, 1)): `init` gives `maxSrc` the byte
rate 100 and `minDst` the byte rate 10. -/
theorem init_bounds_witness :
    toResourceType rwType.write opType.movePeer = .ok resourceType.writePeer ∧
    ∃ bs2, (newBalanceSolver
        { newHotScheduler scenarioConf with
          stLoadInfos := fun _ => scenarioLoads (scenarioPeer 20 20) }
        scenarioCluster rwType.write opType.movePeer) = .ok bs2 ∧
      bs2.maxSrc.ByteRate = 100 ∧ bs2.minDst.ByteRate = 10 := by
  obtain ⟨bs2, h1, h2, h3, -, h5⟩ := init_bounds
    { sche := { newHotScheduler scenarioConf with
                stLoadInfos := fun _ => scenarioLoads (scenarioPeer 20 20) }
      cluster := scenarioCluster, stLoadDetail := [], rwTy := rwType.write
      opTy := opType.movePeer
      cur := solution.zero
      maxSrc := { ByteRate := 0, KeyRate := 0, Count := 0 }
      minDst := { ByteRate := 0, KeyRate := 0, Count := 0 }
      rankStep := { ByteRate := 0, KeyRate := 0, Count := 0 } } resourceType.writePeer rfl
  refine ⟨rfl, bs2, h1, ?_, ?_⟩
  · have hg := h3.1
    rw [h2] at hg
    have h100 : IsGreatest
        {x | x = 0 ∨ x ∈ (scenarioLoads (scenarioPeer 20 20)).map
          (fun kv => kv.2.LoadPred.min.ByteRate)} (100 : ℚ) := by
      simp [scenarioLoads, scenarioDetail, storeLoadPred.min, minLoad, IsGreatest, upperBounds]
      norm_num
    exact hg.unique h100
  · rw [h2] at h5
    have hl := (h5 (by simp [scenarioLoads]) (by
      intro kv hkv
      simp [scenarioLoads, scenarioDetail] at hkv
      rcases hkv with h | h | h <;> subst h <;>
        simp [scenarioDetail, storeLoadPred.max, maxLoad, MaxFloat64] <;> norm_num)).1
    have h10 : IsLeast
        {x | x ∈ (scenarioLoads (scenarioPeer 20 20)).map
          (fun kv => kv.2.LoadPred.max.ByteRate)} (10 : ℚ) := by
      simp [scenarioLoads, scenarioDetail, storeLoadPred.max, maxLoad, IsLeast, lowerBounds]
      norm_num
    exact hl.unique h10

/-! ## What the great decline ratio promises -/

theorem rankTable_cases (conf : hotRegionSchedulerConfig) (peer : HotPeerStat)
    (keyDec byteDec : ℚ) :
    ((rankTable conf peer keyDec byteDec = -1 ∨ rankTable conf peer keyDec byteDec = -3) →
      peer.ByteRate > conf.MinHotByteRate ∧ byteDec ≤ conf.GreatDecRatio) ∧
    ((rankTable conf peer keyDec byteDec = -2 ∨ rankTable conf peer keyDec byteDec = -3) →
      peer.KeyRate ≥ conf.MinHotKeyRate ∧ keyDec ≤ conf.GreatDecRatio) := by
  unfold rankTable
  split_ifs with h1 h2 h3
  · exact ⟨fun _ => ⟨h1.1, h1.2.1⟩, fun _ => ⟨h1.2.2.1, h1.2.2.2⟩⟩
  · exact ⟨fun h => by rcases h with h | h <;> simp at h, fun _ => ⟨h2.2.1, h2.2.2⟩⟩
  · exact ⟨fun _ => ⟨h3.1, h3.2⟩, fun h => by rcases h with h | h <;> simp at h⟩
  · exact ⟨fun h => by rcases h with h | h <;> simp at h,
      fun h => by rcases h with h | h <;> simp at h⟩

theorem decline_below (dst p src great : ℚ) (hg : great < 1) (hpos : 0 < src - p)
    (h : (dst + p) / getSrcDecRate src p ≤ great) : dst + p < src - p := by
  have hd : getSrcDecRate src p = src - p := by
    simp only [getSrcDecRate]
    rw [if_neg (not_le.mpr hpos)]
  rw [hd, div_le_iff₀ hpos] at h
  nlinarith

theorem decline_divisor_one (dst p src great : ℚ) (hle : src - p ≤ 0)
    (h : (dst + p) / getSrcDecRate src p ≤ great) : dst + p ≤ great := by
  have hd : getSrcDecRate src p = 1 := by
    simp only [getSrcDecRate]
    rw [if_pos hle]
  rwa [hd, div_one] at h

/-- C27 as stated fails: with the great decline ratio 19/20, no least hot rate,
a source at 1/5, a peer of 1/2 and an idle destination, all non-negative,
`calcProgressiveRank` divides by 1 in both rates, the ratios are 1/2 and the
rank is -3, while the destination after the move, at 1/2, is not below the
source after the move, at -3/10. -/
theorem greatDecRatio_small_source_counterexample :
    scenarioTinySource.sche.conf.GreatDecRatio < 1 ∧
    Except.map (fun b => b.cur.progressiveRank) scenarioTinySource.calcProgressiveRank =
      .ok (-3) ∧
    ¬ ((0 : ℚ) + 1 / 2 < 1 / 5 - 1 / 2) := by
  refine ⟨?_, ?_, by norm_num⟩
  · simp [scenarioTinySource, newHotScheduler, scenarioConf]
    norm_num
  · rw [calcProgressiveRank_rankTable scenarioTinySource
      (scenarioDetail (1 / 5) (1 / 5) 1 [scenarioPeer (1 / 2) (1 / 2)])
      (scenarioDetail 0 0 0 []) (scenarioPeer (1 / 2) (1 / 2))
      (by decide) (by rfl) (by rfl) (by rfl), rank_of_ok]
    simp [rankTable, scenarioTinySource, scenarioDetail, scenarioPeer, scenarioAt,
      scenarioSolver, newHotScheduler, scenarioConf, storeLoadPred.min, storeLoadPred.max,
      minLoad, maxLoad, getSrcDecRate]
    norm_num
/-- C27, amended: with greatDecRatio < 1, in the case other than write with
transferLeader, whenever `calcProgressiveRank` yields rank -1 or -3 and the
source keeps a positive byte rate after the move (srcLd.ByteRate -
p.ByteRate > 0, which is always so when the destination load is non-negative
and the least hot byte rate is at least greatDecRatio), the destination stays
below the source after the move: dstLd.ByteRate + p.ByteRate <
srcLd.ByteRate - p.ByteRate; and whenever it yields -2 or -3 the same holds
for the key rate (always so when the least hot key rate is above
greatDecRatio). When the source keeps nothing, the divisor is 1 and the rank
says only that dstLd + p is at most greatDecRatio. -/
theorem greatDecRatio_keeps_below (bs : balanceSolver)
    (srcDetail dstDetail : storeLoadDetail) (peer : HotPeerStat)
    (hty : ¬ (bs.rwTy = rwType.write ∧ bs.opTy = opType.transferLeader))
    (hsrc : bs.stLoadDetail.lookup bs.cur.srcStoreID = some srcDetail)
    (hdst : bs.stLoadDetail.lookup bs.cur.dstStoreID = some dstDetail)
    (hpeer : bs.cur.srcPeerStat = some peer)
    (hg : bs.sche.conf.GreatDecRatio < 1) :
    ∃ bs2, bs.calcProgressiveRank = .ok bs2 ∧
      ((bs2.cur.progressiveRank = -1 ∨ bs2.cur.progressiveRank = -3) →
        ((0 < srcDetail.LoadPred.min.ByteRate - peer.ByteRate ∨
            (bs.sche.conf.GreatDecRatio ≤ bs.sche.conf.MinHotByteRate ∧
              0 ≤ dstDetail.LoadPred.max.ByteRate)) →
          dstDetail.LoadPred.max.ByteRate + peer.ByteRate <
            srcDetail.LoadPred.min.ByteRate - peer.ByteRate) ∧
        (srcDetail.LoadPred.min.ByteRate - peer.ByteRate ≤ 0 →
          dstDetail.LoadPred.max.ByteRate + peer.ByteRate ≤ bs.sche.conf.GreatDecRatio)) ∧
      ((bs2.cur.progressiveRank = -2 ∨ bs2.cur.progressiveRank = -3) →
        ((0 < srcDetail.LoadPred.min.KeyRate - peer.KeyRate ∨
            (bs.sche.conf.GreatDecRatio < bs.sche.conf.MinHotKeyRate ∧
              0 ≤ dstDetail.LoadPred.max.KeyRate)) →
          dstDetail.LoadPred.max.KeyRate + peer.KeyRate <
            srcDetail.LoadPred.min.KeyRate - peer.KeyRate) ∧
        (srcDetail.LoadPred.min.KeyRate - peer.KeyRate ≤ 0 →
          dstDetail.LoadPred.max.KeyRate + peer.KeyRate ≤ bs.sche.conf.GreatDecRatio)) := by
  refine ⟨_, calcProgressiveRank_rankTable bs srcDetail dstDetail peer hty hsrc hdst hpeer,
    ?_, ?_⟩
  · intro hr
    obtain ⟨hhot, hdec⟩ := (rankTable_cases _ _ _ _).1 hr
    refine ⟨?_, fun hle => decline_divisor_one _ _ _ _ hle hdec⟩
    rintro (hpos | ⟨hmin, hd0⟩)
    · exact decline_below _ _ _ _ hg hpos hdec
    · by_cases hpos : 0 < srcDetail.LoadPred.min.ByteRate - peer.ByteRate
      · exact decline_below _ _ _ _ hg hpos hdec
      · have h1 := decline_divisor_one _ _ _ _ (not_lt.mp hpos) hdec
        linarith
  · intro hr
    obtain ⟨hhot, hdec⟩ := (rankTable_cases _ _ _ _).2 hr
    refine ⟨?_, fun hle => decline_divisor_one _ _ _ _ hle hdec⟩
    rintro (hpos | ⟨hmin, hd0⟩)
    · exact decline_below _ _ _ _ hg hpos hdec
    · by_cases hpos : 0 < srcDetail.LoadPred.min.KeyRate - peer.KeyRate
      · exact decline_below _ _ _ _ hg hpos hdec
      · have h1 := decline_divisor_one _ _ _ _ (not_lt.mp hpos) hdec
        linarith

/-- Witness of C27 (scenario 2 of the specification): source 100, peer 20,
destination 10 in both rates give rank -3, and 10 + 20 < 100 - 20 in both
rates. -/
theorem greatDecRatio_keeps_below_witness :
    Except.map (fun b => b.cur.progressiveRank)
      (scenarioAt rwType.write opType.movePeer (scenarioPeer 20 20)
        (scenarioLoads (scenarioPeer 20 20))).calcProgressiveRank = .ok (-3) ∧
    (scenarioDetail 10 10 1 []).LoadPred.max.ByteRate + (scenarioPeer 20 20).ByteRate <
      (scenarioDetail 100 100 5 [scenarioPeer 20 20]).LoadPred.min.ByteRate -
        (scenarioPeer 20 20).ByteRate ∧
    (scenarioDetail 10 10 1 []).LoadPred.max.KeyRate + (scenarioPeer 20 20).KeyRate <
      (scenarioDetail 100 100 5 [scenarioPeer 20 20]).LoadPred.min.KeyRate -
        (scenarioPeer 20 20).KeyRate := by
  obtain ⟨bs2, h1, h2, h3⟩ := greatDecRatio_keeps_below
    (scenarioAt rwType.write opType.movePeer (scenarioPeer 20 20)
      (scenarioLoads (scenarioPeer 20 20)))
    (scenarioDetail 100 100 5 [scenarioPeer 20 20]) (scenarioDetail 10 10 1 [])
    (scenarioPeer 20 20) (by decide) (by rfl) (by rfl) (by rfl)
    (by simp [scenarioAt, scenarioSolver, newHotScheduler, scenarioConf]; norm_num)
  have hrank : Except.map (fun b => b.cur.progressiveRank)
      (scenarioAt rwType.write opType.movePeer (scenarioPeer 20 20)
        (scenarioLoads (scenarioPeer 20 20))).calcProgressiveRank = .ok (-3) := by
    rw [calcProgressiveRank_rankTable
      (scenarioAt rwType.write opType.movePeer (scenarioPeer 20 20)
        (scenarioLoads (scenarioPeer 20 20)))
      (scenarioDetail 100 100 5 [scenarioPeer 20 20]) (scenarioDetail 10 10 1 [])
      (scenarioPeer 20 20) (by decide) (by rfl) (by rfl) (by rfl), rank_of_ok]
    simp [rankTable, scenarioDetail, scenarioPeer, scenarioAt, scenarioSolver,
      newHotScheduler, scenarioConf, storeLoadPred.min, storeLoadPred.max, minLoad, maxLoad,
      getSrcDecRate]
    norm_num
  have h3r : bs2.cur.progressiveRank = -3 := by
    rw [h1] at hrank
    simpa [Except.map] using hrank
  have hpos : (0 : ℚ) < (scenarioDetail 100 100 5 [scenarioPeer 20 20]).LoadPred.min.ByteRate -
      (scenarioPeer 20 20).ByteRate := by
    simp [scenarioDetail, scenarioPeer, storeLoadPred.min, minLoad]
    norm_num
  have hposk : (0 : ℚ) < (scenarioDetail 100 100 5 [scenarioPeer 20 20]).LoadPred.min.KeyRate -
      (scenarioPeer 20 20).KeyRate := by
    simp [scenarioDetail, scenarioPeer, storeLoadPred.min, minLoad]
    norm_num
  exact ⟨hrank, (h2 (Or.inr h3r)).1 (Or.inl hpos), (h3 (Or.inr h3r)).1 (Or.inl hposk)⟩

/-! ## Schedule interval -/

theorem roundToZero_mono (a b : ℚ) (h : a ≤ b) : roundToZero a ≤ roundToZero b := by
  unfold roundToZero
  split_ifs with ha hb hb
  · exact Int.floor_le_floor h
  · exact absurd (le_trans ha h) hb
  · exact le_trans (Int.ceil_le.mpr (le_of_lt (by push_cast; exact not_le.mp ha)))
      (Int.floor_nonneg.mpr hb)
  · exact Int.ceil_le_ceil h

theorem roundToZero_intCast (n : Int) : roundToZero (n : ℚ) = n := by
  unfold roundToZero
  split_ifs <;> simp

/-- C25, the code at the failing input: `GetNextInterval` does not read its
argument, so its answer is the same after every previous interval; with the
growth factor 13/10 it answers 1.3 seconds after a previous interval of 5
seconds, which is not greater than 5 seconds. For every growth factor of at
least 1 the answer is at least the minimum of 1 second and at most the
maximum of 20 seconds, and it is above every previous interval under 20
seconds only for a factor of 20 or more. -/
theorem GetNextInterval_ignores_previous :
    (∀ (h : hotScheduler) (factor : ℚ) (prev prev2 : Int),
      h.GetNextInterval factor prev = h.GetNextInterval factor prev2) ∧
    (newHotScheduler scenarioConf).GetNextInterval (13 / 10) 5000000000 = 1300000000 ∧
    ¬ ((newHotScheduler scenarioConf).GetNextInterval (13 / 10) 5000000000 > 5000000000) ∧
    (∀ (h : hotScheduler) (factor : ℚ) (prev : Int), 1 ≤ factor →
      h.GetMinInterval ≤ h.GetNextInterval factor prev ∧
      h.GetNextInterval factor prev ≤ maxHotScheduleInterval) ∧
    (∀ (h : hotScheduler) (factor : ℚ), factor < 20 →
      ¬ (h.GetNextInterval factor 19999999999 > 19999999999)) := by
  have h13 : (newHotScheduler scenarioConf).GetNextInterval (13 / 10) 5000000000 =
      1300000000 := by
    simp only [hotScheduler.GetNextInterval, intervalGrow, hotScheduler.GetMinInterval,
      minHotScheduleInterval, maxHotScheduleInterval]
    have : ((1000000000 : Int) : ℚ) * (13 / 10) = ((1300000000 : Int) : ℚ) := by norm_num
    rw [this, roundToZero_intCast]
    decide
  refine ⟨fun _ _ _ _ => rfl, h13, ?_, ?_, ?_⟩
  · rw [h13]
    decide
  · intro h factor prev hf
    simp only [hotScheduler.GetNextInterval, intervalGrow, hotScheduler.GetMinInterval,
      minHotScheduleInterval, maxHotScheduleInterval]
    refine ⟨le_min ?_ (by decide), min_le_right _ _⟩
    have h1 : ((1000000000 : Int) : ℚ) ≤ ((1000000000 : Int) : ℚ) * factor := by
      have : (0 : ℚ) ≤ ((1000000000 : Int) : ℚ) := by norm_num
      nlinarith
    have h2 := roundToZero_mono _ _ h1
    rwa [roundToZero_intCast] at h2
  · intro h factor hf
    simp only [hotScheduler.GetNextInterval, intervalGrow, hotScheduler.GetMinInterval,
      minHotScheduleInterval, maxHotScheduleInterval]
    have h1 : ((1000000000 : Int) : ℚ) * factor ≤ ((20000000000 : Int) : ℚ) := by
      push_cast
      nlinarith
    have h2 := roundToZero_mono _ _ h1
    rw [roundToZero_intCast] at h2
    have h3 : ((1000000000 : Int) : ℚ) * factor < ((20000000000 : Int) : ℚ) := by
      push_cast
      nlinarith
    have h4 : roundToZero (((1000000000 : Int) : ℚ) * factor) < 20000000000 := by
      unfold roundToZero
      split_ifs with hq
      · exact Int.floor_lt.mpr h3
      · exact lt_of_le_of_lt (Int.ceil_le.mpr (le_of_lt (by push_cast; exact not_le.mp hq)))
          (by decide)
    have h5 := min_le_left (roundToZero (((1000000000 : Int) : ℚ) * factor))
      (20 * 1000000000 : Int)
    omega

/-! ## Store candidates -/

theorem topLoop_eq (less : StoreInfo → StoreInfo → Int) (first : StoreInfo)
    (rest : List StoreInfo) (n : Nat) :
    ∀ i, (first :: rest).length - i = n →
      topLoop less (first :: rest) i =
        .ok (i + (((first :: rest).drop i).takeWhile
          (fun s => decide (less first s = 0))).length) := by
  induction n with
  | zero =>
    intro i hi
    have hge : ¬ i < (first :: rest).length := by omega
    rw [topLoop, if_neg hge, List.drop_eq_nil_of_le (by omega)]
    rfl
  | succ n ih =>
    intro i hi
    have hlt : i < (first :: rest).length := by omega
    rw [topLoop, if_pos hlt]
    have h0 : sliceIndex (first :: rest) 0 = .ok first := by simp [sliceIndex]
    have hi2 : sliceIndex (first :: rest) i = .ok ((first :: rest).get ⟨i, hlt⟩) := by
      simp [sliceIndex, List.getElem?_eq_getElem hlt]
    have hdrop : (first :: rest).drop i =
        (first :: rest).get ⟨i, hlt⟩ :: (first :: rest).drop (i + 1) := by
      simp [List.drop_eq_getElem_cons hlt]
    simp only [h0, hi2]
    by_cases hp : less first ((first :: rest).get ⟨i, hlt⟩) = 0
    · rw [if_pos hp, ih (i + 1) (by omega), hdrop, List.takeWhile_cons_of_pos (by simpa using hp)]
      simp only [List.length_cons]
      congr 1
      omega
    · rw [if_neg hp, hdrop, List.takeWhile_cons_of_neg (by simpa using hp)]
      rfl

theorem take_length_takeWhile {α : Type} (p : α → Bool) (l : List α) :
    l.take (l.takeWhile p).length = l.takeWhile p := by
  induction l with
  | nil => rfl
  | cons a rest ih =>
    by_cases h : p a = true
    · rw [List.takeWhile_cons_of_pos h, List.length_cons, List.take_succ_cons, ih]
    · rw [List.takeWhile_cons_of_neg h]
      rfl

theorem length_takeWhile_le {α : Type} (p : α → Bool) (l : List α) :
    (l.takeWhile p).length ≤ l.length := by
  induction l with
  | nil => simp
  | cons a rest ih =>
    by_cases h : p a = true
    · rw [List.takeWhile_cons_of_pos h]
      simp only [List.length_cons]
      omega
    · rw [List.takeWhile_cons_of_neg h]
      simp

theorem Top_eq_takeWhile (c : StoreCandidates) (less : StoreInfo → StoreInfo → Int) :
    c.Top less = .ok { Stores :=
      match c.Stores with
      | [] => []
      | first :: rest => (first :: rest).takeWhile (fun s => decide (less first s = 0)) } := by
  obtain ⟨stores⟩ := c
  cases stores with
  | nil =>
    simp [StoreCandidates.Top, topLoop]
  | cons first rest =>
    simp only [StoreCandidates.Top]
    rw [topLoop_eq less first rest _ 0 rfl]
    simp only [List.drop_zero, Nat.zero_add]
    rw [if_pos (length_takeWhile_le _ _), take_length_takeWhile]

theorem takeWhile_eq_filter_of_closed {α : Type} (p : α → Bool) (R : α → α → Prop)
    (l : List α) (hs : l.Pairwise R) (hcl : ∀ a ∈ l, ∀ b ∈ l, R a b → p a = false → p b = false) :
    l.takeWhile p = l.filter p := by
  induction l with
  | nil => rfl
  | cons a rest ih =>
    have hrest := ih (List.Pairwise.of_cons hs)
      (fun x hx y hy => hcl x (List.mem_cons_of_mem _ hx) y (List.mem_cons_of_mem _ hy))
    by_cases h : p a = true
    · rw [List.takeWhile_cons_of_pos h, List.filter_cons_of_pos h, hrest]
    · rw [List.takeWhile_cons_of_neg h, List.filter_cons_of_neg h]
      symm
      rw [List.filter_eq_nil_iff]
      intro b hb
      have hab : R a b := List.rel_of_pairwise_cons hs hb
      have := hcl a (List.mem_cons_self _ _) b (List.mem_cons_of_mem _ hb) hab
        (by simpa using h)
      simp [this]

theorem comparer_not_before {α : Type} (less : α → α → Int) (hpre : comparerPreorder less)
    (a b : α) (h : ¬ less b a < 0) : less a b ≤ 0 := by
  by_contra hc
  exact h ((hpre.1 b a).mpr (by omega))

/-- C26: for every candidate list sorted in ascending order by a comparer
`less` that is a total preorder, `Top(less)` returns and leaves exactly the
stores s of the list with less(first, s) = 0, in their order, where first is
the first store; on an empty list it returns with the empty list, no index
being out of range. -/
theorem Top_keeps_first_priority (c : StoreCandidates) (less : StoreInfo → StoreInfo → Int)
    (hpre : comparerPreorder less) (hsorted : sortedBy less c.Stores) :
    c.Top less = .ok { Stores :=
      match c.Stores with
      | [] => []
      | first :: _ => c.Stores.filter (fun s => decide (less first s = 0)) } := by
  rw [Top_eq_takeWhile]
  obtain ⟨stores⟩ := c
  cases stores with
  | nil => rfl
  | cons first rest =>
    simp only
    rw [takeWhile_eq_filter_of_closed _ (fun a b => ¬ less b a < 0) _ hsorted]
    intro a ha b hb hab hpa
    have hfa : less first a ≤ 0 := by
      rcases List.mem_cons.mp ha with h | h
      · rw [h]
        have h1 := hpre.1 first first
        omega
      · exact comparer_not_before less hpre _ _ (List.rel_of_pairwise_cons hsorted h)
    have hpa2 : less first a ≠ 0 := by simpa using hpa
    have hab2 : less a b ≤ 0 := comparer_not_before less hpre _ _ hab
    have hfb : less first b ≠ 0 := by
      intro h0
      have h1 : less b first ≤ 0 := by
        have := hpre.1 b first
        have := hpre.1 first b
        omega
      have h2 := hpre.2 a b first hab2 h1
      have h3 := hpre.1 first a
      omega
    simpa using hfb

theorem scenarioLess_preorder : comparerPreorder scenarioLess := by
  refine ⟨?_, ?_⟩
  · intro a b
    simp only [scenarioLess]
    omega
  · intro a b c
    simp only [scenarioLess]
    omega

/-- Witness of C26: of the stores 2, 3, 4, 5, which are sorted by half their
ID, `Top` keeps 2 and 3; and `Top` of no store is no store. -/
theorem Top_keeps_first_priority_witness :
    comparerPreorder scenarioLess ∧
    sortedBy scenarioLess [{ ID := 2 }, { ID := 3 }, { ID := 4 }, { ID := 5 }] ∧
    StoreCandidates.Top { Stores := [{ ID := 2 }, { ID := 3 }, { ID := 4 }, { ID := 5 }] }
      scenarioLess = .ok { Stores := [{ ID := 2 }, { ID := 3 }] } ∧
    StoreCandidates.Top { Stores := [] } scenarioLess = .ok { Stores := [] } := by
  have hs : sortedBy scenarioLess [{ ID := 2 }, { ID := 3 }, { ID := 4 }, { ID := 5 }] := by
    simp [sortedBy, scenarioLess]
  refine ⟨scenarioLess_preorder, hs, ?_, ?_⟩
  · rw [Top_keeps_first_priority _ _ scenarioLess_preorder hs]
    simp [scenarioLess]
  · rw [Top_keeps_first_priority _ _ scenarioLess_preorder (by simp [sortedBy])]

/-! ## One store -/

theorem filterSrcStores_nil (bs : balanceSolver)
    (h : ∀ kv ∈ bs.stLoadDetail,
      kv.2.HotPeers = [] ∨
      kv.2.LoadPred.min.ByteRate ≤
        bs.sche.conf.SrcToleranceRatio * kv.2.LoadPred.Expect.ByteRate ∨
      kv.2.LoadPred.min.KeyRate ≤
        bs.sche.conf.SrcToleranceRatio * kv.2.LoadPred.Expect.KeyRate) :
    bs.filterSrcStores = [] := by
  unfold balanceSolver.filterSrcStores
  generalize bs.stLoadDetail = l at h
  induction l with
  | nil => rfl
  | cons kv rest ih =>
    rw [List.foldl_cons]
    have hkv := h kv (List.mem_cons_self _ _)
    have hstep : (if (bs.cluster.GetStore kv.1).isNone = true then ([] : List (Nat × storeLoadDetail))
        else if kv.2.HotPeers.length = 0 then []
        else if kv.2.LoadPred.min.ByteRate >
              bs.sche.conf.SrcToleranceRatio * kv.2.LoadPred.Expect.ByteRate ∧
            kv.2.LoadPred.min.KeyRate >
              bs.sche.conf.SrcToleranceRatio * kv.2.LoadPred.Expect.KeyRate then
          mapInsert [] kv.1 kv.2
        else []) = [] := by
      split_ifs with h1 h2 h3
      · rfl
      · rfl
      · rcases hkv with hk | hk | hk
        · exact absurd (by simp [hk]) h2
        · exact absurd h3.1 (not_lt.mpr hk)
        · exact absurd h3.2 (not_lt.mpr hk)
      · rfl
    rw [hstep]
    exact ih (fun x hx => h x (List.mem_cons_of_mem _ hx))

theorem minLoad_le_left (a b : storeLoad) :
    (minLoad a b).ByteRate ≤ a.ByteRate ∧ (minLoad a b).KeyRate ≤ a.KeyRate ∧
    (minLoad a b).Count ≤ a.Count :=
  ⟨min_le_left _ _, min_le_left _ _, min_le_left _ _⟩

/-- C22: with a single store in the store statistics, `summaryStoresLoad`
makes the Expect of its load detail equal to its Current, and with
non-negative current rates and srcToleranceRatio ≥ 1 `solve` on that load
detail returns, with no operator, for every rwType and opType, every hot-peer
list and every pending influence. -/
theorem solve_single_store (bs : balanceSolver) (id : Nat) (byteRate : ℚ)
    (storeKeyRate : Nat → Option ℚ) (storePendings : Nat → Option Influence)
    (storeHotPeers : Nat → Option (List HotPeerStat)) (minHotDegree : Int) (rwTy : rwType)
    (kind : ResourceKind)
    (hld : bs.stLoadDetail =
      summaryStoresLoad [(id, byteRate)] storeKeyRate storePendings storeHotPeers minHotDegree
        rwTy kind)
    (hnonneg : ∀ kv ∈ bs.stLoadDetail,
      0 ≤ kv.2.LoadPred.Current.ByteRate ∧ 0 ≤ kv.2.LoadPred.Current.KeyRate)
    (htol : 1 ≤ bs.sche.conf.SrcToleranceRatio) :
    (∃ d, bs.stLoadDetail = [(id, d)] ∧ d.LoadPred.Expect = d.LoadPred.Current) ∧
    ∃ r, bs.solve = .ok r ∧ r.ops = [] := by
  have hone : ∃ d, bs.stLoadDetail = [(id, d)] ∧ d.LoadPred.Expect = d.LoadPred.Current := by
    rw [hld, summaryStoresLoad_eq _ _ _ _ _ _ _ (by simp)]
    refine ⟨_, rfl, ?_⟩
    simp [specStoreDetail, storeLoad.ToLoadPred]
  refine ⟨hone, ?_⟩
  apply solve_no_source
  apply filterSrcStores_nil
  intro kv hkv
  have hkv2 : kv ∈ bs.stLoadDetail := hkv
  obtain ⟨d, hd, he⟩ := hone
  obtain ⟨hb, _⟩ := hnonneg kv hkv2
  rw [hd] at hkv2
  have hkd : kv = (id, d) := by simpa using hkv2
  right
  left
  have hmin := (minLoad_le_left kv.2.LoadPred.Current kv.2.LoadPred.Future).1
  have hexp : kv.2.LoadPred.Expect.ByteRate = kv.2.LoadPred.Current.ByteRate := by
    rw [hkd]
    simp only [he]
  show kv.2.LoadPred.min.ByteRate ≤
    bs.sche.conf.SrcToleranceRatio * kv.2.LoadPred.Expect.ByteRate
  rw [hexp]
  have : kv.2.LoadPred.min.ByteRate ≤ kv.2.LoadPred.Current.ByteRate := hmin
  nlinarith
/-- Witness of C22: one store at (100, 100) with a hot peer and a pending
influence, tolerance ratio 1; `solve` returns no operator. -/
theorem solve_single_store_witness :
    (∀ kv ∈ scenarioSingleStore.stLoadDetail,
      0 ≤ kv.2.LoadPred.Current.ByteRate ∧ 0 ≤ kv.2.LoadPred.Current.KeyRate) ∧
    1 ≤ scenarioSingleStore.sche.conf.SrcToleranceRatio ∧
    ∃ r, scenarioSingleStore.solve = .ok r ∧ r.ops = [] := by
  have h1 : ∀ kv ∈ scenarioSingleStore.stLoadDetail,
      0 ≤ kv.2.LoadPred.Current.ByteRate ∧ 0 ≤ kv.2.LoadPred.Current.KeyRate := by
    decide!
  have h2 : 1 ≤ scenarioSingleStore.sche.conf.SrcToleranceRatio := by
    decide!
  exact ⟨h1, h2, (solve_single_store scenarioSingleStore 1 100 (fun _ => some 100)
    (fun _ => some { ByteRate := 5, KeyRate := 5, Count := 1 })
    (fun id => if id = 1 then some [scenarioPeer 20 20] else none)
    3 rwType.write ResourceKind.RegionKind rfl h1 h2).2⟩

/-! ## A tick without hot statistics -/

theorem summaryStoresLoad_no_hot (storeByteRate : List (Nat × ℚ))
    (storeKeyRate : Nat → Option ℚ) (storePendings : Nat → Option Influence)
    (storeHotPeers : Nat → Option (List HotPeerStat)) (minHotDegree : Int) (rwTy : rwType)
    (kind : ResourceKind) (hnd : (storeByteRate.map Prod.fst).Nodup)
    (hnone : ∀ id, storeHotPeers id = none) :
    ∀ kv ∈ summaryStoresLoad storeByteRate storeKeyRate storePendings storeHotPeers
        minHotDegree rwTy kind, kv.2.HotPeers = [] := by
  rw [summaryStoresLoad_eq _ _ _ _ _ _ _ hnd]
  intro kv hkv
  obtain ⟨x, _, rfl⟩ := List.mem_map.mp hkv
  simp [specStoreDetail, specHotPeers, hnone]

theorem solve_no_hot (bs : balanceSolver) (h : ∀ kv ∈ bs.stLoadDetail, kv.2.HotPeers = []) :
    bs.solve = .ok { ops := [], sche := bs.sche, best := none } := by
  have hnone : balanceSolver.filterSrcStores { bs with cur := solution.zero } = [] :=
    filterSrcStores_nil _ (fun kv hkv => Or.inl (h kv hkv))
  simp only [balanceSolver.solve, hnone, List.map_nil, solveSrcLoop, solveAddLoop]
  split_ifs with hv
  · rfl
  · simp at *
  · rfl

theorem newBalanceSolver_eq (sche : hotScheduler) (cluster : Cluster) (rwTy : rwType)
    (opTy : opType) (rt : resourceType) (hrt : toResourceType rwTy opTy = .ok rt) :
    ∃ bs, newBalanceSolver sche cluster rwTy opTy = .ok bs ∧ bs.sche = sche ∧
      bs.stLoadDetail = sche.stLoadInfos rt := by
  unfold newBalanceSolver
  rw [init_eq _ rt hrt]
  exact ⟨_, rfl, rfl, rfl⟩

theorem solve_cold (sche : hotScheduler) (cluster : Cluster) (rwTy : rwType)
    (opTy : opType) (rt : resourceType) (hrt : toResourceType rwTy opTy = .ok rt)
    (h : ∀ kv ∈ sche.stLoadInfos rt, kv.2.HotPeers = []) :
    ∃ bs, newBalanceSolver sche cluster rwTy opTy = .ok bs ∧
      bs.solve = .ok { ops := [], sche := sche, best := none } := by
  obtain ⟨bs, h1, h2, h3⟩ := newBalanceSolver_eq sche cluster rwTy opTy rt hrt
  refine ⟨bs, h1, ?_⟩
  rw [solve_no_hot bs (by rw [h3]; exact h), h2]

theorem prepareForBalance_no_hot (h : hotScheduler)
    (summary : List pendingInfluence → (Operator → Option ℚ) →
      List pendingInfluence × List (Nat × Influence))
    (stats : StoresStats) (now : Int) (hw : stats.wellFormed) (hcold : stats.noHotPeers) :
    ∀ rt, ∀ kv ∈ (h.prepareForBalance summary stats now).stLoadInfos rt, kv.2.HotPeers = [] := by
  intro rt
  cases rt with
  | writePeer =>
    exact summaryStoresLoad_no_hot _ _ _ _ _ _ _ hw.2 (fun id => (hcold id).2)
  | writeLeader =>
    exact summaryStoresLoad_no_hot _ _ _ _ _ _ _ hw.2 (fun id => (hcold id).2)
  | readLeader =>
    exact summaryStoresLoad_no_hot _ _ _ _ _ _ _ hw.1 (fun id => (hcold id).1)

theorem dispatch_no_hot (h : hotScheduler)
    (summary : List pendingInfluence → (Operator → Option ℚ) →
      List pendingInfluence × List (Nat × Influence))
    (stats : StoresStats) (now : Int) (s : Int) (typ : rwType) (cluster : Cluster)
    (hw : stats.wellFormed) (hcold : stats.noHotPeers) :
    h.dispatch summary stats now s typ cluster =
      .ok ([], h.prepareForBalance summary stats now) := by
  have hall := prepareForBalance_no_hot h summary stats now hw hcold
  obtain ⟨b1, hb1, hs1⟩ := solve_cold (h.prepareForBalance summary stats now) cluster
    rwType.read opType.transferLeader resourceType.readLeader rfl (hall _)
  obtain ⟨b2, hb2, hs2⟩ := solve_cold (h.prepareForBalance summary stats now) cluster
    rwType.read opType.movePeer resourceType.readLeader rfl (hall _)
  obtain ⟨b3, hb3, hs3⟩ := solve_cold (h.prepareForBalance summary stats now) cluster
    rwType.write opType.movePeer resourceType.writePeer rfl (hall _)
  obtain ⟨b4, hb4, hs4⟩ := solve_cold (h.prepareForBalance summary stats now) cluster
    rwType.write opType.transferLeader resourceType.writeLeader rfl (hall _)
  unfold hotScheduler.dispatch
  by_cases hr : typ = rwType.read
  · simp [hr, hotScheduler.balanceHotReadRegions, hb1, hs1, hb2, hs2]
  · by_cases hwr : typ = rwType.write
    · by_cases hs : s < truncToInt (schedulePeerPr * 100)
      · simp [hr, hwr, write_ne_read, hotScheduler.balanceHotWriteRegions, hs, hb3, hs3, hb4,
          hs4]
      · simp [hr, hwr, write_ne_read, hotScheduler.balanceHotWriteRegions, hs, hb4, hs4]
    · simp [hr, hwr]

theorem gcSlot_unchanged (maxZombieDuration now : Int) (slot : Option Operator)
    (h : ∀ op, slot = some op → ¬ (op.IsEnd = true ∧ now > op.createTime + maxZombieDuration)) :
    gcSlot maxZombieDuration now slot = slot := by
  cases slot with
  | none => rfl
  | some op =>
    apply gcSlot_keeps
    intro hn
    exact h op rfl ((gcSlot_none_iff _ _ _).mp hn)

theorem gcRegionPendings_unchanged (h : hotScheduler) (now : Int) (hin : slotsInhabited h)
    (hno : h.nothingToCollect now) :
    (h.gcRegionPendings now).regionPendings = h.regionPendings := by
  funext id
  simp only [hotScheduler.gcRegionPendings]
  cases hs : h.regionPendings id with
  | none => rfl
  | some slots =>
    have h0 := gcSlot_unchanged h.conf.MaxZombieDuration now slots.movePeer
      (fun op hop => hno id slots op hs (Or.inl hop))
    have h1 := gcSlot_unchanged h.conf.MaxZombieDuration now slots.transferLeader
      (fun op hop => hno id slots op hs (Or.inr hop))
    have hi := hin id slots hs
    simp only [Option.bind, gcRegion, h0, h1]
    rw [if_neg]
    intro hc
    simp only [Bool.and_eq_true, Option.isNone_iff_eq_none] at hc
    rcases hi with hi | hi
    · rw [hc.1] at hi
      simp at hi
    · rw [hc.2] at hi
      simp at hi

/-- C23 as stated fails: a scheduler that tracks, for region 7, an operator
that succeeded at its create time 0 runs a tick at 61 seconds (zombie duration
60 seconds) on a cluster without hot peers; the tick returns no operator, and
the entry of region 7, there before the tick, is gone after it. -/
theorem dispatch_collects_counterexample :
    scenarioColdStats.noHotPeers ∧
    (scenarioTracking scenarioSucceeded).regionPendings 7 =
      some { movePeer := some scenarioSucceeded, transferLeader := none } ∧
    ∃ h2, (scenarioTracking scenarioSucceeded).dispatch scenarioSummaryPending
        scenarioColdStats 61000000000 0 rwType.read scenarioCluster = .ok ([], h2) ∧
      h2.regionPendings 7 = none := by
  refine ⟨fun _ => ⟨rfl, rfl⟩, rfl, _, dispatch_no_hot _ _ _ _ _ _ _ ⟨by decide, by decide⟩
    (fun _ => ⟨rfl, rfl⟩), rfl⟩

/-- C23, amended: for every scheduler state, a tick (dispatch with read, with
write, or with any other type) on a cluster whose hot statistics are empty
returns no operator and adds nothing to the pending state: afterwards
`regionPendings` is what `gcRegionPendings` at the time of the tick makes of
it, `pendings` is what `summaryPendingInfluence` leaves of it, and
`regionPendings` is exactly as before the tick when no tracked operator is due
for collection (every entry having an operator). -/
theorem dispatch_cold_tick (h : hotScheduler)
    (summary : List pendingInfluence → (Operator → Option ℚ) →
      List pendingInfluence × List (Nat × Influence))
    (stats : StoresStats) (now : Int) (s : Int) (typ : rwType) (cluster : Cluster)
    (hw : stats.wellFormed) (hcold : stats.noHotPeers) :
    ∃ h2, h.dispatch summary stats now s typ cluster = .ok ([], h2) ∧
      h2.regionPendings = (h.gcRegionPendings now).regionPendings ∧
      (∀ ty, h2.pendings ty = (summary (h.pendings ty) (h.calcPendingWeight now)).1) ∧
      (slotsInhabited h → h.nothingToCollect now → h2.regionPendings = h.regionPendings) := by
  refine ⟨_, dispatch_no_hot h summary stats now s typ cluster hw hcold, rfl, fun _ => rfl, ?_⟩
  intro hin hno
  exact gcRegionPendings_unchanged h now hin hno

/-- Witness of C23: the scheduler that tracks the new operator of region 7
runs a read tick on the cluster without hot peers; no operator is returned and
the entry of region 7 is as before. -/
theorem dispatch_cold_tick_witness :
    scenarioColdStats.wellFormed ∧ scenarioColdStats.noHotPeers ∧
    ∃ h2, (scenarioTracking scenarioOperator).dispatch scenarioSummaryPending
        scenarioColdStats 61000000000 0 rwType.read scenarioCluster = .ok ([], h2) ∧
      h2.regionPendings = (scenarioTracking scenarioOperator).regionPendings ∧
      h2.pendings = (scenarioTracking scenarioOperator).pendings := by
  have hw : scenarioColdStats.wellFormed := ⟨by decide, by decide⟩
  have hc : scenarioColdStats.noHotPeers := fun _ => ⟨rfl, rfl⟩
  obtain ⟨h2, h1, -, h3, h4⟩ := dispatch_cold_tick (scenarioTracking scenarioOperator)
    scenarioSummaryPending scenarioColdStats 61000000000 0 rwType.read scenarioCluster hw hc
  refine ⟨hw, hc, h2, h1, h4 ?_ ?_, funext h3⟩
  · intro id slots hs
    simp only [scenarioTracking] at hs
    split_ifs at hs
    simp only [Option.some.injEq] at hs
    subst hs
    exact Or.inl rfl
  · intro id slots op hs hop
    simp only [scenarioTracking] at hs
    split_ifs at hs
    simp only [Option.some.injEq] at hs
    subst hs
    simp only [Option.some.injEq, false_or, or_false] at hop
    rcases hop with hop | hop
    · subst hop
      simp [Operator.IsEnd, scenarioOperator, IsEndStatus]
    · cases hop

/-! ## The order of solutions is a strict weak order -/

theorem cmp_self {α : Type} (c : α → α → Int) (h : cmpAntisymm c) (x : α) : c x x = 0 := by
  have := h x x
  omega

theorem cmp_strict_left {α : Type} (c : α → α → Int) (ha : cmpAntisymm c) (ht : cmpTrans c)
    (x y z : α) (h1 : c x y < 0) (h2 : c y z ≤ 0) : c x z < 0 := by
  by_contra hc
  have h3 : c z x ≤ 0 := by
    have := ha x z
    omega
  have h4 := ht y z x h2 h3
  have := ha x y
  omega

theorem cmp_strict_right {α : Type} (c : α → α → Int) (ha : cmpAntisymm c) (ht : cmpTrans c)
    (x y z : α) (h1 : c x y ≤ 0) (h2 : c y z < 0) : c x z < 0 := by
  by_contra hc
  have h3 : c z x ≤ 0 := by
    have := ha x z
    omega
  have h4 := ht z x y h3 h1
  have := ha y z
  omega

theorem cmp_zero_trans {α : Type} (c : α → α → Int) (ha : cmpAntisymm c) (ht : cmpTrans c)
    (x y z : α) (h1 : c x y = 0) (h2 : c y z = 0) : c x z = 0 := by
  have h3 := ht x y z (by omega) (by omega)
  have h4 : c z y = 0 := by
    have := ha y z
    omega
  have h5 : c y x = 0 := by
    have := ha x y
    omega
  have h6 := ht z y x (by omega) (by omega)
  have := ha x z
  omega

theorem lexCmp_antisymm {α : Type} (c d : α → α → Int) (hc : cmpAntisymm c)
    (hd : cmpAntisymm d) : cmpAntisymm (lexCmp c d) := by
  intro x y
  have h1 := hc x y
  have h2 := hd x y
  simp only [lexCmp]
  by_cases h0 : c x y = 0
  · have h3 : c y x = 0 := by omega
    simp only [h0, h3, ne_eq, not_true_eq_false, if_false]
    exact h2
  · have h3 : c y x ≠ 0 := by omega
    simp only [ne_eq, h0, h3, not_false_eq_true, if_true]
    exact h1

theorem lexCmp_trans {α : Type} (c d : α → α → Int) (hc : cmpAntisymm c) (hct : cmpTrans c)
    (hdt : cmpTrans d) : cmpTrans (lexCmp c d) := by
  intro x y z h1 h2
  simp only [lexCmp] at h1 h2 ⊢
  by_cases hxy : c x y = 0
  · simp only [hxy, ne_eq, not_true_eq_false, if_false] at h1
    by_cases hyz : c y z = 0
    · simp only [hyz, ne_eq, not_true_eq_false, if_false] at h2
      have hxz := cmp_zero_trans c hc hct x y z hxy hyz
      simp only [hxz, ne_eq, not_true_eq_false, if_false]
      exact hdt x y z h1 h2
    · simp only [ne_eq, hyz, not_false_eq_true, if_true] at h2
      have hxz := cmp_strict_right c hc hct x y z (by omega) (by omega)
      have hne : c x z ≠ 0 := by omega
      simp only [ne_eq, hne, not_false_eq_true, if_true]
      omega
  · simp only [ne_eq, hxy, not_false_eq_true, if_true] at h1
    have hyz : c y z ≤ 0 := by
      by_cases h0 : c y z = 0
      · omega
      · simp only [ne_eq, h0, not_false_eq_true, if_true] at h2
        exact h2
    have hxz := cmp_strict_left c hc hct x y z (by omega) hyz
    have hne : c x z ≠ 0 := by omega
    simp only [ne_eq, hne, not_false_eq_true, if_true]
    omega

theorem rankCmp_trans (rank : ℚ → Int) (a b c : ℚ) (h1 : rankCmp a b rank ≤ 0)
    (h2 : rankCmp b c rank ≤ 0) : rankCmp a c rank ≤ 0 := by
  simp only [rankCmp] at h1 h2 ⊢
  split_ifs at h1 h2 ⊢ <;> omega

theorem stLdRankCmp_trans (dim : storeLoad → ℚ) (rank : ℚ → Int) :
    cmpTrans (stLdRankCmp dim rank) :=
  fun x y z => rankCmp_trans rank (dim x) (dim y) (dim z)

theorem sliceLoadCmp_cons (c : storeLoad → storeLoad → Int)
    (rest : List (storeLoad → storeLoad → Int)) :
    sliceLoadCmp (c :: rest) = lexCmp c (sliceLoadCmp rest) := by
  funext x y
  simp only [sliceLoadCmp, lexCmp]

theorem sliceLPCmp_cons (c : storeLoadPred → storeLoadPred → Int)
    (rest : List (storeLoadPred → storeLoadPred → Int)) :
    sliceLPCmp (c :: rest) = lexCmp c (sliceLPCmp rest) := by
  funext x y
  simp only [sliceLPCmp, lexCmp]

theorem sliceLoadCmp_trans (cmps : List (storeLoad → storeLoad → Int))
    (ha : ∀ c ∈ cmps, cmpAntisymm c) (ht : ∀ c ∈ cmps, cmpTrans c) :
    cmpTrans (sliceLoadCmp cmps) := by
  induction cmps with
  | nil =>
    intro x y z _ _
    simp [sliceLoadCmp]
  | cons c rest ih =>
    rw [sliceLoadCmp_cons]
    exact lexCmp_trans c _ (ha c (List.mem_cons_self _ _)) (ht c (List.mem_cons_self _ _))
      (ih (fun c2 hc2 => ha c2 (List.mem_cons_of_mem _ hc2))
        (fun c2 hc2 => ht c2 (List.mem_cons_of_mem _ hc2)))

theorem sliceLPCmp_trans (cmps : List (storeLoadPred → storeLoadPred → Int))
    (ha : ∀ c ∈ cmps, cmpAntisymm c) (ht : ∀ c ∈ cmps, cmpTrans c) :
    cmpTrans (sliceLPCmp cmps) := by
  induction cmps with
  | nil =>
    intro x y z _ _
    simp [sliceLPCmp]
  | cons c rest ih =>
    rw [sliceLPCmp_cons]
    exact lexCmp_trans c _ (ha c (List.mem_cons_self _ _)) (ht c (List.mem_cons_self _ _))
      (ih (fun c2 hc2 => ha c2 (List.mem_cons_of_mem _ hc2))
        (fun c2 hc2 => ht c2 (List.mem_cons_of_mem _ hc2)))

theorem negLoadCmp_trans (c : storeLoad → storeLoad → Int) (ha : cmpAntisymm c)
    (ht : cmpTrans c) : cmpTrans (negLoadCmp c) := by
  intro x y z h1 h2
  simp only [negLoadCmp] at h1 h2 ⊢
  have e1 := ha x y
  have e2 := ha y z
  have e3 := ha x z
  have := ht z y x (by omega) (by omega)
  omega

theorem minLPCmp_trans (c : storeLoad → storeLoad → Int) (h : cmpTrans c) :
    cmpTrans (minLPCmp c) :=
  fun x y z => h x.min y.min z.min

theorem maxLPCmp_trans (c : storeLoad → storeLoad → Int) (h : cmpTrans c) :
    cmpTrans (maxLPCmp c) :=
  fun x y z => h x.max y.max z.max

theorem diffCmp_trans (c : storeLoad → storeLoad → Int) (h : cmpTrans c) :
    cmpTrans (diffCmp c) :=
  fun x y z => h x.diff y.diff z.diff

theorem srcLpCmp_antisymm (bs : balanceSolver) : cmpAntisymm bs.srcLpCmp := by
  unfold balanceSolver.srcLpCmp
  split_ifs
  · exact sliceLPCmp_antisymm _ (list_forall_two
      (minLPCmp_antisymm _ (negLoadCmp_antisymm _ (sliceLoadCmp_antisymm _
        (list_forall_two (stLdRankCmp_antisymm _ _) (stLdRankCmp_antisymm _ _)))))
      (diffCmp_antisymm _ (sliceLoadCmp_antisymm _
        (list_forall_three (stLdRankCmp_antisymm _ _) (stLdRankCmp_antisymm _ _)
          (stLdRankCmp_antisymm _ _)))))
  · exact sliceLPCmp_antisymm _ (list_forall_two
      (minLPCmp_antisymm _ (negLoadCmp_antisymm _ (sliceLoadCmp_antisymm _
        (list_forall_two (stLdRankCmp_antisymm _ _) (stLdRankCmp_antisymm _ _)))))
      (diffCmp_antisymm _ (stLdRankCmp_antisymm _ _)))

theorem dstLpCmp_antisymm (bs : balanceSolver) : cmpAntisymm bs.dstLpCmp := by
  unfold balanceSolver.dstLpCmp
  split_ifs
  · exact sliceLPCmp_antisymm _ (list_forall_two
      (maxLPCmp_antisymm _ (sliceLoadCmp_antisymm _
        (list_forall_two (stLdRankCmp_antisymm _ _) (stLdRankCmp_antisymm _ _))))
      (diffCmp_antisymm _ (sliceLoadCmp_antisymm _
        (list_forall_three (stLdRankCmp_antisymm _ _) (stLdRankCmp_antisymm _ _)
          (stLdRankCmp_antisymm _ _)))))
  · exact sliceLPCmp_antisymm _ (list_forall_two
      (maxLPCmp_antisymm _ (sliceLoadCmp_antisymm _
        (list_forall_two (stLdRankCmp_antisymm _ _) (stLdRankCmp_antisymm _ _))))
      (diffCmp_antisymm _ (stLdRankCmp_antisymm _ _)))

theorem rankPair_antisymm (a b : storeLoad → storeLoad → Int) (ha : cmpAntisymm a)
    (hb : cmpAntisymm b) : cmpAntisymm (sliceLoadCmp [a, b]) :=
  sliceLoadCmp_antisymm _ (list_forall_two ha hb)

theorem rankPair_trans (a b : storeLoad → storeLoad → Int) (ha : cmpAntisymm a)
    (hb : cmpAntisymm b) (hat : cmpTrans a) (hbt : cmpTrans b) :
    cmpTrans (sliceLoadCmp [a, b]) :=
  sliceLoadCmp_trans _ (list_forall_two ha hb) (list_forall_two hat hbt)

theorem rankTriple_antisymm (a b c : storeLoad → storeLoad → Int) (ha : cmpAntisymm a)
    (hb : cmpAntisymm b) (hc : cmpAntisymm c) : cmpAntisymm (sliceLoadCmp [a, b, c]) :=
  sliceLoadCmp_antisymm _ (list_forall_three ha hb hc)

theorem rankTriple_trans (a b c : storeLoad → storeLoad → Int) (ha : cmpAntisymm a)
    (hb : cmpAntisymm b) (hc : cmpAntisymm c) (hat : cmpTrans a) (hbt : cmpTrans b)
    (hct : cmpTrans c) : cmpTrans (sliceLoadCmp [a, b, c]) :=
  sliceLoadCmp_trans _ (list_forall_three ha hb hc) (list_forall_three hat hbt hct)

theorem srcLpCmp_trans (bs : balanceSolver) : cmpTrans bs.srcLpCmp := by
  unfold balanceSolver.srcLpCmp
  split_ifs
  · exact sliceLPCmp_trans _
      (list_forall_two
        (minLPCmp_antisymm _ (negLoadCmp_antisymm _ (rankPair_antisymm _ _
          (stLdRankCmp_antisymm _ _) (stLdRankCmp_antisymm _ _))))
        (diffCmp_antisymm _ (rankTriple_antisymm _ _ _ (stLdRankCmp_antisymm _ _)
          (stLdRankCmp_antisymm _ _) (stLdRankCmp_antisymm _ _))))
      (list_forall_two
        (minLPCmp_trans _ (negLoadCmp_trans _
          (rankPair_antisymm _ _ (stLdRankCmp_antisymm _ _) (stLdRankCmp_antisymm _ _))
          (rankPair_trans _ _ (stLdRankCmp_antisymm _ _) (stLdRankCmp_antisymm _ _)
            (stLdRankCmp_trans _ _) (stLdRankCmp_trans _ _))))
        (diffCmp_trans _ (rankTriple_trans _ _ _ (stLdRankCmp_antisymm _ _)
          (stLdRankCmp_antisymm _ _) (stLdRankCmp_antisymm _ _) (stLdRankCmp_trans _ _)
          (stLdRankCmp_trans _ _) (stLdRankCmp_trans _ _))))
  · exact sliceLPCmp_trans _
      (list_forall_two
        (minLPCmp_antisymm _ (negLoadCmp_antisymm _ (rankPair_antisymm _ _
          (stLdRankCmp_antisymm _ _) (stLdRankCmp_antisymm _ _))))
        (diffCmp_antisymm _ (stLdRankCmp_antisymm _ _)))
      (list_forall_two
        (minLPCmp_trans _ (negLoadCmp_trans _
          (rankPair_antisymm _ _ (stLdRankCmp_antisymm _ _) (stLdRankCmp_antisymm _ _))
          (rankPair_trans _ _ (stLdRankCmp_antisymm _ _) (stLdRankCmp_antisymm _ _)
            (stLdRankCmp_trans _ _) (stLdRankCmp_trans _ _))))
        (diffCmp_trans _ (stLdRankCmp_trans _ _)))

theorem dstLpCmp_trans (bs : balanceSolver) : cmpTrans bs.dstLpCmp := by
  unfold balanceSolver.dstLpCmp
  split_ifs
  · exact sliceLPCmp_trans _
      (list_forall_two
        (maxLPCmp_antisymm _ (rankPair_antisymm _ _
          (stLdRankCmp_antisymm _ _) (stLdRankCmp_antisymm _ _)))
        (diffCmp_antisymm _ (rankTriple_antisymm _ _ _ (stLdRankCmp_antisymm _ _)
          (stLdRankCmp_antisymm _ _) (stLdRankCmp_antisymm _ _))))
      (list_forall_two
        (maxLPCmp_trans _
          (rankPair_trans _ _ (stLdRankCmp_antisymm _ _) (stLdRankCmp_antisymm _ _)
            (stLdRankCmp_trans _ _) (stLdRankCmp_trans _ _)))
        (diffCmp_trans _ (rankTriple_trans _ _ _ (stLdRankCmp_antisymm _ _)
          (stLdRankCmp_antisymm _ _) (stLdRankCmp_antisymm _ _) (stLdRankCmp_trans _ _)
          (stLdRankCmp_trans _ _) (stLdRankCmp_trans _ _))))
  · exact sliceLPCmp_trans _
      (list_forall_two
        (maxLPCmp_antisymm _ (rankPair_antisymm _ _
          (stLdRankCmp_antisymm _ _) (stLdRankCmp_antisymm _ _)))
        (diffCmp_antisymm _ (stLdRankCmp_antisymm _ _)))
      (list_forall_two
        (maxLPCmp_trans _
          (rankPair_trans _ _ (stLdRankCmp_antisymm _ _) (stLdRankCmp_antisymm _ _)
            (stLdRankCmp_trans _ _) (stLdRankCmp_trans _ _)))
        (diffCmp_trans _ (stLdRankCmp_trans _ _)))

theorem peerCmp_antisymm (bs : balanceSolver) (rank : Int) :
    cmpAntisymm (bs.peerCmp rank) := by
  intro p q
  have hk := rankCmp_antisymm p.KeyRate q.KeyRate (stepRank 0 10)
  have hb := rankCmp_antisymm p.ByteRate q.ByteRate (stepRank 0 100)
  simp only [balanceSolver.peerCmp]
  rw [hk, hb]
  by_cases hty : bs.rwTy = rwType.write ∧ bs.opTy = opType.transferLeader
  · simp only [hty, and_self, if_true]
    rcases lt_trichotomy p.KeyRate q.KeyRate with h | h | h
    · simp [h, not_lt.mpr h.le]
    · simp [h]
    · simp [h, not_lt.mpr h.le]
  · simp only [hty, if_false]
    generalize rankCmp p.KeyRate q.KeyRate (stepRank 0 10) = k
    generalize rankCmp p.ByteRate q.ByteRate (stepRank 0 100) = c
    split_ifs <;> omega

theorem peerCmp_trans (bs : balanceSolver) (rank : Int) : cmpTrans (bs.peerCmp rank) := by
  intro p q r h1 h2
  have hk (a b : HotPeerStat) := rankCmp_antisymm a.KeyRate b.KeyRate (stepRank 0 10)
  have hb (a b : HotPeerStat) := rankCmp_antisymm a.ByteRate b.ByteRate (stepRank 0 100)
  have tk (a b c : HotPeerStat) :=
    rankCmp_trans (stepRank 0 10) a.KeyRate b.KeyRate c.KeyRate
  have tb (a b c : HotPeerStat) :=
    rankCmp_trans (stepRank 0 100) a.ByteRate b.ByteRate c.ByteRate
  simp only [balanceSolver.peerCmp] at h1 h2 ⊢
  by_cases hty : bs.rwTy = rwType.write ∧ bs.opTy = opType.transferLeader
  · simp only [hty, and_self, if_true] at h1 h2 ⊢
    have e1 : q.KeyRate ≤ p.KeyRate := by
      by_contra hc
      have hc2 : p.KeyRate < q.KeyRate := not_le.mp hc
      simp [hc2, not_lt.mpr hc2.le] at h1
    have e2 : r.KeyRate ≤ q.KeyRate := by
      by_contra hc
      have hc2 : q.KeyRate < r.KeyRate := not_le.mp hc
      simp [hc2, not_lt.mpr hc2.le] at h2
    have e3 : r.KeyRate ≤ p.KeyRate := le_trans e2 e1
    split_ifs with h3 h4
    · omega
    · exact absurd h4 (not_lt.mpr e3)
    · omega
  · simp only [hty, if_false] at h1 h2 ⊢
    have k1 := hk p q
    have k2 := hk q r
    have k3 := hk p r
    have b1 := hb p q
    have b2 := hb q r
    have b3 := hb p r
    have tk1 := tk p q r
    have tk2 := tk r q p
    have tk3 := tk q r p
    have tk4 := tk r p q
    have tk5 := tk q p r
    have tk6 := tk p r q
    have tb1 := tb p q r
    have tb2 := tb r q p
    have tb3 := tb q r p
    have tb4 := tb r p q
    have tb5 := tb q p r
    have tb6 := tb p r q
    generalize rankCmp p.KeyRate q.KeyRate (stepRank 0 10) = kpq at *
    generalize rankCmp q.KeyRate r.KeyRate (stepRank 0 10) = kqr at *
    generalize rankCmp p.KeyRate r.KeyRate (stepRank 0 10) = kpr at *
    generalize rankCmp q.KeyRate p.KeyRate (stepRank 0 10) = kqp at *
    generalize rankCmp r.KeyRate q.KeyRate (stepRank 0 10) = krq at *
    generalize rankCmp r.KeyRate p.KeyRate (stepRank 0 10) = krp at *
    generalize rankCmp p.ByteRate q.ByteRate (stepRank 0 100) = bpq at *
    generalize rankCmp q.ByteRate r.ByteRate (stepRank 0 100) = bqr at *
    generalize rankCmp p.ByteRate r.ByteRate (stepRank 0 100) = bpr at *
    generalize rankCmp q.ByteRate p.ByteRate (stepRank 0 100) = bqp at *
    generalize rankCmp r.ByteRate q.ByteRate (stepRank 0 100) = brq at *
    generalize rankCmp r.ByteRate p.ByteRate (stepRank 0 100) = brp at *
    split_ifs at h1 h2 ⊢ <;> omega

theorem tailCmp_antisymm (bs : balanceSolver) (rank : Int) : cmpAntisymm (bs.tailCmp rank) :=
  lexCmp_antisymm _ _ (fun _ _ => srcLpCmp_antisymm bs _ _)
    (lexCmp_antisymm _ _ (fun _ _ => dstLpCmp_antisymm bs _ _)
      (fun _ _ => peerCmp_antisymm bs rank _ _))

theorem tailCmp_trans (bs : balanceSolver) (rank : Int) : cmpTrans (bs.tailCmp rank) :=
  lexCmp_trans _ _ (fun _ _ => srcLpCmp_antisymm bs _ _) (fun _ _ _ => srcLpCmp_trans bs _ _ _)
    (lexCmp_trans _ _ (fun _ _ => dstLpCmp_antisymm bs _ _)
      (fun _ _ _ => dstLpCmp_trans bs _ _ _) (fun _ _ _ => peerCmp_trans bs rank _ _ _))

theorem solutionCmp_antisymm (bs : balanceSolver) : cmpAntisymm bs.solutionCmp := by
  intro a b
  simp only [balanceSolver.solutionCmp]
  rcases lt_trichotomy a.progressiveRank b.progressiveRank with h | h | h
  · simp [h, not_lt.mpr h.le]
  · simp only [h, lt_self_iff_false, gt_iff_lt, if_false]
    exact tailCmp_antisymm bs _ a b
  · simp [h, not_lt.mpr h.le]

theorem solutionCmp_trans (bs : balanceSolver) : cmpTrans bs.solutionCmp := by
  intro a b c h1 h2
  simp only [balanceSolver.solutionCmp] at h1 h2 ⊢
  by_cases hab : a.progressiveRank < b.progressiveRank
  · by_cases hbc : b.progressiveRank > c.progressiveRank
    · simp [hbc, not_lt.mpr (le_of_lt hbc)] at h2
    · have hac : a.progressiveRank < c.progressiveRank := by omega
      simp [hac]
  · by_cases hab2 : a.progressiveRank > b.progressiveRank
    · simp [hab, hab2] at h1
    · have e1 : a.progressiveRank = b.progressiveRank := by omega
      by_cases hbc : b.progressiveRank < c.progressiveRank
      · have hac : a.progressiveRank < c.progressiveRank := by omega
        simp [hac]
      · by_cases hbc2 : b.progressiveRank > c.progressiveRank
        · simp [hbc, hbc2] at h2
        · have e2 : b.progressiveRank = c.progressiveRank := by omega
          simp only [hab, hab2, hbc, hbc2, if_false] at h1 h2
          have hac : ¬ a.progressiveRank < c.progressiveRank := by omega
          have hac2 : ¬ a.progressiveRank > c.progressiveRank := by omega
          simp only [hac, hac2, if_false]
          rw [← e1] at h2
          exact tailCmp_trans bs _ a b c h1 h2

theorem compareSrcStore_eq (bs : balanceSolver) (st1 st2 : Nat)
    (h1 : (bs.stLoadDetail.lookup st1).isSome = true)
    (h2 : (bs.stLoadDetail.lookup st2).isSome = true) :
    bs.compareSrcStore st1 st2 = .ok (bs.srcLpCmp (bs.loadPredOf st1) (bs.loadPredOf st2)) := by
  obtain ⟨d1, hd1⟩ := Option.isSome_iff_exists.mp h1
  obtain ⟨d2, hd2⟩ := Option.isSome_iff_exists.mp h2
  by_cases heq : st1 = st2
  · subst heq
    simp only [balanceSolver.compareSrcStore, ne_eq, not_true_eq_false, if_false]
    rw [cmp_self _ (srcLpCmp_antisymm bs)]
  · simp only [balanceSolver.compareSrcStore, ne_eq, heq, not_false_eq_true, if_true, hd1, hd2,
      deref, balanceSolver.loadPredOf, balanceSolver.srcLpCmp]

theorem compareDstStore_eq (bs : balanceSolver) (st1 st2 : Nat)
    (h1 : (bs.stLoadDetail.lookup st1).isSome = true)
    (h2 : (bs.stLoadDetail.lookup st2).isSome = true) :
    bs.compareDstStore st1 st2 = .ok (bs.dstLpCmp (bs.loadPredOf st1) (bs.loadPredOf st2)) := by
  obtain ⟨d1, hd1⟩ := Option.isSome_iff_exists.mp h1
  obtain ⟨d2, hd2⟩ := Option.isSome_iff_exists.mp h2
  by_cases heq : st1 = st2
  · subst heq
    simp only [balanceSolver.compareDstStore, ne_eq, not_true_eq_false, if_false]
    rw [cmp_self _ (dstLpCmp_antisymm bs)]
  · simp only [balanceSolver.compareDstStore, ne_eq, heq, not_false_eq_true, if_true, hd1, hd2,
      deref, balanceSolver.loadPredOf, balanceSolver.dstLpCmp]

theorem betterPeer_eq (bs : balanceSolver) (p q : HotPeerStat) :
    bs.betterPeer p q = decide (bs.peerCmp bs.cur.progressiveRank p q < 0) := by
  simp only [balanceSolver.betterPeer, balanceSolver.peerCmp]
  by_cases hty : bs.rwTy = rwType.write ∧ bs.opTy = opType.transferLeader
  · simp only [hty, and_self, if_true]
    by_cases h1 : p.KeyRate > q.KeyRate
    · simp [h1]
    · by_cases h2 : p.KeyRate < q.KeyRate
      · simp [h1, h2]
      · simp [h1, h2]
  · simp only [hty, if_false]
    generalize rankCmp p.KeyRate q.KeyRate (stepRank 0 10) = k
    generalize rankCmp p.ByteRate q.ByteRate (stepRank 0 100) = c
    split_ifs <;> simp <;> omega

theorem betterThan_eq_cmp (bs : balanceSolver) (a b : solution) (ha : a.located bs)
    (hb : b.located bs) (hptr : samePeerObject a.peerOf b.peerOf) :
    balanceSolver.betterThan { bs with cur := a } (some b) =
      .ok (decide (bs.solutionCmp a b < 0)) := by
  obtain ⟨has, had, hap⟩ := ha
  obtain ⟨hbs, hbd, hbp⟩ := hb
  obtain ⟨p, hp⟩ := Option.isSome_iff_exists.mp hap
  obtain ⟨q, hq⟩ := Option.isSome_iff_exists.mp hbp
  have hpa : a.peerOf = p := by simp [solution.peerOf, hp]
  have hqb : b.peerOf = q := by simp [solution.peerOf, hq]
  have hsrc : balanceSolver.compareSrcStore { bs with cur := a } a.srcStoreID b.srcStoreID =
      .ok (bs.srcLpCmp (bs.loadPredOf a.srcStoreID) (bs.loadPredOf b.srcStoreID)) :=
    compareSrcStore_eq { bs with cur := a } _ _ has hbs
  have hdst : balanceSolver.compareDstStore { bs with cur := a } a.dstStoreID b.dstStoreID =
      .ok (bs.dstLpCmp (bs.loadPredOf a.dstStoreID) (bs.loadPredOf b.dstStoreID)) :=
    compareDstStore_eq { bs with cur := a } _ _ had hbd
  simp only [balanceSolver.betterThan, balanceSolver.solutionCmp]
  by_cases h1 : a.progressiveRank < b.progressiveRank
  · simp [h1]
  · by_cases h2 : a.progressiveRank > b.progressiveRank
    · simp [h1, h2]
    · simp only [h1, h2, if_false, hsrc, hdst, balanceSolver.tailCmp, lexCmp]
      generalize bs.srcLpCmp (bs.loadPredOf a.srcStoreID) (bs.loadPredOf b.srcStoreID) = r1
      generalize bs.dstLpCmp (bs.loadPredOf a.dstStoreID) (bs.loadPredOf b.dstStoreID) = r2
      by_cases h3 : r1 < 0
      · have : r1 ≠ 0 := by omega
        simp [h3, this]
      · by_cases h4 : r1 > 0
        · have : r1 ≠ 0 := by omega
          simp [h3, h4, this]
        · have e1 : r1 = 0 := by omega
          subst e1
          simp only [lt_self_iff_false, gt_iff_lt, if_false, ne_eq, not_true_eq_false]
          by_cases h5 : r2 < 0
          · have : r2 ≠ 0 := by omega
            simp [h5, this]
          · by_cases h6 : r2 > 0
            · have : r2 ≠ 0 := by omega
              simp [h5, h6, this]
            · have e2 : r2 = 0 := by omega
              subst e2
              simp only [lt_self_iff_false, gt_iff_lt, if_false, ne_eq, not_true_eq_false, hp,
                hq, hpa, hqb, deref, peerPtrNe]
              by_cases hpq : p.ptr = q.ptr
              · have hsame : p = q := by
                  rw [hpa, hqb] at hptr
                  exact hptr hpq
                subst hsame
                simp [cmp_self _ (peerCmp_antisymm bs a.progressiveRank)]
              · simp only [ne_eq, hpq, not_false_eq_true, decide_True, if_true]
                rw [betterPeer_eq]
                rfl

theorem samePeerObject_symm (p q : HotPeerStat) (h : samePeerObject p q) :
    samePeerObject q p :=
  fun hpq => (h hpq.symm).symm

theorem samePeerObject_self (p : HotPeerStat) : samePeerObject p p := fun _ => rfl

/-- C28: for a fixed solver state `betterThan` is a strict weak order on the
solutions that `calcProgressiveRank` can rank (both stores have a load detail
and the peer is there; a pointer names one peer): it is irreflexive and
asymmetric, it is transitive (a betterThan b and b betterThan c imply a
betterThan c), and its incomparability is transitive (when neither of a, b is
betterThan the other, and neither of b, c, then neither of a, c). -/
theorem betterThan_strict_weak_order (bs : balanceSolver) (a b c : solution)
    (ha : a.located bs) (hb : b.located bs) (hc : c.located bs)
    (hab : samePeerObject a.peerOf b.peerOf) (hbc : samePeerObject b.peerOf c.peerOf)
    (hac : samePeerObject a.peerOf c.peerOf) :
    balanceSolver.betterThan { bs with cur := a } (some a) = .ok false ∧
    ¬ (balanceSolver.betterThan { bs with cur := a } (some b) = .ok true ∧
      balanceSolver.betterThan { bs with cur := b } (some a) = .ok true) ∧
    (balanceSolver.betterThan { bs with cur := a } (some b) = .ok true →
      balanceSolver.betterThan { bs with cur := b } (some c) = .ok true →
      balanceSolver.betterThan { bs with cur := a } (some c) = .ok true) ∧
    ((balanceSolver.betterThan { bs with cur := a } (some b) ≠ .ok true ∧
        balanceSolver.betterThan { bs with cur := b } (some a) ≠ .ok true) →
      (balanceSolver.betterThan { bs with cur := b } (some c) ≠ .ok true ∧
        balanceSolver.betterThan { bs with cur := c } (some b) ≠ .ok true) →
      (balanceSolver.betterThan { bs with cur := a } (some c) ≠ .ok true ∧
        balanceSolver.betterThan { bs with cur := c } (some a) ≠ .ok true)) := by
  have anti := solutionCmp_antisymm bs
  have tr := solutionCmp_trans bs
  rw [betterThan_eq_cmp bs a a ha ha (samePeerObject_self _),
    betterThan_eq_cmp bs a b ha hb hab,
    betterThan_eq_cmp bs b a hb ha (samePeerObject_symm _ _ hab),
    betterThan_eq_cmp bs b c hb hc hbc,
    betterThan_eq_cmp bs c b hc hb (samePeerObject_symm _ _ hbc),
    betterThan_eq_cmp bs a c ha hc hac,
    betterThan_eq_cmp bs c a hc ha (samePeerObject_symm _ _ hac)]
  simp only [Except.ok.injEq, decide_eq_true_eq, decide_eq_false_iff_not, ne_eq]
  have e1 := anti a b
  have e2 := anti b c
  have e3 := anti a c
  refine ⟨?_, ?_, ?_, ?_⟩
  · rw [cmp_self _ anti]
    omega
  · omega
  · intro h1 h2
    exact cmp_strict_left _ anti tr a b c h1 (by omega)
  · rintro ⟨h1, h2⟩ ⟨h3, h4⟩
    have z1 : bs.solutionCmp a b = 0 := by omega
    have z2 : bs.solutionCmp b c = 0 := by omega
    have z3 := cmp_zero_trans _ anti tr a b c z1 z2
    omega

/-- Witness of C28 (the loads of scenario 2): of the solutions that move the
hot peer from store 1, the one of rank -3 to store 2 is better than the one of
rank -2 to store 3, which is better than the one of rank -1 to store 2; so the
first is better than the third. -/
theorem betterThan_strict_weak_order_witness :
    (scenarioSolution 2 (-3)).located
      (scenarioSolver rwType.write opType.movePeer (scenarioLoads (scenarioPeer 20 20))) ∧
    balanceSolver.betterThan
      { scenarioSolver rwType.write opType.movePeer (scenarioLoads (scenarioPeer 20 20)) with
        cur := scenarioSolution 2 (-3) } (some (scenarioSolution 3 (-2))) = .ok true ∧
    balanceSolver.betterThan
      { scenarioSolver rwType.write opType.movePeer (scenarioLoads (scenarioPeer 20 20)) with
        cur := scenarioSolution 3 (-2) } (some (scenarioSolution 2 (-1))) = .ok true ∧
    balanceSolver.betterThan
      { scenarioSolver rwType.write opType.movePeer (scenarioLoads (scenarioPeer 20 20)) with
        cur := scenarioSolution 2 (-3) } (some (scenarioSolution 2 (-1))) = .ok true := by
  have h1 : (scenarioSolution 2 (-3)).located
      (scenarioSolver rwType.write opType.movePeer (scenarioLoads (scenarioPeer 20 20))) :=
    ⟨rfl, rfl, rfl⟩
  have h2 : (scenarioSolution 3 (-2)).located
      (scenarioSolver rwType.write opType.movePeer (scenarioLoads (scenarioPeer 20 20))) :=
    ⟨rfl, rfl, rfl⟩
  have h3 : (scenarioSolution 2 (-1)).located
      (scenarioSolver rwType.write opType.movePeer (scenarioLoads (scenarioPeer 20 20))) :=
    ⟨rfl, rfl, rfl⟩
  have key := betterThan_strict_weak_order
    (scenarioSolver rwType.write opType.movePeer (scenarioLoads (scenarioPeer 20 20)))
    (scenarioSolution 2 (-3)) (scenarioSolution 3 (-2)) (scenarioSolution 2 (-1)) h1 h2 h3
    (fun _ => rfl) (fun _ => rfl) (fun _ => rfl)
  have e1 : balanceSolver.betterThan
      { scenarioSolver rwType.write opType.movePeer (scenarioLoads (scenarioPeer 20 20)) with
        cur := scenarioSolution 2 (-3) } (some (scenarioSolution 3 (-2))) = .ok true := by
    simp [balanceSolver.betterThan, scenarioSolution]
  have e2 : balanceSolver.betterThan
      { scenarioSolver rwType.write opType.movePeer (scenarioLoads (scenarioPeer 20 20)) with
        cur := scenarioSolution 3 (-2) } (some (scenarioSolution 2 (-1))) = .ok true := by
    simp [balanceSolver.betterThan, scenarioSolution]
  exact ⟨h1, e1, e2, key.2.2.1 e1 e2⟩

/-! ## The solution that `solve` settles on -/

theorem filterHotPeers_frame (base : balanceSolver) (c c2 : solution)
    (h : c.srcStoreID = c2.srcStoreID) :
    balanceSolver.filterHotPeers { base with cur := c } =
      balanceSolver.filterHotPeers { base with cur := c2 } := by
  simp only [balanceSolver.filterHotPeers, h]

theorem getRegion_frame (base : balanceSolver) (c c2 : solution)
    (h1 : c.srcStoreID = c2.srcStoreID) (h2 : c.srcPeerStat = c2.srcPeerStat) :
    balanceSolver.getRegion { base with cur := c } =
      balanceSolver.getRegion { base with cur := c2 } := by
  simp only [balanceSolver.getRegion, balanceSolver.isRegionAvailable, h1, h2]

theorem filterDstStores_frame (base : balanceSolver) (c c2 : solution)
    (h1 : c.srcStoreID = c2.srcStoreID) (h2 : c.region = c2.region) :
    balanceSolver.filterDstStores { base with cur := c } =
      balanceSolver.filterDstStores { base with cur := c2 } := by
  have hp : ∀ f l r, balanceSolver.pickDstStores { base with cur := c } f l r =
      balanceSolver.pickDstStores { base with cur := c2 } f l r := by
    intro f l
    induction l with
    | nil =>
      intro r
      simp only [balanceSolver.pickDstStores]
    | cons x rest ih =>
      intro r
      simp only [balanceSolver.pickDstStores, ih]
  simp only [balanceSolver.filterDstStores, h1, h2, hp]

theorem buildOperators_frame (base : balanceSolver) (c c2 : solution)
    (h1 : c.srcStoreID = c2.srcStoreID) (h2 : c.srcPeerStat = c2.srcPeerStat)
    (h3 : c.region = c2.region) (h4 : c.dstStoreID = c2.dstStoreID) :
    balanceSolver.buildOperators { base with cur := c } =
      balanceSolver.buildOperators { base with cur := c2 } := by
  simp only [balanceSolver.buildOperators, balanceSolver.isReadyToBuild, h1, h2, h3, h4]

theorem calcProgressiveRank_frame (base : balanceSolver) (c c2 : solution)
    (b1 b2 : balanceSolver)
    (h1 : c.srcStoreID = c2.srcStoreID) (h2 : c.srcPeerStat = c2.srcPeerStat)
    (h4 : c.dstStoreID = c2.dstStoreID)
    (e1 : balanceSolver.calcProgressiveRank { base with cur := c } = .ok b1)
    (e2 : balanceSolver.calcProgressiveRank { base with cur := c2 } = .ok b2) :
    b1.cur.progressiveRank = b2.cur.progressiveRank := by
  simp only [balanceSolver.calcProgressiveRank, h1, h2, h4] at e1 e2
  cases hs : deref (base.stLoadDetail.lookup c2.srcStoreID) with
  | error e => simp [hs] at e1
  | ok d1 =>
    cases hd : deref (base.stLoadDetail.lookup c2.dstStoreID) with
    | error e => simp [hs, hd] at e1
    | ok d2 =>
      cases hp : deref c2.srcPeerStat with
      | error e => simp [hs, hd, hp] at e1
      | ok p =>
        simp only [hs, hd, hp, Except.ok.injEq] at e1 e2
        rw [← e1, ← e2]

theorem calcProgressiveRank_located (base : balanceSolver) (c : solution) (b1 : balanceSolver)
    (e1 : balanceSolver.calcProgressiveRank { base with cur := c } = .ok b1) :
    c.located base := by
  simp only [balanceSolver.calcProgressiveRank] at e1
  cases hs : base.stLoadDetail.lookup c.srcStoreID with
  | none => simp [hs, deref] at e1
  | some d1 =>
    cases hd : base.stLoadDetail.lookup c.dstStoreID with
    | none => simp [hs, hd, deref] at e1
    | some d2 =>
      cases hp : c.srcPeerStat with
      | none => simp [hs, hd, hp, deref] at e1
      | some p => exact ⟨by simp [hs], by simp [hd], by simp [hp]⟩

theorem bestLe_refl (bs : balanceSolver) (b : Option solution) : bs.bestLe b b := by
  intro x hx
  exact ⟨x, hx, by rw [cmp_self _ (solutionCmp_antisymm bs)]⟩

theorem bestLe_trans (bs : balanceSolver) (b1 b2 b3 : Option solution)
    (h1 : bs.bestLe b1 b2) (h2 : bs.bestLe b2 b3) : bs.bestLe b1 b3 := by
  intro x hx
  obtain ⟨y, hy, hxy⟩ := h1 x hx
  obtain ⟨z, hz, hyz⟩ := h2 y hy
  exact ⟨z, hz, solutionCmp_trans bs z y x hyz hxy⟩

theorem dominated_mono (bs : balanceSolver) (b1 b2 : Option solution) (s : solution)
    (hle : bs.bestLe b1 b2) (hd : bs.dominated b1 s) : bs.dominated b2 s := by
  obtain ⟨x, hx, hsx⟩ := hd
  obtain ⟨y, hy, hyx⟩ := hle x hx
  refine ⟨y, hy, ?_⟩
  have a1 := solutionCmp_antisymm bs s x
  have a2 := solutionCmp_antisymm bs s y
  have := solutionCmp_trans bs y x s hyx (by omega)
  omega

theorem solution_eq_of_fields (s c : solution) (h1 : s.srcStoreID = c.srcStoreID)
    (h2 : s.srcPeerStat = c.srcPeerStat) (h3 : s.region = c.region)
    (h4 : s.dstStoreID = c.dstStoreID) (h5 : s.progressiveRank = c.progressiveRank) : s = c := by
  cases s
  cases c
  simp only at h1 h2 h3 h4 h5
  subst h1 h2 h3 h4 h5
  rfl

theorem peerOf_some (s : solution) (p : HotPeerStat) (h : s.srcPeerStat = some p) :
    s.peerOf = p := by
  simp [solution.peerOf, h]

theorem solveDstLoop_maximal (base : balanceSolver) (hptr : base.ptrIdentity)
    (dsts : List Nat) :
    ∀ (c : solution) (best : Option solution) (ops : List Operator) (infls : List Influence)
      (st2 : solveState),
      solveDstLoop { bs := { base with cur := c }, best := best, ops := ops, infls := infls }
        dsts = .ok st2 →
      base.bestKnown best →
      (∀ p, c.srcPeerStat = some p → base.peerKnown p) →
      (∃ c2, st2.bs = { base with cur := c2 } ∧ c2.srcStoreID = c.srcStoreID ∧
        c2.srcPeerStat = c.srcPeerStat ∧ c2.region = c.region) ∧
      base.bestKnown st2.best ∧ base.bestLe best st2.best ∧
      ∀ s, s.srcStoreID = c.srcStoreID → s.srcPeerStat = c.srcPeerStat →
        s.region = c.region → s.dstStoreID ∈ dsts → base.ranked s →
        s.progressiveRank < 0 → base.buildable s → base.dominated st2.best s := by
  induction dsts with
  | nil =>
    intro c best ops infls st2 hl hk _
    simp only [solveDstLoop, Except.ok.injEq] at hl
    subst hl
    exact ⟨⟨c, rfl, rfl, rfl, rfl⟩, hk, bestLe_refl _ _, fun s _ _ _ hd => by simp at hd⟩
  | cons d rest ih =>
    intro c best ops infls st2 hl hk hpk
    simp only [solveDstLoop] at hl
    cases hcalc : balanceSolver.calcProgressiveRank
        { base with cur := { c with dstStoreID := d } } with
    | error e => simp [hcalc] at hl
    | ok bs2 =>
      simp only [hcalc] at hl
      obtain ⟨rank, hbs2⟩ := calcProgressiveRank_cur _ _ hcalc
      have hbs2b : bs2 = { base with cur := { c with dstStoreID := d, progressiveRank := rank } } :=
        hbs2
      subst hbs2b
      have hloc0 := calcProgressiveRank_located base _ _ hcalc
      have hloc : solution.located base
          { c with dstStoreID := d, progressiveRank := rank } := hloc0
      obtain ⟨p, hp⟩ := Option.isSome_iff_exists.mp hloc.2.2
      have hp2 : c.srcPeerStat = some p := hp
      have hpknown : base.peerKnown p := hpk p hp2
      have hident : ∀ s : solution, s.srcStoreID = c.srcStoreID →
          s.srcPeerStat = c.srcPeerStat → s.region = c.region → s.dstStoreID = d →
          base.ranked s → s = { c with dstStoreID := d, progressiveRank := rank } := by
        intro s h1 h2 h3 h4 hr
        obtain ⟨bx, hbx, hcur⟩ := hr
        have := calcProgressiveRank_frame base s { c with dstStoreID := d } bx _ h1 h2 h4 hbx
          hcalc
        rw [hcur] at this
        exact solution_eq_of_fields _ _ h1 h2 h3 h4 this
      have finish : ∀ (best2 : Option solution) (ops2 : List Operator)
          (infls2 : List Influence),
          solveDstLoop
            { bs := { base with cur := { c with dstStoreID := d, progressiveRank := rank } }
              best := best2, ops := ops2, infls := infls2 } rest = .ok st2 →
          base.bestKnown best2 → base.bestLe best best2 →
          (rank < 0 →
            base.buildable { c with dstStoreID := d, progressiveRank := rank } →
            base.dominated best2 { c with dstStoreID := d, progressiveRank := rank }) →
          (∃ c2, st2.bs = { base with cur := c2 } ∧ c2.srcStoreID = c.srcStoreID ∧
            c2.srcPeerStat = c.srcPeerStat ∧ c2.region = c.region) ∧
          base.bestKnown st2.best ∧ base.bestLe best st2.best ∧
          ∀ s, s.srcStoreID = c.srcStoreID → s.srcPeerStat = c.srcPeerStat →
            s.region = c.region → s.dstStoreID ∈ d :: rest → base.ranked s →
            s.progressiveRank < 0 → base.buildable s → base.dominated st2.best s := by
        intro best2 ops2 infls2 hl2 hk2 hle hdom
        obtain ⟨hfr, hk3, hle3, hall⟩ := ih _ best2 ops2 infls2 st2 hl2 hk2 hpk
        refine ⟨hfr, hk3, bestLe_trans _ _ _ _ hle hle3, ?_⟩
        intro s h1 h2 h3 h4 hr hneg hb
        rcases List.mem_cons.mp h4 with h5 | h5
        · have hs := hident s h1 h2 h3 h5 hr
          subst hs
          exact dominated_mono _ _ _ _ hle3 (hdom hneg hb)
        · exact hall s h1 h2 h3 h5 hr hneg hb
      by_cases hneg : rank < 0
      · simp only [hneg, if_true] at hl
        cases best with
        | none =>
          simp only [balanceSolver.betterThan] at hl
          cases hbo : balanceSolver.buildOperators
              { base with cur := { c with dstStoreID := d, progressiveRank := rank } } with
          | error e => simp [hbo] at hl
          | ok res =>
            obtain ⟨newOps, newInfls⟩ := res
            simp only [hbo] at hl
            by_cases hpos : newOps.length > 0
            · simp only [hpos, if_true] at hl
              refine finish _ _ _ hl ?_ ?_ ?_
              · intro b hb
                simp only [Option.some.injEq] at hb
                subst hb
                exact ⟨hloc, by rw [peerOf_some _ p hp]; exact hpknown⟩
              · intro x hx
                cases hx
              · intro _ _
                exact ⟨_, rfl, by rw [cmp_self _ (solutionCmp_antisymm base)]; omega⟩
            · simp only [hpos, if_false] at hl
              refine finish _ _ _ hl hk (bestLe_refl _ _) ?_
              intro _ hb
              obtain ⟨o, i, ho, hne⟩ := hb
              rw [hbo] at ho
              simp only [Except.ok.injEq, Prod.mk.injEq] at ho
              have : newOps = [] := List.length_eq_zero.mp (by omega)
              exact absurd (ho.1 ▸ this) hne
        | some b0 =>
          obtain ⟨hb0loc, hb0known⟩ := hk b0 rfl
          have hsame : samePeerObject
              (solution.peerOf { c with dstStoreID := d, progressiveRank := rank }) b0.peerOf := by
            rw [peerOf_some _ p hp]
            exact hptr _ _ hpknown hb0known
          rw [betterThan_eq_cmp base _ b0 hloc hb0loc hsame] at hl
          by_cases hlt : base.solutionCmp
              { c with dstStoreID := d, progressiveRank := rank } b0 < 0
          · simp only [hlt, decide_True] at hl
            cases hbo : balanceSolver.buildOperators
                { base with cur := { c with dstStoreID := d, progressiveRank := rank } } with
            | error e => simp [hbo] at hl
            | ok res =>
              obtain ⟨newOps, newInfls⟩ := res
              simp only [hbo] at hl
              by_cases hpos : newOps.length > 0
              · simp only [hpos, if_true] at hl
                refine finish _ _ _ hl ?_ ?_ ?_
                · intro b hb
                  simp only [Option.some.injEq] at hb
                  subst hb
                  exact ⟨hloc, by rw [peerOf_some _ p hp]; exact hpknown⟩
                · intro x hx
                  simp only [Option.some.injEq] at hx
                  subst hx
                  exact ⟨_, rfl, by omega⟩
                · intro _ _
                  exact ⟨_, rfl, by rw [cmp_self _ (solutionCmp_antisymm base)]; omega⟩
              · simp only [hpos, if_false] at hl
                refine finish _ _ _ hl hk (bestLe_refl _ _) ?_
                intro _ hb
                obtain ⟨o, i, ho, hne⟩ := hb
                rw [hbo] at ho
                simp only [Except.ok.injEq, Prod.mk.injEq] at ho
                have : newOps = [] := List.length_eq_zero.mp (by omega)
                exact absurd (ho.1 ▸ this) hne
          · simp only [hlt, decide_False] at hl
            refine finish _ _ _ hl hk (bestLe_refl _ _) ?_
            intro _ _
            exact ⟨b0, rfl, hlt⟩
      · simp only [hneg, if_false] at hl
        refine finish _ _ _ hl hk (bestLe_refl _ _) ?_
        intro h _
        exact absurd h hneg

theorem appendItem_fold_subset (sche : hotScheduler) (l : List HotPeerStat) :
    ∀ acc : List HotPeerStat, ∀ p ∈ l.foldl (appendItem sche) acc, p ∈ acc ∨ p ∈ l := by
  induction l with
  | nil =>
    intro acc p hp
    exact Or.inl hp
  | cons x rest ih =>
    intro acc p hp
    simp only [List.foldl_cons] at hp
    rcases ih (appendItem sche acc x) p hp with h | h
    · simp only [appendItem] at h
      split_ifs at h
      · rcases List.mem_append.mp h with h2 | h2
        · exact Or.inl h2
        · simp only [List.mem_singleton] at h2
          exact Or.inr (h2 ▸ List.mem_cons_self _ _)
      · exact Or.inl h
    · exact Or.inr (List.mem_cons_of_mem _ h)

theorem popNew_subset (union l : List HotPeerStat) :
    (∀ p ∈ (popNew union l).1, p ∈ union ∨ p ∈ l) ∧ (∀ p ∈ (popNew union l).2, p ∈ l) := by
  induction l with
  | nil => simp [popNew]
  | cons x rest ih =>
    unfold popNew
    split_ifs
    · refine ⟨fun p hp => ?_, fun p hp => List.mem_cons_of_mem _ (ih.2 p hp)⟩
      rcases ih.1 p hp with h | h
      · exact Or.inl h
      · exact Or.inr (List.mem_cons_of_mem _ h)
    · refine ⟨fun p hp => ?_, fun p hp => List.mem_cons_of_mem _ hp⟩
      rcases List.mem_append.mp hp with h | h
      · exact Or.inl h
      · simp only [List.mem_singleton] at h
        exact Or.inr (h ▸ List.mem_cons_self _ _)

theorem unionLoop_subset (maxPeerNum : Int) :
    ∀ (n : Nat) (union byteSort keySort r : List HotPeerStat),
      byteSort.length + keySort.length ≤ n →
      unionLoop maxPeerNum union byteSort keySort = .ok r →
      ∀ p ∈ r, p ∈ union ∨ p ∈ byteSort ∨ p ∈ keySort := by
  intro n
  induction n with
  | zero =>
    intro union byteSort keySort r hn hu p hp
    have hb : byteSort = [] := List.length_eq_zero.mp (by omega)
    have hk : keySort = [] := List.length_eq_zero.mp (by omega)
    rw [unionLoop] at hu
    split_ifs at hu with hlt hboth
    · exact absurd ⟨hb, hk⟩ hboth
    · simp only [Except.ok.injEq] at hu
      subst hu
      exact Or.inl hp
  | succ n ih =>
    intro union byteSort keySort r hn hu p hp
    rw [unionLoop] at hu
    split_ifs at hu with hlt hboth
    · have h1 := popNew_rest_length union byteSort
      have h2 := popNew_rest_length (popNew union byteSort).1 keySort
      have hdec : (popNew union byteSort).2.length +
          (popNew (popNew union byteSort).1 keySort).2.length ≤ n := by
        rcases not_and_or.mp hboth with hne | hne
        · have := h1.2 hne
          omega
        · have := h2.2 hne
          omega
      have s1 := popNew_subset union byteSort
      have s2 := popNew_subset (popNew union byteSort).1 keySort
      rcases ih _ _ _ r hdec hu p hp with h | h | h
      · rcases s2.1 p h with h3 | h3
        · rcases s1.1 p h3 with h4 | h4
          · exact Or.inl h4
          · exact Or.inr (Or.inl h4)
        · exact Or.inr (Or.inr h3)
      · exact Or.inr (Or.inl (s1.2 p h))
      · exact Or.inr (Or.inr (s2.2 p h))
    · simp only [Except.ok.injEq] at hu
      subst hu
      exact Or.inl hp

theorem filterHotPeers_known (bs : balanceSolver) (peers : List HotPeerStat)
    (hf : bs.filterHotPeers = .ok peers) : ∀ p ∈ peers, bs.peerKnown p := by
  simp only [balanceSolver.filterHotPeers] at hf
  cases hl : bs.stLoadDetail.lookup bs.cur.srcStoreID with
  | none => simp [hl, deref] at hf
  | some detail =>
    have hmem : (bs.cur.srcStoreID, detail) ∈ bs.stLoadDetail := lookup_mem _ _ _ hl
    simp only [hl, deref] at hf
    intro p hp
    refine ⟨_, hmem, ?_⟩
    split_ifs at hf with hle
    · simp only [Except.ok.injEq] at hf
      subst hf
      rcases appendItem_fold_subset bs.sche _ [] p hp with h | h
      · simp at h
      · exact h
    · cases hu : unionLoop bs.sche.conf.MaxPeerNumber []
          (detail.HotPeers.insertionSort (fun a b => a.ByteRate ≥ b.ByteRate))
          (detail.HotPeers.insertionSort (fun a b => a.KeyRate ≥ b.KeyRate)) with
      | error e => simp [hu] at hf
      | ok union =>
        simp only [hu, Except.ok.injEq] at hf
        subst hf
        rcases appendItem_fold_subset bs.sche _ [] p hp with h | h
        · simp at h
        · rcases unionLoop_subset _ _ _ _ _ _ (le_refl _) hu p h with h2 | h2 | h2
          · simp at h2
          · exact (List.perm_insertionSort _ _).mem_iff.mp h2
          · exact (List.perm_insertionSort _ _).mem_iff.mp h2

theorem solvePeerLoop_maximal (base : balanceSolver) (hptr : base.ptrIdentity)
    (peers : List HotPeerStat) :
    ∀ (c : solution) (best : Option solution) (ops : List Operator) (infls : List Influence)
      (st2 : solveState),
      solvePeerLoop { bs := { base with cur := c }, best := best, ops := ops, infls := infls }
        peers = .ok st2 →
      base.bestKnown best →
      (∀ p ∈ peers, base.peerKnown p) →
      (∃ c2, st2.bs = { base with cur := c2 } ∧ c2.srcStoreID = c.srcStoreID) ∧
      base.bestKnown st2.best ∧ base.bestLe best st2.best ∧
      ∀ s, s.srcStoreID = c.srcStoreID → ∀ p ∈ peers, s.srcPeerStat = some p →
        ∀ region dsts,
          balanceSolver.getRegion
            { base with cur := { solution.zero with
                srcStoreID := s.srcStoreID, srcPeerStat := some p } } = .ok (some region) →
          s.region = some region →
          balanceSolver.filterDstStores
            { base with cur := { solution.zero with
                srcStoreID := s.srcStoreID, srcPeerStat := some p, region := some region } } =
              .ok dsts →
          s.dstStoreID ∈ dsts.map Prod.fst → base.ranked s →
          s.progressiveRank < 0 → base.buildable s → base.dominated st2.best s := by
  induction peers with
  | nil =>
    intro c best ops infls st2 hl hk _
    simp only [solvePeerLoop, Except.ok.injEq] at hl
    subst hl
    exact ⟨⟨c, rfl, rfl⟩, hk, bestLe_refl _ _, fun s _ p hp => by simp at hp⟩
  | cons p0 rest ih =>
    intro c best ops infls st2 hl hk hpk
    have hpk0 : base.peerKnown p0 := hpk p0 (List.mem_cons_self _ _)
    have hpkr : ∀ p ∈ rest, base.peerKnown p := fun p hp => hpk p (List.mem_cons_of_mem _ hp)
    simp only [solvePeerLoop] at hl
    cases hreg : balanceSolver.getRegion
        { base with cur := { c with srcPeerStat := some p0 } } with
    | error e => simp [hreg] at hl
    | ok region0 =>
      simp only [hreg] at hl
      have hcanon : ∀ s : solution, s.srcStoreID = c.srcStoreID →
          balanceSolver.getRegion
            { base with cur := { solution.zero with
                srcStoreID := s.srcStoreID, srcPeerStat := some p0 } } = .ok region0 := by
        intro s hs
        rw [← hreg]
        exact getRegion_frame base _ _ hs rfl
      cases region0 with
      | none =>
        simp only at hl
        obtain ⟨hfr, hk3, hle3, hall⟩ := ih _ best ops infls st2 hl hk hpkr
        refine ⟨hfr, hk3, hle3, ?_⟩
        intro s hs p hp hsp region dsts hg hsr hf hd hr hneg hb
        rcases List.mem_cons.mp hp with h0 | h0
        · subst h0
          rw [hcanon s hs] at hg
          simp at hg
        · exact hall s hs p h0 hsp region dsts hg hsr hf hd hr hneg hb
      | some r0 =>
        simp only at hl
        cases hdst : balanceSolver.filterDstStores
            { base with cur := { c with srcPeerStat := some p0, region := some r0 } } with
        | error e => simp [hdst] at hl
        | ok dsts0 =>
          simp only [hdst] at hl
          cases hloop : solveDstLoop
              { bs := { base with cur := { c with srcPeerStat := some p0, region := some r0 } }
                best := best, ops := ops, infls := infls } (dsts0.map Prod.fst) with
          | error e => simp [hloop] at hl
          | ok mid =>
            simp only [hloop] at hl
            obtain ⟨⟨c2, hmid, hc2s, hc2p, hc2r⟩, hkm, hlem, hallm⟩ :=
              solveDstLoop_maximal base hptr _ _ best ops infls mid hloop hk (by
                intro p hp
                simp only [Option.some.injEq] at hp
                subst hp
                exact hpk0)
            obtain ⟨mbs, mbest, mops, minfls⟩ := mid
            simp only at hmid hkm hlem hallm
            subst hmid
            obtain ⟨⟨c3, h3, h3s⟩, hk3, hle3, hall⟩ := ih c2 mbest mops minfls st2 hl hkm hpkr
            refine ⟨⟨c3, h3, by rw [h3s, hc2s]⟩, hk3, bestLe_trans _ _ _ _ hlem hle3, ?_⟩
            intro s hs p hp hsp region dsts hg hsr hf hd hr hneg hb
            rcases List.mem_cons.mp hp with h0 | h0
            · subst h0
              rw [hcanon s hs] at hg
              simp only [Except.ok.injEq, Option.some.injEq] at hg
              subst hg
              have hf2 : balanceSolver.filterDstStores
                  { base with cur := { c with srcPeerStat := some p, region := some r0 } } =
                  .ok dsts := by
                rw [← hf]
                exact filterDstStores_frame base _ _ hs.symm rfl
              rw [hdst] at hf2
              simp only [Except.ok.injEq] at hf2
              subst hf2
              exact dominated_mono _ _ _ _ hle3 (hallm s hs hsp hsr hd hr hneg hb)
            · exact hall s (by rw [hs, hc2s]) p h0 hsp region dsts hg hsr hf hd hr hneg hb

theorem solveSrcLoop_maximal (base : balanceSolver) (hptr : base.ptrIdentity)
    (srcs : List Nat) :
    ∀ (c : solution) (best : Option solution) (ops : List Operator) (infls : List Influence)
      (st2 : solveState),
      solveSrcLoop { bs := { base with cur := c }, best := best, ops := ops, infls := infls }
        srcs = .ok st2 →
      base.bestKnown best →
      (∃ c2, st2.bs = { base with cur := c2 }) ∧
      base.bestKnown st2.best ∧ base.bestLe best st2.best ∧
      ∀ s, s.srcStoreID ∈ srcs → ∀ peers p region dsts,
        balanceSolver.filterHotPeers
          { base with cur := { solution.zero with srcStoreID := s.srcStoreID } } = .ok peers →
        p ∈ peers → s.srcPeerStat = some p →
        balanceSolver.getRegion
          { base with cur := { solution.zero with
              srcStoreID := s.srcStoreID, srcPeerStat := some p } } = .ok (some region) →
        s.region = some region →
        balanceSolver.filterDstStores
          { base with cur := { solution.zero with
              srcStoreID := s.srcStoreID, srcPeerStat := some p, region := some region } } =
            .ok dsts →
        s.dstStoreID ∈ dsts.map Prod.fst → base.ranked s →
        s.progressiveRank < 0 → base.buildable s → base.dominated st2.best s := by
  induction srcs with
  | nil =>
    intro c best ops infls st2 hl hk
    simp only [solveSrcLoop, Except.ok.injEq] at hl
    subst hl
    exact ⟨⟨c, rfl⟩, hk, bestLe_refl _ _, fun s hs => by simp at hs⟩
  | cons src0 rest ih =>
    intro c best ops infls st2 hl hk
    simp only [solveSrcLoop] at hl
    cases hpeers : balanceSolver.filterHotPeers
        { base with cur := { c with srcStoreID := src0 } } with
    | error e => simp [hpeers] at hl
    | ok peers0 =>
      simp only [hpeers] at hl
      have hknown : ∀ p ∈ peers0, base.peerKnown p := fun p hp =>
        filterHotPeers_known { base with cur := { c with srcStoreID := src0 } } peers0 hpeers
          p hp
      cases hloop : solvePeerLoop
          { bs := { base with cur := { c with srcStoreID := src0 } }
            best := best, ops := ops, infls := infls } peers0 with
      | error e => simp [hloop] at hl
      | ok mid =>
        simp only [hloop] at hl
        obtain ⟨⟨c2, hmid, hc2s⟩, hkm, hlem, hallm⟩ :=
          solvePeerLoop_maximal base hptr _ _ best ops infls mid hloop hk hknown
        obtain ⟨mbs, mbest, mops, minfls⟩ := mid
        simp only at hmid hkm hlem hallm
        subst hmid
        obtain ⟨hfr, hk3, hle3, hall⟩ := ih c2 mbest mops minfls st2 hl hkm
        refine ⟨hfr, hk3, bestLe_trans _ _ _ _ hlem hle3, ?_⟩
        intro s hs peers p region dsts hfp hp hsp hg hsr hf hd hr hneg hb
        by_cases h0 : s.srcStoreID = src0
        · have hfp2 : balanceSolver.filterHotPeers
              { base with cur := { c with srcStoreID := src0 } } = .ok peers := by
            rw [← hfp]
            exact filterHotPeers_frame base _ _ h0.symm
          rw [hpeers] at hfp2
          simp only [Except.ok.injEq] at hfp2
          subst hfp2
          exact dominated_mono _ _ _ _ hle3
            (hallm s h0 p hp hsp region dsts hg hsr hf hd hr hneg hb)
        · rcases List.mem_cons.mp hs with h1 | h1
          · exact absurd h1 h0
          · exact hall s h1 peers p region dsts hfp hp hsp hg hsr hf hd hr hneg hb

theorem solve_best (bs : balanceSolver) (r : solveResult) (hs : bs.solve = .ok r)
    (hvalid : bs.isValid = true) (hallow : bs.allowBalance = true) :
    ∃ st, solveSrcLoop
        { bs := { bs with cur := solution.zero }, best := none, ops := [], infls := [] }
        ((balanceSolver.filterSrcStores { bs with cur := solution.zero }).map Prod.fst) =
          .ok st ∧ r.best = st.best := by
  simp only [balanceSolver.solve, hvalid, hallow, Bool.not_true, Bool.or_self,
    Bool.false_eq_true, if_false] at hs
  cases hl : solveSrcLoop
      { bs := { bs with cur := solution.zero }, best := none, ops := [], infls := [] }
      ((balanceSolver.filterSrcStores { bs with cur := solution.zero }).map Prod.fst) with
  | error e => simp [hl] at hs
  | ok st =>
    simp only [hl] at hs
    refine ⟨st, rfl, ?_⟩
    cases ha : solveAddLoop bs.sche st.best bs.rwTy bs.opTy st.ops st.infls with
    | error e => simp [ha] at hs
    | ok res =>
      obtain ⟨ok, sche2⟩ := res
      cases ok with
      | false =>
        simp only [ha, Except.ok.injEq] at hs
        subst hs
        rfl
      | true =>
        simp only [ha] at hs
        split_ifs at hs with hpos
        · cases hb : deref st.best with
          | error e => simp [hb] at hs
          | ok best =>
            simp only [hb] at hs
            cases h1 : deref (bs.stLoadDetail.lookup best.srcStoreID) with
            | error e => simp [h1] at hs
            | ok d1 =>
              simp only [h1] at hs
              cases h2 : deref (bs.stLoadDetail.lookup best.dstStoreID) with
              | error e => simp [h2] at hs
              | ok d2 =>
                simp only [h2, Except.ok.injEq] at hs
                subst hs
                rfl
        · simp only [Except.ok.injEq] at hs
          subst hs
          rfl

/-- C29: on load details where `solve` returns (the hot peers of a store are
distinct objects, a pointer names one peer, every store that passes the target
filters has a load detail), in whatever order the stores and the peers are
listed, the solution that `solve` settles on is maximal among the candidates
of the call: for every enumerated triple of source store, hot peer and
destination store that has progressiveRank < 0 and for which `buildOperators`
produces an operator, `best` is set and `betterThan` of that triple against
`best` answers false. -/
theorem solve_best_maximal (bs : balanceSolver) (hw : bs.wellFormed)
    (hptr : bs.ptrIdentity) :
    ∃ r, bs.solve = .ok r ∧
      ∀ s, bs.enumerated s → s.progressiveRank < 0 → bs.buildable s →
        ∃ b, r.best = some b ∧
          balanceSolver.betterThan { bs with cur := s } (some b) = .ok false := by
  obtain ⟨r, hr⟩ := solve_returns bs hw
  refine ⟨r, hr, ?_⟩
  intro s he hneg hb
  obtain ⟨hvalid, hallow, hsrc, peers, p, region, dsts, hfp, hp, hsp, hg, hsr, hf, hd, hrk⟩ := he
  obtain ⟨st, hl, hbest⟩ := solve_best bs r hr hvalid hallow
  obtain ⟨_, hk, _, hall⟩ := solveSrcLoop_maximal bs hptr _ solution.zero none [] [] st hl
    (fun b hb0 => by cases hb0)
  obtain ⟨b, hb1, hcmp⟩ := hall s hsrc peers p region dsts hfp hp hsp hg hsr hf hd hrk hneg hb
  obtain ⟨hbloc, hbknown⟩ := hk b hb1
  obtain ⟨bx, hbx, _⟩ := hrk
  have hsloc : s.located bs := calcProgressiveRank_located bs s bx hbx
  have hpknown : bs.peerKnown p :=
    filterHotPeers_known { bs with cur := { solution.zero with srcStoreID := s.srcStoreID } }
      peers hfp p hp
  have hsame : samePeerObject s.peerOf b.peerOf := by
    rw [peerOf_some s p hsp]
    exact hptr _ _ hpknown hbknown
  refine ⟨b, by rw [hbest, hb1], ?_⟩
  rw [betterThan_eq_cmp bs s b hsloc hbloc hsame]
  simp [hcmp]

theorem scenarioSolver_ptrIdentity (peer : HotPeerStat) :
    (scenarioSolver rwType.write opType.movePeer (scenarioLoads peer)).ptrIdentity := by
  intro p q hp hq _
  obtain ⟨kv, hkv, hpm⟩ := hp
  obtain ⟨kv2, hkv2, hqm⟩ := hq
  simp only [scenarioSolver, scenarioLoads, List.mem_cons, List.mem_singleton,
    List.not_mem_nil, or_false] at hkv hkv2
  rcases hkv with h | h | h <;> subst h <;> simp [scenarioDetail] at hpm
  rcases hkv2 with h | h | h <;> subst h <;> simp [scenarioDetail] at hqm
  rw [hpm, hqm]

theorem scenario_store_three_enumerated :
    (scenarioSolver rwType.write opType.movePeer
      (scenarioLoads (scenarioPeer 20 20))).enumerated (scenarioSolution 3 (-3)) ∧
    (scenarioSolver rwType.write opType.movePeer
      (scenarioLoads (scenarioPeer 20 20))).buildable (scenarioSolution 3 (-3)) := by
  have hsrc : (1 : Nat) ∈ (balanceSolver.filterSrcStores
      { scenarioSolver rwType.write opType.movePeer (scenarioLoads (scenarioPeer 20 20)) with
        cur := solution.zero }).map Prod.fst := by
    decide!
  have hpeers : Except.toOption (balanceSolver.filterHotPeers
      { scenarioSolver rwType.write opType.movePeer (scenarioLoads (scenarioPeer 20 20)) with
        cur := { solution.zero with srcStoreID := 1 } }) = some [scenarioPeer 20 20] := by
    decide!
  have hdsts : (Except.toOption (balanceSolver.filterDstStores
      { scenarioSolver rwType.write opType.movePeer (scenarioLoads (scenarioPeer 20 20)) with
        cur := { solution.zero with
          srcStoreID := 1, srcPeerStat := some (scenarioPeer 20 20)
          region := some (scenarioRegion 7) } })).map (fun l => l.map Prod.fst) =
      some [2, 3] := by
    decide!
  have hrank : Except.map (fun b => b.cur.progressiveRank)
      (balanceSolver.calcProgressiveRank
        { scenarioSolver rwType.write opType.movePeer (scenarioLoads (scenarioPeer 20 20)) with
          cur := scenarioSolution 3 (-3) }) = .ok (-3) := by
    rw [calcProgressiveRank_rankTable _
      (scenarioDetail 100 100 5 [scenarioPeer 20 20]) (scenarioDetail 10 10 1 [])
      (scenarioPeer 20 20) (by decide) (by rfl) (by rfl) (by rfl), rank_of_ok]
    simp [rankTable, scenarioDetail, scenarioPeer, scenarioSolver,
      newHotScheduler, scenarioConf, storeLoadPred.min, storeLoadPred.max, minLoad, maxLoad,
      getSrcDecRate]
    norm_num
  refine ⟨⟨rfl, rfl, hsrc, ?_⟩, ?_⟩
  · cases hp : balanceSolver.filterHotPeers
        { scenarioSolver rwType.write opType.movePeer (scenarioLoads (scenarioPeer 20 20)) with
          cur := { solution.zero with srcStoreID := 1 } } with
    | error e =>
      rw [hp] at hpeers
      simp [Except.toOption] at hpeers
    | ok peers =>
      rw [hp] at hpeers
      simp only [Except.toOption, Option.some.injEq] at hpeers
      subst hpeers
      cases hd : balanceSolver.filterDstStores
          { scenarioSolver rwType.write opType.movePeer
              (scenarioLoads (scenarioPeer 20 20)) with
            cur := { solution.zero with
              srcStoreID := 1, srcPeerStat := some (scenarioPeer 20 20)
              region := some (scenarioRegion 7) } } with
      | error e =>
        rw [hd] at hdsts
        simp [Except.toOption] at hdsts
      | ok dsts =>
        rw [hd] at hdsts
        simp only [Except.toOption, Option.map_some', Option.some.injEq] at hdsts
        refine ⟨[scenarioPeer 20 20], scenarioPeer 20 20, scenarioRegion 7, dsts, hp,
          List.mem_singleton.mpr rfl, rfl, rfl, rfl, hd, ?_, ?_⟩
        · rw [hdsts]
          decide
        · cases hc : balanceSolver.calcProgressiveRank
              { scenarioSolver rwType.write opType.movePeer
                  (scenarioLoads (scenarioPeer 20 20)) with
                cur := scenarioSolution 3 (-3) } with
          | error e =>
            rw [hc] at hrank
            simp [Except.map] at hrank
          | ok b2 =>
            refine ⟨b2, hc, ?_⟩
            obtain ⟨rank, hb2⟩ := calcProgressiveRank_cur _ _ hc
            rw [hc] at hrank
            simp only [Except.map, Except.ok.injEq] at hrank
            rw [hb2] at hrank ⊢
            simp only at hrank
            simp only [hrank]
            rfl
  · exact ⟨_, _, rfl, by simp [finishOperator]⟩

/-- Witness of C29 (scenario 2 of the specification): the solver for write and
move peer on the three stores returns; the candidate that moves the hot peer
from store 1 to store 3, of rank -3, is enumerated and can be built, and it is
not better than the solution that `solve` settles on. -/
theorem solve_best_maximal_witness :
    (scenarioSolver rwType.write opType.movePeer (scenarioLoads (scenarioPeer 20 20))).wellFormed ∧
    (scenarioSolver rwType.write opType.movePeer
      (scenarioLoads (scenarioPeer 20 20))).ptrIdentity ∧
    (scenarioSolver rwType.write opType.movePeer
      (scenarioLoads (scenarioPeer 20 20))).enumerated (scenarioSolution 3 (-3)) ∧
    ∃ r b, (scenarioSolver rwType.write opType.movePeer
        (scenarioLoads (scenarioPeer 20 20))).solve = .ok r ∧ r.best = some b ∧
      balanceSolver.betterThan
        { scenarioSolver rwType.write opType.movePeer
            (scenarioLoads (scenarioPeer 20 20)) with cur := scenarioSolution 3 (-3) }
        (some b) = .ok false := by
  obtain ⟨r, hr, hall⟩ := solve_best_maximal _ (scenarioSolver_wellFormed (scenarioPeer 20 20))
    (scenarioSolver_ptrIdentity (scenarioPeer 20 20))
  obtain ⟨b, hb, hbt⟩ := hall (scenarioSolution 3 (-3)) scenario_store_three_enumerated.1
    (by decide) scenario_store_three_enumerated.2
  exact ⟨scenarioSolver_wellFormed _, scenarioSolver_ptrIdentity _,
    scenario_store_three_enumerated.1, r, b, hr, hb, hbt⟩

/-! ## A store is not both source and destination -/

theorem minLoad_le_maxLoad (a b : storeLoad) :
    (minLoad a b).ByteRate ≤ (maxLoad a b).ByteRate := by
  simp only [minLoad, maxLoad]
  exact le_trans (min_le_left _ _) (le_max_left _ _)

theorem not_source_and_destination (d : storeLoadDetail) (srcTol dstTol : ℚ)
    (hs : 1 ≤ srcTol) (hd : 1 ≤ dstTol) (he : 0 ≤ d.LoadPred.Expect.ByteRate)
    (h1 : d.LoadPred.min.ByteRate > srcTol * d.LoadPred.Expect.ByteRate)
    (h2 : d.LoadPred.max.ByteRate * dstTol < d.LoadPred.Expect.ByteRate) : False := by
  have hm : d.LoadPred.min.ByteRate ≤ d.LoadPred.max.ByteRate :=
    minLoad_le_maxLoad d.LoadPred.Current d.LoadPred.Future
  have h3 : d.LoadPred.Expect.ByteRate ≤ srcTol * d.LoadPred.Expect.ByteRate := by nlinarith
  have h4 : 0 < d.LoadPred.max.ByteRate := by linarith
  have h5 : d.LoadPred.max.ByteRate ≤ d.LoadPred.max.ByteRate * dstTol := by nlinarith
  linarith

theorem filterDstStores_members (bs : balanceSolver) (dsts : List (Nat × storeLoadDetail))
    (hf : bs.filterDstStores = .ok dsts) :
    ∀ id d, (id, d) ∈ dsts →
      bs.stLoadDetail.lookup id = some d ∧
      d.LoadPred.max.ByteRate * bs.sche.conf.DstToleranceRatio < d.LoadPred.Expect.ByteRate := by
  intro id d hm
  simp only [balanceSolver.filterDstStores] at hf
  cases hg : bs.cluster.GetStore bs.cur.srcStoreID with
  | none =>
    simp only [hg, Except.ok.injEq] at hf
    subst hf
    simp at hm
  | some srcStore =>
    simp only [hg] at hf
    split_ifs at hf with hmv htl
    · cases hr : deref bs.cur.region with
      | error e => simp [hr] at hf
      | ok region =>
        simp only [hr] at hf
        have := (pickDstStores_members bs _ _ [] dsts hf (by simp) (by simp)).1 id d
        obtain ⟨s, _, _, _, hl, hb, _⟩ := (this.mp hm).resolve_left (by simp)
        exact ⟨hl, hb⟩
    · cases hr : deref bs.cur.region with
      | error e => simp [hr] at hf
      | ok region =>
        simp only [hr] at hf
        have := (pickDstStores_members bs _ _ [] dsts hf (by simp) (by simp)).1 id d
        obtain ⟨s, _, _, _, hl, hb, _⟩ := (this.mp hm).resolve_left (by simp)
        exact ⟨hl, hb⟩
    · simp only [Except.ok.injEq] at hf
      subst hf
      simp at hm

/-- C30: for srcToleranceRatio ≥ 1 and dstToleranceRatio ≥ 1, a store load
detail whose Expect byte rate is non-negative cannot satisfy both the source
load condition of `filterSrcStores` and the destination load condition of
`pickDstStores`; hence, on load details that are a map with non-negative
Expect byte rates, no solution that `solve` enumerates has the same store as
source and as destination. -/
theorem source_is_not_destination (bs : balanceSolver)
    (hs : 1 ≤ bs.sche.conf.SrcToleranceRatio) (hd : 1 ≤ bs.sche.conf.DstToleranceRatio) :
    (∀ d : storeLoadDetail, 0 ≤ d.LoadPred.Expect.ByteRate →
      ¬ ((d.LoadPred.min.ByteRate > bs.sche.conf.SrcToleranceRatio * d.LoadPred.Expect.ByteRate ∧
          d.LoadPred.min.KeyRate >
            bs.sche.conf.SrcToleranceRatio * d.LoadPred.Expect.KeyRate) ∧
        (d.LoadPred.max.ByteRate * bs.sche.conf.DstToleranceRatio <
            d.LoadPred.Expect.ByteRate ∧
          d.LoadPred.max.KeyRate * bs.sche.conf.DstToleranceRatio <
            d.LoadPred.Expect.KeyRate))) ∧
    ((bs.stLoadDetail.map Prod.fst).Nodup →
      (∀ kv ∈ bs.stLoadDetail, 0 ≤ kv.2.LoadPred.Expect.ByteRate) →
      ∀ s, bs.enumerated s → s.srcStoreID ≠ s.dstStoreID) := by
  refine ⟨?_, ?_⟩
  · rintro d he ⟨⟨h1, _⟩, ⟨h2, _⟩⟩
    exact not_source_and_destination d _ _ hs hd he h1 h2
  · intro hnd hexp s he heq
    obtain ⟨_, _, hsrc, peers, p, region, dsts, _, _, _, _, _, hf, hdm, _⟩ := he
    obtain ⟨kv, hkv, hk1⟩ := List.mem_map.mp hsrc
    have hnd0 : ((balanceSolver.stLoadDetail { bs with cur := solution.zero }).map
        Prod.fst).Nodup := hnd
    rw [filterSrcStores_eq_filter _ hnd0] at hkv
    simp only [List.mem_filter, Bool.and_eq_true, decide_eq_true_eq] at hkv
    obtain ⟨hmem, _, hcond⟩ := hkv
    have hmem2 : (kv.1, kv.2) ∈ bs.stLoadDetail := hmem
    have hl1 : bs.stLoadDetail.lookup s.srcStoreID = some kv.2 := by
      rw [← hk1]
      exact lookup_of_mem_nodup _ _ _ hnd hmem2
    obtain ⟨kv2, hkv2, hk2⟩ := List.mem_map.mp hdm
    have hmem3 : (kv2.1, kv2.2) ∈ dsts := hkv2
    obtain ⟨hl2, hb⟩ := filterDstStores_members _ dsts hf kv2.1 kv2.2 hmem3
    have hl3 : bs.stLoadDetail.lookup s.srcStoreID = some kv2.2 := by
      rw [heq, ← hk2]
      exact hl2
    rw [hl1] at hl3
    simp only [Option.some.injEq] at hl3
    rw [← hl3] at hb
    exact not_source_and_destination kv.2 _ _ hs hd (hexp kv hmem) hcond.1 hb

/-- Witness of C30 (scenario 2 of the specification, tolerance ratios 1): the
candidate that moves the hot peer from store 1 to store 3 is enumerated, and
its source is not its destination. -/
theorem source_is_not_destination_witness :
    1 ≤ (scenarioSolver rwType.write opType.movePeer
      (scenarioLoads (scenarioPeer 20 20))).sche.conf.SrcToleranceRatio ∧
    1 ≤ (scenarioSolver rwType.write opType.movePeer
      (scenarioLoads (scenarioPeer 20 20))).sche.conf.DstToleranceRatio ∧
    (scenarioSolver rwType.write opType.movePeer
      (scenarioLoads (scenarioPeer 20 20))).enumerated (scenarioSolution 3 (-3)) ∧
    (scenarioSolution 3 (-3)).srcStoreID ≠ (scenarioSolution 3 (-3)).dstStoreID := by
  have h1 : 1 ≤ (scenarioSolver rwType.write opType.movePeer
      (scenarioLoads (scenarioPeer 20 20))).sche.conf.SrcToleranceRatio := by decide!
  have h2 : 1 ≤ (scenarioSolver rwType.write opType.movePeer
      (scenarioLoads (scenarioPeer 20 20))).sche.conf.DstToleranceRatio := by decide!
  refine ⟨h1, h2, scenario_store_three_enumerated.1, ?_⟩
  exact (source_is_not_destination _ h1 h2).2 (by decide) (by decide!)
    (scenarioSolution 3 (-3)) scenario_store_three_enumerated.1

/-! ## One operator per region -/

theorem gcSlot_of_none (maxZombieDuration now : Int) (slot : Option Operator)
    (h : slot = none) : gcSlot maxZombieDuration now slot = none := by
  subst h
  rfl

theorem slotsExclusive_gc (h : hotScheduler) (hinv : slotsExclusive h) (now : Int) :
    slotsExclusive (h.gcRegionPendings now) := by
  intro id slots hs
  simp only [hotScheduler.gcRegionPendings] at hs
  cases hr : h.regionPendings id with
  | none => simp [hr] at hs
  | some s =>
    simp only [hr, Option.bind, gcRegion] at hs
    split_ifs at hs with he
    cases hs
    simp only
    rcases hinv id s hr with h0 | h0
    · exact Or.inl (gcSlot_of_none _ _ _ h0)
    · exact Or.inr (gcSlot_of_none _ _ _ h0)

theorem slotsExclusive_add (h : hotScheduler) (hinv : slotsExclusive h) (op : Operator)
    (srcStore dstStore : Nat) (infl : Influence) (rwTy : rwType) (opTy : opType)
    (b : Bool) (h2 : hotScheduler)
    (hadd : h.addPendingInfluence op srcStore dstStore infl rwTy opTy = .ok (b, h2)) :
    slotsExclusive h2 := by
  simp only [hotScheduler.addPendingInfluence] at hadd
  cases hr : h.regionPendings op.regionID with
  | some s =>
    simp only [hr, Except.ok.injEq, Prod.mk.injEq] at hadd
    rw [← hadd.2]
    exact hinv
  | none =>
    simp only [hr] at hadd
    cases hrt : toResourceType rwTy opTy with
    | error e => simp [hrt] at hadd
    | ok rt =>
      simp only [hrt] at hadd
      cases hset : RegionSlots.set { movePeer := none, transferLeader := none } opTy (some op) with
      | error e => simp [hset] at hadd
      | ok tmp =>
        simp only [hset, Except.ok.injEq, Prod.mk.injEq] at hadd
        rw [← hadd.2]
        intro id slots hs
        simp only [Function.update_apply] at hs
        split_ifs at hs with hid
        · cases hs
          simp only [RegionSlots.set] at hset
          split_ifs at hset <;> cases hset <;> simp
        · exact hinv id slots hs

theorem slotsExclusive_step (h : hotScheduler) (hinv : slotsExclusive h) (a : Action)
    (h2 : hotScheduler) (hstep : h.step a = .ok h2) : slotsExclusive h2 := by
  cases a with
  | addPendingInfluence op srcStore dstStore infl rwTy opTy =>
    simp only [hotScheduler.step] at hstep
    cases hadd : h.addPendingInfluence op srcStore dstStore infl rwTy opTy with
    | error e => simp [hadd] at hstep
    | ok r =>
      obtain ⟨b, h3⟩ := r
      simp only [hadd, Except.ok.injEq] at hstep
      subst hstep
      exact slotsExclusive_add h hinv op srcStore dstStore infl rwTy opTy b h3 hadd
  | gcRegionPendings now =>
    simp only [hotScheduler.step, Except.ok.injEq] at hstep
    subst hstep
    exact slotsExclusive_gc h hinv now
  | clearPendingInfluence =>
    simp only [hotScheduler.step, Except.ok.injEq] at hstep
    subst hstep
    intro id slots hs
    simp [hotScheduler.clearPendingInfluence] at hs
  | advance status expired timedOut reachTime =>
    simp only [hotScheduler.step, Except.ok.injEq] at hstep
    subst hstep
    intro id slots hs
    simp only [Option.map_eq_some'] at hs
    obtain ⟨s, hs1, hs2⟩ := hs
    subst hs2
    have := hinv id s hs1
    simpa using this

theorem slotsExclusive_run (acts : List Action) (h : hotScheduler) (hinv : slotsExclusive h)
    (h2 : hotScheduler) (hrun : h.run acts = .ok h2) : slotsExclusive h2 := by
  induction acts generalizing h with
  | nil =>
    simp only [hotScheduler.run, Except.ok.injEq] at hrun
    subst hrun
    exact hinv
  | cons a rest ih =>
    simp only [hotScheduler.run] at hrun
    cases hstep : h.step a with
    | error e => simp [hstep] at hrun
    | ok h3 =>
      simp only [hstep] at hrun
      exact ih h3 (slotsExclusive_step h hinv a h3 hstep) hrun

/-- C31: in every state reached from a new scheduler through calls of
`addPendingInfluence`, `gcRegionPendings` and `clearPendingInfluence` (the
tracked operators moving on in between), each region entry of
`regionPendings` has exactly one slot that is not nil: either the operator of
`movePeer` with no operator of `transferLeader`, or the operator of
`transferLeader` with no operator of `movePeer`. -/
theorem regionPendings_one_slot (conf : hotRegionSchedulerConfig) (acts : List Action)
    (h : hotScheduler) (hrun : (newHotScheduler conf).run acts = .ok h)
    (id : Nat) (slots : RegionSlots) (hs : h.regionPendings id = some slots) :
    (slots.movePeer.isSome = true ∧ slots.transferLeader = none) ∨
    (slots.movePeer = none ∧ slots.transferLeader.isSome = true) := by
  have hin := slotsInhabited_run acts (newHotScheduler conf) (slotsInhabited_new conf) h hrun
    id slots hs
  have hex := slotsExclusive_run acts (newHotScheduler conf)
    (fun id slots hs => by simp [newHotScheduler] at hs) h hrun id slots hs
  rcases hex with h0 | h0
  · right
    refine ⟨h0, ?_⟩
    rcases hin with h1 | h1
    · rw [h0] at h1
      simp at h1
    · exact h1
  · left
    refine ⟨?_, h0⟩
    rcases hin with h1 | h1
    · exact h1
    · rw [h0] at h1
      simp at h1

/-- Witness of C31: after the run `scenarioActions`, in which a second
proposal for region 7 is refused, region 7 has an entry whose slot of
`movePeer` holds the operator and whose slot of `transferLeader` is nil. -/
theorem regionPendings_one_slot_witness :
    ∃ h slots, (newHotScheduler scenarioConf).run scenarioActions = .ok h ∧
      h.regionPendings 7 = some slots ∧
      ((slots.movePeer.isSome = true ∧ slots.transferLeader = none) ∨
        (slots.movePeer = none ∧ slots.transferLeader.isSome = true)) ∧
      slots.movePeer.isSome = true :=
  ⟨_, _, rfl, rfl,
    regionPendings_one_slot scenarioConf scenarioActions _ rfl 7 _ rfl, rfl⟩

/-! ## Permission to schedule -/

/-- C33: `IsScheduleAllowed` does not depend on the leader schedule limit or
on the count of leader operators: for every operator count and every limit,
`allowBalanceLeader` implies `allowBalanceRegion`, `IsScheduleAllowed` equals
`allowBalanceRegion`, and it holds if and only if the count of hot-region
operators is below the hot-region schedule limit. -/
theorem IsScheduleAllowed_iff (cluster : Cluster) :
    (allowBalanceLeader cluster = true → allowBalanceRegion cluster = true) ∧
    IsScheduleAllowed cluster = allowBalanceRegion cluster ∧
    (IsScheduleAllowed cluster = true ↔
      cluster.OperatorCountHotRegion < cluster.HotRegionScheduleLimit) ∧
    (∀ leaderLimit leaderCount : Nat,
      IsScheduleAllowed
          { cluster with LeaderScheduleLimit := leaderLimit, OperatorCountLeader := leaderCount } =
        IsScheduleAllowed cluster) := by
  have himp : allowBalanceLeader cluster = true → allowBalanceRegion cluster = true := by
    intro h
    simp only [allowBalanceLeader, Bool.and_eq_true, decide_eq_true_eq] at h
    simp only [allowBalanceRegion, decide_eq_true_eq]
    exact h.1
  have heq : ∀ c : Cluster, IsScheduleAllowed c = allowBalanceRegion c := by
    intro c
    simp only [IsScheduleAllowed, allowBalanceLeader, allowBalanceRegion]
    by_cases h : c.OperatorCountHotRegion < c.HotRegionScheduleLimit <;> simp [h]
  refine ⟨himp, heq cluster, ?_, ?_⟩
  · rw [heq cluster]
    simp only [allowBalanceRegion, decide_eq_true_eq]
  · intro leaderLimit leaderCount
    rw [heq, heq]
    rfl

/-! ## The loop of `filterHotPeers` ends -/

theorem popNew_length (union l : List HotPeerStat) :
    union.length ≤ (popNew union l).1.length ∧
    ((∃ p ∈ l, inUnion union p = false) → (popNew union l).1.length = union.length + 1) := by
  induction l with
  | nil =>
    refine ⟨by simp [popNew], ?_⟩
    rintro ⟨p, hp, _⟩
    simp at hp
  | cons x rest ih =>
    unfold popNew
    split_ifs with hx
    · refine ⟨ih.1, ?_⟩
      rintro ⟨p, hp, hn⟩
      rcases List.mem_cons.mp hp with h | h
      · subst h
        rw [hx] at hn
        cases hn
      · exact ih.2 ⟨p, h, hn⟩
    · refine ⟨by simp, fun _ => by simp⟩

theorem exists_not_inUnion (byteSort0 union : List HotPeerStat)
    (hnd : (byteSort0.map HotPeerStat.ptr).Nodup) (hlt : union.length < byteSort0.length) :
    ∃ p ∈ byteSort0, inUnion union p = false := by
  by_contra hc
  have hall : ∀ p ∈ byteSort0, inUnion union p = true := by
    intro p hp
    by_contra hn
    exact hc ⟨p, hp, by simpa using hn⟩
  have hsub : byteSort0.map HotPeerStat.ptr ⊆ union.map HotPeerStat.ptr := by
    intro x hx
    obtain ⟨p, hp, rfl⟩ := List.mem_map.mp hx
    exact (inUnion_iff union p).mp (hall p hp)
  have := (List.subperm_of_subset hnd hsub).length_le
  simp only [List.length_map] at this
  omega

theorem unionCovers_pass (byteSort0 union byteSort keySort : List HotPeerStat)
    (hj : unionCovers byteSort0 union byteSort) :
    unionCovers byteSort0 (popNew (popNew union byteSort).1 keySort).1
      (popNew union byteSort).2 := by
  intro p hp
  rcases hj p hp with h1 | h1
  · rcases popNew_consumed union byteSort p h1 with h2 | h2
    · exact Or.inl h2
    · exact Or.inr (popNew_mono _ keySort p h2)
  · exact Or.inr (popNew_mono _ keySort p (popNew_mono union byteSort p h1))

/-- C32: for a source store whose hot peers are distinct objects and more than
maxPeerNumber, the selection loop of `filterHotPeers` ends and
`filterHotPeers` returns. The loop starts in a state that accounts for the
byte-sorted slice (each of its peers is in the tail or in the union), every
pass keeps that, and in such a state with the union smaller than
maxPeerNumber the tail of the byte-sorted slice holds a peer that is not in
the union, so that the pass is run and leaves the union larger by at least
one peer. -/
theorem filterHotPeers_loop_terminates (bs : balanceSolver) (detail : storeLoadDetail)
    (hdet : bs.stLoadDetail.lookup bs.cur.srcStoreID = some detail)
    (hnd : (detail.HotPeers.map HotPeerStat.ptr).Nodup)
    (hlen : bs.sche.conf.MaxPeerNumber < (detail.HotPeers.length : Int)) :
    (∃ union, unionLoop bs.sche.conf.MaxPeerNumber []
        (detail.HotPeers.insertionSort (fun a b => a.ByteRate ≥ b.ByteRate))
        (detail.HotPeers.insertionSort (fun a b => a.KeyRate ≥ b.KeyRate)) = .ok union ∧
      bs.filterHotPeers = .ok (union.foldl (appendItem bs.sche) [])) ∧
    unionCovers (detail.HotPeers.insertionSort (fun a b => a.ByteRate ≥ b.ByteRate)) []
      (detail.HotPeers.insertionSort (fun a b => a.ByteRate ≥ b.ByteRate)) ∧
    ∀ union byteSort keySort : List HotPeerStat,
      unionCovers (detail.HotPeers.insertionSort (fun a b => a.ByteRate ≥ b.ByteRate))
        union byteSort →
      (union.length : Int) < bs.sche.conf.MaxPeerNumber →
      (∃ p ∈ byteSort, inUnion union p = false) ∧
      unionLoop bs.sche.conf.MaxPeerNumber union byteSort keySort =
        unionLoop bs.sche.conf.MaxPeerNumber (popNew (popNew union byteSort).1 keySort).1
          (popNew union byteSort).2 (popNew (popNew union byteSort).1 keySort).2 ∧
      union.length + 1 ≤ (popNew (popNew union byteSort).1 keySort).1.length ∧
      unionCovers (detail.HotPeers.insertionSort (fun a b => a.ByteRate ≥ b.ByteRate))
        (popNew (popNew union byteSort).1 keySort).1 (popNew union byteSort).2 := by
  have hperm := List.perm_insertionSort (fun a b : HotPeerStat => a.ByteRate ≥ b.ByteRate)
    detail.HotPeers
  have hnd0 : ((detail.HotPeers.insertionSort
      (fun a b => a.ByteRate ≥ b.ByteRate)).map HotPeerStat.ptr).Nodup :=
    ((hperm.map HotPeerStat.ptr).nodup_iff).mpr hnd
  have hlen0 : bs.sche.conf.MaxPeerNumber <
      ((detail.HotPeers.insertionSort (fun a b => a.ByteRate ≥ b.ByteRate)).length : Int) := by
    rw [hperm.length_eq]
    exact hlen
  refine ⟨?_, fun p hp => Or.inl hp, ?_⟩
  · obtain ⟨u, hu⟩ := unionLoop_returns bs.sche.conf.MaxPeerNumber _ hnd0 hlen0 _ []
      (detail.HotPeers.insertionSort (fun a b => a.ByteRate ≥ b.ByteRate))
      (detail.HotPeers.insertionSort (fun a b => a.KeyRate ≥ b.KeyRate)) (le_refl _)
      (fun p hp => Or.inl hp)
    refine ⟨u, hu, ?_⟩
    simp only [balanceSolver.filterHotPeers, hdet, deref, if_neg (not_le.mpr hlen), hu]
  · intro union byteSort keySort hj hlt
    have hex0 : ∃ p ∈ detail.HotPeers.insertionSort (fun a b => a.ByteRate ≥ b.ByteRate),
        inUnion union p = false :=
      exists_not_inUnion _ union hnd0 (by omega)
    have hex : ∃ p ∈ byteSort, inUnion union p = false := by
      obtain ⟨p, hp, hn⟩ := hex0
      rcases hj p hp with h1 | h1
      · exact ⟨p, h1, hn⟩
      · rw [hn] at h1
        cases h1
    refine ⟨hex, ?_, ?_, unionCovers_pass _ _ _ _ hj⟩
    · have hne : ¬ (byteSort = [] ∧ keySort = []) := by
        rintro ⟨hb, _⟩
        obtain ⟨p, hp, _⟩ := hex
        rw [hb] at hp
        simp at hp
      rw [unionLoop, if_pos hlt, dif_neg hne]
    · have h1 := (popNew_length union byteSort).2 hex
      have h2 := (popNew_length (popNew union byteSort).1 keySort).1
      omega

/-- Witness of C32: store 1 of the solver with `max-peer-number` 1 has two
distinct hot peers; the loop ends, `filterHotPeers` returns, and the first
pass, from the empty union, leaves at least one peer in the union. -/
theorem filterHotPeers_loop_terminates_witness :
    scenarioCapSolver.stLoadDetail.lookup scenarioCapSolver.cur.srcStoreID =
      some (scenarioDetail 100 100 5 [scenarioBytePeer, scenarioKeyPeer]) ∧
    ((scenarioDetail 100 100 5 [scenarioBytePeer, scenarioKeyPeer]).HotPeers.map
      HotPeerStat.ptr).Nodup ∧
    scenarioCapSolver.sche.conf.MaxPeerNumber <
      ((scenarioDetail 100 100 5 [scenarioBytePeer, scenarioKeyPeer]).HotPeers.length : Int) ∧
    (∃ peers, scenarioCapSolver.filterHotPeers = .ok peers) ∧
    ([] : List HotPeerStat).length + 1 ≤
      (popNew (popNew []
        ((scenarioDetail 100 100 5 [scenarioBytePeer, scenarioKeyPeer]).HotPeers.insertionSort
          (fun a b => a.ByteRate ≥ b.ByteRate))).1
        ((scenarioDetail 100 100 5 [scenarioBytePeer, scenarioKeyPeer]).HotPeers.insertionSort
          (fun a b => a.KeyRate ≥ b.KeyRate))).1.length := by
  have h1 : scenarioCapSolver.stLoadDetail.lookup scenarioCapSolver.cur.srcStoreID =
      some (scenarioDetail 100 100 5 [scenarioBytePeer, scenarioKeyPeer]) := rfl
  have h2 : ((scenarioDetail 100 100 5 [scenarioBytePeer, scenarioKeyPeer]).HotPeers.map
      HotPeerStat.ptr).Nodup := by decide
  have h3 : scenarioCapSolver.sche.conf.MaxPeerNumber <
      ((scenarioDetail 100 100 5 [scenarioBytePeer, scenarioKeyPeer]).HotPeers.length : Int) := by
    decide
  obtain ⟨⟨union, _, hf⟩, hinit, hpass⟩ :=
    filterHotPeers_loop_terminates scenarioCapSolver _ h1 h2 h3
  exact ⟨h1, h2, h3, ⟨_, hf⟩, (hpass [] _ _ hinit (by decide)).2.2.1⟩

end HotRegion
